import Mathlib

/-!
ReliableDataTransfer (libRDT): a shallow embedding and its verification

The definitions below transcribe `src/src/rdt_structures.h` and `src/src/rdt.cpp`.
Machine integers are natural numbers (or integers where a sentinel `-1` or a signed
difference occurs) with the 16-bit truncations written out; pointers into the
unacked-packet storage are slot indices; `std::unordered_map` is an association list
with `find`, `erase` and `operator[]=`; system calls (`clock`, `select`, `recvfrom`,
`sendto`) are answered by an explicit environment.
-/

namespace Rdt

/-! ## Constants (rdt_structures.h) -/

/-- `#define RDT_MAX_SEQNUM 30720`. -/
def RDT_MAX_SEQNUM : Nat := 30720
/-- `#define RDT_WNDSIZE 5120`. -/
def RDT_WNDSIZE : Nat := 5120
/-- `#define RDT_MAX_PKTSIZE 1024`. -/
def RDT_MAX_PKTSIZE : Nat := 1024
/-- `sizeof(RdtHeader)`: four `uint16_t` fields. -/
def sizeofRdtHeader : Nat := 8
/-- `#define RDT_MSS (RDT_MAX_PKTSIZE - sizeof(RdtHeader) - 1)`. -/
def RDT_MSS : Nat := RDT_MAX_PKTSIZE - sizeofRdtHeader - 1

/-- `RdtHeader::FLAG_SYN`. -/
def FLAG_SYN : Nat := 0x1
/-- `RdtHeader::FLAG_FIN`. -/
def FLAG_FIN : Nat := 0x2
/-- `RdtHeader::FLAG_ACK`. -/
def FLAG_ACK : Nat := 0x4
/-- `RdtHeader::FLAG_RQST`. -/
def FLAG_RQST : Nat := 0x8
/-- `RdtHeader::FLAG_FIRST`. -/
def FLAG_FIRST : Nat := 0x10
/-- `RdtHeader::FLAG_LAST`. -/
def FLAG_LAST : Nat := 0x20

/-- `struct RdtHeader` (host byte order). -/
structure RdtHeader where
  m_SeqNumber : Nat
  m_Reserved : Nat
  m_MsgLen : Nat
  m_Flags : Nat
deriving DecidableEq

/-- `struct RdtPacket`: the header and the bytes `msg[sizeof(RdtHeader) ..]` that follow it. -/
structure RdtPacket where
  hdr : RdtHeader
  body : List Nat
deriving DecidableEq

/-- The C test `flags & bit` used as a condition. -/
def hasFlag (flags bit : Nat) : Bool := (flags &&& bit) != 0

/-! ## `std::unordered_map` as an association list -/

/-- `m.find(k)`: the value stored under `k`, if any. -/
def mapFind {V : Type} : List (Nat × V) → Nat → Option V
  | [], _ => none
  | (k, v) :: m, q => if k = q then some v else mapFind m q

/-- `m.erase(k)`. -/
def mapErase {V : Type} (m : List (Nat × V)) (q : Nat) : List (Nat × V) :=
  m.filter (fun e => decide (e.1 ≠ q))

/-- `m[k] = v`: insert, overwriting a value already stored under `k`. -/
def mapInsert {V : Type} (m : List (Nat × V)) (q : Nat) (v : V) : List (Nat × V) :=
  (q, v) :: mapErase m q

/-! ## RecvFile (rdt.cpp 142-215) -/

/-- The local variables of `RdtConnection::RecvFile` together with the bytes written to
`outFile`; `closed` records that control reached the label `close`. -/
structure RecvFileState where
  outFile : List Nat
  seqToStr : List (Nat × List Nat)
  expectedSeq : Nat
  bReceivedFirst : Bool
  bReceivedLast : Bool
  lastSeq : Nat
  closed : Bool
deriving DecidableEq

/-- State on entry to the `while(1)` loop; `expectedSeq` and `lastSeq` are uninitialised in
the source, so their starting values `e0` and `l0` are arbitrary. -/
def RecvFile_init (e0 l0 : Nat) : RecvFileState :=
  { outFile := [], seqToStr := [], expectedSeq := e0, bReceivedFirst := false,
    bReceivedLast := false, lastSeq := l0, closed := false }

/-- `pktStr = std::string(&(pkt.msg[sizeof(RdtHeader)]), pkt.hdr.m_MsgLen - sizeof(RdtHeader))`
(rdt.cpp 162) for `8 ≤ m_MsgLen ≤ 1024`, where the length does not wrap and the bytes read
lie in the packet buffer. Outside that range the statement of the source yields no string:
for a smaller `m_MsgLen` the `size_t` length wraps (`RecvFile_payloadSize`) and the
constructor throws, for a larger one it reads past the buffer. Those two paths are in
`RecvFile_extract`, through which the loop of `RecvFile` (`RecvFile_iter`) goes. -/
def pktStr (pkt : RdtPacket) : List Nat :=
  pkt.body.take (pkt.hdr.m_MsgLen - sizeofRdtHeader)

/-- The inner `while((iter = seqToStr.find(expectedSeq)) != seqToStr.end())` loop
(rdt.cpp 186-197). Every iteration that continues erases the entry it found, so the
number of entries bounds the number of iterations; the caller passes that number. -/
def RecvFile_drain : Nat → RecvFileState → RecvFileState
  | 0, s => s
  | fuel + 1, s =>
    match mapFind s.seqToStr s.expectedSeq with
    | none => s
    | some str =>
      let s1 := { s with outFile := s.outFile ++ str }
      if s.bReceivedLast && s.expectedSeq == s.lastSeq then
        { s1 with closed := true }
      else
        RecvFile_drain fuel
          { s1 with
            expectedSeq := (s.expectedSeq + str.length + sizeofRdtHeader) % RDT_MAX_SEQNUM
            seqToStr := mapErase s.seqToStr s.expectedSeq }

/-- The body of `if(Update(&pkt) == EUR_DATA)` after `pktStr` has been built (rdt.cpp
164-208): what RecvFile does with one packet delivered as DATA whose `m_MsgLen` lies in
`8 .. 1024` (`RecvFile_extract` returns `pktStr`). Once `close` has been reached the
function has returned. -/
def RecvFile_onData (s : RecvFileState) (pkt : RdtPacket) : RecvFileState :=
  if s.closed then s
  else if !s.bReceivedFirst && hasFlag pkt.hdr.m_Flags FLAG_FIRST then
    let s1 := { s with
      bReceivedFirst := true
      expectedSeq := (pkt.hdr.m_SeqNumber + pkt.hdr.m_MsgLen) % RDT_MAX_SEQNUM
      outFile := s.outFile ++ pktStr pkt }
    if hasFlag pkt.hdr.m_Flags FLAG_LAST then { s1 with closed := true } else s1
  else if s.bReceivedFirst && pkt.hdr.m_SeqNumber == s.expectedSeq then
    let s1 := { s with
      expectedSeq := (s.expectedSeq + pkt.hdr.m_MsgLen) % RDT_MAX_SEQNUM
      outFile := s.outFile ++ pktStr pkt }
    if hasFlag pkt.hdr.m_Flags FLAG_LAST then { s1 with closed := true }
    else RecvFile_drain s1.seqToStr.length s1
  else
    let s1 :=
      if !s.bReceivedLast && hasFlag pkt.hdr.m_Flags FLAG_LAST then
        { s with bReceivedLast := true, lastSeq := pkt.hdr.m_SeqNumber }
      else s
    { s1 with seqToStr := mapInsert s1.seqToStr pkt.hdr.m_SeqNumber (pktStr pkt) }

/-- RecvFile run on the packets that `Update` delivers as DATA, in arrival order. -/
def RecvFile_run (s : RecvFileState) (pkts : List RdtPacket) : RecvFileState :=
  pkts.foldl RecvFile_onData s

/-! ## Segments of a file, as the claims about reassembly describe them -/

/-- Sequence number of a packet. -/
def seqOf (p : RdtPacket) : Nat := p.hdr.m_SeqNumber

/-- The payloads of a list of segments, concatenated in list order. -/
def concatPayloads : List RdtPacket → List Nat
  | [] => []
  | p :: ps => pktStr p ++ concatPayloads ps

/-- Segment `q` directly follows segment `p` in the sequence space:
`seq_q = (seq_p + len_p) mod 30720`. -/
def follows (p q : RdtPacket) : Prop :=
  q.hdr.m_SeqNumber = (p.hdr.m_SeqNumber + p.hdr.m_MsgLen) % RDT_MAX_SEQNUM

instance (p q : RdtPacket) : Decidable (follows p q) := by
  unfold follows; infer_instance

/-- Every adjacent pair of the list is consecutive in the sequence space. -/
def Consecutive : List RdtPacket → Prop
  | [] => True
  | [_] => True
  | p :: q :: l => follows p q ∧ Consecutive (q :: l)

instance decConsecutive : (segs : List RdtPacket) → Decidable (Consecutive segs)
  | [] => isTrue trivial
  | [_] => isTrue trivial
  | p :: q :: l =>
    match decConsecutive (q :: l) with
    | isTrue h => if hf : follows p q then isTrue ⟨hf, h⟩ else isFalse (fun h1 => hf h1.1)
    | isFalse h => isFalse (fun h1 => h h1.2)

/-- The header length of every segment is the header size plus the payload size. -/
def LenMatches (segs : List RdtPacket) : Prop :=
  ∀ p ∈ segs, p.hdr.m_MsgLen = sizeofRdtHeader + (pktStr p).length

instance (segs : List RdtPacket) : Decidable (LenMatches segs) := by
  unfold LenMatches; infer_instance

/-- A packet of scenario 3 with the given header fields and buffer contents. -/
def scen3Pkt (seq len flags : Nat) (body : List Nat) : RdtPacket :=
  { hdr := { m_SeqNumber := seq, m_Reserved := 0, m_MsgLen := len, m_Flags := flags },
    body := body }

/-- Entries of the hold-back map are arrived, not yet written segments. -/
def MapSound (A rest : List RdtPacket) (m : List (Nat × List Nat)) : Prop :=
  ∀ e ∈ m, ∃ p ∈ rest, p ∈ A ∧ e = (p.hdr.m_SeqNumber, pktStr p)

/-- Every arrived, not yet written segment is in the hold-back map. -/
def MapComplete (A rest : List RdtPacket) (m : List (Nat × List Nat)) : Prop :=
  ∀ p ∈ rest, p ∈ A → mapFind m p.hdr.m_SeqNumber = some (pktStr p)

/-- Invariant of a running RecvFile after the FIRST segment: `done` has been written,
`rest` is still to come, the packets in `A` have arrived. -/
structure SoundOpen (segs A : List RdtPacket) (s : RecvFileState)
    (done rest : List RdtPacket) : Prop where
  split : segs = done ++ rest
  first : s.bReceivedFirst = true
  notClosed : s.closed = false
  out : s.outFile = concatPayloads done
  doneA : ∀ p ∈ done, p ∈ A
  exp : ∀ r0 rest1, rest = r0 :: rest1 → s.expectedSeq = r0.hdr.m_SeqNumber
  msound : MapSound A rest s.seqToStr

/-- Invariant of RecvFile before the FIRST segment has arrived. -/
structure SoundBefore (s0 : RdtPacket) (segs A : List RdtPacket) (s : RecvFileState) : Prop where
  first : s.bReceivedFirst = false
  notClosed : s.closed = false
  out : s.outFile = []
  s0A : s0 ∉ A
  msound : MapSound A segs s.seqToStr

/-- What holds of RecvFile at every point: the output is the payloads of an initial part
of the file. -/
def SoundRes (s0 : RdtPacket) (segs A : List RdtPacket) (s : RecvFileState) : Prop :=
  SoundBefore s0 segs A s ∨ (∃ done rest, SoundOpen segs A s done rest) ∨
    (s.closed = true ∧ ∃ done rest, segs = done ++ rest ∧ s.outFile = concatPayloads done ∧
      ∀ p ∈ done, p ∈ A)


/-- State of RecvFile after the FIRST segment when every arrived segment is accounted for:
`done` has been written, `r0` is the next segment to write, `sn` is the LAST segment. -/
structure CompleteMid (segs A : List RdtPacket) (sn : RdtPacket) (s : RecvFileState)
    (done : List RdtPacket) (r0 : RdtPacket) (rest : List RdtPacket) : Prop where
  split : segs = done ++ r0 :: rest
  first : s.bReceivedFirst = true
  notClosed : s.closed = false
  out : s.outFile = concatPayloads done
  doneA : ∀ p ∈ done, p ∈ A
  exp : s.expectedSeq = r0.hdr.m_SeqNumber
  msound : MapSound A (r0 :: rest) s.seqToStr
  mcomplete : MapComplete A (r0 :: rest) s.seqToStr
  lastIff : s.bReceivedLast = true ↔ sn ∈ A
  lastSeq : s.bReceivedLast = true → s.lastSeq = sn.hdr.m_SeqNumber

/-- RecvFile either waits for a segment that has not arrived yet, or has finished with the
whole file written. -/
def CompleteRes (segs A : List RdtPacket) (sn : RdtPacket) (s : RecvFileState) : Prop :=
  (∃ done r0 rest, CompleteMid segs A sn s done r0 rest ∧ r0 ∉ A) ∨
    (s.closed = true ∧ s.outFile = concatPayloads segs)

/-- Scenario 3, segment A: FIRST, seq 100, 400 payload bytes. -/
def scen3A : RdtPacket := scen3Pkt 100 408 FLAG_FIRST (List.replicate 400 65)
/-- Scenario 3, segment B: seq 508, 400 payload bytes. -/
def scen3B : RdtPacket := scen3Pkt 508 408 0 (List.replicate 400 66)
/-- Scenario 3, segment C: LAST, seq 916, 200 payload bytes. -/
def scen3C : RdtPacket := scen3Pkt 916 208 FLAG_LAST (List.replicate 200 67)

/-! ## CircularBuffer (rdt_structures.h 24-89) -/

/-- `template<typename T> class CircularBuffer`; `m_pData` is the array `new T[m_Size]`. -/
structure CircularBuffer (T : Type) where
  m_Size : Nat
  m_ReadIndex : Nat
  m_WriteIndex : Nat
  m_pData : List T

namespace CircularBuffer

variable {T : Type}

/-- The constructor: size 0, both indices 0, no storage. -/
def ctor : CircularBuffer T :=
  { m_Size := 0, m_ReadIndex := 0, m_WriteIndex := 0, m_pData := [] }

/-- `Initialize(i)`: `m_Size = i; m_pData = new T[m_Size]`, every element default-constructed
as `dflt`. -/
def Initialize (b : CircularBuffer T) (i : Nat) (dflt : T) : CircularBuffer T :=
  { b with m_Size := i, m_pData := List.replicate i dflt }

/-- `Size()`: `abs(m_ReadIndex - m_WriteIndex)`. -/
def Size (b : CircularBuffer T) : Nat :=
  Int.natAbs ((b.m_ReadIndex : Int) - (b.m_WriteIndex : Int))

/-- `IsFull()`: `Size() >= m_Size-1`, compared as `size_t` (64 bits), so that `m_Size - 1`
wraps for `m_Size = 0`. -/
def IsFull (b : CircularBuffer T) : Bool :=
  decide ((b.Size : Int) ≥ ((b.m_Size : Int) - 1) % 2 ^ 64)

/-- `Push(elem, &index)`: `none` when the call returns false, otherwise the slot index written
through `pIndex` and the new buffer. The test is the signed
`abs(m_ReadIndex - m_WriteIndex) >= m_Size-1`. -/
def Push (b : CircularBuffer T) (elem : T) : Option (Nat × CircularBuffer T) :=
  if ((Int.natAbs ((b.m_ReadIndex : Int) - (b.m_WriteIndex : Int)) : Nat) : Int)
      ≥ (b.m_Size : Int) - 1 then none
  else
    some (b.m_WriteIndex,
      { b with
        m_pData := b.m_pData.set b.m_WriteIndex elem
        m_WriteIndex := (b.m_WriteIndex + 1) % b.m_Size })

/-- `Pop(pElem)`: `none` when the call returns false, otherwise the element at the read
index (what `*pElem` receives) and the new buffer. -/
def Pop (b : CircularBuffer T) : Option (Option T × CircularBuffer T) :=
  if b.m_ReadIndex = b.m_WriteIndex then none
  else
    some (b.m_pData[b.m_ReadIndex]?,
      { b with m_ReadIndex := (b.m_ReadIndex + 1) % b.m_Size })

/-- `Peek()`: the slot at the read index (as a slot index), or null when the indices agree. -/
def Peek (b : CircularBuffer T) : Option Nat :=
  if b.m_ReadIndex = b.m_WriteIndex then none else some b.m_ReadIndex

/-- `operator[](index)`: the slot with that index, or null when `(unsigned)index` is not
below `(unsigned)m_Size`. -/
def subscript (b : CircularBuffer T) (index : Int) : Option Nat :=
  if 0 ≤ index ∧ index < (b.m_Size : Int) then some index.toNat else none

end CircularBuffer

/-! ## Connection state (rdt.h 143-170, rdt_structures.h 91-148) -/

/-- A `sockaddr`, as its bytes. -/
abbrev sockaddr := List Nat

/-- `struct PendingConnection`. -/
structure PendingConnection where
  addr : sockaddr
  seqNum : Nat
deriving DecidableEq

/-- `struct UnackedPacket`; `m_pNext` is a pointer to another storage slot (its index),
`m_pPacket` the owned packet or null. -/
structure UnackedPacket where
  m_ResendTime : Nat
  m_pNext : Option Nat
  m_pPacket : Option RdtPacket
deriving DecidableEq

/-- `UnackedPacket()`: the default constructor. -/
def UnackedPacket.ctor : UnackedPacket :=
  { m_ResendTime := 0, m_pNext := none, m_pPacket := none }

/-- `CLOCKS_PER_SEC` of `<ctime>`; POSIX fixes it to one million. -/
def CLOCKS_PER_SEC : Nat := 1000000
/-- `#define RDT_RTO_MS 500`. -/
def RDT_RTO_MS : Nat := 500
/-- `#define RDT_RTO_CLK DIV<MULT<RDT_RTO_MS,CLOCKS_PER_SEC>::val, 1000>::val`. -/
def RDT_RTO_CLK : Nat := RDT_RTO_MS * CLOCKS_PER_SEC / 1000

/-- `EUR_SYN = 1` of `enum EUpdateResult`. -/
def EUR_SYN : Int := 1
/-- `EUR_SYNACK`. -/
def EUR_SYNACK : Int := 2
/-- `EUR_ACK`. -/
def EUR_ACK : Int := 3
/-- `EUR_RQST`. -/
def EUR_RQST : Int := 4
/-- `EUR_DATA`. -/
def EUR_DATA : Int := 5
/-- `EUR_FIN`. -/
def EUR_FIN : Int := 6
/-- `EUR_FINACK`. -/
def EUR_FINACK : Int := 7
/-- `EUR_DROPPED`. -/
def EUR_DROPPED : Int := 8

/-- `htons` / `ntohs` on a little-endian host: swap the two bytes of a 16-bit value. -/
def htons (x : Nat) : Nat := (x % 256) * 256 + (x / 256) % 256

/-- `RdtHeader::hton` (rdt.cpp 775-781). -/
def RdtHeader.hton (h : RdtHeader) : RdtHeader :=
  { m_SeqNumber := htons h.m_SeqNumber, m_Reserved := htons h.m_Reserved,
    m_MsgLen := htons h.m_MsgLen, m_Flags := htons h.m_Flags }

/-- `RdtHeader::ntoh` (rdt.cpp 783-789); `ntohs` is the same byte swap as `htons`. -/
def RdtHeader.ntoh (h : RdtHeader) : RdtHeader :=
  { m_SeqNumber := htons h.m_SeqNumber, m_Reserved := htons h.m_Reserved,
    m_MsgLen := htons h.m_MsgLen, m_Flags := htons h.m_Flags }

/-- The data members of `class RdtConnection` that the protocol logic uses (the socket
descriptor and `fd_set` are represented by the environment). -/
structure RdtConnection where
  m_pAddr : Option sockaddr
  m_WndSize : Nat
  m_WndCurr : Nat
  m_IsListener : Bool
  m_PendingConnections : CircularBuffer PendingConnection
  m_UnackedPackets : CircularBuffer UnackedPacket
  m_SeqToIndex : List (Nat × Nat)
  m_EarliestTimeout : Nat
  m_pEarliestPacket : Option Nat
  m_pLatestPacket : Option Nat
  m_NextSeq : Nat
  m_MinUnacked : Nat
  m_SynIndex : Int
  m_ReceivedFIN : Bool
  m_ReceivedList : List Nat

/-- One call of `sendto`: the header as it lies in the buffer at the call (network order),
the `len - sizeof(RdtHeader)` body bytes that follow it, whether the call came from a
retransmission, and whether it succeeded. -/
structure SentDatagram where
  hdr : RdtHeader
  payload : List Nat
  dest : Option sockaddr
  isResend : Bool
  ok : Bool

/-- The world outside the connection: `clock k` is what the `k`-th call of `clock()` returns,
`sendtoOk k` whether the `k`-th call of `sendto` succeeds; `nClock` counts the calls of
`clock()` made so far and `sent` lists the calls of `sendto` made so far, oldest first. -/
structure Env where
  clock : Nat → Nat
  sendtoOk : Nat → Bool
  nClock : Nat
  sent : List SentDatagram

/-- A connection together with the world it runs in. -/
structure Sys where
  conn : RdtConnection
  env : Env

/-- What can go wrong in a run apart from a normal return; `blocked` is a call that still
spins on `Update` when the recorded answers of the system calls are used up, `lengthError`
is the `std::length_error` that the `std::string` constructor throws for a length above
`max_size()`, and `bufferOverrun` is a read that leaves the `RDT_MAX_PKTSIZE` bytes of a
packet buffer (undefined behaviour in the source). -/
inductive Fault where
  | assertFailed
  | nullDeref
  | outOfFuel
  | blocked
  | lengthError
  | bufferOverrun
deriving DecidableEq

/-- The constructor `RdtConnection::RdtConnection()` (rdt.cpp 22-28);
`m_MinUnacked(-1)` is `0xFFFF` in a `uint16_t`. -/
def RdtConnection.ctor : RdtConnection :=
  { m_pAddr := none, m_WndSize := RDT_WNDSIZE, m_WndCurr := 0, m_IsListener := false,
    m_PendingConnections := CircularBuffer.ctor, m_UnackedPackets := CircularBuffer.ctor,
    m_SeqToIndex := [], m_EarliestTimeout := 0, m_pEarliestPacket := none,
    m_pLatestPacket := none, m_NextSeq := 0, m_MinUnacked := 65535, m_SynIndex := -1,
    m_ReceivedFIN := false, m_ReceivedList := [] }

/-- `RdtConnection::_Init` (rdt.cpp 54-70): clears the received list and allocates
`MULT<RDT_WNDSIZE,2>::val / RDT_MSS + 1` slots of unacked storage. -/
def RdtConnection._Init (c : RdtConnection) : RdtConnection :=
  { c with
    m_ReceivedList := []
    m_UnackedPackets :=
      c.m_UnackedPackets.Initialize (RDT_WNDSIZE * 2 / RDT_MSS + 1) UnackedPacket.ctor }

/-- `clock()`: the next reading of the clock. -/
def Sys.clockCall (s : Sys) : Nat × Sys :=
  (s.env.clock s.env.nClock, { s with env := { s.env with nClock := s.env.nClock + 1 } })

/-- Dereference of a slot pointer. -/
def Sys.slot (s : Sys) (p : Option Nat) : Except Fault UnackedPacket :=
  match p with
  | none => .error .nullDeref
  | some i =>
    match s.conn.m_UnackedPackets.m_pData[i]? with
    | none => .error .nullDeref
    | some u => .ok u

/-- Store `u` into storage slot `i`. -/
def Sys.setSlot (s : Sys) (i : Nat) (u : UnackedPacket) : Sys :=
  { s with conn := { s.conn with
      m_UnackedPackets := { s.conn.m_UnackedPackets with
        m_pData := s.conn.m_UnackedPackets.m_pData.set i u } } }

/-- The call `sendto(m_UdpSocket, pPkt->msg, len, 0, m_pAddr, m_AddrLen)` of `Send`
(rdt.cpp 654), made after `pPkt->hdr.hton()`. -/
def Send_datagram (s : Sys) (pPkt : RdtPacket) (isResend : Bool) : SentDatagram :=
  { hdr := pPkt.hdr.hton, payload := pPkt.body.take (pPkt.hdr.m_MsgLen - sizeofRdtHeader),
    dest := s.conn.m_pAddr, isResend := isResend, ok := s.env.sendtoOk s.env.sent.length }

/-- The tail of `Send` (rdt.cpp 652-680): `hton`, `sendto` of `len` bytes, `ntoh`. Returns the
result of `Send` and the packet as the call leaves it. -/
def Send_transmit (s : Sys) (pPkt : RdtPacket) (isResend : Bool) : Bool × RdtPacket × Sys :=
  let d := Send_datagram s pPkt isResend
  (d.ok, { pPkt with hdr := pPkt.hdr.hton.ntoh },
    { s with env := { s.env with sent := s.env.sent ++ [d] } })

/-- The loop `while(pTest->m_pNext != nullptr) pTest = pTest->m_pNext;` of `Send`
(rdt.cpp 633-637), started at slot `i`. -/
def chainLast (slots : List UnackedPacket) : Nat → Nat → Except Fault Nat
  | 0, _ => .error .outOfFuel
  | fuel + 1, i =>
    match slots[i]? with
    | none => .error .nullDeref
    | some u =>
      match u.m_pNext with
      | none => .ok i
      | some j => chainLast slots fuel j

/-- `RdtConnection::Send(pPkt, isResend, isSyn)` (rdt.cpp 603-681). Returns the result of the
call and the packet as the call leaves it; the unacked slot holds a pointer to that same
packet. A failed `Push` runs into `assert(0)`. -/
def Send (s : Sys) (pPkt : RdtPacket) (isResend isSyn : Bool) :
    Except Fault (Bool × RdtPacket × Sys) :=
  let len := pPkt.hdr.m_MsgLen
  if !isResend && pPkt.hdr.m_Flags != FLAG_ACK && pPkt.hdr.m_Flags != (FLAG_ACK ||| FLAG_FIN) then
    let (now, s) := s.clockCall
    let unacked : UnackedPacket :=
      { m_ResendTime := now + RDT_RTO_CLK, m_pNext := none,
        m_pPacket := some { pPkt with hdr := pPkt.hdr.hton.ntoh } }
    match s.conn.m_UnackedPackets.Push unacked with
    | none => .error .assertFailed
    | some (index, buf) =>
      let s := { s with conn := { s.conn with m_UnackedPackets := buf,
                                               m_pLatestPacket := some index } }
      let linked : Except Fault Sys :=
        match s.conn.m_pEarliestPacket with
        | none =>
          .ok { s with conn := { s.conn with
                  m_pEarliestPacket := s.conn.m_pLatestPacket
                  m_EarliestTimeout := unacked.m_ResendTime
                  m_MinUnacked := pPkt.hdr.m_SeqNumber } }
        | some e =>
          match chainLast s.conn.m_UnackedPackets.m_pData
              s.conn.m_UnackedPackets.m_pData.length e with
          | .error f => .error f
          | .ok t =>
            match s.conn.m_UnackedPackets.m_pData[t]? with
            | none => .error .nullDeref
            | some u => .ok (s.setSlot t { u with m_pNext := s.conn.m_pLatestPacket })
      match linked with
      | .error f => .error f
      | .ok s =>
        let s := if isSyn then { s with conn := { s.conn with m_SynIndex := (index : Int) } }
          else { s with conn := { s.conn with
                  m_SeqToIndex := mapInsert s.conn.m_SeqToIndex pPkt.hdr.m_SeqNumber
                    (index % 65536) } }
        let s := { s with conn := { s.conn with
                    m_WndCurr := (s.conn.m_WndCurr + len) % 65536
                    m_NextSeq := (pPkt.hdr.m_SeqNumber + len) % RDT_MAX_SEQNUM } }
        .ok (Send_transmit s pPkt isResend)
  else
    .ok (Send_transmit s pPkt isResend)

/-- The loop `while(pTest->m_pNext != pUnacked) pTest = pTest->m_pNext;` of `Ack`
(rdt.cpp 736-740), started at slot `i`: the slot whose successor is `target`. -/
def chainPrev (slots : List UnackedPacket) (target : Nat) : Nat → Nat → Except Fault Nat
  | 0, _ => .error .outOfFuel
  | fuel + 1, i =>
    match slots[i]? with
    | none => .error .nullDeref
    | some u =>
      if u.m_pNext = some target then .ok i
      else
        match u.m_pNext with
        | none => .error .nullDeref
        | some j => chainPrev slots target fuel j

/-- The loop `while((pUnacked = Peek()) && pUnacked->m_pPacket == nullptr) Pop(nullptr);` of
`Ack` (rdt.cpp 757-761). -/
def Ack_popAcked : Nat → CircularBuffer UnackedPacket → Except Fault (CircularBuffer UnackedPacket)
  | 0, _ => .error .outOfFuel
  | fuel + 1, b =>
    match b.Peek with
    | none => .ok b
    | some i =>
      match b.m_pData[i]? with
      | none => .error .nullDeref
      | some u =>
        if u.m_pPacket = none then
          match b.Pop with
          | none => .ok b
          | some (_, b1) => Ack_popAcked fuel b1
        else .ok b

/-- The part of `Ack` after the label `clear` (rdt.cpp 754-772), for the slot `i` being
acknowledged. -/
def Ack_clear (s : Sys) (i : Nat) : Except Fault Sys :=
  let popped : Except Fault (CircularBuffer UnackedPacket) :=
    if s.conn.m_UnackedPackets.Peek = some i then
      Ack_popAcked (s.conn.m_UnackedPackets.m_Size + 1) s.conn.m_UnackedPackets
    else .ok s.conn.m_UnackedPackets
  match popped with
  | .error f => .error f
  | .ok buf =>
    let s := { s with conn := { s.conn with m_UnackedPackets := buf } }
    match buf.Peek with
    | none => .ok { s with conn := { s.conn with m_MinUnacked := 65535 } }
    | some h =>
      match buf.m_pData[h]? with
      | none => .error .nullDeref
      | some u =>
        match u.m_pPacket with
        | none => .error .assertFailed
        | some p => .ok { s with conn := { s.conn with m_MinUnacked := p.hdr.m_SeqNumber } }

/-- `RdtConnection::Ack(pUnacked)` (rdt.cpp 711-773). -/
def Ack (s : Sys) (pUnacked : Option Nat) : Except Fault Sys :=
  match pUnacked with
  | none => .error .nullDeref
  | some i =>
    match s.conn.m_UnackedPackets.m_pData[i]? with
    | none => .error .nullDeref
    | some ui =>
      match ui.m_pPacket with
      | none => .ok s
      | some pkt =>
        match s.conn.m_pEarliestPacket with
        | none => Ack_clear s i
        | some e =>
          let unlinked : Except Fault Sys :=
            if i = e then
              if some i = s.conn.m_pLatestPacket then
                .ok { s with conn := { s.conn with m_pEarliestPacket := none,
                                                    m_pLatestPacket := none } }
              else
                match s.conn.m_UnackedPackets.m_pData[e]? with
                | none => .error .nullDeref
                | some ue => .ok { s with conn := { s.conn with m_pEarliestPacket := ue.m_pNext } }
            else
              match chainPrev s.conn.m_UnackedPackets.m_pData i
                  s.conn.m_UnackedPackets.m_pData.length e with
              | .error f => .error f
              | .ok t =>
                match s.conn.m_UnackedPackets.m_pData[t]? with
                | none => .error .nullDeref
                | some ut =>
                  let s1 := s.setSlot t { ut with m_pNext := ui.m_pNext }
                  if some i = s1.conn.m_pLatestPacket then
                    .ok { s1 with conn := { s1.conn with m_pLatestPacket := some t } }
                  else .ok s1
          match unlinked with
          | .error f => .error f
          | .ok s1 =>
            match s1.conn.m_UnackedPackets.m_pData[i]? with
            | none => .error .nullDeref
            | some ui1 =>
              let s2 := { s1 with conn := { s1.conn with
                m_WndCurr := (s1.conn.m_WndCurr + 65536 - pkt.hdr.m_MsgLen % 65536) % 65536 } }
              Ack_clear (s2.setSlot i { ui1 with m_pPacket := none }) i

/-- One iteration of the loop of `Resend` (rdt.cpp 586-599), entered with
`m_pEarliestPacket` pointing to slot `e`. -/
def Resend_body (s : Sys) (e : Nat) : Except Fault Sys :=
  match s.conn.m_UnackedPackets.m_pData[e]? with
  | none => .error .nullDeref
  | some ue =>
    match ue.m_pPacket with
    | none => .error .nullDeref
    | some pkt =>
      match Send s pkt true false with
      | .error f => .error f
      | .ok (_, pkt1, s) =>
      let (now, s) := s.clockCall
      let s := s.setSlot e { ue with m_pPacket := some pkt1, m_ResendTime := now + RDT_RTO_CLK }
      let rotated : Except Fault Sys :=
        if some e ≠ s.conn.m_pLatestPacket then
          match s.conn.m_pLatestPacket with
          | none => .error .nullDeref
          | some l =>
            match s.conn.m_UnackedPackets.m_pData[l]? with
            | none => .error .nullDeref
            | some ul =>
              let s := s.setSlot l { ul with m_pNext := some e }
              let s := { s with conn := { s.conn with m_pLatestPacket := some e } }
              match s.conn.m_UnackedPackets.m_pData[e]? with
              | none => .error .nullDeref
              | some ue1 =>
                let s := { s with conn := { s.conn with m_pEarliestPacket := ue1.m_pNext } }
                .ok (s.setSlot e { ue1 with m_pNext := none })
        else .ok s
      match rotated with
      | .error f => .error f
      | .ok s =>
        match s.slot s.conn.m_pEarliestPacket with
        | .error f => .error f
        | .ok u => .ok { s with conn := { s.conn with m_EarliestTimeout := u.m_ResendTime } }

/-- `RdtConnection::Resend(currTime)` (rdt.cpp 582-601); `fuel` bounds the number of
iterations. -/
def Resend : Nat → Sys → Nat → Except Fault Sys
  | 0, s, currTime =>
    match s.conn.m_pEarliestPacket with
    | none => .ok s
    | some _ => if currTime ≥ s.conn.m_EarliestTimeout then .error .outOfFuel else .ok s
  | fuel + 1, s, currTime =>
    match s.conn.m_pEarliestPacket with
    | none => .ok s
    | some e =>
      if currTime ≥ s.conn.m_EarliestTimeout then
        match Resend_body s e with
        | .error f => .error f
        | .ok s1 => Resend fuel s1 currTime
      else .ok s

/-- What the system calls of one `Update` answer: the result of `select` and, for a readable
socket, the packet buffer as `recvfrom` leaves it (header in network order) with the source
address; `none` when `recvfrom` fails. -/
structure UpdateIO where
  selectResult : Int
  recv : Option (RdtPacket × sockaddr)

/-- The pure ACK that `Update` builds from a received packet (rdt.cpp 492-495, 532-535). -/
def Update_mkAck (pkt : RdtPacket) : RdtPacket :=
  { pkt with hdr := { pkt.hdr with m_Flags := FLAG_ACK, m_MsgLen := sizeofRdtHeader,
                                   m_Reserved := 0 } }

/-- The test of rdt.cpp 553-554 on a recorded seq `a` and the incoming seq `seq`:
`RDT_WNDSIZE < diff && diff < RDT_MAX_SEQNUM - RDT_WNDSIZE` with
`diff = std::abs(a - seq)`. -/
def Update_expired (a seq : Nat) : Bool :=
  decide (RDT_WNDSIZE < Int.natAbs ((a : Int) - (seq : Int)) ∧
    Int.natAbs ((a : Int) - (seq : Int)) < RDT_MAX_SEQNUM - RDT_WNDSIZE)

/-- The loop over `m_ReceivedList` of rdt.cpp 545-562 for the incoming seq `seq`: whether
`seq` occurs in the list (`bAlreadyExists`) and the list with the expired entries erased. -/
def Update_scanReceived (l : List Nat) (seq : Nat) : Bool × List Nat :=
  (l.any (fun a => a == seq), l.filter (fun a => !Update_expired a seq))

/-- The last branch of the dispatch of `Update` (rdt.cpp 529-576): a packet that is neither a
pure SYN, nor carries ACK, nor is a pure FIN. -/
def Update_onData (s : Sys) (pkt : RdtPacket) : Except Fault (Int × Option RdtPacket × Sys) :=
  match Send s (Update_mkAck pkt) false false with
  | .error f => .error f
  | .ok (_, _, s) =>
    if hasFlag pkt.hdr.m_Flags FLAG_RQST then .ok (EUR_RQST, some pkt, s)
    else
      let (bAlreadyExists, pruned) :=
        Update_scanReceived s.conn.m_ReceivedList pkt.hdr.m_SeqNumber
      if !bAlreadyExists then
        .ok (EUR_DATA, some pkt,
          { s with conn := { s.conn with m_ReceivedList := pruned ++ [pkt.hdr.m_SeqNumber] } })
      else
        .ok (0, some pkt, { s with conn := { s.conn with m_ReceivedList := pruned } })

/-- The ACK branch of the dispatch of `Update` up to its `return` (rdt.cpp 503-508): look the
seq up in `m_SeqToIndex`, acknowledge the slot found and erase the entry. -/
def Update_onAck (s : Sys) (seq : Nat) : Except Fault Sys :=
  match mapFind s.conn.m_SeqToIndex seq with
  | none => .ok s
  | some idx =>
    match Ack s (s.conn.m_UnackedPackets.subscript (idx : Int)) with
    | .error f => .error f
    | .ok s1 => .ok { s1 with conn := { s1.conn with
                        m_SeqToIndex := mapErase s1.conn.m_SeqToIndex seq } }

/-- The dispatch of `Update` on a packet read from the socket (rdt.cpp 463-576); `pkt` is the
packet after `Recv` has converted its header to host order, `addr` its source. -/
def Update_dispatch (s : Sys) (pkt : RdtPacket) (addr : sockaddr) :
    Except Fault (Int × Option RdtPacket × Sys) :=
  if pkt.hdr.m_Flags = FLAG_SYN then
    if s.conn.m_IsListener then
      let pending : PendingConnection := { addr := addr, seqNum := pkt.hdr.m_SeqNumber }
      let q := match s.conn.m_PendingConnections.Push pending with
        | none => s.conn.m_PendingConnections
        | some (_, b) => b
      .ok (EUR_SYN, some pkt, { s with conn := { s.conn with m_PendingConnections := q } })
    else .ok (EUR_DROPPED, some pkt, s)
  else if s.conn.m_pAddr ≠ some addr then
    .ok (EUR_DROPPED, some pkt, s)
  else if pkt.hdr.m_Flags = (FLAG_ACK ||| FLAG_SYN) then
    let acked : Except Fault Sys :=
      if s.conn.m_SynIndex ≠ -1 then
        match Ack s (s.conn.m_UnackedPackets.subscript s.conn.m_SynIndex) with
        | .error f => .error f
        | .ok s1 => .ok { s1 with conn := { s1.conn with m_SynIndex := -1 } }
      else .ok s
    match acked with
    | .error f => .error f
    | .ok s1 =>
      match Send s1 (Update_mkAck pkt) false false with
      | .error f => .error f
      | .ok (_, _, s2) => .ok (EUR_SYNACK, some pkt, s2)
  else if hasFlag pkt.hdr.m_Flags FLAG_ACK then
    match Update_onAck s pkt.hdr.m_SeqNumber with
    | .error f => .error f
    | .ok s1 =>
      if hasFlag pkt.hdr.m_Flags FLAG_FIN then .ok (EUR_FINACK, some pkt, s1)
      else .ok (EUR_ACK, some pkt, s1)
  else if pkt.hdr.m_Flags = FLAG_FIN then
    let s1 := { s with conn := { s.conn with m_ReceivedFIN := true } }
    let finack : RdtPacket :=
      { pkt with hdr := { pkt.hdr with m_MsgLen := sizeofRdtHeader, m_Reserved := 0,
                                       m_Flags := FLAG_ACK ||| FLAG_FIN } }
    match Send s1 finack false false with
    | .error f => .error f
    | .ok (_, pkt1, s2) => .ok (EUR_FIN, some pkt1, s2)
  else Update_onData s pkt

/-- `Update` after its first retransmit sweep (rdt.cpp 437-579): poll the socket and act on
the answer. On an error of `select` only the `ERROR` macro runs and control reaches the final
`return 0`. -/
def Update_poll (s : Sys) (io : UpdateIO) : Except Fault (Int × Option RdtPacket × Sys) :=
  if io.selectResult = -1 then .ok (0, none, s)
  else if io.selectResult = 0 then
    let (currClock, s) := s.clockCall
    match Resend (s.conn.m_UnackedPackets.m_pData.length + 1) s currClock with
    | .error f => .error f
    | .ok s => .ok (0, none, s)
  else
    match io.recv with
    | none => .ok (-1, none, s)
    | some (raw, addr) => Update_dispatch s { raw with hdr := raw.hdr.ntoh } addr

/-- `RdtConnection::Update(pPkt)` (rdt.cpp 430-580). Returns the result of the call, the
contents of `*pPkt` if a datagram was read, and the new state. The retransmit sweep gets one
more unit of fuel than there are storage slots. -/
def Update (s : Sys) (io : UpdateIO) : Except Fault (Int × Option RdtPacket × Sys) :=
  let (currClock, s) := s.clockCall
  match Resend (s.conn.m_UnackedPackets.m_pData.length + 1) s currClock with
  | .error f => .error f
  | .ok s => Update_poll s io

/-- The admission test of `SendFile` (rdt.cpp 350-357) for a packet of header length `len`:
true when the loop `while(nextSeq + len - m_MinUnacked > m_WndSize || IsFull())` spins. -/
def SendFile_mustWait (c : RdtConnection) (len : Nat) : Bool :=
  let nextSeq : Nat :=
    if c.m_NextSeq < c.m_MinUnacked then (c.m_NextSeq + RDT_MAX_SEQNUM) % 65536 else c.m_NextSeq
  decide ((nextSeq : Int) + (len : Int) - (c.m_MinUnacked : Int) > (c.m_WndSize : Int))
    || c.m_UnackedPackets.IsFull

/-! ## The payload size that RecvFile computes -/

/-- The `size_t` value `pkt.hdr.m_MsgLen - sizeof(RdtHeader)` that `RecvFile` passes to the
string constructor (rdt.cpp 162): the `uint16_t` length is converted to the 64-bit `size_t`
of `sizeof`, and the subtraction wraps modulo `2^64`. -/
def RecvFile_payloadSize (pkt : RdtPacket) : Nat :=
  (pkt.hdr.m_MsgLen + 2 ^ 64 - sizeofRdtHeader) % 2 ^ 64

/-- The bytes that the string constructor of `RecvFile` reads, `msg[8 .. 8 + size)`, lie
inside the `RDT_MAX_PKTSIZE` bytes of the packet buffer. -/
def payloadInBuffer (pkt : RdtPacket) : Prop :=
  sizeofRdtHeader + RecvFile_payloadSize pkt ≤ RDT_MAX_PKTSIZE

instance (pkt : RdtPacket) : Decidable (payloadInBuffer pkt) := by
  unfold payloadInBuffer; infer_instance

/-- The statement `pktStr = std::string(&(pkt.msg[sizeof(RdtHeader)]), pkt.hdr.m_MsgLen -
sizeof(RdtHeader))` of `RecvFile` (rdt.cpp 162) with its two failures. The length passed to
the constructor is the `size_t` value `RecvFile_payloadSize`. For `m_MsgLen < 8` it has
wrapped to `2^64 - 8 + m_MsgLen`, which is above the `max_size()` of a `std::string`: the
constructor throws `std::length_error`, and `RecvFile` does not catch it. For
`m_MsgLen > 1024` the constructor reads `msg[8 .. m_MsgLen)`, past the end of the packet
buffer. Otherwise the string is `pktStr`. -/
def RecvFile_extract (pkt : RdtPacket) : Except Fault (List Nat) :=
  if pkt.hdr.m_MsgLen < sizeofRdtHeader then .error Fault.lengthError
  else if RDT_MAX_PKTSIZE < pkt.hdr.m_MsgLen then .error Fault.bufferOverrun
  else .ok (pktStr pkt)

/-- One pass through the loop of `RecvFile` (rdt.cpp 158-210): call `Update(&pkt)` and, if it
returns `EUR_DATA`, build `pktStr` (rdt.cpp 162, `RecvFile_extract`) and handle the packet
(rdt.cpp 164-208, `RecvFile_onData`). A failure of the string construction ends the run. -/
def RecvFile_iter (s : Sys) (r : RecvFileState) (io : UpdateIO) :
    Except Fault (Sys × RecvFileState) :=
  match Update s io with
  | .error f => .error f
  | .ok (res, pkt, s1) =>
    if res = EUR_DATA then
      match pkt with
      | some p =>
        match RecvFile_extract p with
        | .error f => .error f
        | .ok _ => .ok (s1, RecvFile_onData r p)
      | none => .ok (s1, r)
    else .ok (s1, r)

/-- A tracked send as `SendFile` performs it (rdt.cpp 350-367): the packet carries the current
`m_NextSeq`, the admission test lets it through, and it is handed to `Send(pPkt)`. The
result is `none` when the packet is not of this kind. -/
def guardedSend (s : Sys) (pkt : RdtPacket) : Option (Except Fault Sys) :=
  if pkt.hdr.m_SeqNumber = s.conn.m_NextSeq ∧ pkt.hdr.m_Flags ≠ FLAG_ACK ∧
      pkt.hdr.m_Flags ≠ (FLAG_ACK ||| FLAG_FIN) ∧
      sizeofRdtHeader ≤ pkt.hdr.m_MsgLen ∧ pkt.hdr.m_MsgLen ≤ RDT_MAX_PKTSIZE ∧
      SendFile_mustWait s.conn pkt.hdr.m_MsgLen = false then
    some (match Send s pkt false false with
      | .error f => .error f
      | .ok (_, _, s1) => .ok s1)
  else none

/-- The two kinds of step of the sender: a guarded send of a packet, and the processing of
an ACK for a sequence number. -/
inductive SenderStep where
  | send (pkt : RdtPacket)
  | ack (seq : Nat)

/-- Run a list of sender steps; `none` when a send is not admitted or a step faults. -/
def runSender : Sys → List SenderStep → Option Sys
  | s, [] => some s
  | s, SenderStep.send pkt :: rest =>
    match guardedSend s pkt with
    | some (.ok s1) => runSender s1 rest
    | _ => none
  | s, SenderStep.ack seq :: rest =>
    match Update_onAck s seq with
    | .ok s1 => runSender s1 rest
    | .error _ => none

/-- An environment whose clock stands at 0 and whose `sendto` always succeeds. -/
def Env.quiet : Env :=
  { clock := fun _ => 0, sendtoOk := fun _ => true, nClock := 0, sent := [] }

/-- A fresh connection: constructed and initialised. -/
def Sys.fresh (env : Env) : Sys :=
  { conn := RdtConnection.ctor._Init, env := env }

/-- A data packet with the given seq and header length, all payload bytes zero. -/
def dataPkt (seq len : Nat) : RdtPacket :=
  { hdr := { m_SeqNumber := seq, m_Reserved := 0, m_MsgLen := len, m_Flags := 0 },
    body := List.replicate (len - sizeofRdtHeader) 0 }

/-- `Update` called once for each element of `ios`, in order; the results of the calls. -/
def runUpdates : Sys → List UpdateIO → Except Fault (List Int × Sys)
  | s, [] => .ok ([], s)
  | s, io :: rest =>
    match Update s io with
    | .error f => .error f
    | .ok (r, _, s1) =>
      match runUpdates s1 rest with
      | .error f => .error f
      | .ok (rs, s2) => .ok (r :: rs, s2)

/-- The results of a run, when it ends normally. -/
def resultsOf (x : Except Fault (List Int × Sys)) : Option (List Int) :=
  match x with
  | .ok (rs, _) => some rs
  | .error _ => none

/-- The start of `Connect` (rdt.cpp 91-100): record the peer and send a SYN whose sequence
number is `r % RDT_MAX_SEQNUM`, `r` being what `rand()` returns. -/
def Connect_begin (s : Sys) (address : sockaddr) (r : Nat) : Except Fault Sys :=
  let s := { s with conn := { s.conn with m_pAddr := some address } }
  let pSyn : RdtPacket :=
    { hdr := { m_SeqNumber := r % RDT_MAX_SEQNUM, m_Reserved := 0, m_Flags := FLAG_SYN,
               m_MsgLen := sizeofRdtHeader },
      body := [] }
  match Send s pSyn false true with
  | .error f => .error f
  | .ok (_, _, s1) => .ok s1

/-- A datagram as it arrives: the packet with its header in network order. -/
def onWire (pkt : RdtPacket) : RdtPacket := { pkt with hdr := pkt.hdr.hton }

/-- A readable socket delivering the packet `pkt` from the address `addr`. -/
def arrival (pkt : RdtPacket) (addr : sockaddr) : UpdateIO :=
  { selectResult := 1, recv := some (onWire pkt, addr) }

/-- The result tag of `Update` for a received datagram, in the words of the specification:
a function of the flags, of whether the connection is a listener, of whether the source is
the current peer, and of whether the seq is in the recent-seq list. -/
def specTag (flags : Nat) (isListener fromPeer seqInRecent : Bool) : Int :=
  if flags = FLAG_SYN then (if isListener then EUR_SYN else EUR_DROPPED)
  else if !fromPeer then EUR_DROPPED
  else if flags = (FLAG_SYN ||| FLAG_ACK) then EUR_SYNACK
  else if hasFlag flags FLAG_ACK then (if hasFlag flags FLAG_FIN then EUR_FINACK else EUR_ACK)
  else if flags = FLAG_FIN then EUR_FIN
  else if hasFlag flags FLAG_RQST then EUR_RQST
  else if seqInRecent then 0 else EUR_DATA

/-- A header that `Update` treats as data-bearing: not a pure SYN, no ACK bit, not a pure
FIN. -/
def isDataBearing (h : RdtHeader) : Prop :=
  h.m_Flags ≠ FLAG_SYN ∧ hasFlag h.m_Flags FLAG_ACK = false ∧ h.m_Flags ≠ FLAG_FIN

instance (h : RdtHeader) : Decidable (isDataBearing h) := by
  unfold isDataBearing; infer_instance

/-- The four header fields are 16-bit values. -/
def RdtHeader.isU16 (h : RdtHeader) : Prop :=
  h.m_SeqNumber < 65536 ∧ h.m_Reserved < 65536 ∧ h.m_MsgLen < 65536 ∧ h.m_Flags < 65536

instance (h : RdtHeader) : Decidable h.isU16 := by
  unfold RdtHeader.isU16; infer_instance

/-- The connection with its peer address set, as the first statement of `Connect`
(rdt.cpp 91) leaves it. -/
def Sys.withPeer (s : Sys) (address : sockaddr) : Sys :=
  { s with conn := { s.conn with m_pAddr := some address } }

/-- Between the environments `before` and `after` the connection has retransmitted some
packets and then sent exactly one new datagram: a pure ACK to `peer` without payload, whose
decoded header has the seq of `pkt`, reserved 0, the header size as length, and flags ACK. -/
def AckEmitted (before after : Env) (pkt : RdtPacket) (peer : sockaddr) : Prop :=
  ∃ extra d, after.sent = before.sent ++ extra ++ [d] ∧ (∀ x ∈ extra, x.isResend = true) ∧
    d.isResend = false ∧ d.dest = some peer ∧ d.payload = [] ∧
    d.hdr.ntoh = { m_SeqNumber := pkt.hdr.m_SeqNumber, m_Reserved := 0,
                   m_MsgLen := sizeofRdtHeader, m_Flags := FLAG_ACK }

/-- The loop of `RecvFile` run for the given answers of the system calls. -/
def RecvFile_loop : Sys → RecvFileState → List UpdateIO → Except Fault (Sys × RecvFileState)
  | s, r, [] => .ok (s, r)
  | s, r, io :: rest =>
    match RecvFile_iter s r io with
    | .error f => .error f
    | .ok (s1, r1) => RecvFile_loop s1 r1 rest

/-- The decoded header of the datagram sent last in a call of `Update`. -/
def lastSentHeader (x : Except Fault (Int × Option RdtPacket × Sys)) : Option RdtHeader :=
  match x with
  | .ok (_, _, s) => s.env.sent.getLast?.map (fun d => d.hdr.ntoh)
  | .error _ => none

/-- The result of a call of `Update`, when it returns. -/
def resultOf (x : Except Fault (Int × Option RdtPacket × Sys)) : Option Int :=
  match x with
  | .ok (r, _, _) => some r
  | .error _ => none

/-- An address used for the peer in concrete runs. -/
def peerA : sockaddr := [10, 0, 0, 1]

/-- The steps that break the window bound: one packet sent and acknowledged, which moves the
read index of the unacked storage to 1; twelve packets of 400 bytes, the last two of which
are pushed although ten slots are taken; the ACK of the packet with seq 8; one packet of
1024 bytes. -/
def windowSteps : List SenderStep :=
  [SenderStep.send (dataPkt 0 8), SenderStep.ack 0] ++
    (List.range 12).map (fun k => SenderStep.send (dataPkt (8 + 400 * k) 400)) ++
    [SenderStep.ack 8, SenderStep.send (dataPkt 4808 1024)]

/-- The answer `io` of the system calls makes `Update` reach the scan of the recent-seq list
for a datagram from `peer` whose decoded seq is `a`: the socket is readable, `recvfrom`
delivers a datagram from `peer`, and its decoded header is data-bearing without RQST. -/
def deliversData (io : UpdateIO) (peer : sockaddr) (a : Nat) : Prop :=
  io.selectResult ≠ -1 ∧ io.selectResult ≠ 0 ∧
    ∃ raw, io.recv = some (raw, peer) ∧ isDataBearing raw.hdr.ntoh ∧
      hasFlag raw.hdr.ntoh.m_Flags FLAG_RQST = false ∧ raw.hdr.ntoh.m_SeqNumber = a

/-! ## Well-formed sender state -/

/-- The slots `ch`, in this order, form the path of `m_pNext` pointers that starts at the
pointer `st` and whose last element points to `en`. -/
def IsSeg (slots : List UnackedPacket) : List Nat → Option Nat → Option Nat → Prop
  | [], st, en => st = en
  | j :: rest, st, en => st = some j ∧ ∃ u, slots[j]? = some u ∧ IsSeg slots rest u.m_pNext en

/-- The chain part of well-formedness: `ch` is the retransmission chain from
`m_pEarliestPacket` to `m_pLatestPacket`, it consists of exactly the slots that hold a
packet, and the indices recorded in `m_SeqToIndex` and `m_SynIndex` are in range. -/
structure WFcore (c : RdtConnection) (ch : List Nat) : Prop where
  size_eq : c.m_UnackedPackets.m_pData.length = c.m_UnackedPackets.m_Size
  read_lt : c.m_UnackedPackets.m_ReadIndex < c.m_UnackedPackets.m_Size
  write_lt : c.m_UnackedPackets.m_WriteIndex < c.m_UnackedPackets.m_Size
  chain : IsSeg c.m_UnackedPackets.m_pData ch c.m_pEarliestPacket none
  nodup : ch.Nodup
  latest : c.m_pLatestPacket = ch.getLast?
  live : ∀ (i : Nat) (u : UnackedPacket), c.m_UnackedPackets.m_pData[i]? = some u →
    (u.m_pPacket ≠ none ↔ i ∈ ch)
  map_valid : ∀ e ∈ c.m_SeqToIndex, e.2 < c.m_UnackedPackets.m_Size
  syn_valid : c.m_SynIndex = -1 ∨ (0 ≤ c.m_SynIndex ∧ c.m_SynIndex < c.m_UnackedPackets.m_Size)

/-- The slot at the read index of a non-empty storage holds a packet. -/
def HeadLive (b : CircularBuffer UnackedPacket) : Prop :=
  ∀ h, b.Peek = some h → ∃ u p, b.m_pData[h]? = some u ∧ u.m_pPacket = some p

/-- Well-formedness of the sender state, with retransmission chain `ch`. -/
structure WF (c : RdtConnection) (ch : List Nat) : Prop where
  core : WFcore c ch
  head_live : HeadLive c.m_UnackedPackets

/-- The connection `c1` differs from `c` at most in the retransmission chain: the contents
of the storage slots, the two chain pointers and the cached earliest timeout. -/
def SameOutsideChain (c c1 : RdtConnection) : Prop :=
  c1 = { c with
    m_UnackedPackets := { c.m_UnackedPackets with m_pData := c1.m_UnackedPackets.m_pData }
    m_pEarliestPacket := c1.m_pEarliestPacket
    m_pLatestPacket := c1.m_pLatestPacket
    m_EarliestTimeout := c1.m_EarliestTimeout }

/-- The environment `e1` is `e` after some more system calls, the calls of `sendto` among
them being those of `extra`. -/
def EnvExtends (e e1 : Env) (extra : List SentDatagram) : Prop :=
  e1.clock = e.clock ∧ e1.sendtoOk = e.sendtoOk ∧ e.nClock ≤ e1.nClock ∧
    e1.sent = e.sent ++ extra

/-- The cached `m_EarliestTimeout` is the deadline of the head of the chain. -/
def Synced (c : RdtConnection) : Prop :=
  ∀ h, c.m_pEarliestPacket = some h →
    ∃ u, c.m_UnackedPackets.m_pData[h]? = some u ∧ c.m_EarliestTimeout = u.m_ResendTime

/-- Every slot of `fresh` has a deadline later than `t`. -/
def FreshAfter (slots : List UnackedPacket) (t : Nat) (fresh : List Nat) : Prop :=
  ∀ j ∈ fresh, ∃ u, slots[j]? = some u ∧ t < u.m_ResendTime

/-- The connection `c1` differs from `c` at most in the sender's bookkeeping: the unacked
storage, the chain pointers, the cached earliest timeout, `m_WndCurr` and `m_MinUnacked`. -/
def SameOutsideSender (c c1 : RdtConnection) : Prop :=
  c1 = { c with
    m_UnackedPackets := c1.m_UnackedPackets
    m_pEarliestPacket := c1.m_pEarliestPacket
    m_pLatestPacket := c1.m_pLatestPacket
    m_EarliestTimeout := c1.m_EarliestTimeout
    m_WndCurr := c1.m_WndCurr
    m_MinUnacked := c1.m_MinUnacked }

/-- Number of slots from the read index forward to the write index. -/
def ringDist (b : CircularBuffer UnackedPacket) : Nat :=
  if b.m_ReadIndex ≤ b.m_WriteIndex then b.m_WriteIndex - b.m_ReadIndex
  else b.m_WriteIndex + b.m_Size - b.m_ReadIndex
/-! ## A retransmission before the deadline of the packet -/

/-- A clock that reads 0, 100 and 200 at its first three calls and 500000 from then on. -/
def Env.stepped : Env :=
  { clock := fun k => if k = 0 then 0 else if k = 1 then 100 else if k = 2 then 200 else 500000,
    sendtoOk := fun _ => true, nClock := 0, sent := [] }

/-- A pure ACK for the sequence number `seq`. -/
def ackPkt (seq : Nat) : RdtPacket :=
  { hdr := { m_SeqNumber := seq, m_Reserved := 0, m_MsgLen := sizeofRdtHeader,
             m_Flags := FLAG_ACK },
    body := [] }

/-- The state of a run, when it ends normally. -/
def stateOf (x : Except Fault (Int × Option RdtPacket × Sys)) : Option Sys :=
  match x with
  | .ok (_, _, s) => some s
  | .error _ => none

/-- Two packets of 400 bytes are sent at the times 0 and 100 (deadlines 500000 and 500100),
then `Update` reads the ACK of the first at time 200. -/
def staleTimeoutState : Option Sys :=
  match Send ((Sys.fresh Env.stepped).withPeer peerA) (dataPkt 0 400) false false with
  | .error _ => none
  | .ok (_, _, s1) =>
    match Send s1 (dataPkt 400 400) false false with
    | .error _ => none
    | .ok (_, _, s2) => stateOf (Update s2 (arrival (ackPkt 0) peerA))

/-- `Update` called on `staleTimeoutState` with nothing readable; its first reading of the
clock is 500000. -/
def staleTimeoutSweep : Option Sys :=
  match staleTimeoutState with
  | none => none
  | some s => stateOf (Update s { selectResult := 0, recv := none })

/-! ## Calls on a CircularBuffer -/

/-- A call of `Push(elem)` or of `Pop(&elem)`. -/
inductive BufCall (T : Type) where
  | push (elem : T)
  | pop
deriving DecidableEq

/-- What a call returned: for `Push` the element and the result, for `Pop` the element
delivered when the result is true. -/
inductive BufResult (T : Type) where
  | pushed (elem : T) (ok : Bool)
  | popped (elem : Option T)
deriving DecidableEq

/-- Run a list of calls on a buffer; the results of the calls, the value of `IsFull()`
before each call, and the buffer at the end. -/
def CircularBuffer.runCalls {T : Type} :
    CircularBuffer T → List (BufCall T) → List (Bool × BufResult T) × CircularBuffer T
  | b, [] => ([], b)
  | b, BufCall.push x :: rest =>
    match b.Push x with
    | none =>
      let r := CircularBuffer.runCalls b rest
      ((b.IsFull, BufResult.pushed x false) :: r.1, r.2)
    | some (_, b1) =>
      let r := CircularBuffer.runCalls b1 rest
      ((b.IsFull, BufResult.pushed x true) :: r.1, r.2)
  | b, BufCall.pop :: rest =>
    match b.Pop with
    | none =>
      let r := CircularBuffer.runCalls b rest
      ((b.IsFull, BufResult.popped none) :: r.1, r.2)
    | some (e, b1) =>
      let r := CircularBuffer.runCalls b1 rest
      ((b.IsFull, BufResult.popped e) :: r.1, r.2)

/-- The elements accepted by the successful pushes of a run, in order. -/
def acceptedOf {T : Type} : List (Bool × BufResult T) → List T
  | [] => []
  | (_, BufResult.pushed x true) :: r => x :: acceptedOf r
  | _ :: r => acceptedOf r

/-- The elements delivered by the successful pops of a run, in order. -/
def poppedOf {T : Type} : List (Bool × BufResult T) → List T
  | [] => []
  | (_, BufResult.popped (some x)) :: r => x :: poppedOf r
  | _ :: r => poppedOf r

/-- A buffer of natural numbers after `Initialize(n)`. -/
def natBuffer (n : Nat) : CircularBuffer Nat :=
  (CircularBuffer.ctor).Initialize n 0

/-! ## Listen (rdt.cpp 255-269) -/

/-- `RdtConnection::Listen(backlog)`: the result and the new state. The elements of the array
that `Initialize` allocates are not initialised; `junk` is what they hold. -/
def Listen (s : Sys) (backlog : Int) (junk : PendingConnection) : Int × Sys :=
  if backlog < 1 then (-1, s)
  else if !s.conn.m_IsListener then
    (0, { s with conn := { s.conn with
            m_IsListener := true
            m_PendingConnections :=
              s.conn.m_PendingConnections.Initialize (backlog + 1).toNat junk } })
  else (0, s)

/-- A readable socket on which `recvfrom` delivers the buffer `x.1` from the address `x.2`. -/
def readable (x : RdtPacket × sockaddr) : UpdateIO :=
  { selectResult := 1, recv := some x }

/-- The record that `Update` queues for a pure SYN (rdt.cpp 468-471). -/
def pendingOf (x : RdtPacket × sockaddr) : PendingConnection :=
  { addr := x.2, seqNum := x.1.hdr.ntoh.m_SeqNumber }

/-- A pure SYN with the given sequence number. -/
def synPkt (seq : Nat) : RdtPacket :=
  { hdr := { m_SeqNumber := seq, m_Reserved := 0, m_MsgLen := sizeofRdtHeader,
             m_Flags := FLAG_SYN },
    body := [] }

/-! ## SendRequest and RecvRequest (rdt.cpp 116-140, 297-312) -/

/-- The packet that `SendRequest` builds (rdt.cpp 125-134) when `m_NextSeq` is `nextSeq`. The
buffer of `new RdtPacket` is not initialised: `junk i` is what its byte `i` after the header
holds. `filename.copy` writes the characters of the name, then `msg[8 + length]` is set to
NUL. -/
def SendRequest_packet (nextSeq : Nat) (filename : List Nat) (junk : Nat → Nat) : RdtPacket :=
  { hdr := { m_SeqNumber := nextSeq, m_Reserved := 0,
             m_MsgLen := (filename.length + sizeofRdtHeader + 1) % 65536,
             m_Flags := FLAG_RQST },
    body := (List.range (RDT_MAX_PKTSIZE - sizeofRdtHeader)).map (fun i =>
      if i < filename.length then filename.getD i 0
      else if i = filename.length then 0 else junk i) }

/-- `RdtConnection::SendRequest(filename)`: the result and the new state. -/
def SendRequest (s : Sys) (filename : List Nat) (junk : Nat → Nat) : Except Fault (Int × Sys) :=
  if filename.length ≥ RDT_MAX_PKTSIZE - sizeofRdtHeader then .ok (-1, s)
  else
    match Send s (SendRequest_packet s.conn.m_NextSeq filename junk) false false with
    | .error f => .error f
    | .ok (_, _, s1) => .ok (0, s1)

/-- `std::string(&(rqst.msg[sizeof(RdtHeader)]))` (rdt.cpp 310): the bytes after the header up
to the first NUL (the model stops at the end of the buffer). -/
def RecvRequest_name (rqst : RdtPacket) : List Nat :=
  rqst.body.takeWhile (fun c => c != 0)

/-- `RdtConnection::RecvRequest(filename)`: the result, what `filename` is set to, and the new
state; `Update` is answered by `ios`. -/
def RecvRequest : Sys → List UpdateIO → Except Fault (Int × Option (List Nat) × Sys)
  | _, [] => .error .blocked
  | s, io :: rest =>
    match Update s io with
    | .error f => .error f
    | .ok (result, rqst, s1) =>
      if result ≠ EUR_RQST then
        if result = -1 then .ok (-1, none, s1) else RecvRequest s1 rest
      else .ok (0, rqst.map RecvRequest_name, s1)

/-- The buffer that `recvfrom` fills from the datagram `d`: the header and payload of `d`,
followed by what the buffer held before (`stale`). -/
def received (d : SentDatagram) (stale : List Nat) : RdtPacket :=
  { hdr := d.hdr, body := d.payload ++ stale }

/-! ## SendFile (rdt.cpp 314-382) -/

/-- The loop `while(nextSeq + len - m_MinUnacked > m_WndSize || IsFull()) Update();` of
`SendFile` (rdt.cpp 350-365) for a packet of header length `len`; returns the answers not yet
consumed. -/
def SendFile_spin : Sys → Nat → List UpdateIO → Except Fault (Sys × List UpdateIO)
  | s, len, [] => if SendFile_mustWait s.conn len then .error .blocked else .ok (s, [])
  | s, len, io :: rest =>
    if SendFile_mustWait s.conn len then
      match Update s io with
      | .error f => .error f
      | .ok (_, _, s1) => SendFile_spin s1 len rest
    else .ok (s, io :: rest)

/-- The loop `while(m_UnackedPackets.Size() > 0) Update();` of `SendFile` (rdt.cpp 372-376). -/
def SendFile_drain : Sys → List UpdateIO → Except Fault (Sys × List UpdateIO)
  | s, [] => if s.conn.m_UnackedPackets.Size > 0 then .error .blocked else .ok (s, [])
  | s, io :: rest =>
    if s.conn.m_UnackedPackets.Size > 0 then
      match Update s io with
      | .error f => .error f
      | .ok (_, _, s1) => SendFile_drain s1 rest
    else .ok (s, io :: rest)

/-- The `do ... while(len != 0)` loop of `SendFile` (rdt.cpp 326-368); `rest` is the part of
the file not yet read, so `len` is `rest.length`. Returns the packets handed to `Send`, in
order, and how the loop ended. Each further iteration reads at least one byte, so
`rest.length + 1` units of `fuel` suffice. -/
def SendFile_loop : Nat → Sys → List Nat → Bool → List UpdateIO →
    List RdtPacket × Except Fault (Sys × List UpdateIO)
  | 0, _, _, _, _ => ([], .error .outOfFuel)
  | fuel + 1, s, rest, bFirst, ios =>
    let msgLen := min RDT_MSS rest.length
    let len := rest.length - msgLen
    let flags0 := if bFirst then FLAG_FIRST else 0
    let flags := if len = 0 then flags0 ||| FLAG_LAST else flags0
    let pPkt : RdtPacket :=
      { hdr := { m_SeqNumber := s.conn.m_NextSeq, m_Reserved := 0,
                 m_MsgLen := (msgLen + sizeofRdtHeader) % 65536, m_Flags := flags },
        body := rest.take msgLen }
    match SendFile_spin s pPkt.hdr.m_MsgLen ios with
    | .error f => ([], .error f)
    | .ok (s1, ios1) =>
      match Send s1 pPkt false false with
      | .error f => ([pPkt], .error f)
      | .ok (_, _, s2) =>
        if len ≠ 0 then
          let r := SendFile_loop fuel s2 (rest.drop msgLen) false ios1
          (pPkt :: r.1, r.2)
        else ([pPkt], .ok (s2, ios1))

/-- `RdtConnection::SendFile(filename)`; `file` is the contents of the file, `none` when it
cannot be opened. Returns the packets handed to `Send` and the result of the call. -/
def SendFile (s : Sys) (file : Option (List Nat)) (ios : List UpdateIO) :
    List RdtPacket × Except Fault (Int × Sys) :=
  match file with
  | none => ([], .ok (-1, s))
  | some bytes =>
    let r := SendFile_loop (bytes.length + 1) s bytes true ios
    match r.2 with
    | .error f => (r.1, .error f)
    | .ok (s1, ios1) =>
      match SendFile_drain s1 ios1 with
      | .error f => (r.1, .error f)
      | .ok (s2, _) => (r.1, .ok (0, s2))

/-! ## The state after a tracked send -/

/-- The entry that a tracked `Send` of `pkt` pushes into the unacked storage (rdt.cpp
611-614); the slot points to the packet as `Send` leaves it. -/
def Send_unacked (s : Sys) (pkt : RdtPacket) : UnackedPacket :=
  { m_ResendTime := s.env.clock s.env.nClock + RDT_RTO_CLK, m_pNext := none,
    m_pPacket := some { pkt with hdr := pkt.hdr.hton.ntoh } }

/-- The state in which a tracked `Send` of `pkt` leaves `s` before its call of `sendto`,
given the contents `slots1` of the storage after the entry has been pushed and linked. -/
def Send_tracked_state (s : Sys) (pkt : RdtPacket) (isSyn : Bool)
    (slots1 : List UnackedPacket) : Sys :=
  { conn := { s.conn with
      m_UnackedPackets := { s.conn.m_UnackedPackets with
        m_pData := slots1
        m_WriteIndex :=
          (s.conn.m_UnackedPackets.m_WriteIndex + 1) % s.conn.m_UnackedPackets.m_Size }
      m_pLatestPacket := some s.conn.m_UnackedPackets.m_WriteIndex
      m_pEarliestPacket :=
        match s.conn.m_pEarliestPacket with
        | none => some s.conn.m_UnackedPackets.m_WriteIndex
        | some e => some e
      m_EarliestTimeout :=
        match s.conn.m_pEarliestPacket with
        | none => s.env.clock s.env.nClock + RDT_RTO_CLK
        | some _ => s.conn.m_EarliestTimeout
      m_MinUnacked :=
        match s.conn.m_pEarliestPacket with
        | none => pkt.hdr.m_SeqNumber
        | some _ => s.conn.m_MinUnacked
      m_SynIndex :=
        if isSyn then (s.conn.m_UnackedPackets.m_WriteIndex : Int) else s.conn.m_SynIndex
      m_SeqToIndex :=
        if isSyn then s.conn.m_SeqToIndex
        else mapInsert s.conn.m_SeqToIndex pkt.hdr.m_SeqNumber
          (s.conn.m_UnackedPackets.m_WriteIndex % 65536)
      m_WndCurr := (s.conn.m_WndCurr + pkt.hdr.m_MsgLen) % 65536
      m_NextSeq := (pkt.hdr.m_SeqNumber + pkt.hdr.m_MsgLen) % RDT_MAX_SEQNUM },
    env := { s.env with nClock := s.env.nClock + 1 } }

/-- The test of `Push` lets an element in. -/
def CircularBuffer.hasRoom {T : Type} (b : CircularBuffer T) : Prop :=
  ((Int.natAbs ((b.m_ReadIndex : Int) - (b.m_WriteIndex : Int)) : Nat) : Int) < (b.m_Size : Int) - 1

instance {T : Type} (b : CircularBuffer T) : Decidable b.hasRoom := by
  unfold CircularBuffer.hasRoom; infer_instance

/-- `SendRequest` called `n` times in a row with the same name; the result of the last call
and the state it leaves. -/
def SendRequest_times (filename : List Nat) (junk : Nat → Nat) : Nat → Sys → Except Fault (Int × Sys)
  | 0, s => .ok (0, s)
  | n + 1, s =>
    match SendRequest s filename junk with
    | .error f => .error f
    | .ok (_, s1) => SendRequest_times filename junk n s1

/-- The fault in which a run ended, if it did not end normally. -/
def faultOf {α : Type} (x : Except Fault α) : Option Fault :=
  match x with
  | .ok _ => none
  | .error f => some f

/-! ## SendFile of rdp.cpp (rdp.cpp 344-414)

`rdp.cpp` includes `rdp_structures.h`, which is not among the sources. Its `RdpPacket`,
`RdpHeader` and flags are taken to be those of `rdt_structures.h`, as the specification
describes one packet layout and one set of flag values; `RDP_MSS` and the `Update` of
`rdp.cpp` (which depends on conditional compilation) are parameters. `Send`, the window test
and the unacked storage of `rdp.cpp` agree line by line with those of `rdt.cpp`. -/

/-- Modelled from the spec: `RDP_MSS` of the missing `rdp_structures.h`; the specification
gives `MSS = MAX_PKT - 8 - 1 = 1015`. -/
def RDP_MSS : Nat := 1015

/-- The loop `while(nextSeq + len - m_MinUnacked > m_WndSize || IsFull()) Update();` of
`RdpConnection::SendFile` (rdp.cpp 383-397), with `upd` for `Update`. -/
def Rdp_SendFile_spin (upd : Sys → UpdateIO → Except Fault (Int × Option RdtPacket × Sys)) :
    Sys → Nat → List UpdateIO → Except Fault (Sys × List UpdateIO)
  | s, len, [] => if SendFile_mustWait s.conn len then .error .blocked else .ok (s, [])
  | s, len, io :: rest =>
    if SendFile_mustWait s.conn len then
      match upd s io with
      | .error f => .error f
      | .ok (_, _, s1) => Rdp_SendFile_spin upd s1 len rest
    else .ok (s, io :: rest)

/-- The loop `while(m_UnackedPackets.Size() > 0) Update();` (rdp.cpp 404-408). -/
def Rdp_SendFile_drain (upd : Sys → UpdateIO → Except Fault (Int × Option RdtPacket × Sys)) :
    Sys → List UpdateIO → Except Fault (Sys × List UpdateIO)
  | s, [] => if s.conn.m_UnackedPackets.Size > 0 then .error .blocked else .ok (s, [])
  | s, io :: rest =>
    if s.conn.m_UnackedPackets.Size > 0 then
      match upd s io with
      | .error f => .error f
      | .ok (_, _, s1) => Rdp_SendFile_drain upd s1 rest
    else .ok (s, io :: rest)

/-- The `while(len != 0)` loop of `RdpConnection::SendFile` (rdp.cpp 356-400); `rest` is the
part of the file not yet read. Returns the packets handed to `Send` and how the loop ended. -/
def Rdp_SendFile_loop (mss : Nat)
    (upd : Sys → UpdateIO → Except Fault (Int × Option RdtPacket × Sys)) :
    Nat → Sys → List Nat → Bool → List UpdateIO →
      List RdtPacket × Except Fault (Sys × List UpdateIO)
  | 0, _, _, _, _ => ([], .error .outOfFuel)
  | fuel + 1, s, rest, bFirst, ios =>
    if rest.length = 0 then ([], .ok (s, ios))
    else
      let msgLen := min mss rest.length
      let len := rest.length - msgLen
      let flags := if bFirst then FLAG_FIRST else if len = 0 then FLAG_LAST else 0
      let pPkt : RdtPacket :=
        { hdr := { m_SeqNumber := s.conn.m_NextSeq, m_Reserved := 0,
                   m_MsgLen := (msgLen + sizeofRdtHeader) % 65536, m_Flags := flags },
          body := rest.take msgLen }
      match Rdp_SendFile_spin upd s pPkt.hdr.m_MsgLen ios with
      | .error f => ([], .error f)
      | .ok (s1, ios1) =>
        match Send s1 pPkt false false with
        | .error f => ([pPkt], .error f)
        | .ok (_, _, s2) =>
          let r := Rdp_SendFile_loop mss upd fuel s2 (rest.drop msgLen) false ios1
          (pPkt :: r.1, r.2)

/-- `RdpConnection::SendFile(filename)` (rdp.cpp 344-414); `file` is the contents of the
file, `none` when it cannot be opened. -/
def Rdp_SendFile (mss : Nat)
    (upd : Sys → UpdateIO → Except Fault (Int × Option RdtPacket × Sys))
    (s : Sys) (file : Option (List Nat)) (ios : List UpdateIO) :
    List RdtPacket × Except Fault (Int × Sys) :=
  match file with
  | none => ([], .ok (-1, s))
  | some bytes =>
    let r := Rdp_SendFile_loop mss upd (bytes.length + 1) s bytes true ios
    match r.2 with
    | .error f => (r.1, .error f)
    | .ok (s1, ios1) =>
      match Rdp_SendFile_drain upd s1 ios1 with
      | .error f => (r.1, .error f)
      | .ok (s2, _) => (r.1, .ok (0, s2))

/-- The result of a call of `SendFile`, when it returns. -/
def returned (x : Except Fault (Int × Sys)) : Option Int :=
  match x with
  | .ok (r, _) => some r
  | .error _ => none

/-- The file "HELLO". -/
def helloFile : List Nat := [72, 69, 76, 76, 79]

/-! ## The segments of a file, as the claim about SendFile describes them -/

/-- The number of packets for a file of `n` bytes: `max(1, ceil(n / 1015))`. -/
def segmentCount (n : Nat) : Nat := max 1 ((n + 1014) / 1015)

/-- The file bytes `[1015k, min(N, 1015(k+1)))`. -/
def segmentPayload (file : List Nat) (k : Nat) : List Nat :=
  (file.drop (1015 * k)).take 1015

/-- FIRST on the first packet and only there, LAST on the final packet and only there, no
other flag. -/
def segmentFlags (count k : Nat) : Nat :=
  (if k = 0 then FLAG_FIRST else 0) ||| (if k + 1 = count then FLAG_LAST else 0)

/-- What the claim says of packet `k`: its flags, its reserved field, its length field and
its payload. -/
def segmentSpec (file : List Nat) (k : Nat) : Nat × Nat × Nat × List Nat :=
  (segmentFlags (segmentCount file.length) k, 0, (segmentPayload file k).length + 8,
    segmentPayload file k)

/-- The same four items of a packet handed to `Send`. -/
def segmentView (p : RdtPacket) : Nat × Nat × Nat × List Nat :=
  (p.hdr.m_Flags, p.hdr.m_Reserved, p.hdr.m_MsgLen, pktStr p)

/-! ## A transfer whose acknowledgements arrive in order -/

/-- The slots of a ring of `size` slots that hold the `m` entries from the read index `r`
on. -/
def ringSlots (size r m : Nat) : List Nat := (List.range m).map (fun i => (r + i) % size)

/-- The sender state while the packets `fl`, oldest first, are in flight and no
retransmission has happened: they occupy the slots from the read index on, in this order,
which is also the order of the retransmission chain; `m_SeqToIndex` finds each of them; every
reading of the clock still to come is before `D`, and no deadline is before `D`. -/
structure InFlight (s : Sys) (peer : sockaddr) (D : Nat) (fl : List RdtPacket) : Prop where
  wf : WF s.conn (ringSlots 11 s.conn.m_UnackedPackets.m_ReadIndex fl.length)
  size : s.conn.m_UnackedPackets.m_Size = 11
  write : s.conn.m_UnackedPackets.m_WriteIndex =
    (s.conn.m_UnackedPackets.m_ReadIndex + fl.length) % 11
  count : fl.length ≤ 5
  slots : ∀ i p, fl[i]? = some p →
    ∃ u, s.conn.m_UnackedPackets.m_pData[(s.conn.m_UnackedPackets.m_ReadIndex + i) % 11]? =
      some u ∧ u.m_pPacket = some p
  map : ∀ i p, fl[i]? = some p → mapFind s.conn.m_SeqToIndex p.hdr.m_SeqNumber =
    some ((s.conn.m_UnackedPackets.m_ReadIndex + i) % 11)
  nodup : (fl.map seqOf).Nodup
  u16 : ∀ p ∈ fl, p.hdr.m_SeqNumber < 65536
  minUnacked : s.conn.m_MinUnacked =
    match fl with
    | [] => 65535
    | p :: _ => p.hdr.m_SeqNumber
  peer : s.conn.m_pAddr = some peer
  clock : ∀ k, s.env.nClock ≤ k → s.env.clock k < D ∧ D ≤ s.env.clock k + RDT_RTO_CLK
  timeout : s.conn.m_pEarliestPacket ≠ none → D ≤ s.conn.m_EarliestTimeout

/-- The sequence numbers while `SendFile` is still sending: every packet in flight has the
full length 1023, so the packet at position `i` of `fl` lies `1023 * (fl.length - i)` before
`m_NextSeq`. -/
structure Sending (s : Sys) (fl : List RdtPacket) : Prop where
  wnd : s.conn.m_WndSize = RDT_WNDSIZE
  next : s.conn.m_NextSeq < RDT_MAX_SEQNUM
  seqs : ∀ i p, fl[i]? = some p → p.hdr.m_SeqNumber =
    (s.conn.m_NextSeq + RDT_MAX_SEQNUM - 1023 * (fl.length - i)) % RDT_MAX_SEQNUM

/-- The state in which `Ack` leaves `s` when the slot acknowledged is both the head of the
chain and the slot at the read index: `ui` is that slot, `pkt` its packet, `latest` and `minU`
the new values of `m_pLatestPacket` and `m_MinUnacked`. -/
def Ack_head_state (s : Sys) (ui : UnackedPacket) (pkt : RdtPacket) (latest : Option Nat)
    (minU : Nat) : Sys :=
  { conn := { s.conn with
      m_pEarliestPacket := ui.m_pNext
      m_pLatestPacket := latest
      m_WndCurr := (s.conn.m_WndCurr + 65536 - pkt.hdr.m_MsgLen % 65536) % 65536
      m_UnackedPackets := { s.conn.m_UnackedPackets with
        m_pData := s.conn.m_UnackedPackets.m_pData.set s.conn.m_UnackedPackets.m_ReadIndex
          { ui with m_pPacket := none }
        m_ReadIndex :=
          (s.conn.m_UnackedPackets.m_ReadIndex + 1) % s.conn.m_UnackedPackets.m_Size }
      m_MinUnacked := minU },
    env := s.env }

/-! ## Sends that fail, and the bytes of a header -/

/-- The system `s` with `f` answering whether each call of `sendto` succeeds. -/
def Sys.withSendto (s : Sys) (f : Nat → Bool) : Sys :=
  { s with env := { s.env with sendtoOk := f } }

/-- What a call of `Send` leaves behind apart from its result and the record of the datagram:
the packet as the call leaves it, the connection, and the number of clock readings. -/
def Send_effect (x : Except Fault (Bool × RdtPacket × Sys)) :
    Except Fault (RdtPacket × RdtConnection × Nat) :=
  match x with
  | .error e => .error e
  | .ok (_, p, s1) => .ok (p, s1.conn, s1.env.nClock)

/-- The two bytes of a `uint16_t` as they lie in memory on a little-endian host. -/
def u16Bytes (x : Nat) : List Nat := [x % 256, (x / 256) % 256]

/-- The bytes `msg[0 .. 7]` of a packet whose header is `h` (the union of `struct RdtPacket`,
rdt_structures.h 133-140): the four fields in the order of their declaration
(rdt_structures.h 113-117). -/
def RdtHeader.bytes (h : RdtHeader) : List Nat :=
  u16Bytes h.m_SeqNumber ++ u16Bytes h.m_Reserved ++ u16Bytes h.m_MsgLen ++ u16Bytes h.m_Flags

/-- A 16-bit value in network byte order: the high byte, then the low byte. -/
def bigEndian (x : Nat) : List Nat := [x / 256, x % 256]

/-- A header with seq 0x1234, len 1023 and the flags FIRST and LAST. -/
def sampleHeader : RdtHeader :=
  { m_SeqNumber := 4660, m_Reserved := 0, m_MsgLen := 1023, m_Flags := 48 }

/-! ## Distances in the sequence space -/

/-- The circular distance of two sequence numbers in the words of the specification:
`min((a - s) mod 30720, (s - a) mod 30720)`. -/
def circDist (a s : Nat) : Nat :=
  min ((((a : Int) - (s : Int)) % (RDT_MAX_SEQNUM : Int)).toNat)
    ((((s : Int) - (a : Int)) % (RDT_MAX_SEQNUM : Int)).toNat)

/-! ## More packets outstanding than the storage has room for -/

/-- The retransmission chain as a list of slots: the walk along `m_pNext` from the pointer
`start` until null; `none` when the walk has not ended after `fuel` steps or leaves the
storage. -/
def chainFrom (slots : List UnackedPacket) : Nat → Option Nat → Option (List Nat)
  | _, none => some []
  | 0, some _ => none
  | fuel + 1, some i =>
    match slots[i]? with
    | none => none
    | some u => (chainFrom slots fuel u.m_pNext).map (fun l => i :: l)

/-- The retransmission chain of `s` from `m_pEarliestPacket`, walked for at most one step
more than the storage has slots; a chain without repetition ends within that many steps. -/
def Sys.chain (s : Sys) : Option (List Nat) :=
  chainFrom s.conn.m_UnackedPackets.m_pData (s.conn.m_UnackedPackets.m_pData.length + 1)
    s.conn.m_pEarliestPacket

/-- The sequence number of the packet that each storage slot points to, `none` for a slot
whose `m_pPacket` is null. -/
def Sys.heldSeqs (s : Sys) : List (Option Nat) :=
  s.conn.m_UnackedPackets.m_pData.map (fun u => u.m_pPacket.map seqOf)

/-- The `m_pNext` pointer of each storage slot. -/
def Sys.nextPointers (s : Sys) : List (Option Nat) :=
  s.conn.m_UnackedPackets.m_pData.map (fun u => u.m_pNext)

/-- After a run of calls that returned: the number of datagrams handed to `sendto` so far,
the sequence numbers of the request packets in the slots of the unacked storage, and the
answer of `m_UnackedPackets.IsFull()`. -/
def requestsPending (x : Except Fault (Int × Sys)) : Option (Nat × List (Option Nat) × Bool) :=
  match x with
  | .ok (_, s) => some (s.env.sent.length, s.heldSeqs, s.conn.m_UnackedPackets.IsFull)
  | .error _ => none

/-- A client that has issued twelve requests of which the first is acknowledged: on a fresh
connection `SendRequest("x")` (seq 0, length 10), `Update` reading the ACK of seq 0, then
eleven more calls of `SendRequest("x")` (seq 10, 20, ..., 110). -/
def crowdedState : Option Sys :=
  match SendRequest ((Sys.fresh Env.quiet).withPeer peerA) [120] (fun _ => 0) with
  | .error _ => none
  | .ok (_, s1) =>
    match Update s1 (arrival (ackPkt 0) peerA) with
    | .error _ => none
    | .ok (_, _, s2) =>
      match SendRequest_times [120] (fun _ => 0) 11 s2 with
      | .error _ => none
      | .ok (_, s3) => some s3

/-- The result of one more call of `SendRequest("x")` in `crowdedState`, and the state it
leaves. -/
def crowdedSend : Option (Int × Sys) :=
  match crowdedState with
  | none => none
  | some s =>
    match SendRequest s [120] (fun _ => 0) with
    | .error _ => none
    | .ok x => some x

/-- The state that `Ack` of storage slot `i` leaves when called in `crowdedState`. -/
def crowdedAck (i : Nat) : Option Sys :=
  match crowdedState with
  | none => none
  | some s =>
    match Ack s (some i) with
    | .error _ => none
    | .ok s1 => some s1

/-- Sender steps that put thirteen packets into the storage of eleven slots: a packet of
8 bytes is sent and acknowledged, then twelve packets of 400 bytes are sent, each carrying
the current `m_NextSeq` and passing the admission test of `SendFile`. -/
def overflowSteps : List SenderStep :=
  [SenderStep.send (dataPkt 0 8), SenderStep.ack 0] ++
    (List.range 12).map (fun k => SenderStep.send (dataPkt (8 + 400 * k) 400))

/-! ## What a retransmit sweep sends -/

/-- The header, in network order, of the datagram that a retransmission of the packet in
storage slot `j` hands to `sendto` (rdt.cpp 587, 652-654); `none` for a slot without
packet. -/
def resendHeader (slots : List UnackedPacket) (j : Nat) : Option RdtHeader :=
  match slots[j]? with
  | none => none
  | some u => u.m_pPacket.map (fun p => p.hdr.hton)

/-- A clock that reads 0 at its first call and 500000 from then on; `sendto` succeeds. -/
def Env.late : Env :=
  { clock := fun k => if k = 0 then 0 else 500000, sendtoOk := fun _ => true, nClock := 0,
    sent := [] }

/-- The packet that a call of `Update` leaves in `*pPkt`, when the call returns. -/
def deliveredOf (x : Except Fault (Int × Option RdtPacket × Sys)) : Option RdtPacket :=
  match x with
  | .ok (_, p, _) => p
  | .error _ => none

/-- The hold-back map of `RecvFile` after its loop has run on the given answers of the system
calls, as pairs of seq and payload length. -/
def heldBack (x : Except Fault (Sys × RecvFileState)) : Option (List (Nat × Nat)) :=
  match x with
  | .ok (_, r) => some (r.seqToStr.map (fun e => (e.1, e.2.length)))
  | .error _ => none

/-- A connection object on which `Initialize` has not been called: the unacked storage is as
its constructor leaves it, with `m_Size = 0`. -/
def Sys.constructed (env : Env) : Sys :=
  { conn := RdtConnection.ctor, env := env }

/-! ## Lemmas: association lists -/

theorem mem_mapErase {V : Type} (m : List (Nat × V)) (q : Nat) (e : Nat × V) :
    e ∈ mapErase m q ↔ e ∈ m ∧ e.1 ≠ q := by
  simp [mapErase, List.mem_filter]

theorem mapFind_some_mem {V : Type} (m : List (Nat × V)) (q : Nat) (v : V)
    (h : mapFind m q = some v) : (q, v) ∈ m := by
  induction m with
  | nil => simp [mapFind] at h
  | cons e m ih =>
    obtain ⟨k, w⟩ := e
    by_cases hk : k = q
    · simp [mapFind, hk] at h
      simp [hk, h]
    · simp [mapFind, hk] at h
      exact List.mem_cons_of_mem _ (ih h)

theorem mapFind_mapErase_ne {V : Type} (m : List (Nat × V)) (q q1 : Nat) (h : q1 ≠ q) :
    mapFind (mapErase m q) q1 = mapFind m q1 := by
  induction m with
  | nil => simp [mapErase, mapFind]
  | cons e m ih =>
    obtain ⟨k, w⟩ := e
    by_cases hk : k = q
    · have hk1 : ¬ k = q1 := by rw [hk]; exact fun h1 => h h1.symm
      have : mapErase ((k, w) :: m) q = mapErase m q := by simp [mapErase, hk]
      rw [this, ih]; simp [mapFind, hk1]
    · have : mapErase ((k, w) :: m) q = (k, w) :: mapErase m q := by simp [mapErase, hk]
      rw [this]; simp [mapFind, ih]

theorem mapFind_mapInsert_self {V : Type} (m : List (Nat × V)) (q : Nat) (v : V) :
    mapFind (mapInsert m q v) q = some v := by
  simp [mapInsert, mapFind]

theorem mapFind_mapInsert_ne {V : Type} (m : List (Nat × V)) (q q1 : Nat) (v : V)
    (h : q1 ≠ q) : mapFind (mapInsert m q v) q1 = mapFind m q1 := by
  have h1 : ¬ q = q1 := fun h2 => h h2.symm
  simp [mapInsert, mapFind, h1, mapFind_mapErase_ne m q q1 h]

theorem length_mapErase_lt {V : Type} (m : List (Nat × V)) (q : Nat) (v : V)
    (h : mapFind m q = some v) : (mapErase m q).length < m.length := by
  have hmem := mapFind_some_mem m q v h
  unfold mapErase
  apply List.length_filter_lt_length_iff_exists.mpr
  exact ⟨(q, v), hmem, by simp⟩

theorem mapFind_nil_of_length {V : Type} (m : List (Nat × V)) (q : Nat)
    (h : m.length = 0) : mapFind m q = none := by
  cases m with
  | nil => rfl
  | cons e m => simp at h

/-! ## Lemmas: segments -/

theorem concatPayloads_append (a b : List RdtPacket) :
    concatPayloads (a ++ b) = concatPayloads a ++ concatPayloads b := by
  induction a with
  | nil => rfl
  | cons p a ih => simp [concatPayloads, ih]

theorem seq_inj (segs : List RdtPacket) (hnd : (segs.map seqOf).Nodup)
    (p q : RdtPacket) (hp : p ∈ segs) (hq : q ∈ segs)
    (h : p.hdr.m_SeqNumber = q.hdr.m_SeqNumber) : p = q :=
  List.inj_on_of_nodup_map hnd hp hq h

theorem hasFlag_FIRST_FIRST : hasFlag FLAG_FIRST FLAG_FIRST = true := by decide
theorem hasFlag_FIRST_LAST : hasFlag FLAG_FIRST FLAG_LAST = false := by decide
theorem hasFlag_LAST_FIRST : hasFlag FLAG_LAST FLAG_FIRST = false := by decide
theorem hasFlag_LAST_LAST : hasFlag FLAG_LAST FLAG_LAST = true := by decide
theorem hasFlag_zero (b : Nat) : hasFlag 0 b = false := by simp [hasFlag]

/-! ## Lemmas: one step of RecvFile, by case -/

theorem onData_closed (s : RecvFileState) (p : RdtPacket) (h : s.closed = true) :
    RecvFile_onData s p = s := by
  simp [RecvFile_onData, h]

theorem onData_first (s : RecvFileState) (p : RdtPacket) (hc : s.closed = false)
    (hf : s.bReceivedFirst = false) (hp : hasFlag p.hdr.m_Flags FLAG_FIRST = true) :
    RecvFile_onData s p =
      let s1 := { s with
        bReceivedFirst := true
        expectedSeq := (p.hdr.m_SeqNumber + p.hdr.m_MsgLen) % RDT_MAX_SEQNUM
        outFile := s.outFile ++ pktStr p }
      if hasFlag p.hdr.m_Flags FLAG_LAST then { s1 with closed := true } else s1 := by
  simp [RecvFile_onData, hc, hf, hp]

theorem onData_inorder (s : RecvFileState) (p : RdtPacket) (hc : s.closed = false)
    (hf : s.bReceivedFirst = true) (hp : p.hdr.m_SeqNumber = s.expectedSeq) :
    RecvFile_onData s p =
      let s1 := { s with
        expectedSeq := (s.expectedSeq + p.hdr.m_MsgLen) % RDT_MAX_SEQNUM
        outFile := s.outFile ++ pktStr p }
      if hasFlag p.hdr.m_Flags FLAG_LAST then { s1 with closed := true }
      else RecvFile_drain s1.seqToStr.length s1 := by
  simp [RecvFile_onData, hc, hf, hp]

theorem onData_store (s : RecvFileState) (p : RdtPacket) (hc : s.closed = false)
    (h : (s.bReceivedFirst = false ∧ hasFlag p.hdr.m_Flags FLAG_FIRST = false) ∨
         (s.bReceivedFirst = true ∧ p.hdr.m_SeqNumber ≠ s.expectedSeq)) :
    RecvFile_onData s p =
      let s1 :=
        if !s.bReceivedLast && hasFlag p.hdr.m_Flags FLAG_LAST then
          { s with bReceivedLast := true, lastSeq := p.hdr.m_SeqNumber }
        else s
      { s1 with seqToStr := mapInsert s1.seqToStr p.hdr.m_SeqNumber (pktStr p) } := by
  rcases h with ⟨h1, h2⟩ | ⟨h1, h2⟩
  · simp [RecvFile_onData, hc, h1, h2]
  · simp [RecvFile_onData, hc, h1, h2]

theorem drain_none (fuel : Nat) (s : RecvFileState)
    (h : mapFind s.seqToStr s.expectedSeq = none) : RecvFile_drain fuel s = s := by
  cases fuel with
  | zero => rfl
  | succ n => simp [RecvFile_drain, h]

theorem drain_some (fuel : Nat) (s : RecvFileState) (str : List Nat)
    (h : mapFind s.seqToStr s.expectedSeq = some str) :
    RecvFile_drain (fuel + 1) s =
      if s.bReceivedLast && s.expectedSeq == s.lastSeq then
        { s with outFile := s.outFile ++ str, closed := true }
      else
        RecvFile_drain fuel
          { s with
            outFile := s.outFile ++ str
            expectedSeq := (s.expectedSeq + str.length + sizeofRdtHeader) % RDT_MAX_SEQNUM
            seqToStr := mapErase s.seqToStr s.expectedSeq } := by
  simp [RecvFile_drain, h]

/-! ## In-order writing -/

theorem split_head_eq (segs : List RdtPacket) (hnd : (segs.map seqOf).Nodup)
    (done rest1 : List RdtPacket) (r0 p : RdtPacket) (hs : segs = done ++ r0 :: rest1)
    (hp : p ∈ r0 :: rest1) (h : p.hdr.m_SeqNumber = r0.hdr.m_SeqNumber) : p = r0 := by
  apply seq_inj segs hnd p r0 _ _ h
  · rw [hs]; exact List.mem_append_right _ hp
  · rw [hs]; simp

theorem consecutive_split : ∀ (l1 : List RdtPacket) (p q : RdtPacket) (l2 : List RdtPacket),
    Consecutive (l1 ++ p :: q :: l2) → follows p q
  | [], _, _, _, h => h.1
  | [_], p, q, l2, h => consecutive_split [] p q l2 h.2
  | _ :: b :: l, p, q, l2, h => consecutive_split (b :: l) p q l2 h.2

theorem split_next_seq (segs : List RdtPacket) (hch : Consecutive segs) (hlen : LenMatches segs)
    (done rest2 : List RdtPacket) (r0 r1 : RdtPacket) (hs : segs = done ++ r0 :: r1 :: rest2) :
    r1.hdr.m_SeqNumber =
      (r0.hdr.m_SeqNumber + (pktStr r0).length + sizeofRdtHeader) % RDT_MAX_SEQNUM ∧
    r1.hdr.m_SeqNumber = (r0.hdr.m_SeqNumber + r0.hdr.m_MsgLen) % RDT_MAX_SEQNUM := by
  have h1 : follows r0 r1 := consecutive_split done r0 r1 rest2 (hs ▸ hch)
  have h2 : r0.hdr.m_MsgLen = sizeofRdtHeader + (pktStr r0).length :=
    hlen r0 (by rw [hs]; simp)
  unfold follows at h1
  refine ⟨?_, h1⟩
  rw [h1, h2]; congr 1; omega

theorem drain_sound (s0 : RdtPacket) (segs A : List RdtPacket) (hnd : (segs.map seqOf).Nodup)
    (hch : Consecutive segs) (hlen : LenMatches segs) :
    ∀ (fuel : Nat) (s : RecvFileState) (done rest : List RdtPacket),
      SoundOpen segs A s done rest → SoundRes s0 segs A (RecvFile_drain fuel s) := by
  intro fuel
  induction fuel with
  | zero => intro s done rest h; exact Or.inr (Or.inl ⟨done, rest, h⟩)
  | succ n ih =>
    intro s done rest h
    cases hf : mapFind s.seqToStr s.expectedSeq with
    | none => rw [drain_none _ _ hf]; exact Or.inr (Or.inl ⟨done, rest, h⟩)
    | some str =>
      rw [drain_some _ _ _ hf]
      obtain ⟨p, hp, hpA, hpe⟩ := h.msound _ (mapFind_some_mem _ _ _ hf)
      cases rest with
      | nil => simp at hp
      | cons r0 rest1 =>
        have hexp := h.exp r0 rest1 rfl
        have hpr : p = r0 := by
          apply split_head_eq segs hnd done rest1 r0 p h.split hp
          have := congrArg Prod.fst hpe
          simp at this; rw [← this, hexp]
        subst hpr
        have hstr : str = pktStr p := by
          have := congrArg Prod.snd hpe
          simpa using this
        have hsplit : segs = (done ++ [p]) ++ rest1 := by rw [h.split]; simp
        have hout : s.outFile ++ str = concatPayloads (done ++ [p]) := by
          rw [concatPayloads_append, h.out, hstr]; simp [concatPayloads]
        split
        · refine Or.inr (Or.inr ⟨rfl, done ++ [p], rest1, hsplit, hout, ?_⟩)
          intro q hq
          rcases List.mem_append.mp hq with hq | hq
          · exact h.doneA q hq
          · simp at hq; rw [hq]; exact hpA
        · apply ih _ (done ++ [p]) rest1
          refine ⟨hsplit, h.first, h.notClosed, hout, ?_, ?_, ?_⟩
          · intro q hq
            rcases List.mem_append.mp hq with hq | hq
            · exact h.doneA q hq
            · simp at hq; rw [hq]; exact hpA
          · intro r1 rest2 hr
            subst hr
            have := (split_next_seq segs hch hlen done rest2 p r1 h.split).1
            simp only [this, hexp, hstr]
          · intro e he
            have he2 := (mem_mapErase _ _ _).mp he
            obtain ⟨q, hq, hqA, hqe⟩ := h.msound e he2.1
            refine ⟨q, ?_, hqA, hqe⟩
            rcases List.mem_cons.mp hq with hq1 | hq1
            · exfalso; apply he2.2; rw [hqe, hq1, hexp]
            · exact hq1

theorem onData_sound (s0 : RdtPacket) (tl A : List RdtPacket)
    (hnd : ((s0 :: tl).map seqOf).Nodup)
    (hch : Consecutive (s0 :: tl)) (hlen : LenMatches (s0 :: tl))
    (hfirst : ∀ p ∈ s0 :: tl, hasFlag p.hdr.m_Flags FLAG_FIRST = true ↔ p = s0)
    (s : RecvFileState) (p : RdtPacket) (hp : p ∈ s0 :: tl) (hpA : p ∉ A)
    (h : SoundRes s0 (s0 :: tl) A s) :
    SoundRes s0 (s0 :: tl) (p :: A) (RecvFile_onData s p) := by
  rcases h with hb | ⟨done, rest, ho⟩ | ⟨hc, hrest⟩
  · -- before the FIRST segment
    by_cases hpf : hasFlag p.hdr.m_Flags FLAG_FIRST = true
    · have hp0 : p = s0 := (hfirst p hp).mp hpf
      subst hp0
      rw [onData_first s p hb.notClosed hb.first hpf]
      have hout : s.outFile ++ pktStr p = concatPayloads [p] := by
        simp [hb.out, concatPayloads]
      by_cases hl : hasFlag p.hdr.m_Flags FLAG_LAST = true
      · simp only [hl, if_true]
        refine Or.inr (Or.inr ⟨rfl, [p], tl, rfl, hout, ?_⟩)
        intro q hq; simp at hq; simp [hq]
      · simp only [hl]
        refine Or.inr (Or.inl ⟨[p], tl, rfl, rfl, hb.notClosed, hout, ?_, ?_, ?_⟩)
        · intro q hq; simp at hq; simp [hq]
        · intro r0 rest1 hr
          subst hr
          exact ((split_next_seq (p :: r0 :: rest1) hch hlen [] rest1 p r0 rfl).2).symm ▸ rfl
        · intro e he
          obtain ⟨q, hq, hqA, hqe⟩ := hb.msound e he
          refine ⟨q, ?_, List.mem_cons_of_mem _ hqA, hqe⟩
          rcases List.mem_cons.mp hq with hq1 | hq1
          · exfalso; apply hb.s0A; rw [← hq1]; exact hqA
          · exact hq1
    · have hpf2 : hasFlag p.hdr.m_Flags FLAG_FIRST = false := by simpa using hpf
      have hp0 : p ≠ s0 := fun h0 => hpf ((hfirst p hp).mpr h0)
      rw [onData_store s p hb.notClosed (Or.inl ⟨hb.first, hpf2⟩)]
      refine Or.inl ⟨?_, ?_, ?_, ?_, ?_⟩
      · simp only []; split <;> simp [hb.first]
      · simp only []; split <;> simp [hb.notClosed]
      · simp only []; split <;> simp [hb.out]
      · intro h0
        rcases List.mem_cons.mp h0 with h1 | h1
        · exact hp0 h1.symm
        · exact hb.s0A h1
      · intro e he
        have hm : e ∈ mapInsert s.seqToStr p.hdr.m_SeqNumber (pktStr p) := by
          revert he; simp only []; split <;> exact id
        rcases List.mem_cons.mp hm with h1 | h1
        · exact ⟨p, hp, List.mem_cons_self _ _, h1⟩
        · obtain ⟨q, hq, hqA, hqe⟩ := hb.msound e ((mem_mapErase _ _ _).mp h1).1
          exact ⟨q, hq, List.mem_cons_of_mem _ hqA, hqe⟩
  · -- running
    have hprest : p ∈ rest := by
      have : p ∈ done ++ rest := by rw [← ho.split]; exact hp
      rcases List.mem_append.mp this with h1 | h1
      · exact absurd (ho.doneA p h1) hpA
      · exact h1
    cases rest with
    | nil => simp at hprest
    | cons r0 rest1 =>
      have hexp := ho.exp r0 rest1 rfl
      by_cases hseq : p.hdr.m_SeqNumber = s.expectedSeq
      · have hpr : p = r0 :=
          split_head_eq _ hnd done rest1 r0 p ho.split hprest (by rw [hseq, hexp])
        subst hpr
        rw [onData_inorder s p ho.notClosed ho.first hseq]
        have hsplit : s0 :: tl = (done ++ [p]) ++ rest1 := by rw [ho.split]; simp
        have hout : s.outFile ++ pktStr p = concatPayloads (done ++ [p]) := by
          rw [concatPayloads_append, ho.out]; simp [concatPayloads]
        by_cases hl : hasFlag p.hdr.m_Flags FLAG_LAST = true
        · simp only [hl, if_true]
          refine Or.inr (Or.inr ⟨rfl, done ++ [p], rest1, hsplit, hout, ?_⟩)
          intro q hq
          rcases List.mem_append.mp hq with hq | hq
          · exact List.mem_cons_of_mem _ (ho.doneA q hq)
          · simp at hq; simp [hq]
        · simp only [hl]
          apply drain_sound s0 (s0 :: tl) (p :: A) hnd hch hlen _ _ (done ++ [p]) rest1
          refine ⟨hsplit, ho.first, ho.notClosed, hout, ?_, ?_, ?_⟩
          · intro q hq
            rcases List.mem_append.mp hq with hq | hq
            · exact List.mem_cons_of_mem _ (ho.doneA q hq)
            · simp at hq; simp [hq]
          · intro r1 rest2 hr
            subst hr
            have := (split_next_seq _ hch hlen done rest2 p r1 ho.split).2
            simp only [this, hexp]
          · intro e he
            obtain ⟨q, hq, hqA, hqe⟩ := ho.msound e he
            refine ⟨q, ?_, List.mem_cons_of_mem _ hqA, hqe⟩
            rcases List.mem_cons.mp hq with hq1 | hq1
            · exfalso; apply hpA; rw [← hq1]; exact hqA
            · exact hq1
      · rw [onData_store s p ho.notClosed (Or.inr ⟨ho.first, hseq⟩)]
        refine Or.inr (Or.inl ⟨done, r0 :: rest1, ho.split, ?_, ?_, ?_, ?_, ?_, ?_⟩)
        · simp only []; split <;> simp [ho.first]
        · simp only []; split <;> simp [ho.notClosed]
        · simp only []; split <;> simp [ho.out]
        · intro q hq; exact List.mem_cons_of_mem _ (ho.doneA q hq)
        · intro r1 rest2 hr
          have := ho.exp r1 rest2 hr
          simp only []; split <;> simpa using this
        · intro e he
          have hm : e ∈ mapInsert s.seqToStr p.hdr.m_SeqNumber (pktStr p) := by
            revert he; simp only []; split <;> exact id
          rcases List.mem_cons.mp hm with h1 | h1
          · exact ⟨p, hprest, List.mem_cons_self _ _, h1⟩
          · obtain ⟨q, hq, hqA, hqe⟩ := ho.msound e ((mem_mapErase _ _ _).mp h1).1
            exact ⟨q, hq, List.mem_cons_of_mem _ hqA, hqe⟩
  · rw [onData_closed s p hc]
    obtain ⟨done, rest, h1, h2, h3⟩ := hrest
    exact Or.inr (Or.inr ⟨hc, done, rest, h1, h2, fun q hq => List.mem_cons_of_mem _ (h3 q hq)⟩)

theorem run_sound (s0 : RdtPacket) (tl : List RdtPacket)
    (hnd : ((s0 :: tl).map seqOf).Nodup)
    (hch : Consecutive (s0 :: tl)) (hlen : LenMatches (s0 :: tl))
    (hfirst : ∀ p ∈ s0 :: tl, hasFlag p.hdr.m_Flags FLAG_FIRST = true ↔ p = s0) :
    ∀ (arr A : List RdtPacket) (s : RecvFileState), arr.Nodup →
      (∀ p ∈ arr, p ∈ s0 :: tl ∧ p ∉ A) → SoundRes s0 (s0 :: tl) A s →
      SoundRes s0 (s0 :: tl) (arr.reverse ++ A) (RecvFile_run s arr) := by
  intro arr
  induction arr with
  | nil => intro A s _ _ h; simpa [RecvFile_run] using h
  | cons p arr ih =>
    intro A s hn hsub h
    have hp := hsub p (List.mem_cons_self _ _)
    have hn2 := List.nodup_cons.mp hn
    have h1 := onData_sound s0 tl A hnd hch hlen hfirst s p hp.1 hp.2 h
    have h2 := ih (p :: A) (RecvFile_onData s p) hn2.2 (by
      intro q hq
      refine ⟨(hsub q (List.mem_cons_of_mem _ hq)).1, ?_⟩
      intro hqA
      rcases List.mem_cons.mp hqA with h3 | h3
      · exact hn2.1 (h3 ▸ hq)
      · exact (hsub q (List.mem_cons_of_mem _ hq)).2 h3) h1
    simpa [RecvFile_run, List.reverse_cons, List.append_assoc] using h2

theorem soundRes_out (s0 : RdtPacket) (segs A : List RdtPacket) (s : RecvFileState)
    (h : SoundRes s0 segs A s) :
    ∃ done rest, segs = done ++ rest ∧ s.outFile = concatPayloads done ∧ ∀ p ∈ done, p ∈ A := by
  rcases h with hb | ⟨done, rest, ho⟩ | ⟨_, hrest⟩
  · exact ⟨[], segs, rfl, by simp [hb.out, concatPayloads], by simp⟩
  · exact ⟨done, rest, ho.split, ho.out, ho.doneA⟩
  · exact hrest

theorem soundBefore_init (e0 l0 : Nat) (s0 : RdtPacket) (segs : List RdtPacket) :
    SoundBefore s0 segs [] (RecvFile_init e0 l0) :=
  ⟨rfl, rfl, rfl, by simp, by intro e he; simp [RecvFile_init] at he⟩

/-- C4 (in-order writing). Let `s0 :: tl` be the segments of a file: pairwise distinct sequence
numbers, each segment following its predecessor in the sequence space (modulo 30720), header
length = 8 + payload size, and `s0` the only segment flagged FIRST. Whatever the arrival order
`arr` of segments delivered as DATA at most once, at every point `k` of the run the bytes
RecvFile has written are the concatenated payloads of an initial part `done` of the file, all of
whose segments have arrived; so they are a prefix of the whole file and nothing is written
ahead of a missing earlier segment. -/
theorem C4_RecvFile_writes_in_order (e0 l0 : Nat) (s0 : RdtPacket) (tl arr : List RdtPacket)
    (hnd : ((s0 :: tl).map seqOf).Nodup)
    (hch : Consecutive (s0 :: tl)) (hlen : LenMatches (s0 :: tl))
    (hfirst : ∀ p ∈ s0 :: tl, hasFlag p.hdr.m_Flags FLAG_FIRST = true ↔ p = s0)
    (harr : arr.Nodup) (hsub : ∀ p ∈ arr, p ∈ s0 :: tl) (k : Nat) :
    (RecvFile_run (RecvFile_init e0 l0) (arr.take k)).outFile <+: concatPayloads (s0 :: tl) ∧
    ∃ done rest, s0 :: tl = done ++ rest ∧
      (RecvFile_run (RecvFile_init e0 l0) (arr.take k)).outFile = concatPayloads done ∧
      ∀ p ∈ done, p ∈ arr.take k := by
  have hn : (arr.take k).Nodup := harr.sublist (List.take_sublist k arr)
  have hs : ∀ p ∈ arr.take k, p ∈ s0 :: tl ∧ p ∉ ([] : List RdtPacket) :=
    fun p hp => ⟨hsub p (List.mem_of_mem_take hp), by simp⟩
  have h := run_sound s0 tl hnd hch hlen hfirst (arr.take k) [] _ hn hs
    (Or.inl (soundBefore_init e0 l0 s0 (s0 :: tl)))
  obtain ⟨done, rest, h1, h2, h3⟩ := soundRes_out _ _ _ _ h
  refine ⟨⟨concatPayloads rest, ?_⟩, done, rest, h1, h2, ?_⟩
  · rw [h2, h1, concatPayloads_append]
  · intro p hp
    have := h3 p hp
    simpa using this

theorem C4_RecvFile_writes_in_order_witness :
    (RecvFile_run (RecvFile_init 7 9)
      ([scen3Pkt 0 10 FLAG_LAST [5, 6], scen3Pkt 30700 10 FLAG_FIRST [1, 2]].take 2)).outFile
      <+: concatPayloads
        (scen3Pkt 30700 10 FLAG_FIRST [1, 2] ::
          [scen3Pkt 30710 10 0 [3, 4], scen3Pkt 0 10 FLAG_LAST [5, 6]]) :=
  (C4_RecvFile_writes_in_order 7 9 (scen3Pkt 30700 10 FLAG_FIRST [1, 2])
    [scen3Pkt 30710 10 0 [3, 4], scen3Pkt 0 10 FLAG_LAST [5, 6]]
    [scen3Pkt 0 10 FLAG_LAST [5, 6], scen3Pkt 30700 10 FLAG_FIRST [1, 2]]
    (by decide) (by decide) (by decide) (by decide) (by decide) (by decide) 2).1

/-! ## Reassembly is complete when the FIRST segment arrives first -/

theorem last_iff_rest_nil (segs : List RdtPacket) (hnd : (segs.map seqOf).Nodup)
    (sn : RdtPacket) (hsn : segs.getLast? = some sn)
    (done rest : List RdtPacket) (r0 : RdtPacket) (hs : segs = done ++ r0 :: rest) :
    r0 = sn ↔ rest = [] := by
  have hn : segs.Nodup := List.Nodup.of_map _ hnd
  constructor
  · intro h
    cases rest with
    | nil => rfl
    | cons r1 rest2 =>
      exfalso
      rw [hs] at hsn hn
      have h1 : sn ∈ r1 :: rest2 := by
        have : (done ++ r0 :: r1 :: rest2).getLast? = (r1 :: rest2).getLast? := by
          rw [show done ++ r0 :: r1 :: rest2 = (done ++ [r0]) ++ (r1 :: rest2) by simp]
          rw [List.getLast?_append_of_ne_nil _ (by simp)]
        rw [this] at hsn
        exact List.mem_of_getLast?_eq_some hsn
      have h2 := (List.nodup_append.mp hn).2.1
      have h3 := (List.nodup_cons.mp h2).1
      exact h3 (h ▸ h1)
  · intro h
    subst h
    rw [hs] at hsn
    simp at hsn
    exact hsn

theorem drain_complete (segs A : List RdtPacket) (sn : RdtPacket)
    (hnd : (segs.map seqOf).Nodup) (hch : Consecutive segs) (hlen : LenMatches segs)
    (hsn : segs.getLast? = some sn) :
    ∀ (fuel : Nat) (s : RecvFileState) (done : List RdtPacket) (r0 : RdtPacket)
      (rest : List RdtPacket), s.seqToStr.length ≤ fuel →
      CompleteMid segs A sn s done r0 rest → CompleteRes segs A sn (RecvFile_drain fuel s) := by
  intro fuel
  induction fuel with
  | zero =>
    intro s done r0 rest hlen0 h
    refine Or.inl ⟨done, r0, rest, h, ?_⟩
    intro hr
    have := h.mcomplete r0 (List.mem_cons_self _ _) hr
    rw [mapFind_nil_of_length _ _ (Nat.le_zero.mp hlen0)] at this
    exact Option.noConfusion this
  | succ n ih =>
    intro s done r0 rest hfuel h
    cases hf : mapFind s.seqToStr s.expectedSeq with
    | none =>
      rw [drain_none _ _ hf]
      refine Or.inl ⟨done, r0, rest, h, ?_⟩
      intro hr
      have := h.mcomplete r0 (List.mem_cons_self _ _) hr
      rw [← h.exp, hf] at this
      exact Option.noConfusion this
    | some str =>
      rw [drain_some _ _ _ hf]
      obtain ⟨p, hp, hpA, hpe⟩ := h.msound _ (mapFind_some_mem _ _ _ hf)
      have hpr : p = r0 := by
        apply split_head_eq segs hnd done rest r0 p h.split hp
        have := congrArg Prod.fst hpe
        simp at this; rw [← this, h.exp]
      subst hpr
      have hstr : str = pktStr p := by
        have := congrArg Prod.snd hpe
        simpa using this
      have hsplit : segs = (done ++ [p]) ++ rest := by rw [h.split]; simp
      have hout : s.outFile ++ str = concatPayloads (done ++ [p]) := by
        rw [concatPayloads_append, h.out, hstr]; simp [concatPayloads]
      have hlastiff := last_iff_rest_nil segs hnd sn hsn done rest p h.split
      split
      · rename_i hc
        simp only [Bool.and_eq_true, beq_iff_eq] at hc
        have h1 : p = sn := by
          apply seq_inj segs hnd p sn
          · rw [h.split]; simp
          · exact List.mem_of_getLast?_eq_some hsn
          · rw [← h.exp, hc.2, h.lastSeq hc.1]
        have h2 := hlastiff.mp h1
        subst h2
        refine Or.inr ⟨rfl, ?_⟩
        show s.outFile ++ str = concatPayloads segs
        rw [hout, h.split]
      · rename_i hc
        simp only [Bool.and_eq_true, beq_iff_eq] at hc
        have h1 : p ≠ sn := by
          intro h1
          apply hc
          have hb := h.lastIff.mpr (h1 ▸ hpA)
          exact ⟨hb, by rw [h.lastSeq hb, h.exp, h1]⟩
        cases rest with
        | nil => exact absurd (hlastiff.mpr rfl) h1
        | cons r1 rest2 =>
          have hn : segs.Nodup := List.Nodup.of_map _ hnd
          have hpnot : p ∉ r1 :: rest2 := by
            rw [h.split] at hn
            exact (List.nodup_cons.mp (List.nodup_append.mp hn).2.1).1
          apply ih _ (done ++ [p]) r1 rest2
          · have := length_mapErase_lt _ _ _ hf
            show (mapErase s.seqToStr s.expectedSeq).length ≤ n
            omega
          · refine ⟨hsplit, h.first, h.notClosed, hout, ?_, ?_, ?_, ?_, h.lastIff, h.lastSeq⟩
            · intro q hq
              rcases List.mem_append.mp hq with hq | hq
              · exact h.doneA q hq
              · simp at hq; rw [hq]; exact hpA
            · have := (split_next_seq segs hch hlen done rest2 p r1 h.split).1
              simp only [this, h.exp, hstr]
            · intro e he
              have he2 := (mem_mapErase _ _ _).mp he
              obtain ⟨q, hq, hqA, hqe⟩ := h.msound e he2.1
              refine ⟨q, ?_, hqA, hqe⟩
              rcases List.mem_cons.mp hq with hq1 | hq1
              · exfalso; apply he2.2; rw [hqe, hq1, h.exp]
              · exact hq1
            · intro q hq hqA
              have hne : q.hdr.m_SeqNumber ≠ s.expectedSeq := by
                intro h2
                have : q = p := split_head_eq segs hnd done (r1 :: rest2) p q h.split
                  (List.mem_cons_of_mem _ hq) (by rw [h2, h.exp])
                exact hpnot (this ▸ hq)
              show mapFind (mapErase s.seqToStr s.expectedSeq) q.hdr.m_SeqNumber = _
              rw [mapFind_mapErase_ne _ _ _ hne]
              exact h.mcomplete q (List.mem_cons_of_mem _ hq) hqA

theorem onData_complete (segs A : List RdtPacket) (sn : RdtPacket)
    (hnd : (segs.map seqOf).Nodup) (hch : Consecutive segs) (hlen : LenMatches segs)
    (hsn : segs.getLast? = some sn)
    (hlast : ∀ p ∈ segs, hasFlag p.hdr.m_Flags FLAG_LAST = true ↔ p = sn)
    (s : RecvFileState) (p : RdtPacket) (hp : p ∈ segs) (hpA : p ∉ A)
    (h : CompleteRes segs A sn s) : CompleteRes segs (p :: A) sn (RecvFile_onData s p) := by
  rcases h with ⟨done, r0, rest, h, hr0⟩ | ⟨hc, hout⟩
  · have hn : segs.Nodup := List.Nodup.of_map _ hnd
    have hr0not : r0 ∉ rest := by
      rw [h.split] at hn
      exact (List.nodup_cons.mp (List.nodup_append.mp hn).2.1).1
    have hprest : p ∈ r0 :: rest := by
      have : p ∈ done ++ r0 :: rest := by rw [← h.split]; exact hp
      rcases List.mem_append.mp this with h1 | h1
      · exact absurd (h.doneA p h1) hpA
      · exact h1
    by_cases hseq : p.hdr.m_SeqNumber = s.expectedSeq
    · have hpr : p = r0 :=
        split_head_eq _ hnd done rest r0 p h.split hprest (by rw [hseq, h.exp])
      subst hpr
      rw [onData_inorder s p h.notClosed h.first hseq]
      have hsplit : segs = (done ++ [p]) ++ rest := by rw [h.split]; simp
      have hout : s.outFile ++ pktStr p = concatPayloads (done ++ [p]) := by
        rw [concatPayloads_append, h.out]; simp [concatPayloads]
      have hlastiff := last_iff_rest_nil segs hnd sn hsn done rest p h.split
      by_cases hl : hasFlag p.hdr.m_Flags FLAG_LAST = true
      · simp only [hl, if_true]
        have h2 := hlastiff.mp ((hlast p hp).mp hl)
        subst h2
        refine Or.inr ⟨rfl, ?_⟩
        show s.outFile ++ pktStr p = concatPayloads segs
        rw [hout, h.split]
      · have h1 : p ≠ sn := fun h1 => hl ((hlast p hp).mpr h1)
        have hl2 : hasFlag p.hdr.m_Flags FLAG_LAST = false := by simpa using hl
        simp only [hl2, Bool.false_eq_true, if_false]
        cases rest with
        | nil => exact absurd (hlastiff.mpr rfl) h1
        | cons r1 rest2 =>
          refine drain_complete segs (p :: A) sn hnd hch hlen hsn s.seqToStr.length _
            (done ++ [p]) r1 rest2 (Nat.le_refl _) ?_
          refine ⟨hsplit, h.first, h.notClosed, hout, ?_, ?_, ?_, ?_, ?_, h.lastSeq⟩
          · intro q hq
            rcases List.mem_append.mp hq with hq | hq
            · exact List.mem_cons_of_mem _ (h.doneA q hq)
            · simp at hq; simp [hq]
          · have := (split_next_seq _ hch hlen done rest2 p r1 h.split).2
            simp only [this, h.exp]
          · intro e he
            obtain ⟨q, hq, hqA, hqe⟩ := h.msound e he
            refine ⟨q, ?_, List.mem_cons_of_mem _ hqA, hqe⟩
            rcases List.mem_cons.mp hq with hq1 | hq1
            · exfalso; apply hpA; rw [← hq1]; exact hqA
            · exact hq1
          · intro q hq hqA
            rcases List.mem_cons.mp hqA with h2 | h2
            · exact absurd (h2 ▸ hq) hr0not
            · exact h.mcomplete q (List.mem_cons_of_mem _ hq) h2
          · show s.bReceivedLast = true ↔ sn ∈ p :: A
            rw [h.lastIff]
            constructor
            · exact fun h2 => List.mem_cons_of_mem _ h2
            · intro h2
              rcases List.mem_cons.mp h2 with h3 | h3
              · exact absurd h3.symm h1
              · exact h3
    · have hpne : p ≠ r0 := fun h1 => hseq (by rw [h1, h.exp])
      rw [onData_store s p h.notClosed (Or.inr ⟨h.first, hseq⟩)]
      by_cases hl : hasFlag p.hdr.m_Flags FLAG_LAST = true
      · have hpsn : p = sn := (hlast p hp).mp hl
        have hb : s.bReceivedLast = false := by
          cases hb : s.bReceivedLast with
          | false => rfl
          | true => exact absurd (h.lastIff.mp hb) (hpsn ▸ hpA)
        simp only [hb, hl, Bool.not_false, Bool.and_self, if_true]
        refine Or.inl ⟨done, r0, rest, ⟨h.split, h.first, h.notClosed, h.out, ?_, h.exp, ?_, ?_,
          ?_, ?_⟩, ?_⟩
        · intro q hq; exact List.mem_cons_of_mem _ (h.doneA q hq)
        · intro e he
          rcases List.mem_cons.mp he with h1 | h1
          · exact ⟨p, hprest, List.mem_cons_self _ _, h1⟩
          · obtain ⟨q, hq, hqA, hqe⟩ := h.msound e ((mem_mapErase _ _ _).mp h1).1
            exact ⟨q, hq, List.mem_cons_of_mem _ hqA, hqe⟩
        · intro q hq hqA
          show mapFind (mapInsert s.seqToStr p.hdr.m_SeqNumber (pktStr p)) q.hdr.m_SeqNumber = _
          rcases List.mem_cons.mp hqA with h2 | h2
          · rw [h2]; exact mapFind_mapInsert_self _ _ _
          · have hne : q.hdr.m_SeqNumber ≠ p.hdr.m_SeqNumber := by
              intro h3
              have : q = p := seq_inj segs hnd q p
                (by rw [h.split]; exact List.mem_append_right _ hq) hp h3
              exact hpA (this ▸ h2)
            rw [mapFind_mapInsert_ne _ _ _ _ hne]
            exact h.mcomplete q hq h2
        · show true = true ↔ sn ∈ p :: A
          simp [hpsn]
        · intro _
          show p.hdr.m_SeqNumber = sn.hdr.m_SeqNumber
          rw [hpsn]
        · intro h1
          rcases List.mem_cons.mp h1 with h2 | h2
          · exact hpne h2.symm
          · exact hr0 h2
      · have hpsn : p ≠ sn := fun h1 => hl ((hlast p hp).mpr h1)
        have hl2 : hasFlag p.hdr.m_Flags FLAG_LAST = false := by simpa using hl
        simp only [hl2, Bool.and_false, Bool.false_eq_true, if_false]
        refine Or.inl ⟨done, r0, rest, ⟨h.split, h.first, h.notClosed, h.out, ?_, h.exp, ?_, ?_,
          ?_, h.lastSeq⟩, ?_⟩
        · intro q hq; exact List.mem_cons_of_mem _ (h.doneA q hq)
        · intro e he
          rcases List.mem_cons.mp he with h1 | h1
          · exact ⟨p, hprest, List.mem_cons_self _ _, h1⟩
          · obtain ⟨q, hq, hqA, hqe⟩ := h.msound e ((mem_mapErase _ _ _).mp h1).1
            exact ⟨q, hq, List.mem_cons_of_mem _ hqA, hqe⟩
        · intro q hq hqA
          show mapFind (mapInsert s.seqToStr p.hdr.m_SeqNumber (pktStr p)) q.hdr.m_SeqNumber = _
          rcases List.mem_cons.mp hqA with h2 | h2
          · rw [h2]; exact mapFind_mapInsert_self _ _ _
          · have hne : q.hdr.m_SeqNumber ≠ p.hdr.m_SeqNumber := by
              intro h3
              have : q = p := seq_inj segs hnd q p
                (by rw [h.split]; exact List.mem_append_right _ hq) hp h3
              exact hpA (this ▸ h2)
            rw [mapFind_mapInsert_ne _ _ _ _ hne]
            exact h.mcomplete q hq h2
        · show s.bReceivedLast = true ↔ sn ∈ p :: A
          rw [h.lastIff]
          constructor
          · exact fun h2 => List.mem_cons_of_mem _ h2
          · intro h2
            rcases List.mem_cons.mp h2 with h3 | h3
            · exact absurd h3.symm hpsn
            · exact h3
        · intro h1
          rcases List.mem_cons.mp h1 with h2 | h2
          · exact hpne h2.symm
          · exact hr0 h2
  · rw [onData_closed s p hc]
    exact Or.inr ⟨hc, hout⟩

theorem run_complete (segs : List RdtPacket) (sn : RdtPacket)
    (hnd : (segs.map seqOf).Nodup) (hch : Consecutive segs) (hlen : LenMatches segs)
    (hsn : segs.getLast? = some sn)
    (hlast : ∀ p ∈ segs, hasFlag p.hdr.m_Flags FLAG_LAST = true ↔ p = sn) :
    ∀ (arr A : List RdtPacket) (s : RecvFileState), arr.Nodup →
      (∀ p ∈ arr, p ∈ segs ∧ p ∉ A) → CompleteRes segs A sn s →
      CompleteRes segs (arr.reverse ++ A) sn (RecvFile_run s arr) := by
  intro arr
  induction arr with
  | nil => intro A s _ _ h; simpa [RecvFile_run] using h
  | cons p arr ih =>
    intro A s hn hsub h
    have hp := hsub p (List.mem_cons_self _ _)
    have hn2 := List.nodup_cons.mp hn
    have h1 := onData_complete segs A sn hnd hch hlen hsn hlast s p hp.1 hp.2 h
    have h2 := ih (p :: A) (RecvFile_onData s p) hn2.2 (by
      intro q hq
      refine ⟨(hsub q (List.mem_cons_of_mem _ hq)).1, ?_⟩
      intro hqA
      rcases List.mem_cons.mp hqA with h3 | h3
      · exact hn2.1 (h3 ▸ hq)
      · exact (hsub q (List.mem_cons_of_mem _ hq)).2 h3) h1
    simpa [RecvFile_run, List.reverse_cons, List.append_assoc] using h2

theorem first_complete (e0 l0 : Nat) (s0 sn : RdtPacket) (tl : List RdtPacket)
    (hnd : ((s0 :: tl).map seqOf).Nodup) (hch : Consecutive (s0 :: tl))
    (hlen : LenMatches (s0 :: tl))
    (hfirst : hasFlag s0.hdr.m_Flags FLAG_FIRST = true)
    (hsn : (s0 :: tl).getLast? = some sn)
    (hlast : ∀ p ∈ s0 :: tl, hasFlag p.hdr.m_Flags FLAG_LAST = true ↔ p = sn) :
    CompleteRes (s0 :: tl) [s0] sn (RecvFile_onData (RecvFile_init e0 l0) s0) := by
  rw [onData_first _ s0 rfl rfl hfirst]
  have hlastiff := last_iff_rest_nil (s0 :: tl) hnd sn hsn [] tl s0 rfl
  by_cases hl : hasFlag s0.hdr.m_Flags FLAG_LAST = true
  · simp only [hl, if_true]
    have h2 := hlastiff.mp ((hlast s0 (List.mem_cons_self _ _)).mp hl)
    subst h2
    exact Or.inr ⟨rfl, by simp [RecvFile_init, concatPayloads]⟩
  · have h1 : s0 ≠ sn := fun h1 => hl ((hlast s0 (List.mem_cons_self _ _)).mpr h1)
    have hl2 : hasFlag s0.hdr.m_Flags FLAG_LAST = false := by simpa using hl
    simp only [hl2, Bool.false_eq_true, if_false]
    cases tl with
    | nil => exact absurd (hlastiff.mpr rfl) h1
    | cons r1 rest2 =>
      have hn : (s0 :: r1 :: rest2).Nodup := List.Nodup.of_map _ hnd
      refine Or.inl ⟨[s0], r1, rest2, ⟨rfl, rfl, rfl, ?_, ?_, ?_, ?_, ?_, ?_, ?_⟩, ?_⟩
      · simp [RecvFile_init, concatPayloads]
      · intro q hq; exact hq
      · exact ((split_next_seq _ hch hlen [] rest2 s0 r1 rfl).2).symm
      · intro e he; simp [RecvFile_init] at he
      · intro q hq hqA
        exfalso
        have : q = s0 := by simpa using hqA
        exact (List.nodup_cons.mp hn).1 (this ▸ hq)
      · show false = true ↔ sn ∈ [s0]
        simp; exact fun h2 => h1 h2.symm
      · intro h2; exact absurd h2 (by simp [RecvFile_init])
      · intro h2
        have : r1 = s0 := by simpa using h2
        exact (List.nodup_cons.mp hn).1 (this ▸ List.mem_cons_self _ _)

/-- C1 (RecvFile reassembly). Let `s0 :: tl` be the segments of a file, with pairwise distinct
sequence numbers, each segment following its predecessor (`seq' = (seq + len) mod 30720`),
header length = 8 + payload size, `s0` flagged FIRST and the final segment `sn` the one
flagged LAST. For every arrival order in which `s0` comes first and every segment is delivered
as DATA exactly once (`arr` is a permutation of `tl`), RecvFile reaches `close` and the bytes
written are exactly the payloads in file order. -/
theorem C1_RecvFile_reassembles (e0 l0 : Nat) (s0 sn : RdtPacket) (tl arr : List RdtPacket)
    (hnd : ((s0 :: tl).map seqOf).Nodup) (hch : Consecutive (s0 :: tl))
    (hlen : LenMatches (s0 :: tl))
    (hfirst : hasFlag s0.hdr.m_Flags FLAG_FIRST = true)
    (hsn : (s0 :: tl).getLast? = some sn)
    (hlast : ∀ p ∈ s0 :: tl, hasFlag p.hdr.m_Flags FLAG_LAST = true ↔ p = sn)
    (hperm : arr.Perm tl) :
    (RecvFile_run (RecvFile_init e0 l0) (s0 :: arr)).closed = true ∧
    (RecvFile_run (RecvFile_init e0 l0) (s0 :: arr)).outFile = concatPayloads (s0 :: tl) := by
  have hn : (s0 :: tl).Nodup := List.Nodup.of_map _ hnd
  have hn2 := List.nodup_cons.mp hn
  have h1 := first_complete e0 l0 s0 sn tl hnd hch hlen hfirst hsn hlast
  have h2 := run_complete (s0 :: tl) sn hnd hch hlen hsn hlast arr [s0] _
    (hperm.nodup_iff.mpr hn2.2) (by
      intro p hp
      have hpt : p ∈ tl := hperm.mem_iff.mp hp
      refine ⟨List.mem_cons_of_mem _ hpt, ?_⟩
      intro h3
      have : p = s0 := by simpa using h3
      exact hn2.1 (this ▸ hpt)) h1
  have hrun : RecvFile_run (RecvFile_init e0 l0) (s0 :: arr) =
      RecvFile_run (RecvFile_onData (RecvFile_init e0 l0) s0) arr := rfl
  rw [hrun]
  rcases h2 with ⟨done, r0, rest, h, hr0⟩ | h
  · exfalso
    apply hr0
    have : r0 ∈ s0 :: tl := by rw [h.split]; simp
    rcases List.mem_cons.mp this with h3 | h3
    · simp [h3]
    · have := hperm.mem_iff.mpr h3
      simp [this]
  · exact h

theorem C1_RecvFile_reassembles_witness :
    (RecvFile_run (RecvFile_init 7 9)
      (scen3Pkt 30700 10 FLAG_FIRST [1, 2] ::
        [scen3Pkt 0 10 FLAG_LAST [5, 6], scen3Pkt 30710 10 0 [3, 4]])).outFile
      = concatPayloads
        (scen3Pkt 30700 10 FLAG_FIRST [1, 2] ::
          [scen3Pkt 30710 10 0 [3, 4], scen3Pkt 0 10 FLAG_LAST [5, 6]]) :=
  (C1_RecvFile_reassembles 7 9 (scen3Pkt 30700 10 FLAG_FIRST [1, 2])
    (scen3Pkt 0 10 FLAG_LAST [5, 6])
    [scen3Pkt 30710 10 0 [3, 4], scen3Pkt 0 10 FLAG_LAST [5, 6]]
    [scen3Pkt 0 10 FLAG_LAST [5, 6], scen3Pkt 30710 10 0 [3, 4]]
    (by decide) (by decide) (by decide) (by decide) (by decide) (by decide)
    (List.Perm.swap _ _ _)).2

theorem drain_fuel_enough : ∀ (fuel : Nat) (s : RecvFileState), s.seqToStr.length ≤ fuel →
    (RecvFile_drain fuel s).closed = true ∨
      mapFind (RecvFile_drain fuel s).seqToStr (RecvFile_drain fuel s).expectedSeq = none := by
  intro fuel
  induction fuel with
  | zero =>
    intro s h
    exact Or.inr (mapFind_nil_of_length _ _ (Nat.le_zero.mp h))
  | succ n ih =>
    intro s h
    cases hf : mapFind s.seqToStr s.expectedSeq with
    | none => rw [drain_none _ _ hf]; exact Or.inr hf
    | some str =>
      rw [drain_some _ _ _ hf]
      split
      · exact Or.inl rfl
      · apply ih
        have := length_mapErase_lt _ _ _ hf
        show (mapErase s.seqToStr s.expectedSeq).length ≤ n
        omega

/-! ## Scenario 3 -/

theorem scen3_out_of_order (e0 l0 : Nat) (a b c : List Nat) :
    (RecvFile_run (RecvFile_init e0 l0)
      [scen3Pkt 508 408 0 b, scen3Pkt 100 408 FLAG_FIRST a, scen3Pkt 916 208 FLAG_LAST c]) =
    { outFile := a.take 400, seqToStr := [(916, c.take 200), (508, b.take 400)],
      expectedSeq := 508, bReceivedFirst := true, bReceivedLast := true, lastSeq := 916,
      closed := false } := by
  simp [RecvFile_run, RecvFile_onData, RecvFile_init, scen3Pkt, hasFlag_FIRST_FIRST,
    hasFlag_FIRST_LAST, hasFlag_LAST_FIRST, hasFlag_LAST_LAST, hasFlag_zero,
    pktStr, sizeofRdtHeader, RDT_MAX_SEQNUM, mapInsert, mapErase]

theorem scen3_in_order (e0 l0 : Nat) (a b c : List Nat) :
    (RecvFile_run (RecvFile_init e0 l0) [scen3Pkt 100 408 FLAG_FIRST a]).expectedSeq = 508
    ∧ (RecvFile_run (RecvFile_init e0 l0)
        [scen3Pkt 100 408 FLAG_FIRST a, scen3Pkt 508 408 0 b]).expectedSeq = 916
    ∧ (RecvFile_run (RecvFile_init e0 l0)
        [scen3Pkt 100 408 FLAG_FIRST a, scen3Pkt 508 408 0 b,
          scen3Pkt 916 208 FLAG_LAST c]).expectedSeq = 1124 := by
  simp [RecvFile_run, RecvFile_onData, RecvFile_init, scen3Pkt, hasFlag_FIRST_FIRST,
    hasFlag_FIRST_LAST, hasFlag_LAST_FIRST, hasFlag_LAST_LAST, hasFlag_zero,
    pktStr, sizeofRdtHeader, RDT_MAX_SEQNUM, mapInsert, mapErase, RecvFile_drain, mapFind]

/-- C2 (scenario 3, out-of-order reassembly), evaluated on the code: when B (seq 508) is
delivered before A (FIRST, seq 100) and then C (LAST, seq 916), whatever the payload bytes,
RecvFile has not reached `close` after the three deliveries and has written the payload of A
only; B and C stay in the hold-back map and `expectedSeq` stays at 508. -/
theorem C2_scenario3_B_A_C_stalls (e0 l0 : Nat) (a b c : List Nat) :
    (RecvFile_run (RecvFile_init e0 l0)
      [scen3Pkt 508 408 0 b, scen3Pkt 100 408 FLAG_FIRST a,
        scen3Pkt 916 208 FLAG_LAST c]).closed = false ∧
    (RecvFile_run (RecvFile_init e0 l0)
      [scen3Pkt 508 408 0 b, scen3Pkt 100 408 FLAG_FIRST a,
        scen3Pkt 916 208 FLAG_LAST c]).outFile = a.take 400 ∧
    (RecvFile_run (RecvFile_init e0 l0)
      [scen3Pkt 508 408 0 b, scen3Pkt 100 408 FLAG_FIRST a,
        scen3Pkt 916 208 FLAG_LAST c]).seqToStr = [(916, c.take 200), (508, b.take 400)] := by
  rw [scen3_out_of_order]
  exact ⟨rfl, rfl, rfl⟩

/-- C3 (scenario 3 sequence values), as amended: consuming A (seq 100, len 408), B (seq 508,
len 408) and C (LAST, seq 916, len 208) in sequence order, `expectedSeq` is 508 after A, 916
after B and 1124 = 916 + 208 after C. -/
theorem C3_scenario3_expected_seq (e0 l0 : Nat) (a b c : List Nat) :
    (RecvFile_run (RecvFile_init e0 l0) [scen3Pkt 100 408 FLAG_FIRST a]).expectedSeq = 508
    ∧ (RecvFile_run (RecvFile_init e0 l0)
        [scen3Pkt 100 408 FLAG_FIRST a, scen3Pkt 508 408 0 b]).expectedSeq = 916
    ∧ (RecvFile_run (RecvFile_init e0 l0)
        [scen3Pkt 100 408 FLAG_FIRST a, scen3Pkt 508 408 0 b,
          scen3Pkt 916 208 FLAG_LAST c]).expectedSeq = 1124 :=
  scen3_in_order e0 l0 a b c

/-- C3, as stated, fails: after A, B and C have been consumed in order `expectedSeq` is not
1116. -/
theorem C3_scenario3_expected_seq_counterexample :
    (RecvFile_run (RecvFile_init 0 0) [scen3A, scen3B, scen3C]).expectedSeq ≠ 1116 := by
  have h := (scen3_in_order 0 0 (List.replicate 400 65) (List.replicate 400 66)
    (List.replicate 200 67)).2.2
  show (RecvFile_run (RecvFile_init 0 0)
    [scen3Pkt 100 408 FLAG_FIRST (List.replicate 400 65),
      scen3Pkt 508 408 0 (List.replicate 400 66),
      scen3Pkt 916 208 FLAG_LAST (List.replicate 200 67)]).expectedSeq ≠ 1116
  rw [h]
  decide

/-! ## Lemmas: pointer chains -/

theorem IsSeg_append (slots : List UnackedPacket) :
    ∀ (a b : List Nat) (st en : Option Nat),
      IsSeg slots (a ++ b) st en ↔ ∃ mid, IsSeg slots a st mid ∧ IsSeg slots b mid en
  | [], b, st, en => by
    simp only [List.nil_append, IsSeg]
    constructor
    · intro h; exact ⟨st, rfl, h⟩
    · rintro ⟨mid, h1, h2⟩; rw [h1]; exact h2
  | j :: a, b, st, en => by
    simp only [List.cons_append, IsSeg]
    constructor
    · rintro ⟨h1, u, hu, h2⟩
      obtain ⟨mid, h3, h4⟩ := (IsSeg_append slots a b _ _).mp h2
      exact ⟨mid, ⟨h1, u, hu, h3⟩, h4⟩
    · rintro ⟨mid, ⟨h1, u, hu, h3⟩, h4⟩
      exact ⟨h1, u, hu, (IsSeg_append slots a b _ _).mpr ⟨mid, h3, h4⟩⟩

theorem IsSeg_congr (slots slots1 : List UnackedPacket) :
    ∀ (ch : List Nat) (st en : Option Nat),
      (∀ j ∈ ch, ∀ u, slots[j]? = some u → ∃ u1, slots1[j]? = some u1 ∧ u1.m_pNext = u.m_pNext) →
      IsSeg slots ch st en → IsSeg slots1 ch st en
  | [], _, _, _, h => h
  | j :: rest, st, en, hc, h => by
    obtain ⟨h1, u, hu, h2⟩ := h
    obtain ⟨u1, hu1, hn⟩ := hc j (List.mem_cons_self _ _) u hu
    refine ⟨h1, u1, hu1, ?_⟩
    rw [hn]
    exact IsSeg_congr slots slots1 rest _ _
      (fun k hk => hc k (List.mem_cons_of_mem _ hk)) h2

theorem IsSeg_mem (slots : List UnackedPacket) :
    ∀ (ch : List Nat) (st en : Option Nat), IsSeg slots ch st en →
      ∀ j ∈ ch, ∃ u, slots[j]? = some u
  | [], _, _, _, j, hj => by simp at hj
  | k :: rest, st, en, h, j, hj => by
    obtain ⟨_, u, hu, h2⟩ := h
    rcases List.mem_cons.mp hj with h3 | h3
    · exact ⟨u, h3 ▸ hu⟩
    · exact IsSeg_mem slots rest _ _ h2 j h3

theorem IsSeg_none_start (slots : List UnackedPacket) (ch : List Nat) (en : Option Nat)
    (h : IsSeg slots ch none en) : ch = [] := by
  cases ch with
  | nil => rfl
  | cons j rest => exact Option.noConfusion h.1

theorem IsSeg_some_start (slots : List UnackedPacket) (ch : List Nat) (e : Nat)
    (h : IsSeg slots ch (some e) none) :
    ∃ rest u, ch = e :: rest ∧ slots[e]? = some u ∧ IsSeg slots rest u.m_pNext none := by
  cases ch with
  | nil => exact Option.noConfusion h
  | cons j rest =>
    obtain ⟨h1, u, hu, h2⟩ := h
    have : e = j := Option.some.inj h1
    subst this
    exact ⟨rest, u, rfl, hu, h2⟩

theorem IsSeg_last_next (slots : List UnackedPacket) (mid : List Nat) (l : Nat)
    (st : Option Nat) (h : IsSeg slots (mid ++ [l]) st none) :
    IsSeg slots mid st (some l) ∧ ∃ u, slots[l]? = some u ∧ u.m_pNext = none := by
  obtain ⟨m, h1, h2⟩ := (IsSeg_append slots mid [l] st none).mp h
  obtain ⟨h3, u, hu, h4⟩ := h2
  subst h3
  exact ⟨h1, u, hu, h4⟩

theorem chain_length_le (slots : List UnackedPacket) (ch : List Nat) (st en : Option Nat)
    (h : IsSeg slots ch st en) (hn : ch.Nodup) : ch.length ≤ slots.length := by
  have hsub : ch ⊆ List.range slots.length := by
    intro j hj
    obtain ⟨u, hu⟩ := IsSeg_mem slots ch st en h j hj
    have : j < slots.length := by
      by_contra hlt
      rw [List.getElem?_eq_none (Nat.le_of_not_lt hlt)] at hu
      exact Option.noConfusion hu
    exact List.mem_range.mpr this
  have := (List.subperm_of_subset hn hsub).length_le
  simpa using this

/-! ## Lemmas: the retransmit sweep -/

theorem RDT_RTO_CLK_pos : 0 < RDT_RTO_CLK := by decide

theorem Send_resend (s : Sys) (pkt : RdtPacket) (isSyn : Bool) :
    Send s pkt true isSyn = .ok (Send_transmit s pkt true) := by
  simp [Send]

theorem Send_untracked (s : Sys) (pkt : RdtPacket) (isSyn : Bool)
    (h : pkt.hdr.m_Flags = FLAG_ACK ∨ pkt.hdr.m_Flags = (FLAG_ACK ||| FLAG_FIN)) :
    Send s pkt false isSyn = .ok (Send_transmit s pkt false) := by
  rcases h with h | h <;> simp [Send, h]

theorem Resend_body_single (s : Sys) (e : Nat) (hwf : WF s.conn [e]) :
    ∃ s1 ue pkt, Resend_body s e = .ok s1 ∧
      s.conn.m_UnackedPackets.m_pData[e]? = some ue ∧ ue.m_pPacket = some pkt ∧
      s1 = { conn := { s.conn with
                m_UnackedPackets := { s.conn.m_UnackedPackets with
                  m_pData := s.conn.m_UnackedPackets.m_pData.set e
                    { ue with m_pPacket := some (Send_transmit s pkt true).2.1,
                              m_ResendTime := s.env.clock s.env.nClock + RDT_RTO_CLK } }
                m_EarliestTimeout := s.env.clock s.env.nClock + RDT_RTO_CLK },
             env := { s.env with nClock := s.env.nClock + 1,
                                 sent := (Send_transmit s pkt true).2.2.env.sent } } := by
  obtain ⟨he, ue, hue, hrest⟩ := hwf.core.chain
  have hlive := (hwf.core.live e ue hue).mpr (List.mem_cons_self _ _)
  obtain ⟨pkt, hpkt⟩ := Option.ne_none_iff_exists'.mp hlive
  have hlat : s.conn.m_pLatestPacket = some e := by rw [hwf.core.latest]; rfl
  have hlt : e < s.conn.m_UnackedPackets.m_pData.length := by
    by_contra hlt
    rw [List.getElem?_eq_none (Nat.le_of_not_lt hlt)] at hue
    exact Option.noConfusion hue
  refine ⟨_, ue, pkt, ?_, hue, hpkt, rfl⟩
  simp [Resend_body, hue, hpkt, Send_resend, Send_transmit, Sys.clockCall, Sys.setSlot, hlat,
    Sys.slot, he, hlt]

theorem eq_nil_or_snoc {α : Type} : ∀ l : List α, l = [] ∨ ∃ L b, l = L ++ [b]
  | [] => Or.inl rfl
  | a :: l => by
    rcases eq_nil_or_snoc l with h | ⟨L, b, h⟩
    · exact Or.inr ⟨[], a, by rw [h]; rfl⟩
    · exact Or.inr ⟨a :: L, b, by rw [h]; rfl⟩

theorem getElem?_lt {α : Type} (l : List α) (i : Nat) (a : α) (h : l[i]? = some a) :
    i < l.length := by
  by_contra hlt
  rw [List.getElem?_eq_none (Nat.le_of_not_lt hlt)] at h
  exact Option.noConfusion h

theorem Resend_body_multi (s : Sys) (e l : Nat) (mid : List Nat)
    (hwf : WF s.conn (e :: (mid ++ [l]))) :
    ∃ s1 ue pkt ul e2 u2, Resend_body s e = .ok s1 ∧
      s.conn.m_UnackedPackets.m_pData[e]? = some ue ∧ ue.m_pPacket = some pkt ∧
      s.conn.m_UnackedPackets.m_pData[l]? = some ul ∧ ue.m_pNext = some e2 ∧ e ≠ l ∧
      e2 ≠ e ∧
      (((s.conn.m_UnackedPackets.m_pData.set e
          { ue with m_pPacket := some (Send_transmit s pkt true).2.1,
                    m_ResendTime := s.env.clock s.env.nClock + RDT_RTO_CLK }).set l
          { ul with m_pNext := some e }).set e
          { ue with m_pPacket := some (Send_transmit s pkt true).2.1,
                    m_ResendTime := s.env.clock s.env.nClock + RDT_RTO_CLK,
                    m_pNext := none })[e2]? = some u2 ∧
      s1 = { conn := { s.conn with
                m_UnackedPackets := { s.conn.m_UnackedPackets with
                  m_pData := ((s.conn.m_UnackedPackets.m_pData.set e
                    { ue with m_pPacket := some (Send_transmit s pkt true).2.1,
                              m_ResendTime := s.env.clock s.env.nClock + RDT_RTO_CLK }).set l
                    { ul with m_pNext := some e }).set e
                    { ue with m_pPacket := some (Send_transmit s pkt true).2.1,
                              m_ResendTime := s.env.clock s.env.nClock + RDT_RTO_CLK,
                              m_pNext := none } }
                m_pLatestPacket := some e
                m_pEarliestPacket := some e2
                m_EarliestTimeout := u2.m_ResendTime },
             env := { s.env with nClock := s.env.nClock + 1,
                                 sent := (Send_transmit s pkt true).2.2.env.sent } } := by
  obtain ⟨he, ue, hue, hrest⟩ := hwf.core.chain
  have hlive := (hwf.core.live e ue hue).mpr (List.mem_cons_self _ _)
  obtain ⟨pkt, hpkt⟩ := Option.ne_none_iff_exists'.mp hlive
  have hlat : s.conn.m_pLatestPacket = some l := by
    rw [hwf.core.latest, ← List.cons_append, List.getLast?_concat]
  have hlt : e < s.conn.m_UnackedPackets.m_pData.length := getElem?_lt _ _ _ hue
  obtain ⟨hmid, ul, hul, hulnext⟩ := IsSeg_last_next _ mid l _ hrest
  have hltl : l < s.conn.m_UnackedPackets.m_pData.length := getElem?_lt _ _ _ hul
  have hel : e ≠ l := by
    intro h
    have := (List.nodup_cons.mp hwf.core.nodup).1
    apply this; rw [h]; simp
  obtain ⟨e2, he2, he2mem⟩ : ∃ e2, ue.m_pNext = some e2 ∧ e2 ∈ mid ++ [l] := by
    cases mid with
    | nil => exact ⟨l, hrest.1, by simp⟩
    | cons m mid1 => exact ⟨m, hrest.1, by simp⟩
  have he2e : e2 ≠ e := by
    intro h
    exact (List.nodup_cons.mp hwf.core.nodup).1 (h ▸ he2mem)
  obtain ⟨u2o, hu2o⟩ := IsSeg_mem _ _ _ _ hrest e2 he2mem
  have hlt2 : e2 < s.conn.m_UnackedPackets.m_pData.length := getElem?_lt _ _ _ hu2o
  have hfin : ∃ u2, (((s.conn.m_UnackedPackets.m_pData.set e
          { ue with m_pPacket := some (Send_transmit s pkt true).2.1,
                    m_ResendTime := s.env.clock s.env.nClock + RDT_RTO_CLK }).set l
          { ul with m_pNext := some e }).set e
          { ue with m_pPacket := some (Send_transmit s pkt true).2.1,
                    m_ResendTime := s.env.clock s.env.nClock + RDT_RTO_CLK,
                    m_pNext := none })[e2]? = some u2 := by
    apply Option.isSome_iff_exists.mp
    rw [List.getElem?_eq_getElem (by simpa using hlt2)]
    rfl
  obtain ⟨u2, hu2⟩ := hfin
  refine ⟨_, ue, pkt, ul, e2, u2, ?_, hue, hpkt, hul, he2, hel, he2e, hu2, rfl⟩
  have hne : ¬ (l = e) := fun h => hel h.symm
  have hul1 : s.conn.m_UnackedPackets.m_pData[l] = ul := by
    obtain ⟨_, h⟩ := List.getElem?_eq_some.mp hul
    exact h
  simp [Resend_body, hue, hpkt, Send_resend, Send_transmit, Sys.clockCall, Sys.setSlot, hlat,
    Sys.slot, hlt, hltl, hel, hne, hul, hul1, he2, List.getElem?_set_ne hel.symm] at hu2 ⊢
  rw [hu2]

theorem SameOutsideChain_refl (c : RdtConnection) : SameOutsideChain c c := by
  unfold SameOutsideChain; rfl

theorem SameOutsideChain_trans {c c1 c2 : RdtConnection} (h1 : SameOutsideChain c c1)
    (h2 : SameOutsideChain c1 c2) : SameOutsideChain c c2 := by
  unfold SameOutsideChain at *
  rw [h2, h1]

theorem WFcore_of_slots_update (c c1 : RdtConnection) (ch ch1 : List Nat) (hwf : WFcore c ch)
    (hsame : SameOutsideChain c c1)
    (hlen : c1.m_UnackedPackets.m_pData.length = c.m_UnackedPackets.m_pData.length)
    (hchain : IsSeg c1.m_UnackedPackets.m_pData ch1 c1.m_pEarliestPacket none)
    (hnd : ch1.Nodup) (hlat : c1.m_pLatestPacket = ch1.getLast?)
    (hlive : ∀ (i : Nat) (u1 : UnackedPacket), c1.m_UnackedPackets.m_pData[i]? = some u1 →
      (u1.m_pPacket ≠ none ↔ i ∈ ch1)) :
    WFcore c1 ch1 := by
  have hsz : c1.m_UnackedPackets.m_Size = c.m_UnackedPackets.m_Size := by rw [hsame]
  have hr : c1.m_UnackedPackets.m_ReadIndex = c.m_UnackedPackets.m_ReadIndex := by rw [hsame]
  have hw : c1.m_UnackedPackets.m_WriteIndex = c.m_UnackedPackets.m_WriteIndex := by rw [hsame]
  have hmap : c1.m_SeqToIndex = c.m_SeqToIndex := by rw [hsame]
  have hsyn : c1.m_SynIndex = c.m_SynIndex := by rw [hsame]
  refine ⟨?_, ?_, ?_, hchain, hnd, hlat, hlive, ?_, ?_⟩
  · rw [hlen, hsz]; exact hwf.size_eq
  · rw [hr, hsz]; exact hwf.read_lt
  · rw [hw, hsz]; exact hwf.write_lt
  · rw [hmap, hsz]; exact hwf.map_valid
  · rw [hsyn, hsz]; exact hwf.syn_valid

theorem WF_of_slots_update (c c1 : RdtConnection) (ch ch1 : List Nat) (hwf : WF c ch)
    (hsame : SameOutsideChain c c1)
    (hlen : c1.m_UnackedPackets.m_pData.length = c.m_UnackedPackets.m_pData.length)
    (hchain : IsSeg c1.m_UnackedPackets.m_pData ch1 c1.m_pEarliestPacket none)
    (hnd : ch1.Nodup) (hlat : c1.m_pLatestPacket = ch1.getLast?)
    (hmem : ∀ j, j ∈ ch1 ↔ j ∈ ch)
    (hlive : ∀ (i : Nat) (u1 : UnackedPacket), c1.m_UnackedPackets.m_pData[i]? = some u1 →
      ∃ u, c.m_UnackedPackets.m_pData[i]? = some u ∧ (u1.m_pPacket = none ↔ u.m_pPacket = none)) :
    WF c1 ch1 := by
  have hr : c1.m_UnackedPackets.m_ReadIndex = c.m_UnackedPackets.m_ReadIndex := by rw [hsame]
  have hw : c1.m_UnackedPackets.m_WriteIndex = c.m_UnackedPackets.m_WriteIndex := by rw [hsame]
  refine ⟨WFcore_of_slots_update c c1 ch ch1 hwf.core hsame hlen hchain hnd hlat ?_, ?_⟩
  · intro i u1 hu1
    obtain ⟨u, hu, hiff⟩ := hlive i u1 hu1
    rw [hmem, ← hwf.core.live i u hu, not_iff_not]
    exact hiff
  · intro h hp
    have hp0 : c.m_UnackedPackets.Peek = some h := by
      unfold CircularBuffer.Peek at hp ⊢
      rw [hr, hw] at hp; exact hp
    obtain ⟨u, p, hu, hp1⟩ := hwf.head_live h hp0
    have hlt : h < c1.m_UnackedPackets.m_pData.length := by
      rw [hlen]; exact getElem?_lt _ _ _ hu
    obtain ⟨u1, hu1⟩ : ∃ u1, c1.m_UnackedPackets.m_pData[h]? = some u1 :=
      ⟨_, List.getElem?_eq_getElem hlt⟩
    obtain ⟨u0, hu0, hiff⟩ := hlive h u1 hu1
    have : u0 = u := Option.some.inj (hu0.symm.trans hu)
    subst this
    have hne : u1.m_pPacket ≠ none := by
      intro hn
      have := hiff.mp hn
      rw [hp1] at this
      exact Option.noConfusion this
    obtain ⟨p1, hp1⟩ := Option.ne_none_iff_exists'.mp hne
    exact ⟨u1, p1, hu1, hp1⟩

theorem Resend_body_ok (s : Sys) (e : Nat) (rest : List Nat) (hwf : WF s.conn (e :: rest)) :
    ∃ s1 d, Resend_body s e = .ok s1 ∧ WF s1.conn (rest ++ [e]) ∧
      SameOutsideChain s.conn s1.conn ∧
      s1.env = { s.env with nClock := s.env.nClock + 1, sent := s.env.sent ++ [d] } ∧
      d.isResend = true ∧ Synced s1.conn ∧
      (∃ u, s1.conn.m_UnackedPackets.m_pData[e]? = some u ∧
        u.m_ResendTime = s.env.clock s.env.nClock + RDT_RTO_CLK) ∧
      (∀ j u, j ≠ e → s.conn.m_UnackedPackets.m_pData[j]? = some u →
        ∃ u1, s1.conn.m_UnackedPackets.m_pData[j]? = some u1 ∧
          u1.m_ResendTime = u.m_ResendTime) := by
  rcases eq_nil_or_snoc rest with hr | ⟨mid, l, hr⟩
  · subst hr
    obtain ⟨s1, ue, pkt, hres, hue, hpkt, hs1⟩ := Resend_body_single s e hwf
    have hlt : e < s.conn.m_UnackedPackets.m_pData.length := getElem?_lt _ _ _ hue
    have hnext : ue.m_pNext = none := by
      obtain ⟨_, u, hu, h2⟩ := hwf.core.chain
      have : u = ue := Option.some.inj (hu.symm.trans hue)
      subst this; exact h2
    obtain ⟨uE, huE⟩ : ∃ uE : UnackedPacket, uE =
        { m_ResendTime := s.env.clock s.env.nClock + RDT_RTO_CLK, m_pNext := ue.m_pNext,
          m_pPacket := some (Send_transmit s pkt true).2.1 } := ⟨_, rfl⟩
    have hdata : s1.conn.m_UnackedPackets.m_pData = s.conn.m_UnackedPackets.m_pData.set e uE := by
      rw [hs1, huE]
    have hgetE : s1.conn.m_UnackedPackets.m_pData[e]? = some uE := by
      rw [hdata]; exact List.getElem?_set_self hlt
    have hgetN : ∀ i, i ≠ e → s1.conn.m_UnackedPackets.m_pData[i]? =
        s.conn.m_UnackedPackets.m_pData[i]? := by
      intro i hi
      rw [hdata]; exact List.getElem?_set_ne (fun h => hi h.symm)
    have hearl : s1.conn.m_pEarliestPacket = some e := by rw [hs1]; exact hwf.core.chain.1
    have hsame : SameOutsideChain s.conn s1.conn := by
      rw [hs1]; unfold SameOutsideChain; rfl
    refine ⟨s1, Send_datagram s pkt true, hres, ?_, hsame, ?_, rfl, ?_, ?_, ?_⟩
    · apply WF_of_slots_update s.conn s1.conn [e] [e] hwf hsame
      · rw [hdata]; simp
      · exact ⟨hearl, uE, hgetE, by rw [huE]; exact hnext⟩
      · exact hwf.core.nodup
      · rw [hs1]; exact hwf.core.latest
      · intro j; rfl
      · intro i u1 hu1
        by_cases hi : i = e
        · subst hi
          have : u1 = uE := Option.some.inj (hu1.symm.trans hgetE)
          refine ⟨ue, hue, ?_⟩
          rw [this, huE, hpkt]; simp
        · rw [hgetN i hi] at hu1
          exact ⟨u1, hu1, Iff.rfl⟩
    · rw [hs1]; simp [Send_transmit]
    · intro h hh
      have : h = e := (Option.some.inj (hh.symm.trans hearl))
      subst this
      refine ⟨uE, hgetE, ?_⟩
      rw [hs1, huE]
    · exact ⟨uE, hgetE, by rw [huE]⟩
    · intro j u hj hu
      exact ⟨u, by rw [hgetN j hj]; exact hu, rfl⟩
  · subst hr
    obtain ⟨s1, ue, pkt, ul, e2, u2, hres, hue, hpkt, hul, he2, hel, he2e, hu2, hs1⟩ :=
      Resend_body_multi s e l mid hwf
    have hlt : e < s.conn.m_UnackedPackets.m_pData.length := getElem?_lt _ _ _ hue
    have hltl : l < s.conn.m_UnackedPackets.m_pData.length := getElem?_lt _ _ _ hul
    obtain ⟨uE0, huE0⟩ : ∃ uE0 : UnackedPacket, uE0 =
        { m_ResendTime := s.env.clock s.env.nClock + RDT_RTO_CLK, m_pNext := ue.m_pNext,
          m_pPacket := some (Send_transmit s pkt true).2.1 } := ⟨_, rfl⟩
    obtain ⟨uE, huE⟩ : ∃ uE : UnackedPacket, uE =
        { m_ResendTime := s.env.clock s.env.nClock + RDT_RTO_CLK, m_pNext := none,
          m_pPacket := some (Send_transmit s pkt true).2.1 } := ⟨_, rfl⟩
    obtain ⟨uL, huL⟩ : ∃ uL : UnackedPacket, uL =
        { m_ResendTime := ul.m_ResendTime, m_pNext := some e,
          m_pPacket := ul.m_pPacket } := ⟨_, rfl⟩
    have hdata : s1.conn.m_UnackedPackets.m_pData =
        ((s.conn.m_UnackedPackets.m_pData.set e uE0).set l uL).set e uE := by
      rw [hs1, huE0, huL, huE]
    have hgetE : s1.conn.m_UnackedPackets.m_pData[e]? = some uE := by
      rw [hdata]; exact List.getElem?_set_self (by simpa using hlt)
    have hgetL : s1.conn.m_UnackedPackets.m_pData[l]? = some uL := by
      rw [hdata, List.getElem?_set_ne hel]
      exact List.getElem?_set_self (by simpa using hltl)
    have hgetN : ∀ i, i ≠ e → i ≠ l → s1.conn.m_UnackedPackets.m_pData[i]? =
        s.conn.m_UnackedPackets.m_pData[i]? := by
      intro i hi hil
      rw [hdata, List.getElem?_set_ne (fun h => hi h.symm),
        List.getElem?_set_ne (fun h => hil h.symm), List.getElem?_set_ne (fun h => hi h.symm)]
    have hsame : SameOutsideChain s.conn s1.conn := by
      rw [hs1]; unfold SameOutsideChain; rfl
    obtain ⟨_, ue0, hue0, hrest⟩ := hwf.core.chain
    have : ue0 = ue := Option.some.inj (hue0.symm.trans hue)
    subst this
    obtain ⟨hmid, ul0, hul0, hulnext⟩ := IsSeg_last_next _ mid l _ hrest
    have hnd := List.nodup_cons.mp hwf.core.nodup
    have hnd2 := List.nodup_append.mp hnd.2
    have hearl : s1.conn.m_pEarliestPacket = ue0.m_pNext := by rw [hs1, he2]
    refine ⟨s1, Send_datagram s pkt true, hres, ?_, hsame, ?_, rfl, ?_, ?_, ?_⟩
    · apply WF_of_slots_update s.conn s1.conn (e :: (mid ++ [l])) ((mid ++ [l]) ++ [e]) hwf hsame
      · rw [hdata]; simp
      · rw [hearl]
        apply (IsSeg_append _ (mid ++ [l]) [e] _ _).mpr
        refine ⟨some e, ?_, rfl, uE, hgetE, by rw [huE]; rfl⟩
        apply (IsSeg_append _ mid [l] _ _).mpr
        refine ⟨some l, ?_, rfl, uL, hgetL, by rw [huL]; rfl⟩
        apply IsSeg_congr _ _ mid _ _ _ hmid
        intro j hj u hu
        have hje : j ≠ e := fun h => hnd.1 (h ▸ List.mem_append_left _ hj)
        have hjl : j ≠ l := by
          intro h
          exact hnd2.2.2 hj (by simp [h])
        exact ⟨u, by rw [hgetN j hje hjl]; exact hu, rfl⟩
      · exact List.nodup_append_comm.mp (by simpa using hwf.core.nodup)
      · rw [hs1, List.getLast?_concat]
      · intro j; simp; tauto
      · intro i u1 hu1
        by_cases hi : i = e
        · subst hi
          have : u1 = uE := Option.some.inj (hu1.symm.trans hgetE)
          refine ⟨ue0, hue, ?_⟩
          rw [this, huE, hpkt]; simp
        · by_cases hil : i = l
          · subst hil
            have : u1 = uL := Option.some.inj (hu1.symm.trans hgetL)
            refine ⟨ul, hul, ?_⟩
            rw [this, huL]
          · rw [hgetN i hi hil] at hu1
            exact ⟨u1, hu1, Iff.rfl⟩
    · rw [hs1]; simp [Send_transmit]
    · intro h hh
      have : h = e2 := by
        rw [hearl, he2] at hh
        exact (Option.some.inj hh).symm
      subst this
      refine ⟨u2, by rw [hs1]; exact hu2, ?_⟩
      rw [hs1]
    · exact ⟨uE, hgetE, by rw [huE]⟩
    · intro j u hj hu
      by_cases hjl : j = l
      · subst hjl
        refine ⟨uL, hgetL, ?_⟩
        have : u = ul := Option.some.inj (hu.symm.trans hul)
        rw [this, huL]
      · exact ⟨u, by rw [hgetN j hj hjl]; exact hu, rfl⟩

theorem EnvExtends_refl (e : Env) : EnvExtends e e [] :=
  ⟨rfl, rfl, Nat.le_refl _, by simp⟩

theorem EnvExtends_trans {e e1 e2 : Env} {x y : List SentDatagram} (h1 : EnvExtends e e1 x)
    (h2 : EnvExtends e1 e2 y) : EnvExtends e e2 (x ++ y) :=
  ⟨h2.1.trans h1.1, h2.2.1.trans h1.2.1, Nat.le_trans h1.2.2.1 h2.2.2.1,
    by rw [h2.2.2.2, h1.2.2.2, List.append_assoc]⟩

theorem head_not_fresh (c : RdtConnection) (t h : Nat) (fresh : List Nat)
    (hwf : WF c fresh) (hs : Synced c) (hf : FreshAfter c.m_UnackedPackets.m_pData t fresh)
    (he : c.m_pEarliestPacket = some h) : ¬ t ≥ c.m_EarliestTimeout := by
  have hc := hwf.core.chain
  rw [he] at hc
  obtain ⟨rest, u, hch, hu, _⟩ := IsSeg_some_start _ _ _ hc
  obtain ⟨u1, hu1, ht⟩ := hf h (by rw [hch]; simp)
  obtain ⟨u2, hu2, hto⟩ := hs h he
  have : u1 = u2 := Option.some.inj (hu1.symm.trans hu2)
  rw [hto, ← this]
  omega

theorem Resend_synced (t : Nat) :
    ∀ (fuel : Nat) (s : Sys) (old fresh : List Nat), WF s.conn (old ++ fresh) → Synced s.conn →
      FreshAfter s.conn.m_UnackedPackets.m_pData t fresh → old.length ≤ fuel →
      (∀ k, s.env.nClock ≤ k → t ≤ s.env.clock k) →
      ∃ s1 ch1 extra, Resend fuel s t = .ok s1 ∧ WF s1.conn ch1 ∧
        SameOutsideChain s.conn s1.conn ∧ EnvExtends s.env s1.env extra ∧
        (∀ d ∈ extra, d.isResend = true) := by
  intro fuel
  induction fuel with
  | zero =>
    intro s old fresh hwf hsync hfresh hlen hclk
    have hold : old = [] := List.eq_nil_of_length_eq_zero (Nat.le_zero.mp hlen)
    subst hold
    refine ⟨s, fresh, [], ?_, by simpa using hwf, SameOutsideChain_refl _, EnvExtends_refl _,
      by simp⟩
    unfold Resend
    cases he : s.conn.m_pEarliestPacket with
    | none => rfl
    | some h =>
      have := head_not_fresh s.conn t h fresh (by simpa using hwf) hsync hfresh he
      simp [this]
  | succ n ih =>
    intro s old fresh hwf hsync hfresh hlen hclk
    unfold Resend
    cases he : s.conn.m_pEarliestPacket with
    | none =>
      exact ⟨s, old ++ fresh, [], rfl, hwf, SameOutsideChain_refl _, EnvExtends_refl _, by simp⟩
    | some e =>
      by_cases hcond : t ≥ s.conn.m_EarliestTimeout
      · simp only [hcond, if_true]
        cases old with
        | nil =>
          exact absurd hcond
            (head_not_fresh s.conn t e fresh (by simpa using hwf) hsync hfresh he)
        | cons e0 old1 =>
          have hc := hwf.core.chain
          have he0 : e0 = e := by
            have := hc.1
            rw [he] at this
            exact (Option.some.inj this).symm
          subst he0
          have hwf1 : WF s.conn (e0 :: (old1 ++ fresh)) := by simpa using hwf
          obtain ⟨s1, d, hres, hwf2, hsame, henv, hd, hsync2, ⟨uE, huE, htime⟩, hother⟩ :=
            Resend_body_ok s e0 (old1 ++ fresh) hwf1
          rw [hres]
          have hnd := List.nodup_cons.mp hwf1.core.nodup
          have hfresh2 : FreshAfter s1.conn.m_UnackedPackets.m_pData t (fresh ++ [e0]) := by
            intro j hj
            rcases List.mem_append.mp hj with hj | hj
            · obtain ⟨u, hu, ht⟩ := hfresh j hj
              have hne : j ≠ e0 := fun h => hnd.1 (h ▸ List.mem_append_right _ hj)
              obtain ⟨u1, hu1, ht1⟩ := hother j u hne hu
              exact ⟨u1, hu1, by rw [ht1]; exact ht⟩
            · have : j = e0 := by simpa using hj
              subst this
              refine ⟨uE, huE, ?_⟩
              rw [htime]
              have := hclk s.env.nClock (Nat.le_refl _)
              have hp := RDT_RTO_CLK_pos
              omega
          have hclk2 : ∀ k, s1.env.nClock ≤ k → t ≤ s1.env.clock k := by
            intro k hk
            rw [henv] at hk ⊢
            exact hclk k (by simp at hk; omega)
          obtain ⟨s2, ch2, extra, hres2, hwf3, hsame2, henv2, hex⟩ :=
            ih s1 old1 (fresh ++ [e0]) (by simpa using hwf2) hsync2 hfresh2
              (by simp at hlen; omega) hclk2
          refine ⟨s2, ch2, [d] ++ extra, hres2, hwf3, SameOutsideChain_trans hsame hsame2, ?_, ?_⟩
          · apply EnvExtends_trans _ henv2
            rw [henv]
            exact ⟨rfl, rfl, by simp, rfl⟩
          · intro x hx
            rcases List.mem_append.mp hx with hx | hx
            · have : x = d := by simpa using hx
              rw [this]; exact hd
            · exact hex x hx
      · simp only [hcond, if_false]
        exact ⟨s, old ++ fresh, [], rfl, hwf, SameOutsideChain_refl _, EnvExtends_refl _,
          by simp⟩

theorem Resend_ok (t : Nat) (fuel : Nat) (s : Sys) (ch : List Nat) (hwf : WF s.conn ch)
    (hfuel : ch.length ≤ fuel) (hclk : ∀ k, s.env.nClock ≤ k → t ≤ s.env.clock k) :
    ∃ s1 ch1 extra, Resend fuel s t = .ok s1 ∧ WF s1.conn ch1 ∧
      SameOutsideChain s.conn s1.conn ∧ EnvExtends s.env s1.env extra ∧
      (∀ d ∈ extra, d.isResend = true) := by
  cases he : s.conn.m_pEarliestPacket with
  | none =>
    refine ⟨s, ch, [], ?_, hwf, SameOutsideChain_refl _, EnvExtends_refl _, by simp⟩
    cases fuel <;> simp [Resend, he]
  | some e =>
    by_cases hcond : t ≥ s.conn.m_EarliestTimeout
    · have hc := hwf.core.chain
      rw [he] at hc
      obtain ⟨rest, u, hch, hu, _⟩ := IsSeg_some_start _ _ _ hc
      subst hch
      cases fuel with
      | zero => simp at hfuel
      | succ n =>
        obtain ⟨s1, d, hres, hwf2, hsame, henv, hd, hsync2, ⟨uE, huE, htime⟩, hother⟩ :=
          Resend_body_ok s e rest hwf
        have hfresh2 : FreshAfter s1.conn.m_UnackedPackets.m_pData t [e] := by
          intro j hj
          have : j = e := by simpa using hj
          subst this
          refine ⟨uE, huE, ?_⟩
          rw [htime]
          have := hclk s.env.nClock (Nat.le_refl _)
          have hp := RDT_RTO_CLK_pos
          omega
        have hclk2 : ∀ k, s1.env.nClock ≤ k → t ≤ s1.env.clock k := by
          intro k hk
          rw [henv] at hk ⊢
          exact hclk k (by simp at hk; omega)
        obtain ⟨s2, ch2, extra, hres2, hwf3, hsame2, henv2, hex⟩ :=
          Resend_synced t n s1 rest [e] hwf2 hsync2 hfresh2 (by simp at hfuel; omega) hclk2
        refine ⟨s2, ch2, [d] ++ extra, ?_, hwf3, SameOutsideChain_trans hsame hsame2, ?_, ?_⟩
        · simp [Resend, he, hcond, hres, hres2]
        · apply EnvExtends_trans _ henv2
          rw [henv]
          exact ⟨rfl, rfl, by simp, rfl⟩
        · intro x hx
          rcases List.mem_append.mp hx with hx | hx
          · have : x = d := by simpa using hx
            rw [this]; exact hd
          · exact hex x hx
    · refine ⟨s, ch, [], ?_, hwf, SameOutsideChain_refl _, EnvExtends_refl _, by simp⟩
      cases fuel <;> simp [Resend, he, hcond]

/-! ## Lemmas: acknowledging a slot -/

theorem SameOutsideSender_refl (c : RdtConnection) : SameOutsideSender c c := by
  unfold SameOutsideSender; rfl

theorem SameOutsideSender_trans {c c1 c2 : RdtConnection} (h1 : SameOutsideSender c c1)
    (h2 : SameOutsideSender c1 c2) : SameOutsideSender c c2 := by
  unfold SameOutsideSender at *
  rw [h2, h1]

theorem SameOutsideChain.toSender {c c1 : RdtConnection} (h : SameOutsideChain c c1) :
    SameOutsideSender c c1 := by
  unfold SameOutsideChain at h
  unfold SameOutsideSender
  rw [h]

theorem popAcked_spec : ∀ (fuel : Nat) (b : CircularBuffer UnackedPacket),
    b.m_pData.length = b.m_Size → b.m_ReadIndex < b.m_Size → b.m_WriteIndex < b.m_Size →
    ringDist b < fuel →
    ∃ r1, Ack_popAcked fuel b = .ok { b with m_ReadIndex := r1 } ∧ r1 < b.m_Size ∧
      HeadLive { b with m_ReadIndex := r1 } := by
  intro fuel
  induction fuel with
  | zero => intro b _ _ _ h; exact absurd h (Nat.not_lt_zero _)
  | succ n ih =>
    intro b hlen hr hw hd
    unfold Ack_popAcked
    by_cases hrw : b.m_ReadIndex = b.m_WriteIndex
    · have hnone : b.Peek = none := by simp [CircularBuffer.Peek, hrw]
      refine ⟨b.m_ReadIndex, ?_, hr, ?_⟩
      · simp only [hnone]
      · intro h hp
        have h1 : b.Peek = some h := hp
        rw [hnone] at h1
        exact Option.noConfusion h1
    · have hpeek : b.Peek = some b.m_ReadIndex := by simp [CircularBuffer.Peek, hrw]
      obtain ⟨u, hu⟩ : ∃ u, b.m_pData[b.m_ReadIndex]? = some u :=
        ⟨_, List.getElem?_eq_getElem (by rw [hlen]; exact hr)⟩
      simp only [hpeek, hu]
      by_cases hdead : u.m_pPacket = none
      · simp only [hdead, if_true]
        have hpop : b.Pop = some (b.m_pData[b.m_ReadIndex]?,
            { b with m_ReadIndex := (b.m_ReadIndex + 1) % b.m_Size }) := by
          simp [CircularBuffer.Pop, hrw]
        simp only [hpop]
        have hr1 : (b.m_ReadIndex + 1) % b.m_Size < b.m_Size := Nat.mod_lt _ (by omega)
        have hd1 : ringDist { b with m_ReadIndex := (b.m_ReadIndex + 1) % b.m_Size } < n := by
          unfold ringDist at hd ⊢
          simp only []
          by_cases hlast : b.m_ReadIndex + 1 < b.m_Size
          · rw [Nat.mod_eq_of_lt hlast]
            split at hd <;> split <;> omega
          · have : b.m_ReadIndex + 1 = b.m_Size := by omega
            rw [this, Nat.mod_self]
            split at hd <;> split <;> omega
        obtain ⟨r1, hres, hr1lt, hlive⟩ :=
          ih { b with m_ReadIndex := (b.m_ReadIndex + 1) % b.m_Size } hlen hr1 hw hd1
        exact ⟨r1, hres, hr1lt, hlive⟩
      · simp only [hdead, if_false]
        refine ⟨b.m_ReadIndex, rfl, hr, ?_⟩
        intro h hp
        have : h = b.m_ReadIndex := by
          have h1 : b.Peek = some h := hp
          rw [hpeek] at h1
          exact (Option.some.inj h1).symm
        subst this
        obtain ⟨p, hp1⟩ := Option.ne_none_iff_exists'.mp hdead
        exact ⟨u, p, hu, hp1⟩

theorem ringDist_lt (b : CircularBuffer UnackedPacket) (hr : b.m_ReadIndex < b.m_Size)
    (hw : b.m_WriteIndex < b.m_Size) : ringDist b < b.m_Size + 1 := by
  unfold ringDist
  split <;> omega

theorem Ack_clear_spec (s : Sys) (i : Nat) (ch : List Nat) (hcore : WFcore s.conn ch)
    (hheads : ∀ h, s.conn.m_UnackedPackets.Peek = some h → h ≠ i →
      ∃ u p, s.conn.m_UnackedPackets.m_pData[h]? = some u ∧ u.m_pPacket = some p) :
    ∃ s1, Ack_clear s i = .ok s1 ∧ WF s1.conn ch ∧ SameOutsideSender s.conn s1.conn ∧
      s1.env = s.env ∧ s1.conn.m_UnackedPackets.m_Size = s.conn.m_UnackedPackets.m_Size := by
  have hpop : ∃ r1, (if s.conn.m_UnackedPackets.Peek = some i then
        Ack_popAcked (s.conn.m_UnackedPackets.m_Size + 1) s.conn.m_UnackedPackets
      else .ok s.conn.m_UnackedPackets) =
        .ok { s.conn.m_UnackedPackets with m_ReadIndex := r1 } ∧
      r1 < s.conn.m_UnackedPackets.m_Size ∧
      HeadLive { s.conn.m_UnackedPackets with m_ReadIndex := r1 } := by
    by_cases hp : s.conn.m_UnackedPackets.Peek = some i
    · simp only [hp, if_true]
      exact popAcked_spec _ _ hcore.size_eq hcore.read_lt hcore.write_lt
        (ringDist_lt _ hcore.read_lt hcore.write_lt)
    · simp only [hp, if_false]
      refine ⟨s.conn.m_UnackedPackets.m_ReadIndex, rfl, hcore.read_lt, ?_⟩
      intro h hh
      exact hheads h hh (fun h1 => hp (h1 ▸ hh))
  obtain ⟨r1, hres, hr1, hlive⟩ := hpop
  have hcore1 : ∀ m, WFcore { s.conn with
      m_UnackedPackets := { s.conn.m_UnackedPackets with m_ReadIndex := r1 },
      m_MinUnacked := m } ch :=
    fun m => ⟨hcore.size_eq, hr1, hcore.write_lt, hcore.chain, hcore.nodup, hcore.latest,
      hcore.live, hcore.map_valid, hcore.syn_valid⟩
  unfold Ack_clear
  simp only [hres]
  cases hpk : ({ s.conn.m_UnackedPackets with m_ReadIndex := r1 } :
      CircularBuffer UnackedPacket).Peek with
  | none =>
    refine ⟨_, rfl, ⟨hcore1 65535, hlive⟩, ?_, rfl, rfl⟩
    unfold SameOutsideSender; rfl
  | some h =>
    obtain ⟨u, p, hu, hp⟩ := hlive h hpk
    simp only [] at hu
    simp only [hu, hp]
    refine ⟨_, rfl, ⟨hcore1 _, hlive⟩, ?_, rfl, rfl⟩
    unfold SameOutsideSender; rfl

theorem IsSeg_start_head (slots : List UnackedPacket) (k : Nat) (rest : List Nat)
    (st en : Option Nat) (h : IsSeg slots (k :: rest) st en) : st = some k := h.1

theorem chainPrev_spec (slots : List UnackedPacket) (i j : Nat) :
    ∀ (a : List Nat) (k0 fuel : Nat), IsSeg slots (a ++ [j]) (some k0) (some i) →
      i ∉ a ++ [j] → (a ++ [j]).length ≤ fuel → chainPrev slots i fuel k0 = .ok j := by
  intro a
  induction a with
  | nil =>
    intro k0 fuel h _ hf
    obtain ⟨h1, u, hu, h2⟩ := h
    have hk : k0 = j := Option.some.inj h1
    subst hk
    cases fuel with
    | zero => simp at hf
    | succ n =>
      have h3 : u.m_pNext = some i := h2
      simp [chainPrev, hu, h3]
  | cons k a ih =>
    intro k0 fuel h hni hf
    obtain ⟨h1, u, hu, h2⟩ := h
    have hk : k0 = k := Option.some.inj h1
    subst hk
    cases fuel with
    | zero => simp at hf
    | succ n =>
      obtain ⟨k1, hk1, hk1mem⟩ : ∃ k1, u.m_pNext = some k1 ∧ k1 ∈ a ++ [j] := by
        cases a with
        | nil => exact ⟨j, h2.1, by simp⟩
        | cons m a1 => exact ⟨m, h2.1, by simp⟩
      have hne : k1 ≠ i := fun h3 => hni (List.mem_cons_of_mem _ (h3 ▸ hk1mem))
      rw [hk1] at h2
      have := ih k1 n h2 (fun h3 => hni (List.mem_cons_of_mem _ h3)) (by simp at hf ⊢; omega)
      simp [chainPrev, hu, hk1, hne, this]

theorem WFcore_of_sender_update (c c1 : RdtConnection) (ch ch1 : List Nat) (hwf : WFcore c ch)
    (hsame : SameOutsideSender c c1)
    (hsz : c1.m_UnackedPackets.m_Size = c.m_UnackedPackets.m_Size)
    (hr : c1.m_UnackedPackets.m_ReadIndex = c.m_UnackedPackets.m_ReadIndex)
    (hw : c1.m_UnackedPackets.m_WriteIndex = c.m_UnackedPackets.m_WriteIndex)
    (hlen : c1.m_UnackedPackets.m_pData.length = c.m_UnackedPackets.m_pData.length)
    (hchain : IsSeg c1.m_UnackedPackets.m_pData ch1 c1.m_pEarliestPacket none)
    (hnd : ch1.Nodup) (hlat : c1.m_pLatestPacket = ch1.getLast?)
    (hlive : ∀ (i : Nat) (u1 : UnackedPacket), c1.m_UnackedPackets.m_pData[i]? = some u1 →
      (u1.m_pPacket ≠ none ↔ i ∈ ch1)) :
    WFcore c1 ch1 := by
  have hmap : c1.m_SeqToIndex = c.m_SeqToIndex := by rw [hsame]
  have hsyn : c1.m_SynIndex = c.m_SynIndex := by rw [hsame]
  refine ⟨?_, ?_, ?_, hchain, hnd, hlat, hlive, ?_, ?_⟩
  · rw [hlen, hsz]; exact hwf.size_eq
  · rw [hr, hsz]; exact hwf.read_lt
  · rw [hw, hsz]; exact hwf.write_lt
  · rw [hmap, hsz]; exact hwf.map_valid
  · rw [hsyn, hsz]; exact hwf.syn_valid

/-- What the acknowledged slot `i` looks like between the unlinking and the label `clear`. -/
theorem Ack_mid_ok (s s3 : Sys) (i : Nat) (ch ch1 : List Nat) (hwf : WF s.conn ch)
    (hsame : SameOutsideSender s.conn s3.conn) (henv : s3.env = s.env)
    (hbuf : ∃ d, s3.conn.m_UnackedPackets = { s.conn.m_UnackedPackets with m_pData := d })
    (hlen : s3.conn.m_UnackedPackets.m_pData.length = s.conn.m_UnackedPackets.m_pData.length)
    (hchain : IsSeg s3.conn.m_UnackedPackets.m_pData ch1 s3.conn.m_pEarliestPacket none)
    (hlat : s3.conn.m_pLatestPacket = ch1.getLast?)
    (hnd : ch1.Nodup) (hmem : ∀ k, k ∈ ch1 ↔ (k ∈ ch ∧ k ≠ i))
    (hdead : ∃ u, s3.conn.m_UnackedPackets.m_pData[i]? = some u ∧ u.m_pPacket = none)
    (hother : ∀ k, k ≠ i → ∀ u1, s3.conn.m_UnackedPackets.m_pData[k]? = some u1 →
      ∃ u, s.conn.m_UnackedPackets.m_pData[k]? = some u ∧ u1.m_pPacket = u.m_pPacket) :
    ∃ s1, Ack_clear s3 i = .ok s1 ∧ WF s1.conn ch1 ∧ SameOutsideSender s.conn s1.conn ∧
      s1.env = s.env ∧ s1.conn.m_UnackedPackets.m_Size = s.conn.m_UnackedPackets.m_Size := by
  obtain ⟨d, hd⟩ := hbuf
  have hsz : s3.conn.m_UnackedPackets.m_Size = s.conn.m_UnackedPackets.m_Size := by rw [hd]
  have hr : s3.conn.m_UnackedPackets.m_ReadIndex = s.conn.m_UnackedPackets.m_ReadIndex := by
    rw [hd]
  have hw : s3.conn.m_UnackedPackets.m_WriteIndex = s.conn.m_UnackedPackets.m_WriteIndex := by
    rw [hd]
  have hcore : WFcore s3.conn ch1 := by
    apply WFcore_of_sender_update s.conn s3.conn ch ch1 hwf.core hsame hsz hr hw hlen hchain
      hnd hlat
    intro k u1 hu1
    by_cases hk : k = i
    · subst hk
      obtain ⟨u, hu, hun⟩ := hdead
      have : u1 = u := Option.some.inj (hu1.symm.trans hu)
      rw [this, hun, hmem]
      simp
    · obtain ⟨u, hu, hp⟩ := hother k hk u1 hu1
      rw [hp, hwf.core.live k u hu, hmem]
      simp [hk]
  have hheads : ∀ h, s3.conn.m_UnackedPackets.Peek = some h → h ≠ i →
      ∃ u p, s3.conn.m_UnackedPackets.m_pData[h]? = some u ∧ u.m_pPacket = some p := by
    intro h hp hne
    have hp0 : s.conn.m_UnackedPackets.Peek = some h := by
      unfold CircularBuffer.Peek at hp ⊢
      rw [hr, hw] at hp; exact hp
    obtain ⟨u, p, hu, hp1⟩ := hwf.head_live h hp0
    have hlt : h < s3.conn.m_UnackedPackets.m_pData.length := by
      rw [hlen]; exact getElem?_lt _ _ _ hu
    obtain ⟨u1, hu1⟩ : ∃ u1, s3.conn.m_UnackedPackets.m_pData[h]? = some u1 :=
      ⟨_, List.getElem?_eq_getElem hlt⟩
    obtain ⟨u0, hu0, hpe⟩ := hother h hne u1 hu1
    have : u0 = u := Option.some.inj (hu0.symm.trans hu)
    subst this
    exact ⟨u1, p, hu1, by rw [hpe, hp1]⟩
  obtain ⟨s1, hres, hwf1, hsame1, henv1, hsz1⟩ := Ack_clear_spec s3 i ch1 hcore hheads
  exact ⟨s1, hres, hwf1, SameOutsideSender_trans hsame hsame1, henv1.trans henv, hsz1.trans hsz⟩

theorem getLast?_append_cons {α : Type} (l : List α) (x : α) (xs : List α) :
    (l ++ x :: xs).getLast? = (x :: xs).getLast? := by
  rw [List.getLast?_append, List.getLast?_cons]; rfl

theorem Ack_ok (s : Sys) (i : Nat) (ch : List Nat) (hwf : WF s.conn ch)
    (hi : i < s.conn.m_UnackedPackets.m_Size) :
    ∃ s1 ch1, Ack s (some i) = .ok s1 ∧ WF s1.conn ch1 ∧ SameOutsideSender s.conn s1.conn ∧
      s1.env = s.env ∧ s1.conn.m_UnackedPackets.m_Size = s.conn.m_UnackedPackets.m_Size := by
  have hlt : i < s.conn.m_UnackedPackets.m_pData.length := by rw [hwf.core.size_eq]; exact hi
  obtain ⟨ui, hui⟩ : ∃ ui, s.conn.m_UnackedPackets.m_pData[i]? = some ui :=
    ⟨_, List.getElem?_eq_getElem hlt⟩
  cases hpk : ui.m_pPacket with
  | none =>
    refine ⟨s, ch, ?_, hwf, SameOutsideSender_refl _, rfl, rfl⟩
    simp [Ack, hui, hpk]
  | some pkt =>
    have himem : i ∈ ch := (hwf.core.live i ui hui).mp (by rw [hpk]; simp)
    cases he : s.conn.m_pEarliestPacket with
    | none =>
      have hc := hwf.core.chain
      rw [he] at hc
      rw [IsSeg_none_start _ _ _ hc] at himem
      simp at himem
    | some e =>
      have hc := hwf.core.chain
      rw [he] at hc
      obtain ⟨rest, ue, hch, hue, hrest⟩ := IsSeg_some_start _ _ _ hc
      subst hch
      have hnd := List.nodup_cons.mp hwf.core.nodup
      by_cases hie : i = e
      · subst hie
        have : ue = ui := Option.some.inj (hue.symm.trans hui)
        subst this
        by_cases hil : some i = s.conn.m_pLatestPacket
        · -- the only entry of the chain
          have hrest0 : rest = [] := by
            cases rest with
            | nil => rfl
            | cons r rs =>
              exfalso
              have h1 : (i :: r :: rs).getLast? = some i := by rw [← hwf.core.latest]; exact hil.symm
              rw [List.getLast?_cons_cons] at h1
              exact hnd.1 (List.mem_of_getLast?_eq_some h1)
          subst hrest0
          obtain ⟨s3, hs3⟩ : ∃ s3 : Sys, s3 =
              { conn := { s.conn with
                  m_pEarliestPacket := none, m_pLatestPacket := none,
                  m_WndCurr := (s.conn.m_WndCurr + 65536 - pkt.hdr.m_MsgLen % 65536) % 65536,
                  m_UnackedPackets := { s.conn.m_UnackedPackets with
                    m_pData := s.conn.m_UnackedPackets.m_pData.set i
                      { m_ResendTime := ue.m_ResendTime, m_pNext := ue.m_pNext,
                        m_pPacket := none } } },
                env := s.env } := ⟨_, rfl⟩
          have heq : Ack s (some i) = Ack_clear s3 i := by
            rw [hs3]
            simp [Ack, hui, hpk, he, hil.symm, Sys.setSlot]
          rw [heq]
          have hdata : s3.conn.m_UnackedPackets.m_pData = s.conn.m_UnackedPackets.m_pData.set i
              { m_ResendTime := ue.m_ResendTime, m_pNext := ue.m_pNext, m_pPacket := none } := by
            rw [hs3]
          obtain ⟨s1, h1, h2, h3, h4, h5⟩ := Ack_mid_ok s s3 i [i] [] hwf
            (by rw [hs3]; unfold SameOutsideSender; rfl) (by rw [hs3])
            ⟨_, by rw [hs3]⟩ (by simp [hdata]) (by simp [hs3, IsSeg]) (by simp [hs3])
            List.nodup_nil (by intro k; simp)
            ⟨_, by rw [hdata]; exact List.getElem?_set_self hlt, rfl⟩
            (by
              intro k hk u1 hu1
              rw [hdata, List.getElem?_set_ne (fun h => hk h.symm)] at hu1
              exact ⟨u1, hu1, rfl⟩)
          exact ⟨s1, [], h1, h2, h3, h4, h5⟩
        · -- the head of a longer chain
          have hrestne : rest ≠ [] := by
            intro h0
            subst h0
            apply hil
            rw [hwf.core.latest]; rfl
          obtain ⟨s3, hs3⟩ : ∃ s3 : Sys, s3 =
              { conn := { s.conn with
                  m_pEarliestPacket := ue.m_pNext,
                  m_WndCurr := (s.conn.m_WndCurr + 65536 - pkt.hdr.m_MsgLen % 65536) % 65536,
                  m_UnackedPackets := { s.conn.m_UnackedPackets with
                    m_pData := s.conn.m_UnackedPackets.m_pData.set i
                      { m_ResendTime := ue.m_ResendTime, m_pNext := ue.m_pNext,
                        m_pPacket := none } } },
                env := s.env } := ⟨_, rfl⟩
          have heq : Ack s (some i) = Ack_clear s3 i := by
            rw [hs3]
            simp [Ack, hui, hpk, he, hil, Sys.setSlot]
          rw [heq]
          have hdata : s3.conn.m_UnackedPackets.m_pData = s.conn.m_UnackedPackets.m_pData.set i
              { m_ResendTime := ue.m_ResendTime, m_pNext := ue.m_pNext, m_pPacket := none } := by
            rw [hs3]
          have hearl : s3.conn.m_pEarliestPacket = ue.m_pNext := by rw [hs3]
          have hlat3 : s3.conn.m_pLatestPacket = s.conn.m_pLatestPacket := by rw [hs3]
          obtain ⟨s1, h1, h2, h3, h4, h5⟩ := Ack_mid_ok s s3 i (i :: rest) rest hwf
            (by rw [hs3]; unfold SameOutsideSender; rfl) (by rw [hs3])
            ⟨_, by rw [hs3]⟩ (by rw [hdata]; simp)
            (by
              rw [hearl]
              apply IsSeg_congr _ _ rest _ _ _ hrest
              intro j hj u hu
              have hji : j ≠ i := fun h => hnd.1 (h ▸ hj)
              exact ⟨u, by rw [hdata, List.getElem?_set_ne (fun h => hji h.symm)]; exact hu,
                rfl⟩)
            (by
              rw [hlat3, hwf.core.latest]
              cases rest with
              | nil => exact absurd rfl hrestne
              | cons r rs => exact List.getLast?_cons_cons)
            hnd.2
            (by
              intro k
              constructor
              · intro hk; exact ⟨List.mem_cons_of_mem _ hk, fun h => hnd.1 (h ▸ hk)⟩
              · rintro ⟨hk, hne⟩
                rcases List.mem_cons.mp hk with h | h
                · exact absurd h hne
                · exact h)
            ⟨_, by rw [hdata]; exact List.getElem?_set_self hlt, rfl⟩
            (by
              intro k hk u1 hu1
              rw [hdata, List.getElem?_set_ne (fun h => hk h.symm)] at hu1
              exact ⟨u1, hu1, rfl⟩)
          exact ⟨s1, rest, h1, h2, h3, h4, h5⟩
      · -- an entry further down the chain
        have hirest : i ∈ rest := by
          rcases List.mem_cons.mp himem with h | h
          · exact absurd h hie
          · exact h
        obtain ⟨pre0, post, hsplit⟩ := List.append_of_mem hirest
        have hsplit2 : e :: rest = (e :: pre0) ++ i :: post := by rw [hsplit]; rfl
        rcases eq_nil_or_snoc (e :: pre0) with h0 | ⟨a, j, haj⟩
        · exact absurd h0 (by simp)
        rw [haj] at hsplit2
        have hc2 := hwf.core.chain
        rw [hsplit2, he] at hc2
        obtain ⟨mid, hseg1, hseg2⟩ := (IsSeg_append _ (a ++ [j]) (i :: post) _ _).mp hc2
        have hmid : mid = some i := hseg2.1
        subst hmid
        obtain ⟨_, ui0, hui0, hpost⟩ := hseg2
        have : ui0 = ui := Option.some.inj (hui0.symm.trans hui)
        subst this
        have hnd3 : ((a ++ [j]) ++ i :: post).Nodup := by rw [← hsplit2]; exact hwf.core.nodup
        have hnd4 := List.nodup_append.mp hnd3
        have hnd5 := List.nodup_cons.mp hnd4.2.1
        have hni : i ∉ a ++ [j] := fun h => hnd4.2.2 h (List.mem_cons_self _ _)
        have hji : j ≠ i := fun h => hni (by simp [h])
        obtain ⟨haseg, uj, huj, hujnext⟩ :
            IsSeg s.conn.m_UnackedPackets.m_pData a (some e) (some j) ∧
            ∃ uj, s.conn.m_UnackedPackets.m_pData[j]? = some uj ∧ uj.m_pNext = some i := by
          obtain ⟨m, h1, h2⟩ := (IsSeg_append _ a [j] _ _).mp hseg1
          obtain ⟨h3, u, hu, h4⟩ := h2
          subst h3
          exact ⟨h1, u, hu, h4⟩
        have hltj : j < s.conn.m_UnackedPackets.m_pData.length := getElem?_lt _ _ _ huj
        have hprev : chainPrev s.conn.m_UnackedPackets.m_pData i
            s.conn.m_UnackedPackets.m_pData.length e = .ok j := by
          apply chainPrev_spec _ i j a e _ hseg1 hni
          exact chain_length_le _ _ _ _ hseg1 hnd4.1
        have hgetj : ∀ (x : UnackedPacket),
            (s.conn.m_UnackedPackets.m_pData.set j x)[i]? = some ui0 := by
          intro x
          rw [List.getElem?_set_ne hji]; exact hui
        obtain ⟨newLatest, hnl1, hnl2⟩ : ∃ nl : Option Nat,
            nl = (if some i = s.conn.m_pLatestPacket then some j else s.conn.m_pLatestPacket) ∧
            nl = ((a ++ [j]) ++ post).getLast? := by
          refine ⟨_, rfl, ?_⟩
          rw [hwf.core.latest, hsplit2]
          cases post with
          | nil =>
            have h1 : ((a ++ [j]) ++ [i]).getLast? = some i := List.getLast?_concat _
            have h2 : ((a ++ [j]) ++ []).getLast? = some j := by
              rw [List.append_nil]; exact List.getLast?_concat _
            rw [h1, h2]; simp
          | cons p ps =>
            have h1 : ((a ++ [j]) ++ i :: p :: ps).getLast? = (p :: ps).getLast? := by
              rw [getLast?_append_cons, List.getLast?_cons_cons]
            have h2 : ((a ++ [j]) ++ p :: ps).getLast? = (p :: ps).getLast? :=
              getLast?_append_cons _ _ _
            rw [h1, h2]
            have : some i ≠ (p :: ps).getLast? := by
              intro h3
              exact hnd5.1 (List.mem_of_getLast?_eq_some h3.symm)
            simp [this]
        obtain ⟨uJ, huJ⟩ : ∃ uJ : UnackedPacket, uJ =
            { m_ResendTime := uj.m_ResendTime, m_pNext := ui0.m_pNext,
              m_pPacket := uj.m_pPacket } := ⟨_, rfl⟩
        obtain ⟨uI, huI⟩ : ∃ uI : UnackedPacket, uI =
            { m_ResendTime := ui0.m_ResendTime, m_pNext := ui0.m_pNext,
              m_pPacket := none } := ⟨_, rfl⟩
        obtain ⟨s3, hs3⟩ : ∃ s3 : Sys, s3 =
            { conn := { s.conn with
                m_pLatestPacket := newLatest,
                m_WndCurr := (s.conn.m_WndCurr + 65536 - pkt.hdr.m_MsgLen % 65536) % 65536,
                m_UnackedPackets := { s.conn.m_UnackedPackets with
                  m_pData := (s.conn.m_UnackedPackets.m_pData.set j uJ).set i uI } },
              env := s.env } := ⟨_, rfl⟩
        have heq : Ack s (some i) = Ack_clear s3 i := by
          rw [hs3, hnl1, huJ, huI]
          by_cases hil : some i = s.conn.m_pLatestPacket
          · simp only [Ack, hui, hpk, he, hie, if_false, hprev, huj, Sys.setSlot, hgetj, hil,
              if_true]
          · simp only [Ack, hui, hpk, he, hie, if_false, hprev, huj, Sys.setSlot, hgetj, hil]
        rw [heq]
        have hdata : s3.conn.m_UnackedPackets.m_pData =
            (s.conn.m_UnackedPackets.m_pData.set j uJ).set i uI := by rw [hs3]
        have hget2 : ∀ k, k ≠ i → k ≠ j →
            s3.conn.m_UnackedPackets.m_pData[k]? = s.conn.m_UnackedPackets.m_pData[k]? := by
          intro k hki hkj
          rw [hdata, List.getElem?_set_ne (fun h => hki h.symm),
            List.getElem?_set_ne (fun h => hkj h.symm)]
        have hgetj2 : s3.conn.m_UnackedPackets.m_pData[j]? = some uJ := by
          rw [hdata, List.getElem?_set_ne (fun h => hji h.symm)]
          exact List.getElem?_set_self hltj
        have hgeti2 : s3.conn.m_UnackedPackets.m_pData[i]? = some uI := by
          rw [hdata]
          exact List.getElem?_set_self (by simpa using hlt)
        have hearl : s3.conn.m_pEarliestPacket = some e := by rw [hs3]; exact he
        obtain ⟨s1, h1, h2, h3, h4, h5⟩ := Ack_mid_ok s s3 i (e :: rest) ((a ++ [j]) ++ post) hwf
          (by rw [hs3]; unfold SameOutsideSender; rfl) (by rw [hs3]) ⟨_, by rw [hs3]⟩
          (by rw [hdata]; simp)
          (by
            rw [hearl]
            apply (IsSeg_append _ (a ++ [j]) post _ _).mpr
            refine ⟨ui0.m_pNext, ?_, ?_⟩
            · apply (IsSeg_append _ a [j] _ _).mpr
              refine ⟨some j, ?_, rfl, uJ, hgetj2, by rw [huJ]; rfl⟩
              apply IsSeg_congr _ _ a _ _ _ haseg
              intro k hk u hu
              have hki : k ≠ i := fun h => hni (h ▸ List.mem_append_left _ hk)
              have hkj : k ≠ j := by
                intro h
                exact (List.nodup_append.mp hnd4.1).2.2 hk (by simp [h])
              exact ⟨u, by rw [hget2 k hki hkj]; exact hu, rfl⟩
            · apply IsSeg_congr _ _ post _ _ _ hpost
              intro k hk u hu
              have hki : k ≠ i := fun h => hnd5.1 (h ▸ hk)
              have hkj : k ≠ j := by
                intro h
                exact hnd4.2.2 (show j ∈ a ++ [j] by simp) (List.mem_cons_of_mem _ (h ▸ hk))
              exact ⟨u, by rw [hget2 k hki hkj]; exact hu, rfl⟩)
          (by rw [hs3]; exact hnl2)
          (by
            have := hnd3
            rw [List.nodup_append] at this ⊢
            refine ⟨this.1, (List.nodup_cons.mp this.2.1).2, ?_⟩
            intro x hx1 hx2
            exact this.2.2 hx1 (List.mem_cons_of_mem _ hx2))
          (by
            intro k
            rw [hsplit2]
            constructor
            · intro h
              rcases List.mem_append.mp h with h | h
              · exact ⟨List.mem_append_left _ h, fun h1 => hni (h1 ▸ h)⟩
              · exact ⟨List.mem_append_right _ (List.mem_cons_of_mem _ h),
                  fun h1 => hnd5.1 (h1 ▸ h)⟩
            · rintro ⟨h, hne⟩
              rcases List.mem_append.mp h with h | h
              · exact List.mem_append_left _ h
              · rcases List.mem_cons.mp h with h | h
                · exact absurd h hne
                · exact List.mem_append_right _ h)
          ⟨uI, hgeti2, by rw [huI]⟩
          (by
            intro k hk u1 hu1
            by_cases hkj : k = j
            · subst hkj
              rw [hgetj2] at hu1
              exact ⟨uj, huj, by rw [← Option.some.inj hu1, huJ]⟩
            · rw [hget2 k hk hkj] at hu1
              exact ⟨u1, hu1, rfl⟩)
        exact ⟨s1, _, h1, h2, h3, h4, h5⟩

/-! ## Lemmas: Update -/

theorem any_beq_iff_mem (l : List Nat) (q : Nat) : l.any (fun a => a == q) = true ↔ q ∈ l := by
  induction l with
  | nil => simp
  | cons a l ih =>
    rw [List.any_cons, Bool.or_eq_true, ih, List.mem_cons, beq_iff_eq]
    constructor
    · rintro (h | h)
      · exact Or.inl h.symm
      · exact Or.inr h
    · rintro (h | h)
      · exact Or.inl h.symm
      · exact Or.inr h

theorem WF_congr (c c1 : RdtConnection) (ch : List Nat) (h : WF c ch)
    (h1 : c1.m_UnackedPackets = c.m_UnackedPackets)
    (h2 : c1.m_pEarliestPacket = c.m_pEarliestPacket)
    (h3 : c1.m_pLatestPacket = c.m_pLatestPacket)
    (h4 : ∀ e ∈ c1.m_SeqToIndex, e ∈ c.m_SeqToIndex)
    (h5 : c1.m_SynIndex = c.m_SynIndex ∨ c1.m_SynIndex = -1) : WF c1 ch := by
  refine ⟨⟨?_, ?_, ?_, ?_, h.core.nodup, ?_, ?_, ?_, ?_⟩, ?_⟩
  · rw [h1]; exact h.core.size_eq
  · rw [h1]; exact h.core.read_lt
  · rw [h1]; exact h.core.write_lt
  · rw [h1, h2]; exact h.core.chain
  · rw [h3]; exact h.core.latest
  · rw [h1]; exact h.core.live
  · intro e he; rw [h1]; exact h.core.map_valid e (h4 e he)
  · rcases h5 with h5 | h5
    · rw [h5, h1]; exact h.core.syn_valid
    · exact Or.inl h5
  · rw [h1]; exact h.head_live

theorem hasFlag_mkAck : (Update_mkAck pkt).hdr.m_Flags = FLAG_ACK := rfl

theorem Send_mkAck (s : Sys) (pkt : RdtPacket) :
    Send s (Update_mkAck pkt) false false = .ok (Send_transmit s (Update_mkAck pkt) false) :=
  Send_untracked s _ false (Or.inl rfl)

/-- The state after `Update` has sent the pure ACK for `pkt`. -/
theorem Update_onData_eq (s : Sys) (pkt : RdtPacket) :
    Update_onData s pkt = .ok
      (if hasFlag pkt.hdr.m_Flags FLAG_RQST then
        (EUR_RQST, some pkt, (Send_transmit s (Update_mkAck pkt) false).2.2)
      else if pkt.hdr.m_SeqNumber ∈ s.conn.m_ReceivedList then
        (0, some pkt,
          { conn := { s.conn with m_ReceivedList :=
                (Update_scanReceived s.conn.m_ReceivedList pkt.hdr.m_SeqNumber).2 },
            env := (Send_transmit s (Update_mkAck pkt) false).2.2.env })
      else
        (EUR_DATA, some pkt,
          { conn := { s.conn with m_ReceivedList :=
                (Update_scanReceived s.conn.m_ReceivedList pkt.hdr.m_SeqNumber).2 ++
                  [pkt.hdr.m_SeqNumber] },
            env := (Send_transmit s (Update_mkAck pkt) false).2.2.env })) := by
  unfold Update_onData
  rw [Send_mkAck]
  by_cases hr : hasFlag pkt.hdr.m_Flags FLAG_RQST = true
  · simp [hr]
  · by_cases hm : pkt.hdr.m_SeqNumber ∈ s.conn.m_ReceivedList
    · have := (any_beq_iff_mem s.conn.m_ReceivedList pkt.hdr.m_SeqNumber).mpr hm
      simp [hr, hm, Update_scanReceived, Send_transmit, this]
    · have : s.conn.m_ReceivedList.any (fun a => a == pkt.hdr.m_SeqNumber) = false := by
        rw [Bool.eq_false_iff]
        intro h
        exact hm ((any_beq_iff_mem _ _).mp h)
      simp [hr, hm, Update_scanReceived, Send_transmit, this]

theorem dispatch_data (s : Sys) (pkt : RdtPacket) (addr : sockaddr)
    (hd : isDataBearing pkt.hdr) (hp : s.conn.m_pAddr = some addr) :
    Update_dispatch s pkt addr = Update_onData s pkt := by
  obtain ⟨h1, h2, h3⟩ := hd
  have h4 : pkt.hdr.m_Flags ≠ (FLAG_ACK ||| FLAG_SYN) := by
    intro h
    rw [h] at h2
    exact absurd h2 (by decide)
  unfold Update_dispatch
  rw [if_neg h1, if_neg (fun h => h hp), if_neg h4, h2, if_neg (by decide), if_neg h3]

theorem specTag_data (flags : Nat) (l b : Bool)
    (h1 : flags ≠ FLAG_SYN) (h2 : hasFlag flags FLAG_ACK = false) (h3 : flags ≠ FLAG_FIN) :
    specTag flags l true b =
      if hasFlag flags FLAG_RQST then EUR_RQST else if b then 0 else EUR_DATA := by
  have h4 : flags ≠ (FLAG_SYN ||| FLAG_ACK) := by
    intro h
    rw [h] at h2
    exact absurd h2 (by decide)
  simp [specTag, h1, h2, h3, h4]

theorem subscript_of_lt (b : CircularBuffer UnackedPacket) (i : Nat) (h : i < b.m_Size) :
    b.subscript (i : Int) = some i := by
  unfold CircularBuffer.subscript
  have h1 : (0 : Int) ≤ (i : Int) := Int.ofNat_nonneg i
  have h2 : (i : Int) < (b.m_Size : Int) := Int.ofNat_lt.mpr h
  simp [h1, h2]

theorem subscript_of_range (b : CircularBuffer UnackedPacket) (x : Int) (h0 : 0 ≤ x)
    (h : x < (b.m_Size : Int)) : b.subscript x = some x.toNat ∧ x.toNat < b.m_Size := by
  unfold CircularBuffer.subscript
  refine ⟨by simp [h0, h], ?_⟩
  omega

theorem Update_onAck_ok (s : Sys) (seq : Nat) (ch : List Nat) (hwf : WF s.conn ch) :
    ∃ s1 ch1, Update_onAck s seq = .ok s1 ∧ WF s1.conn ch1 ∧ s1.env = s.env ∧
      s1.conn.m_pAddr = s.conn.m_pAddr ∧ s1.conn.m_IsListener = s.conn.m_IsListener ∧
      s1.conn.m_ReceivedList = s.conn.m_ReceivedList := by
  unfold Update_onAck
  cases hf : mapFind s.conn.m_SeqToIndex seq with
  | none => exact ⟨s, ch, rfl, hwf, rfl, rfl, rfl, rfl⟩
  | some idx =>
    have hmem := mapFind_some_mem _ _ _ hf
    have hlt : idx < s.conn.m_UnackedPackets.m_Size := hwf.core.map_valid _ hmem
    obtain ⟨s1, ch1, hres, hwf1, hsame, henv, hsz⟩ := Ack_ok s idx ch hwf hlt
    simp only [subscript_of_lt _ _ hlt, hres]
    refine ⟨_, ch1, rfl, ?_, henv, ?_, ?_, ?_⟩
    · exact WF_congr s1.conn _ ch1 hwf1 rfl rfl rfl
        (fun e he => ((mem_mapErase _ _ _).mp he).1) (Or.inl rfl)
    · show s1.conn.m_pAddr = _; rw [hsame]
    · show s1.conn.m_IsListener = _; rw [hsame]
    · show s1.conn.m_ReceivedList = _; rw [hsame]

theorem Update_dispatch_ok (s : Sys) (pkt : RdtPacket) (addr : sockaddr) (ch : List Nat)
    (hwf : WF s.conn ch) :
    ∃ r p s1 ch1, Update_dispatch s pkt addr = .ok (r, p, s1) ∧ WF s1.conn ch1 ∧
      r = specTag pkt.hdr.m_Flags s.conn.m_IsListener (decide (s.conn.m_pAddr = some addr))
        (decide (pkt.hdr.m_SeqNumber ∈ s.conn.m_ReceivedList)) ∧
      s1.env.clock = s.env.clock ∧ s1.conn.m_pAddr = s.conn.m_pAddr ∧
      s1.conn.m_IsListener = s.conn.m_IsListener ∧
      ((isDataBearing pkt.hdr ∧ s.conn.m_pAddr = some addr) ∨
        s1.conn.m_ReceivedList = s.conn.m_ReceivedList) := by
  by_cases h1 : pkt.hdr.m_Flags = FLAG_SYN
  · by_cases hl : s.conn.m_IsListener = true
    · unfold Update_dispatch
      rw [if_pos h1, if_pos hl]
      refine ⟨_, _, _, ch, rfl, ?_, by simp [specTag, h1, hl], rfl, rfl, rfl, Or.inr rfl⟩
      exact WF_congr s.conn _ ch hwf rfl rfl rfl (fun e he => he) (Or.inl rfl)
    · have hl2 : s.conn.m_IsListener = false := by simpa using hl
      exact ⟨EUR_DROPPED, some pkt, s, ch, by simp [Update_dispatch, h1, hl2], hwf,
        by simp [specTag, h1, hl2], rfl, rfl, rfl, Or.inr rfl⟩
  · by_cases hp : s.conn.m_pAddr = some addr
    · by_cases h2 : pkt.hdr.m_Flags = (FLAG_ACK ||| FLAG_SYN)
      · -- SYN|ACK
        have htag : EUR_SYNACK = specTag pkt.hdr.m_Flags s.conn.m_IsListener
            (decide (s.conn.m_pAddr = some addr))
            (decide (pkt.hdr.m_SeqNumber ∈ s.conn.m_ReceivedList)) := by
          rw [h2, hp]
          unfold specTag
          rw [if_neg (by decide)]
          simp only [decide_True, Bool.not_true, Bool.false_eq_true, if_false]
          rw [if_pos (by decide)]
        obtain ⟨s1, ch1, hacked, hwf1, henv1, haddr1, hlis1, hlist1⟩ :
            ∃ s1 ch1, (if s.conn.m_SynIndex ≠ -1 then
                match Ack s (s.conn.m_UnackedPackets.subscript s.conn.m_SynIndex) with
                | .error f => .error f
                | .ok s1 => .ok { s1 with conn := { s1.conn with m_SynIndex := -1 } }
              else (.ok s : Except Fault Sys)) = .ok s1 ∧ WF s1.conn ch1 ∧ s1.env = s.env ∧
              s1.conn.m_pAddr = s.conn.m_pAddr ∧ s1.conn.m_IsListener = s.conn.m_IsListener ∧
              s1.conn.m_ReceivedList = s.conn.m_ReceivedList := by
          by_cases hsyn : s.conn.m_SynIndex = -1
          · exact ⟨s, ch, by simp [hsyn], hwf, rfl, rfl, rfl, rfl⟩
          · rcases hwf.core.syn_valid with h | ⟨h0, hlt⟩
            · exact absurd h hsyn
            · obtain ⟨hsub, hlt2⟩ := subscript_of_range _ _ h0 hlt
              obtain ⟨s1, ch1, hres, hwf1, hsame, henv, hsz⟩ :=
                Ack_ok s s.conn.m_SynIndex.toNat ch hwf hlt2
              rw [if_pos hsyn, hsub, hres]
              refine ⟨_, ch1, rfl, ?_, henv, ?_, ?_, ?_⟩
              · exact WF_congr s1.conn _ ch1 hwf1 rfl rfl rfl (fun e he => he) (Or.inr rfl)
              · show s1.conn.m_pAddr = _; rw [hsame]
              · show s1.conn.m_IsListener = _; rw [hsame]
              · show s1.conn.m_ReceivedList = _; rw [hsame]
        refine ⟨EUR_SYNACK, some pkt, (Send_transmit s1 (Update_mkAck pkt) false).2.2, ch1, ?_,
          hwf1, htag, ?_, haddr1, hlis1, Or.inr hlist1⟩
        · unfold Update_dispatch
          rw [if_neg h1, if_neg (fun h => h hp), if_pos h2]
          simp only [hacked, Send_mkAck]
        · show s1.env.clock = _; rw [henv1]
      · by_cases h3 : hasFlag pkt.hdr.m_Flags FLAG_ACK = true
        · -- ACK, possibly with FIN
          obtain ⟨s1, ch1, hres, hwf1, henv1, haddr1, hlis1, hlist1⟩ :=
            Update_onAck_ok s pkt.hdr.m_SeqNumber ch hwf
          have h2b : pkt.hdr.m_Flags ≠ (FLAG_SYN ||| FLAG_ACK) := by
            intro h; apply h2; rw [h]; decide
          refine ⟨if hasFlag pkt.hdr.m_Flags FLAG_FIN then EUR_FINACK else EUR_ACK, some pkt, s1,
            ch1, ?_, hwf1, ?_, by rw [henv1], haddr1, hlis1, Or.inr hlist1⟩
          · unfold Update_dispatch
            rw [if_neg h1, if_neg (fun h => h hp), if_neg h2, if_pos h3]
            simp only [hres]
            split <;> rfl
          · simp [specTag, h1, hp, h2b, h3]
        · have h3b : hasFlag pkt.hdr.m_Flags FLAG_ACK = false := by simpa using h3
          have h2b : pkt.hdr.m_Flags ≠ (FLAG_SYN ||| FLAG_ACK) := by
            intro h; apply h2; rw [h]; decide
          by_cases h4 : pkt.hdr.m_Flags = FLAG_FIN
          · -- pure FIN
            have htag : EUR_FIN = specTag pkt.hdr.m_Flags s.conn.m_IsListener
                (decide (s.conn.m_pAddr = some addr))
                (decide (pkt.hdr.m_SeqNumber ∈ s.conn.m_ReceivedList)) := by
              rw [h4, hp]
              unfold specTag
              simp only [decide_True, Bool.not_true, Bool.false_eq_true, if_false]
              rw [if_neg (by decide), if_neg (by decide), if_neg (by decide)]
              simp
            unfold Update_dispatch
            rw [if_neg h1, if_neg (fun h => h hp), if_neg h2, if_neg h3, if_pos h4]
            dsimp only
            rw [Send_untracked _ _ false (Or.inr rfl)]
            refine ⟨EUR_FIN, _, _, ch, rfl, ?_, htag, rfl, rfl, rfl, Or.inr rfl⟩
            exact WF_congr s.conn _ ch hwf rfl rfl rfl (fun e he => he) (Or.inl rfl)
          · -- data-bearing
            have hd : isDataBearing pkt.hdr := ⟨h1, h3b, h4⟩
            have htag := specTag_data pkt.hdr.m_Flags s.conn.m_IsListener
                (decide (pkt.hdr.m_SeqNumber ∈ s.conn.m_ReceivedList)) h1 h3b h4
            rw [dispatch_data s pkt addr hd hp, Update_onData_eq]
            by_cases hr : hasFlag pkt.hdr.m_Flags FLAG_RQST = true
            · rw [if_pos hr]
              refine ⟨_, _, _, ch, rfl, hwf, ?_, rfl, rfl, rfl, Or.inl ⟨hd, hp⟩⟩
              simp only [hp, decide_True, htag, hr, if_true]
            · rw [if_neg hr]
              by_cases hm : pkt.hdr.m_SeqNumber ∈ s.conn.m_ReceivedList
              · rw [if_pos hm]
                refine ⟨_, _, _, ch, rfl, ?_, ?_, rfl, rfl, rfl, Or.inl ⟨hd, hp⟩⟩
                · exact WF_congr s.conn _ ch hwf rfl rfl rfl (fun e he => he) (Or.inl rfl)
                · have hdm : decide (pkt.hdr.m_SeqNumber ∈ s.conn.m_ReceivedList) = true := by
                    simpa using hm
                  rw [hdm] at htag
                  simp only [hp, decide_True, hdm, htag, hr, if_false]
                  simp
              · rw [if_neg hm]
                refine ⟨_, _, _, ch, rfl, ?_, ?_, rfl, rfl, rfl, Or.inl ⟨hd, hp⟩⟩
                · exact WF_congr s.conn _ ch hwf rfl rfl rfl (fun e he => he) (Or.inl rfl)
                · have hdm : decide (pkt.hdr.m_SeqNumber ∈ s.conn.m_ReceivedList) = false := by
                    simpa using hm
                  rw [hdm] at htag
                  simp only [hp, decide_True, hdm, htag, hr, if_false]
                  simp
    · refine ⟨EUR_DROPPED, some pkt, s, ch, ?_, hwf, ?_, rfl, rfl, rfl, Or.inr rfl⟩
      · unfold Update_dispatch
        rw [if_neg h1, if_pos hp]
      · simp [specTag, h1, hp]

theorem sweep_ok (s : Sys) (ch : List Nat) (hwf : WF s.conn ch) (hmono : Monotone s.env.clock) :
    ∃ sR chR extra,
      Resend (s.clockCall.2.conn.m_UnackedPackets.m_pData.length + 1) s.clockCall.2
        s.clockCall.1 = .ok sR ∧
      WF sR.conn chR ∧ SameOutsideChain s.conn sR.conn ∧ EnvExtends s.env sR.env extra ∧
      (∀ d ∈ extra, d.isResend = true) := by
  have hlen : ch.length ≤ s.conn.m_UnackedPackets.m_pData.length :=
    chain_length_le _ _ _ _ hwf.core.chain hwf.core.nodup
  obtain ⟨sR, chR, extra, hres, hwfR, hsame, henv, hex⟩ :=
    Resend_ok s.clockCall.1 (s.clockCall.2.conn.m_UnackedPackets.m_pData.length + 1)
      s.clockCall.2 ch hwf (Nat.le_succ_of_le hlen)
      (fun k hk => hmono (by simp [Sys.clockCall] at hk; omega))
  refine ⟨sR, chR, extra, hres, hwfR, hsame, ?_, hex⟩
  obtain ⟨h1, h2, h3, h4⟩ := henv
  exact ⟨h1, h2, by simp [Sys.clockCall] at h3; omega, h4⟩

theorem Update_phase (s : Sys) (io : UpdateIO) (ch : List Nat) (hwf : WF s.conn ch)
    (hmono : Monotone s.env.clock) :
    ∃ sR chR extra, WF sR.conn chR ∧ SameOutsideChain s.conn sR.conn ∧
      EnvExtends s.env sR.env extra ∧ (∀ d ∈ extra, d.isResend = true) ∧
      Update s io = Update_poll sR io := by
  obtain ⟨sR, chR, extra, hres, hwfR, hsame, henv, hex⟩ := sweep_ok s ch hwf hmono
  refine ⟨sR, chR, extra, hwfR, hsame, henv, hex, ?_⟩
  unfold Update
  simp only [hres]

theorem Monotone_of_extends {e e1 : Env} {x : List SentDatagram} (h : EnvExtends e e1 x)
    (hm : Monotone e.clock) : Monotone e1.clock := by
  rw [h.1]; exact hm

/-- `Update` returns in every well-formed state, keeps the state well-formed, and its result
for a received datagram is the tag of the specification. -/
theorem Update_total (s : Sys) (io : UpdateIO) (ch : List Nat) (hwf : WF s.conn ch)
    (hmono : Monotone s.env.clock) :
    ∃ r p s1 ch1, Update s io = .ok (r, p, s1) ∧ WF s1.conn ch1 ∧ Monotone s1.env.clock ∧
      s1.conn.m_pAddr = s.conn.m_pAddr ∧ s1.conn.m_IsListener = s.conn.m_IsListener := by
  obtain ⟨sR, chR, extra, hwfR, hsame, henv, _, heq⟩ := Update_phase s io ch hwf hmono
  have hmR := Monotone_of_extends henv hmono
  have haddr : sR.conn.m_pAddr = s.conn.m_pAddr := by rw [hsame]
  have hlis : sR.conn.m_IsListener = s.conn.m_IsListener := by rw [hsame]
  rw [heq]
  unfold Update_poll
  by_cases h1 : io.selectResult = -1
  · rw [if_pos h1]
    exact ⟨0, none, sR, chR, rfl, hwfR, hmR, haddr, hlis⟩
  · rw [if_neg h1]
    by_cases h0 : io.selectResult = 0
    · rw [if_pos h0]
      obtain ⟨s2, ch2, extra2, hres2, hwf2, hsame2, henv2, _⟩ := sweep_ok sR chR hwfR hmR
      dsimp only
      simp only [hres2]
      refine ⟨0, none, s2, ch2, rfl, hwf2, Monotone_of_extends henv2 hmR, ?_, ?_⟩
      · rw [hsame2]; exact haddr
      · rw [hsame2]; exact hlis
    · rw [if_neg h0]
      cases hr : io.recv with
      | none => exact ⟨-1, none, sR, chR, rfl, hwfR, hmR, haddr, hlis⟩
      | some x =>
        obtain ⟨raw, addr⟩ := x
        obtain ⟨r, p, s1, ch1, hres, hwf1, _, hclk, ha, hl, _⟩ :=
          Update_dispatch_ok sR { raw with hdr := raw.hdr.ntoh } addr chR hwfR
        refine ⟨r, p, s1, ch1, hres, hwf1, ?_, ha.trans haddr, hl.trans hlis⟩
        rw [hclk]; exact hmR

/-! ## Lemmas: byte order, the fresh connection, the data branch -/

theorem htons_lt (x : Nat) : htons x < 65536 := by
  unfold htons; omega

theorem htons_htons (x : Nat) (h : x < 65536) : htons (htons x) = x := by
  unfold htons
  have h1 := Nat.div_add_mod x 256
  have h2 : x % 256 < 256 := Nat.mod_lt _ (by decide)
  have h3 : x / 256 < 256 := by omega
  generalize x % 256 = a at *
  generalize x / 256 = b at *
  have h4 : b % 256 = b := Nat.mod_eq_of_lt h3
  have h5 : (a * 256 + b) % 256 = b := by
    rw [Nat.add_comm, Nat.add_mul_mod_self_right]; exact h4
  have h6 : (a * 256 + b) / 256 = a := by
    rw [Nat.add_comm, Nat.add_mul_div_right _ _ (by decide : 0 < 256), Nat.div_eq_of_lt h3]
    simp
  have h7 : a % 256 = a := Nat.mod_eq_of_lt h2
  rw [h4, h5, h6, h7]
  omega

theorem ntoh_hton (h : RdtHeader) (hu : h.isU16) : h.hton.ntoh = h := by
  obtain ⟨h1, h2, h3, h4⟩ := hu
  cases h
  simp only [RdtHeader.hton, RdtHeader.ntoh] at *
  simp [htons_htons, h1, h2, h3, h4]

theorem mkAck_decoded (raw : RdtPacket) :
    (Update_mkAck { raw with hdr := raw.hdr.ntoh }).hdr.hton.ntoh =
      { m_SeqNumber := raw.hdr.ntoh.m_SeqNumber, m_Reserved := 0, m_MsgLen := sizeofRdtHeader,
        m_Flags := FLAG_ACK } := by
  apply ntoh_hton
  exact ⟨htons_lt _, show (0 : Nat) < 65536 by decide, show (8 : Nat) < 65536 by decide,
    show (4 : Nat) < 65536 by decide⟩

theorem WF_fresh (env : Env) : WF (Sys.fresh env).conn [] := by
  refine ⟨⟨show (List.replicate 11 UnackedPacket.ctor).length = 11 by simp,
    show (0 : Nat) < 11 by decide, show (0 : Nat) < 11 by decide, rfl, List.nodup_nil, rfl,
    ?_, ?_, Or.inl rfl⟩, ?_⟩
  · intro i u hu
    have hu1 : (List.replicate 11 UnackedPacket.ctor)[i]? = some u := hu
    rw [List.getElem?_replicate] at hu1
    split at hu1
    · have : u = UnackedPacket.ctor := (Option.some.inj hu1).symm
      rw [this]
      simp [UnackedPacket.ctor]
    · exact Option.noConfusion hu1
  · intro e he
    exact absurd he (List.not_mem_nil e)
  · intro h hp
    exact Option.noConfusion hp

theorem fresh_no_sweep (env : Env) (fuel t : Nat) :
    Resend fuel (Sys.fresh env).clockCall.2 t = .ok (Sys.fresh env).clockCall.2 := by
  cases fuel <;> rfl

/-- `Update` on a data-bearing datagram from the peer: after the retransmit sweep, which
leaves a state `sR`, the pure ACK is sent and the recent-seq list decides the result. -/
theorem Update_data (s : Sys) (io : UpdateIO) (raw : RdtPacket) (peer : sockaddr)
    (ch : List Nat) (hwf : WF s.conn ch) (hmono : Monotone s.env.clock)
    (hsel1 : io.selectResult ≠ -1) (hsel0 : io.selectResult ≠ 0)
    (hrecv : io.recv = some (raw, peer)) (hpeer : s.conn.m_pAddr = some peer)
    (hd : isDataBearing raw.hdr.ntoh) :
    ∃ sR chR extra, WF sR.conn chR ∧ SameOutsideChain s.conn sR.conn ∧
      EnvExtends s.env sR.env extra ∧ (∀ d ∈ extra, d.isResend = true) ∧
      Update s io = Update_onData sR { raw with hdr := raw.hdr.ntoh } := by
  obtain ⟨sR, chR, extra, hwfR, hsame, henv, hex, heq⟩ := Update_phase s io ch hwf hmono
  refine ⟨sR, chR, extra, hwfR, hsame, henv, hex, ?_⟩
  rw [heq]
  unfold Update_poll
  rw [if_neg hsel1, if_neg hsel0, hrecv]
  have hp : sR.conn.m_pAddr = some peer := by rw [hsame]; exact hpeer
  exact dispatch_data sR _ peer hd hp

/-! ## Update: result tag, duplicates, replies -/

theorem Update_select_error (s : Sys) (io : UpdateIO) (ch : List Nat) (hwf : WF s.conn ch)
    (hmono : Monotone s.env.clock) (hsel : io.selectResult = -1) :
    ∃ s1, Update s io = .ok (0, none, s1) := by
  obtain ⟨sR, chR, extra, _, _, _, _, heq⟩ := Update_phase s io ch hwf hmono
  exact ⟨sR, by rw [heq]; unfold Update_poll; rw [if_pos hsel]⟩

/-- C5 (result tag of Update). In every well-formed state, under a non-decreasing clock, when
`select` reports a readable socket and `recvfrom` delivers the datagram `raw` from `addr`,
`Update` returns, and its result is the tag that the specification gives as a function of
the decoded flags, of whether the connection is a listener, of whether `addr` is the current
peer, and of whether the decoded seq is in the recent-seq list. -/
theorem C5_Update_result_tag (s : Sys) (io : UpdateIO) (raw : RdtPacket) (addr : sockaddr)
    (ch : List Nat) (hwf : WF s.conn ch) (hmono : Monotone s.env.clock)
    (hsel1 : io.selectResult ≠ -1) (hsel0 : io.selectResult ≠ 0)
    (hrecv : io.recv = some (raw, addr)) :
    ∃ p s1, Update s io = .ok
      (specTag raw.hdr.ntoh.m_Flags s.conn.m_IsListener (decide (s.conn.m_pAddr = some addr))
        (decide (raw.hdr.ntoh.m_SeqNumber ∈ s.conn.m_ReceivedList)), p, s1) := by
  obtain ⟨sR, chR, extra, hwfR, hsame, _, _, heq⟩ := Update_phase s io ch hwf hmono
  obtain ⟨r, p, s1, ch1, hres, _, htag, _⟩ :=
    Update_dispatch_ok sR { raw with hdr := raw.hdr.ntoh } addr chR hwfR
  refine ⟨p, s1, ?_⟩
  rw [heq]
  unfold Update_poll
  rw [if_neg hsel1, if_neg hsel0, hrecv]
  have h1 : sR.conn.m_IsListener = s.conn.m_IsListener := by rw [hsame]
  have h2 : sR.conn.m_pAddr = s.conn.m_pAddr := by rw [hsame]
  have h3 : sR.conn.m_ReceivedList = s.conn.m_ReceivedList := by rw [hsame]
  rw [h1, h2, h3] at htag
  rw [← htag]
  exact hres

theorem C5_Update_result_tag_witness :
    ∃ p s1, Update ((Sys.fresh Env.quiet).withPeer peerA) (arrival (dataPkt 0 13) peerA) = .ok
      (specTag (onWire (dataPkt 0 13)).hdr.ntoh.m_Flags
        ((Sys.fresh Env.quiet).withPeer peerA).conn.m_IsListener
        (decide (((Sys.fresh Env.quiet).withPeer peerA).conn.m_pAddr = some peerA))
        (decide ((onWire (dataPkt 0 13)).hdr.ntoh.m_SeqNumber ∈
          ((Sys.fresh Env.quiet).withPeer peerA).conn.m_ReceivedList)), p, s1) :=
  C5_Update_result_tag ((Sys.fresh Env.quiet).withPeer peerA) (arrival (dataPkt 0 13) peerA)
    (onWire (dataPkt 0 13)) peerA []
    (WF_congr _ _ [] (WF_fresh Env.quiet) rfl rfl rfl (fun _ he => he) (Or.inl rfl))
    (fun _ _ _ => Nat.le_refl _) (by decide) (by decide) rfl

theorem ackEmitted_of_data (s sR : Sys) (extra : List SentDatagram) (raw : RdtPacket)
    (peer : sockaddr) (hpeer : s.conn.m_pAddr = some peer)
    (hsame : SameOutsideChain s.conn sR.conn) (henv : EnvExtends s.env sR.env extra)
    (hex : ∀ d ∈ extra, d.isResend = true) (e1 : Env)
    (he1 : e1 = (Send_transmit sR (Update_mkAck { raw with hdr := raw.hdr.ntoh }) false).2.2.env) :
    AckEmitted s.env e1 { raw with hdr := raw.hdr.ntoh } peer := by
  refine ⟨extra, Send_datagram sR (Update_mkAck { raw with hdr := raw.hdr.ntoh }) false, ?_,
    hex, rfl, ?_, ?_, mkAck_decoded raw⟩
  · rw [he1]
    show sR.env.sent ++ _ = _
    rw [henv.2.2.2]
  · show sR.conn.m_pAddr = some peer
    rw [hsame]; exact hpeer
  · show List.take (sizeofRdtHeader - sizeofRdtHeader) raw.body = []
    simp

/-! ## The string construction of RecvFile -/

theorem RecvFile_extract_ok (p : RdtPacket) (h8 : sizeofRdtHeader ≤ p.hdr.m_MsgLen)
    (hmax : p.hdr.m_MsgLen ≤ RDT_MAX_PKTSIZE) : RecvFile_extract p = .ok (pktStr p) := by
  unfold RecvFile_extract
  rw [if_neg (Nat.not_lt.mpr h8), if_neg (Nat.not_lt.mpr hmax)]

theorem RecvFile_extract_short (p : RdtPacket) (h : p.hdr.m_MsgLen < sizeofRdtHeader) :
    RecvFile_extract p = .error Fault.lengthError := by
  unfold RecvFile_extract
  rw [if_pos h]

theorem RecvFile_extract_long (p : RdtPacket) (h : RDT_MAX_PKTSIZE < p.hdr.m_MsgLen) :
    RecvFile_extract p = .error Fault.bufferOverrun := by
  have e8 : sizeofRdtHeader = 8 := rfl
  have e1024 : RDT_MAX_PKTSIZE = 1024 := rfl
  unfold RecvFile_extract
  rw [if_neg (by rw [e8]; rw [e1024] at h; omega), if_pos h]

/-- The cases of `RecvFile_extract` in terms of the `size_t` length that the source computes,
for a 16-bit length field: the constructor throws exactly when that length is `2^63` or more
(it has wrapped, to at least `2^64 - 8`), and the string is built from bytes of the packet
buffer exactly when `8 + length ≤ 1024`. -/
theorem RecvFile_extract_size (p : RdtPacket) (h16 : p.hdr.m_MsgLen < 65536) :
    (RecvFile_extract p = .error Fault.lengthError ↔
      9223372036854775808 ≤ RecvFile_payloadSize p) ∧
    (RecvFile_extract p = .error Fault.lengthError →
      18446744073709551608 ≤ RecvFile_payloadSize p) ∧
    (RecvFile_extract p = .ok (pktStr p) ↔ payloadInBuffer p) := by
  have e8 : sizeofRdtHeader = 8 := rfl
  have e1024 : RDT_MAX_PKTSIZE = 1024 := rfl
  by_cases h8 : p.hdr.m_MsgLen < sizeofRdtHeader
  · have hsz : RecvFile_payloadSize p = 18446744073709551608 + p.hdr.m_MsgLen := by
      unfold RecvFile_payloadSize
      rw [e8] at h8 ⊢
      omega
    have hb : ¬ payloadInBuffer p := by
      unfold payloadInBuffer
      rw [hsz, e8, e1024]
      omega
    rw [RecvFile_extract_short p h8, hsz]
    exact ⟨⟨fun _ => (by omega), fun _ => rfl⟩, fun _ => (by omega),
      ⟨fun h => (by cases h), fun h => absurd h hb⟩⟩
  · have hsz : RecvFile_payloadSize p = p.hdr.m_MsgLen - 8 := by
      unfold RecvFile_payloadSize
      rw [e8] at h8 ⊢
      omega
    have hsmall : ¬ 9223372036854775808 ≤ RecvFile_payloadSize p := by rw [hsz]; omega
    by_cases hmax : RDT_MAX_PKTSIZE < p.hdr.m_MsgLen
    · have hb : ¬ payloadInBuffer p := by
        unfold payloadInBuffer
        rw [hsz, e8]
        rw [e1024] at hmax ⊢
        omega
      rw [RecvFile_extract_long p hmax]
      exact ⟨⟨fun h => (by cases h), fun h => absurd h hsmall⟩, fun h => (by cases h),
        ⟨fun h => (by cases h), fun h => absurd h hb⟩⟩
    · have hb : payloadInBuffer p := by
        unfold payloadInBuffer
        rw [hsz, e8]
        rw [e8] at h8
        rw [e1024] at hmax ⊢
        omega
      rw [RecvFile_extract_ok p (Nat.le_of_not_lt h8) (Nat.le_of_not_lt hmax)]
      exact ⟨⟨fun h => (by cases h), fun h => absurd h hsmall⟩, fun h => (by cases h),
        ⟨fun _ => hb, fun _ => rfl⟩⟩

/-- One pass of the loop of `RecvFile` over a packet that `Update` delivers as DATA: with a
length field in `8 .. 1024` the packet is handled, with a smaller one the string constructor
throws, with a larger one it reads past the packet buffer. -/
theorem RecvFile_iter_data (s s1 : Sys) (r : RecvFileState) (io : UpdateIO) (p : RdtPacket)
    (hu : Update s io = .ok (EUR_DATA, some p, s1)) :
    RecvFile_iter s r io =
      if p.hdr.m_MsgLen < sizeofRdtHeader then .error Fault.lengthError
      else if RDT_MAX_PKTSIZE < p.hdr.m_MsgLen then .error Fault.bufferOverrun
      else .ok (s1, RecvFile_onData r p) := by
  unfold RecvFile_iter
  rw [hu]
  simp only [if_true]
  by_cases h8 : p.hdr.m_MsgLen < sizeofRdtHeader
  · rw [if_pos h8, RecvFile_extract_short p h8]
  · rw [if_neg h8]
    by_cases hmax : RDT_MAX_PKTSIZE < p.hdr.m_MsgLen
    · rw [if_pos hmax, RecvFile_extract_long p hmax]
    · rw [if_neg hmax, RecvFile_extract_ok p (Nat.le_of_not_lt h8) (Nat.le_of_not_lt hmax)]

theorem expired_self (q : Nat) : Update_expired q q = false := by
  simp [Update_expired, RDT_WNDSIZE]

theorem mem_scan (l : List Nat) (q a : Nat) (hq : q ∈ l) (he : Update_expired q a = false) :
    q ∈ (Update_scanReceived l a).2 := by
  simp [Update_scanReceived, List.mem_filter, hq, he]

theorem Update_keeps_seq (s : Sys) (io : UpdateIO) (ch : List Nat) (hwf : WF s.conn ch)
    (hmono : Monotone s.env.clock) (peer : sockaddr) (hpeer : s.conn.m_pAddr = some peer)
    (q : Nat) (hq : q ∈ s.conn.m_ReceivedList)
    (hcond : ∀ a, deliversData io peer a → Update_expired q a = false) :
    ∃ r p s1 ch1, Update s io = .ok (r, p, s1) ∧ WF s1.conn ch1 ∧ Monotone s1.env.clock ∧
      s1.conn.m_pAddr = some peer ∧ q ∈ s1.conn.m_ReceivedList := by
  obtain ⟨sR, chR, extra, hwfR, hsame, henv, _, heq⟩ := Update_phase s io ch hwf hmono
  have hmR := Monotone_of_extends henv hmono
  have haddr : sR.conn.m_pAddr = some peer := by rw [hsame]; exact hpeer
  have hlist : q ∈ sR.conn.m_ReceivedList := by rw [hsame]; exact hq
  rw [heq]
  unfold Update_poll
  by_cases h1 : io.selectResult = -1
  · rw [if_pos h1]
    exact ⟨0, none, sR, chR, rfl, hwfR, hmR, haddr, hlist⟩
  · rw [if_neg h1]
    by_cases h0 : io.selectResult = 0
    · rw [if_pos h0]
      obtain ⟨s2, ch2, extra2, hres2, hwf2, hsame2, henv2, _⟩ := sweep_ok sR chR hwfR hmR
      dsimp only
      simp only [hres2]
      refine ⟨0, none, s2, ch2, rfl, hwf2, Monotone_of_extends henv2 hmR, ?_, ?_⟩
      · rw [hsame2]; exact haddr
      · rw [hsame2]; exact hlist
    · rw [if_neg h0]
      cases hr : io.recv with
      | none => exact ⟨-1, none, sR, chR, rfl, hwfR, hmR, haddr, hlist⟩
      | some x =>
        obtain ⟨raw, addr⟩ := x
        obtain ⟨r, p, s1, ch1, hres, hwf1, _, hclk, ha, _, hcase⟩ :=
          Update_dispatch_ok sR { raw with hdr := raw.hdr.ntoh } addr chR hwfR
        refine ⟨r, p, s1, ch1, hres, hwf1, by rw [hclk]; exact hmR, ha.trans haddr, ?_⟩
        rcases hcase with ⟨hd, hp⟩ | hsame1
        · have haddr2 : addr = peer := by
            rw [haddr] at hp
            exact (Option.some.inj hp).symm
          subst haddr2
          rw [dispatch_data sR _ addr hd hp, Update_onData_eq] at hres
          by_cases hrq : hasFlag raw.hdr.ntoh.m_Flags FLAG_RQST = true
          · rw [if_pos hrq] at hres
            have h3 := (Prod.mk.inj (Prod.mk.inj (Except.ok.inj hres)).2).2
            rw [← h3]
            exact hlist
          · have hrq2 : hasFlag raw.hdr.ntoh.m_Flags FLAG_RQST = false := by simpa using hrq
            have hexp := hcond raw.hdr.ntoh.m_SeqNumber ⟨h1, h0, raw, hr, hd, hrq2, rfl⟩
            have hin := mem_scan sR.conn.m_ReceivedList q raw.hdr.ntoh.m_SeqNumber hlist hexp
            rw [if_neg hrq] at hres
            by_cases hm : raw.hdr.ntoh.m_SeqNumber ∈ sR.conn.m_ReceivedList
            · rw [if_pos hm] at hres
              have h3 := (Prod.mk.inj (Prod.mk.inj (Except.ok.inj hres)).2).2
              rw [← h3]
              exact hin
            · rw [if_neg hm] at hres
              have h3 := (Prod.mk.inj (Prod.mk.inj (Except.ok.inj hres)).2).2
              rw [← h3]
              exact List.mem_append_left _ hin
        · rw [hsame1]; exact hlist

theorem runUpdates_keeps_seq (peer : sockaddr) (q : Nat) :
    ∀ (ios : List UpdateIO) (s : Sys) (ch : List Nat), WF s.conn ch → Monotone s.env.clock →
      s.conn.m_pAddr = some peer → q ∈ s.conn.m_ReceivedList →
      (∀ io ∈ ios, ∀ a, deliversData io peer a → Update_expired q a = false) →
      ∃ rs s1 ch1, runUpdates s ios = .ok (rs, s1) ∧ WF s1.conn ch1 ∧ Monotone s1.env.clock ∧
        s1.conn.m_pAddr = some peer ∧ q ∈ s1.conn.m_ReceivedList := by
  intro ios
  induction ios with
  | nil => intro s ch hwf hm hp hq _; exact ⟨[], s, ch, rfl, hwf, hm, hp, hq⟩
  | cons io rest ih =>
    intro s ch hwf hm hp hq hc
    obtain ⟨r, p, s1, ch1, hres, hwf1, hm1, hp1, hq1⟩ :=
      Update_keeps_seq s io ch hwf hm peer hp q hq (hc io (List.mem_cons_self _ _))
    obtain ⟨rs, s2, ch2, hres2, hwf2, hm2, hp2, hq2⟩ :=
      ih s1 ch1 hwf1 hm1 hp1 hq1 (fun x hx => hc x (List.mem_cons_of_mem _ hx))
    exact ⟨r :: rs, s2, ch2, by simp [runUpdates, hres, hres2], hwf2, hm2, hp2, hq2⟩

theorem runUpdates_append (ios1 : List UpdateIO) :
    ∀ (s s1 : Sys) (rs1 : List Int) (ios2 : List UpdateIO) (rs2 : List Int) (s2 : Sys),
      runUpdates s ios1 = .ok (rs1, s1) → runUpdates s1 ios2 = .ok (rs2, s2) →
      runUpdates s (ios1 ++ ios2) = .ok (rs1 ++ rs2, s2) := by
  induction ios1 with
  | nil =>
    intro s s1 rs1 ios2 rs2 s2 h1 h2
    have := Except.ok.inj h1
    have hrs : rs1 = [] := (congrArg Prod.fst this).symm
    have hs : s1 = s := (congrArg Prod.snd this).symm
    subst hrs; subst hs
    simpa using h2
  | cons io rest ih =>
    intro s s1 rs1 ios2 rs2 s2 h1 h2
    rw [runUpdates] at h1
    rw [List.cons_append, runUpdates]
    cases hu : Update s io with
    | error f => rw [hu] at h1; exact Except.noConfusion h1
    | ok x =>
      obtain ⟨r, p, sa⟩ := x
      rw [hu] at h1
      dsimp only at h1 ⊢
      cases hr : runUpdates sa rest with
      | error f => rw [hr] at h1; exact Except.noConfusion h1
      | ok y =>
        obtain ⟨rsa, sb⟩ := y
        rw [hr] at h1
        dsimp only at h1
        have hinj := Prod.mk.inj (Except.ok.inj h1)
        have hrs : rs1 = r :: rsa := hinj.1.symm
        have hs : s1 = sb := hinj.2.symm
        subst hrs; subst hs
        rw [ih sa s1 rsa ios2 rs2 s2 hr h2]
        rfl

/-- C7 (duplicate delivery), as amended. In a well-formed state with peer `peer`, under a
non-decreasing clock, let a data packet with seq `q` arrive from the peer, then any calls of
`Update` (`between`), then again a data packet with seq `q` from the peer. If no data packet
delivered in between has a seq `a` with `5120 < |q - a| < 25600` (which would erase `q` from
the recent-seq list), then all calls return and the later arrival returns 0: `EUR_DATA` is
returned at most once for `q`. -/
theorem C7_duplicate_delivery (s : Sys) (ch : List Nat) (hwf : WF s.conn ch)
    (hmono : Monotone s.env.clock) (peer : sockaddr) (hpeer : s.conn.m_pAddr = some peer)
    (q : Nat) (first later : UpdateIO) (between : List UpdateIO)
    (hfirst : deliversData first peer q) (hlater : deliversData later peer q)
    (hbetween : ∀ io ∈ between, ∀ a, deliversData io peer a → Update_expired q a = false) :
    ∃ r1 rs s3, runUpdates s (first :: between ++ [later]) = .ok (r1 :: rs ++ [0], s3) ∧
      (r1 = EUR_DATA ∨ r1 = 0) := by
  obtain ⟨hf1, hf0, raw, hfr, hfd, hfq, hfs⟩ := hfirst
  obtain ⟨sR, chR, extra, hwfR, hsame, henv, _, heq⟩ :=
    Update_data s first raw peer ch hwf hmono hf1 hf0 hfr hpeer hfd
  have hrq : ¬ hasFlag raw.hdr.ntoh.m_Flags FLAG_RQST = true := by simp [hfq]
  rw [Update_onData_eq, if_neg hrq] at heq
  have hmR := Monotone_of_extends henv hmono
  have haddrR : sR.conn.m_pAddr = some peer := by rw [hsame]; exact hpeer
  obtain ⟨r1, s1, ch1, hu1, hr1, hwf1, hm1, hp1, hq1⟩ :
      ∃ r1 s1 ch1, Update s first = .ok (r1, some { raw with hdr := raw.hdr.ntoh }, s1) ∧
        (r1 = EUR_DATA ∨ r1 = 0) ∧ WF s1.conn ch1 ∧ Monotone s1.env.clock ∧
        s1.conn.m_pAddr = some peer ∧ q ∈ s1.conn.m_ReceivedList := by
    by_cases hm : raw.hdr.ntoh.m_SeqNumber ∈ sR.conn.m_ReceivedList
    · rw [if_pos hm] at heq
      refine ⟨_, _, chR, heq, Or.inr rfl,
        WF_congr sR.conn _ chR hwfR rfl rfl rfl (fun _ he => he) (Or.inl rfl), hmR, haddrR, ?_⟩
      rw [← hfs]
      exact mem_scan _ _ _ hm (expired_self _)
    · rw [if_neg hm] at heq
      refine ⟨_, _, chR, heq, Or.inl rfl,
        WF_congr sR.conn _ chR hwfR rfl rfl rfl (fun _ he => he) (Or.inl rfl), hmR, haddrR, ?_⟩
      rw [← hfs]
      exact List.mem_append_right _ (List.mem_singleton_self _)
  obtain ⟨rs, s2, ch2, hrun, hwf2, hm2, hp2, hq2⟩ :=
    runUpdates_keeps_seq peer q between s1 ch1 hwf1 hm1 hp1 hq1 hbetween
  obtain ⟨hl1, hl0, raw2, hlr, hld, hlq, hls⟩ := hlater
  obtain ⟨sR2, chR2, extra2, hwfR2, hsame2, henv2, _, heq2⟩ :=
    Update_data s2 later raw2 peer ch2 hwf2 hm2 hl1 hl0 hlr hp2 hld
  have hrq2 : ¬ hasFlag raw2.hdr.ntoh.m_Flags FLAG_RQST = true := by simp [hlq]
  have hmem2 : raw2.hdr.ntoh.m_SeqNumber ∈ sR2.conn.m_ReceivedList := by
    rw [hls, hsame2]; exact hq2
  rw [Update_onData_eq, if_neg hrq2, if_pos hmem2] at heq2
  obtain ⟨s3, hs3⟩ : ∃ s3 : Sys, s3 =
      { conn := { sR2.conn with m_ReceivedList :=
          (Update_scanReceived sR2.conn.m_ReceivedList raw2.hdr.ntoh.m_SeqNumber).2 },
        env := (Send_transmit sR2 (Update_mkAck { raw2 with hdr := raw2.hdr.ntoh })
          false).2.2.env } := ⟨_, rfl⟩
  rw [← hs3] at heq2
  have hlast : runUpdates s2 [later] = .ok ([0], s3) := by
    rw [runUpdates, heq2]
    rfl
  have hmid := runUpdates_append between s1 s2 rs [later] [0] s3 hrun hlast
  refine ⟨r1, rs, s3, ?_, hr1⟩
  rw [List.cons_append, runUpdates, hu1]
  dsimp only
  rw [hmid]
  rfl

theorem C7_duplicate_delivery_witness :
    ∃ r1 rs s3,
      runUpdates ((Sys.fresh Env.quiet).withPeer peerA)
        (arrival (dataPkt 0 13) peerA :: [arrival (dataPkt 5000 13) peerA] ++
          [arrival (dataPkt 0 13) peerA]) = .ok (r1 :: rs ++ [0], s3) ∧
      (r1 = EUR_DATA ∨ r1 = 0) :=
  C7_duplicate_delivery ((Sys.fresh Env.quiet).withPeer peerA) []
    (WF_congr _ _ [] (WF_fresh Env.quiet) rfl rfl rfl (fun _ he => he) (Or.inl rfl))
    (fun _ _ _ => Nat.le_refl _) peerA rfl 0
    (arrival (dataPkt 0 13) peerA) (arrival (dataPkt 0 13) peerA)
    [arrival (dataPkt 5000 13) peerA]
    ⟨by decide, by decide, onWire (dataPkt 0 13), rfl, by decide, by decide, by decide⟩
    ⟨by decide, by decide, onWire (dataPkt 0 13), rfl, by decide, by decide, by decide⟩
    (by
      intro io hio a ha
      have hio1 : io = arrival (dataPkt 5000 13) peerA := by simpa using hio
      subst hio1
      obtain ⟨_, _, raw, hr, _, _, hs⟩ := ha
      have hraw : raw = onWire (dataPkt 5000 13) :=
        (congrArg Prod.fst (Option.some.inj hr)).symm
      subst hraw
      rw [← hs]
      decide)

/-- C7, as stated, fails: a data packet with seq 0, one with seq 6000 and again one with
seq 0, all from the peer, make `Update` return `EUR_DATA` three times. -/
theorem C7_duplicate_delivery_counterexample :
    resultsOf (runUpdates ((Sys.fresh Env.quiet).withPeer peerA)
      [arrival (dataPkt 0 13) peerA, arrival (dataPkt 6000 13) peerA,
        arrival (dataPkt 0 13) peerA]) = some [EUR_DATA, EUR_DATA, EUR_DATA] := by
  decide

/-- C8 (poll error), evaluated on the code: on a freshly initialised connection, whatever the
environment, when `select` reports an error (-1) `Update` returns 0, not -1; control leaves
the `if` after the `ERROR` macro and reaches the final `return 0`. -/
theorem C8_select_error_returns_zero (env : Env) (recv : Option (RdtPacket × sockaddr)) :
    ∃ s1, Update (Sys.fresh env) { selectResult := -1, recv := recv } = .ok (0, none, s1) := by
  refine ⟨(Sys.fresh env).clockCall.2, ?_⟩
  unfold Update
  dsimp only
  rw [fresh_no_sweep]
  rfl

/-- C9 (reply to a data-bearing datagram), as amended. In a well-formed state, under a
non-decreasing clock, for every data-bearing datagram from the peer (decoded header not a
pure SYN, without ACK bit, not a pure FIN) `Update` returns and, apart from retransmissions,
sends exactly one datagram: a pure ACK (flags ACK, reserved 0) without payload whose seq
field is the seq of the received packet and whose length field is 8, the header size. -/
theorem C9_data_reply_is_pure_ack (s : Sys) (io : UpdateIO) (raw : RdtPacket) (peer : sockaddr)
    (ch : List Nat) (hwf : WF s.conn ch) (hmono : Monotone s.env.clock)
    (hsel1 : io.selectResult ≠ -1) (hsel0 : io.selectResult ≠ 0)
    (hrecv : io.recv = some (raw, peer)) (hpeer : s.conn.m_pAddr = some peer)
    (hd : isDataBearing raw.hdr.ntoh) :
    ∃ r p s1, Update s io = .ok (r, p, s1) ∧
      AckEmitted s.env s1.env { raw with hdr := raw.hdr.ntoh } peer := by
  obtain ⟨sR, chR, extra, hwfR, hsame, henv, hex, heq⟩ :=
    Update_data s io raw peer ch hwf hmono hsel1 hsel0 hrecv hpeer hd
  rw [Update_onData_eq] at heq
  by_cases hrq : hasFlag raw.hdr.ntoh.m_Flags FLAG_RQST = true
  · rw [if_pos hrq] at heq
    exact ⟨_, _, _, heq, ackEmitted_of_data s sR extra raw peer hpeer hsame henv hex _ rfl⟩
  · rw [if_neg hrq] at heq
    by_cases hm : raw.hdr.ntoh.m_SeqNumber ∈ sR.conn.m_ReceivedList
    · rw [if_pos hm] at heq
      exact ⟨_, _, _, heq, ackEmitted_of_data s sR extra raw peer hpeer hsame henv hex _ rfl⟩
    · rw [if_neg hm] at heq
      exact ⟨_, _, _, heq, ackEmitted_of_data s sR extra raw peer hpeer hsame henv hex _ rfl⟩

theorem C9_data_reply_is_pure_ack_witness :
    ∃ r p s1,
      Update ((Sys.fresh Env.quiet).withPeer peerA) (arrival (dataPkt 0 13) peerA) =
        .ok (r, p, s1) ∧
      AckEmitted ((Sys.fresh Env.quiet).withPeer peerA).env s1.env
        { onWire (dataPkt 0 13) with hdr := (onWire (dataPkt 0 13)).hdr.ntoh } peerA :=
  C9_data_reply_is_pure_ack ((Sys.fresh Env.quiet).withPeer peerA)
    (arrival (dataPkt 0 13) peerA) (onWire (dataPkt 0 13)) peerA []
    (WF_congr _ _ [] (WF_fresh Env.quiet) rfl rfl rfl (fun _ he => he) (Or.inl rfl))
    (fun _ _ _ => Nat.le_refl _) (by decide) (by decide) rfl rfl (by decide)

/-- C9, as stated, fails: the ACK sent for a data packet with seq 0 and length 13 has the
length field 8, not 13. -/
theorem C9_data_reply_is_pure_ack_counterexample :
    (lastSentHeader (Update ((Sys.fresh Env.quiet).withPeer peerA)
      (arrival (dataPkt 0 13) peerA))).map (fun h => h.m_MsgLen) = some 8 ∧
    (dataPkt 0 13).hdr.m_MsgLen = 13 := by
  decide

/-- C10 (window bound), evaluated on the code: from a fresh connection, the sixteen steps of
`windowSteps` (guarded sends that carry the current `m_NextSeq`, and ACK processing) are all
admitted and lead to a state in which `m_WndCurr` is 5424, above the window of 5120. -/
theorem C10_window_bound_broken :
    (runSender (Sys.fresh Env.quiet) windowSteps).map (fun s => s.conn.m_WndCurr) = some 5424 ∧
    RDT_WNDSIZE < 5424 := by
  decide

/-! ## ACK processing twice -/

theorem mapFind_mapErase_self {V : Type} (m : List (Nat × V)) (q : Nat) :
    mapFind (mapErase m q) q = none := by
  induction m with
  | nil => simp [mapErase, mapFind]
  | cons e m ih =>
    obtain ⟨k, w⟩ := e
    by_cases hk : k = q
    · have : mapErase ((k, w) :: m) q = mapErase m q := by simp [mapErase, hk]
      rw [this]; exact ih
    · have : mapErase ((k, w) :: m) q = (k, w) :: mapErase m q := by simp [mapErase, hk]
      rw [this]; simp [mapFind, hk]; exact ih

theorem Update_onAck_erased (s s1 : Sys) (seq : Nat) (h : Update_onAck s seq = .ok s1) :
    mapFind s1.conn.m_SeqToIndex seq = none := by
  unfold Update_onAck at h
  cases hf : mapFind s.conn.m_SeqToIndex seq with
  | none =>
    rw [hf] at h
    have : s = s1 := Except.ok.inj h
    rw [← this]; exact hf
  | some idx =>
    rw [hf] at h
    dsimp only at h
    cases ha : Ack s (s.conn.m_UnackedPackets.subscript (idx : Int)) with
    | error f => rw [ha] at h; cases h
    | ok s2 =>
      rw [ha] at h
      have : _ = s1 := Except.ok.inj h
      rw [← this]
      exact mapFind_mapErase_self _ _

theorem Update_onAck_absent (s : Sys) (seq : Nat) (h : mapFind s.conn.m_SeqToIndex seq = none) :
    Update_onAck s seq = .ok s := by
  unfold Update_onAck
  rw [h]

theorem dispatch_ack (s : Sys) (pkt : RdtPacket) (addr : sockaddr)
    (h1 : pkt.hdr.m_Flags ≠ FLAG_SYN) (hp : s.conn.m_pAddr = some addr)
    (h2 : pkt.hdr.m_Flags ≠ (FLAG_ACK ||| FLAG_SYN))
    (h3 : hasFlag pkt.hdr.m_Flags FLAG_ACK = true)
    (h4 : hasFlag pkt.hdr.m_Flags FLAG_FIN = false) (s1 : Sys)
    (h : Update_onAck s pkt.hdr.m_SeqNumber = .ok s1) :
    Update_dispatch s pkt addr = .ok (EUR_ACK, some pkt, s1) := by
  unfold Update_dispatch
  rw [if_neg h1, if_neg (fun h => h hp), if_neg h2, if_pos h3]
  simp only [h, h4, Bool.false_eq_true, if_false]

/-- C11 (ACK idempotence). In a well-formed state, under a non-decreasing clock, let the same
ACK datagram from the peer (ACK bit set, no FIN bit, not SYN|ACK) be read by `Update` twice in
succession. Both calls return `EUR_ACK`. The ACK branch run again on the state after the first
call leaves that state as it is; the state after the second call is the one its own
retransmit sweep produced, with `m_WndCurr`, `m_MinUnacked`, `m_SeqToIndex` and the indices of
the unacked storage as after the first call, and the whole connection state as after the
first call when no retransmission was due. -/
theorem C11_ack_idempotent (s : Sys) (io : UpdateIO) (raw : RdtPacket) (peer : sockaddr)
    (ch : List Nat) (hwf : WF s.conn ch) (hmono : Monotone s.env.clock)
    (hsel1 : io.selectResult ≠ -1) (hsel0 : io.selectResult ≠ 0)
    (hrecv : io.recv = some (raw, peer)) (hpeer : s.conn.m_pAddr = some peer)
    (h2 : raw.hdr.ntoh.m_Flags ≠ (FLAG_ACK ||| FLAG_SYN))
    (h3 : hasFlag raw.hdr.ntoh.m_Flags FLAG_ACK = true)
    (h4 : hasFlag raw.hdr.ntoh.m_Flags FLAG_FIN = false) :
    ∃ s1 s2,
      Update s io = .ok (EUR_ACK, some { raw with hdr := raw.hdr.ntoh }, s1) ∧
      Update s1 io = .ok (EUR_ACK, some { raw with hdr := raw.hdr.ntoh }, s2) ∧
      Update_dispatch s1 { raw with hdr := raw.hdr.ntoh } peer =
        .ok (EUR_ACK, some { raw with hdr := raw.hdr.ntoh }, s1) ∧
      Resend (s1.clockCall.2.conn.m_UnackedPackets.m_pData.length + 1) s1.clockCall.2
        s1.clockCall.1 = .ok s2 ∧
      s2.conn.m_WndCurr = s1.conn.m_WndCurr ∧ s2.conn.m_MinUnacked = s1.conn.m_MinUnacked ∧
      s2.conn.m_SeqToIndex = s1.conn.m_SeqToIndex ∧
      s2.conn.m_UnackedPackets.m_ReadIndex = s1.conn.m_UnackedPackets.m_ReadIndex ∧
      s2.conn.m_UnackedPackets.m_WriteIndex = s1.conn.m_UnackedPackets.m_WriteIndex ∧
      ((s1.conn.m_pEarliestPacket = none ∨
          s1.env.clock s1.env.nClock < s1.conn.m_EarliestTimeout) → s2.conn = s1.conn) := by
  have h1 : raw.hdr.ntoh.m_Flags ≠ FLAG_SYN := by
    intro h; rw [h] at h3; revert h3; decide
  -- first call
  obtain ⟨sR, chR, extra, hwfR, hsame, henv, _, heq⟩ := Update_phase s io ch hwf hmono
  have hpR : sR.conn.m_pAddr = some peer := by rw [hsame]; exact hpeer
  obtain ⟨s1, ch1, hres, hwf1, henv1, haddr1, _, _⟩ :=
    Update_onAck_ok sR raw.hdr.ntoh.m_SeqNumber chR hwfR
  have hd1 := dispatch_ack sR { raw with hdr := raw.hdr.ntoh } peer h1 hpR h2 h3 h4 s1 hres
  have hnone := Update_onAck_erased sR s1 _ hres
  have hp1 : s1.conn.m_pAddr = some peer := by rw [haddr1]; exact hpR
  have hm1 : Monotone s1.env.clock := by rw [henv1]; exact Monotone_of_extends henv hmono
  -- second call
  obtain ⟨s2, ch2, extra2, hres2, hwf2, hsame2, henv2, _⟩ := sweep_ok s1 ch1 hwf1 hm1
  have hp2 : s2.conn.m_pAddr = some peer := by rw [hsame2]; exact hp1
  have hnone2 : mapFind s2.conn.m_SeqToIndex raw.hdr.ntoh.m_SeqNumber = none := by
    rw [hsame2]; exact hnone
  have hd2 := dispatch_ack s2 { raw with hdr := raw.hdr.ntoh } peer h1 hp2 h2 h3 h4 s2
    (Update_onAck_absent s2 _ hnone2)
  refine ⟨s1, s2, ?_, ?_, ?_, hres2, ?_, ?_, ?_, ?_, ?_, ?_⟩
  · rw [heq]; unfold Update_poll
    rw [if_neg hsel1, if_neg hsel0, hrecv]
    exact hd1
  · unfold Update
    dsimp only
    simp only [hres2]
    unfold Update_poll
    rw [if_neg hsel1, if_neg hsel0, hrecv]
    exact hd2
  · exact dispatch_ack s1 { raw with hdr := raw.hdr.ntoh } peer h1 hp1 h2 h3 h4 s1
      (Update_onAck_absent s1 _ hnone)
  · rw [hsame2]
  · rw [hsame2]
  · rw [hsame2]
  · rw [hsame2]
  · rw [hsame2]
  · intro hidle
    have : Resend (s1.clockCall.2.conn.m_UnackedPackets.m_pData.length + 1) s1.clockCall.2
        s1.clockCall.1 = .ok s1.clockCall.2 := by
      rw [Resend]
      rcases hidle with hn | hlt
      · have : s1.clockCall.2.conn.m_pEarliestPacket = none := hn
        rw [this]
      · cases he : s1.clockCall.2.conn.m_pEarliestPacket with
        | none => rfl
        | some e =>
          have hnot : ¬ s1.clockCall.1 ≥ s1.clockCall.2.conn.m_EarliestTimeout := by
            show ¬ s1.env.clock s1.env.nClock ≥ s1.conn.m_EarliestTimeout
            omega
          simp only [hnot, if_false]
    rw [this] at hres2
    have : s1.clockCall.2 = s2 := Except.ok.inj hres2
    rw [← this]; rfl

/-! ## The retransmit sweep and the cached deadline -/

/-- C12 (retransmission only at the deadline), evaluated on the code: two packets are sent at
the times 0 and 100 and the first is acknowledged at time 200. The second packet (slot 1) is
then the head of the chain with deadline 500100, but `m_EarliestTimeout` still holds the
deadline 500000 of the acknowledged packet; the sweep of the next `Update`, which reads the
clock at 500000, retransmits the packet with seq 400 before its deadline. -/
theorem C12_resend_before_deadline :
    staleTimeoutState.map (fun s =>
      (s.conn.m_pEarliestPacket, s.conn.m_EarliestTimeout,
        (s.conn.m_UnackedPackets.m_pData[1]?).map (fun u => u.m_ResendTime),
        s.env.clock s.env.nClock, s.env.sent.length)) =
      some (some 1, 500000, some 500100, 500000, 2) ∧
    staleTimeoutSweep.map (fun s =>
      s.env.sent.map (fun d => (d.hdr.ntoh.m_SeqNumber, d.isResend))) =
      some [(0, false), (400, false), (400, true)] := by
  decide

/-! ## CircularBuffer: order and capacity -/

/-- C13 (first-in first-out), evaluated on the code: on a buffer of size 3 the calls
Push 1, Pop, Push 2, Push 3, Push 4, Pop, Push 5, Pop accept all five elements; the second
Pop fails although 2, 3 and 4 have been accepted and not popped, and the third Pop delivers
5: the elements popped are 1, 5. -/
theorem C13_buffer_not_fifo :
    ((natBuffer 3).runCalls [BufCall.push 1, BufCall.pop, BufCall.push 2, BufCall.push 3,
      BufCall.push 4, BufCall.pop, BufCall.push 5, BufCall.pop]).1.map (fun x => x.2) =
      [BufResult.pushed 1 true, BufResult.popped (some 1), BufResult.pushed 2 true,
        BufResult.pushed 3 true, BufResult.pushed 4 true, BufResult.popped none,
        BufResult.pushed 5 true, BufResult.popped (some 5)] ∧
    acceptedOf ((natBuffer 3).runCalls [BufCall.push 1, BufCall.pop, BufCall.push 2,
      BufCall.push 3, BufCall.push 4, BufCall.pop, BufCall.push 5, BufCall.pop]).1 =
      [1, 2, 3, 4, 5] ∧
    poppedOf ((natBuffer 3).runCalls [BufCall.push 1, BufCall.pop, BufCall.push 2,
      BufCall.push 3, BufCall.push 4, BufCall.pop, BufCall.push 5, BufCall.pop]).1 = [1, 5] := by
  decide

/-- C14 (capacity), evaluated on the code, size 3 (capacity 2). After Push 1, Pop, Push 2,
Push 3 two elements are held, yet `IsFull()` is false and Push 4 succeeds, so three elements
are held. After Push 1, Push 2, Pop, Pop, Push 3 one element is held, yet `IsFull()` is true
and Push 4 fails. -/
theorem C14_buffer_capacity_broken :
    ((natBuffer 3).runCalls [BufCall.push 1, BufCall.pop, BufCall.push 2, BufCall.push 3,
      BufCall.push 4]).1 =
      [(false, BufResult.pushed 1 true), (false, BufResult.popped (some 1)),
        (false, BufResult.pushed 2 true), (false, BufResult.pushed 3 true),
        (false, BufResult.pushed 4 true)] ∧
    ((natBuffer 3).runCalls [BufCall.push 1, BufCall.push 2, BufCall.pop, BufCall.pop,
      BufCall.push 3, BufCall.push 4]).1 =
      [(false, BufResult.pushed 1 true), (false, BufResult.pushed 2 true),
        (true, BufResult.popped (some 1)), (false, BufResult.popped (some 2)),
        (false, BufResult.pushed 3 true), (true, BufResult.pushed 4 false)] := by
  decide

/-! ## The backlog of a listener -/

theorem take_succ_set {α : Type} : ∀ (l : List α) (k : Nat) (a : α), k < l.length →
    (l.set k a).take (k + 1) = l.take k ++ [a]
  | [], k, a, h => by simp at h
  | x :: l, 0, a, _ => by simp
  | x :: l, k + 1, a, h => by
    have h1 : k < l.length := by simpa using h
    simp [take_succ_set l k a h1]

theorem syn_step (s : Sys) (ch : List Nat) (hwf : WF s.conn ch) (hmono : Monotone s.env.clock)
    (hl : s.conn.m_IsListener = true) (x : RdtPacket × sockaddr)
    (hx : x.1.hdr.ntoh.m_Flags = FLAG_SYN) :
    ∃ s1 ch1, Update s (readable x) = .ok (EUR_SYN, some { x.1 with hdr := x.1.hdr.ntoh }, s1) ∧
      WF s1.conn ch1 ∧ Monotone s1.env.clock ∧ s1.conn.m_IsListener = true ∧
      s1.conn.m_PendingConnections =
        (match s.conn.m_PendingConnections.Push (pendingOf x) with
          | none => s.conn.m_PendingConnections
          | some (_, b) => b) := by
  obtain ⟨sR, chR, extra, hwfR, hsame, henv, _, heq⟩ := Update_phase s (readable x) ch hwf hmono
  have hlR : sR.conn.m_IsListener = true := by rw [hsame]; exact hl
  have hpR : sR.conn.m_PendingConnections = s.conn.m_PendingConnections := by rw [hsame]
  obtain ⟨raw, addr⟩ := x
  refine ⟨{ sR with conn := { sR.conn with m_PendingConnections :=
      (match sR.conn.m_PendingConnections.Push (pendingOf (raw, addr)) with
        | none => sR.conn.m_PendingConnections
        | some (_, b) => b) } }, chR, ?_, ?_, Monotone_of_extends henv hmono, hlR, ?_⟩
  · rw [heq]
    unfold Update_poll readable
    rw [if_neg (show ¬ (1 : Int) = -1 by decide), if_neg (show ¬ (1 : Int) = 0 by decide)]
    dsimp only
    unfold Update_dispatch
    rw [if_pos hx, if_pos hlR]
    rfl
  · exact WF_congr sR.conn _ chR hwfR rfl rfl rfl (fun _ he => he) (Or.inl rfl)
  · show (match sR.conn.m_PendingConnections.Push (pendingOf (raw, addr)) with
        | none => sR.conn.m_PendingConnections
        | some (_, b) => b) = _
    rw [hpR]

theorem pending_push {T : Type} (b : CircularBuffer T) (n k : Nat) (e : T)
    (hsz : b.m_Size = n + 1) (hr : b.m_ReadIndex = 0) (hw : b.m_WriteIndex = k) (hk : k < n) :
    b.Push e = some (k, { b with m_pData := b.m_pData.set k e, m_WriteIndex := k + 1 }) := by
  unfold CircularBuffer.Push
  rw [hr, hw, hsz]
  have h1 : ¬ (((Int.natAbs (((0 : Nat) : Int) - (k : Int)) : Nat) : Int) ≥ ((n + 1 : Nat) : Int) - 1) := by
    omega
  rw [if_neg h1]
  have h2 : (k + 1) % (n + 1) = k + 1 := Nat.mod_eq_of_lt (by omega)
  rw [h2]

theorem pending_full {T : Type} (b : CircularBuffer T) (n : Nat) (e : T)
    (hsz : b.m_Size = n + 1) (hr : b.m_ReadIndex = 0) (hw : b.m_WriteIndex = n) :
    b.Push e = none := by
  unfold CircularBuffer.Push
  rw [hr, hw, hsz]
  have h1 : (((Int.natAbs (((0 : Nat) : Int) - (n : Int)) : Nat) : Int) ≥ ((n + 1 : Nat) : Int) - 1) := by
    omega
  rw [if_pos h1]

theorem syn_run (n : Nat) : ∀ (syns : List (RdtPacket × sockaddr)) (s : Sys) (ch : List Nat)
    (k : Nat), WF s.conn ch → Monotone s.env.clock → s.conn.m_IsListener = true →
    s.conn.m_PendingConnections.m_Size = n + 1 →
    s.conn.m_PendingConnections.m_pData.length = n + 1 →
    s.conn.m_PendingConnections.m_ReadIndex = 0 →
    s.conn.m_PendingConnections.m_WriteIndex = k → k + syns.length ≤ n →
    (∀ x ∈ syns, x.1.hdr.ntoh.m_Flags = FLAG_SYN) →
    ∃ s1 ch1, runUpdates s (syns.map readable) = .ok (List.replicate syns.length EUR_SYN, s1) ∧
      WF s1.conn ch1 ∧ Monotone s1.env.clock ∧ s1.conn.m_IsListener = true ∧
      s1.conn.m_PendingConnections.m_Size = n + 1 ∧
      s1.conn.m_PendingConnections.m_pData.length = n + 1 ∧
      s1.conn.m_PendingConnections.m_ReadIndex = 0 ∧
      s1.conn.m_PendingConnections.m_WriteIndex = k + syns.length ∧
      s1.conn.m_PendingConnections.m_pData.take (k + syns.length) =
        s.conn.m_PendingConnections.m_pData.take k ++ syns.map pendingOf
  | [], s, ch, k, hwf, hmono, hl, hsz, hlen, hr, hw, _, _ =>
    ⟨s, ch, rfl, hwf, hmono, hl, hsz, hlen, hr, by simpa using hw, by simp⟩
  | x :: rest, s, ch, k, hwf, hmono, hl, hsz, hlen, hr, hw, hk, hsyn => by
    obtain ⟨s1, ch1, hres, hwf1, hm1, hl1, hp1⟩ :=
      syn_step s ch hwf hmono hl x (hsyn x (List.mem_cons_self _ _))
    have hk1 : k < n := by simp at hk; omega
    rw [pending_push _ n k _ hsz hr hw hk1] at hp1
    obtain ⟨s2, ch2, hres2, hwf2, hm2, hl2, hsz2, hlen2, hr2, hw2, htake⟩ :=
      syn_run n rest s1 ch1 (k + 1) hwf1 hm1 hl1 (by rw [hp1]; exact hsz)
        (by rw [hp1]; simpa using hlen) (by rw [hp1]; exact hr) (by rw [hp1])
        (by simp at hk; omega) (fun y hy => hsyn y (List.mem_cons_of_mem _ hy))
    refine ⟨s2, ch2, ?_, hwf2, hm2, hl2, hsz2, hlen2, hr2, ?_, ?_⟩
    · simp only [List.map_cons, runUpdates, hres, hres2, List.length_cons, List.replicate_succ]
    · rw [hw2]; simp; omega
    · have e1 : k + (x :: rest).length = k + 1 + rest.length := by simp; omega
      rw [e1, htake, hp1]
      show (s.conn.m_PendingConnections.m_pData.set k (pendingOf x)).take (k + 1) ++ _ = _
      rw [take_succ_set _ _ _ (by omega)]
      simp

/-- C15 (scenario 5, backlog drop). Let `Listen(b)` with `b >= 1` be called on a well-formed
connection that is not yet a listener and whose pending queue is as the constructor leaves
it, under a non-decreasing clock, and let `b` pure-SYN datagrams and then one more arrive.
`Listen` returns 0; `Update` returns `EUR_SYN` for each of them; after the first `b` the queue
holds their records in arrival order (read index 0, write index `b`); and the call for the
last one leaves the queue as it is. -/
theorem C15_backlog_drop (s : Sys) (ch : List Nat) (hwf : WF s.conn ch)
    (hmono : Monotone s.env.clock) (b : Nat) (hb : 1 ≤ b) (hint : (b : Int) + 1 < 2 ^ 31)
    (hnl : s.conn.m_IsListener = false)
    (hr : s.conn.m_PendingConnections.m_ReadIndex = 0)
    (hw : s.conn.m_PendingConnections.m_WriteIndex = 0) (junk : PendingConnection)
    (syns : List (RdtPacket × sockaddr)) (late : RdtPacket × sockaddr)
    (hlen : syns.length = b) (hsyn : ∀ x ∈ syns, x.1.hdr.ntoh.m_Flags = FLAG_SYN)
    (hlate : late.1.hdr.ntoh.m_Flags = FLAG_SYN) :
    (Listen s b junk).1 = 0 ∧
    ∃ sb sf,
      runUpdates (Listen s b junk).2 (syns.map readable) = .ok (List.replicate b EUR_SYN, sb) ∧
      sb.conn.m_PendingConnections.m_ReadIndex = 0 ∧
      sb.conn.m_PendingConnections.m_WriteIndex = b ∧
      sb.conn.m_PendingConnections.m_pData.take b = syns.map pendingOf ∧
      Update sb (readable late) =
        .ok (EUR_SYN, some { late.1 with hdr := late.1.hdr.ntoh }, sf) ∧
      sf.conn.m_PendingConnections = sb.conn.m_PendingConnections := by
  have hb1 : ¬ ((b : Int) < 1) := by omega
  have hL : Listen s b junk = (0, { s with conn := { s.conn with
      m_IsListener := true
      m_PendingConnections :=
        s.conn.m_PendingConnections.Initialize (b + 1) junk } }) := by
    unfold Listen
    rw [if_neg hb1, hnl]
    simp only [Bool.not_false, if_true]
    have : ((b : Int) + 1).toNat = b + 1 := by omega
    rw [this]
  rw [hL]
  refine ⟨rfl, ?_⟩
  obtain ⟨sL, hsL⟩ : ∃ sL : Sys, sL = { s with conn := { s.conn with
      m_IsListener := true
      m_PendingConnections :=
        s.conn.m_PendingConnections.Initialize (b + 1) junk } } := ⟨_, rfl⟩
  show ∃ sb sf, runUpdates _ _ = _ ∧ _
  rw [← hsL]
  obtain ⟨sb, chb, hres, hwfb, hmb, hlb, hszb, hlenb, hrb, hwb, htake⟩ :=
    syn_run b syns sL ch 0
      (by rw [hsL]; exact WF_congr s.conn _ ch hwf rfl rfl rfl (fun _ he => he) (Or.inl rfl))
      (by rw [hsL]; exact hmono) (by rw [hsL]) (by rw [hsL]; rfl)
      (by rw [hsL]; simp [CircularBuffer.Initialize]) (by rw [hsL]; exact hr)
      (by rw [hsL]; exact hw) (by omega) hsyn
  obtain ⟨sf, chf, hresf, _, _, _, hpf⟩ := syn_step sb chb hwfb hmb hlb late hlate
  rw [pending_full _ b _ hszb hrb (by rw [hwb, hlen]; simp)] at hpf
  refine ⟨sb, sf, ?_, hrb, ?_, ?_, hresf, hpf⟩
  · rw [← hlen]; exact hres
  · rw [hwb, hlen]; simp
  · have := htake
    rw [hlen] at this
    simpa using this

theorem C15_backlog_drop_witness :
    (Listen (Sys.fresh Env.quiet) 2 { addr := [], seqNum := 0 }).1 = 0 ∧
    ∃ sb sf,
      runUpdates (Listen (Sys.fresh Env.quiet) 2 { addr := [], seqNum := 0 }).2
        ([(onWire (synPkt 5), [10, 0, 0, 2]), (onWire (synPkt 6), [10, 0, 0, 3])].map readable) =
        .ok (List.replicate 2 EUR_SYN, sb) ∧
      sb.conn.m_PendingConnections.m_ReadIndex = 0 ∧
      sb.conn.m_PendingConnections.m_WriteIndex = 2 ∧
      sb.conn.m_PendingConnections.m_pData.take 2 =
        [(onWire (synPkt 5), [10, 0, 0, 2]), (onWire (synPkt 6), [10, 0, 0, 3])].map pendingOf ∧
      Update sb (readable (onWire (synPkt 7), [10, 0, 0, 4])) =
        .ok (EUR_SYN, some { (onWire (synPkt 7)) with hdr := (onWire (synPkt 7)).hdr.ntoh }, sf) ∧
      sf.conn.m_PendingConnections = sb.conn.m_PendingConnections :=
  C15_backlog_drop (Sys.fresh Env.quiet) [] (WF_fresh Env.quiet) (fun _ _ _ => Nat.le_refl _) 2
    (by decide) (by decide) rfl rfl rfl { addr := [], seqNum := 0 }
    [(onWire (synPkt 5), [10, 0, 0, 2]), (onWire (synPkt 6), [10, 0, 0, 3])]
    (onWire (synPkt 7), [10, 0, 0, 4]) rfl (by decide) (by decide)

/-! ## A tracked send -/

theorem chainLast_spec (slots : List UnackedPacket) :
    ∀ (ch : List Nat) (e fuel : Nat), IsSeg slots ch (some e) none → ch.length ≤ fuel →
      ∃ t u, chainLast slots fuel e = .ok t ∧ slots[t]? = some u ∧ u.m_pNext = none ∧
        ch.getLast? = some t
  | [], _, _, h, _ => Option.noConfusion h
  | j :: rest, e, 0, _, hf => by simp at hf
  | j :: rest, e, fuel + 1, h, hf => by
    obtain ⟨h1, u, hu, h2⟩ := h
    have hej : e = j := Option.some.inj h1
    subst hej
    unfold chainLast
    rw [hu]
    dsimp only
    cases hn : u.m_pNext with
    | none =>
      rw [hn] at h2
      have : rest = [] := IsSeg_none_start slots rest none h2
      subst this
      exact ⟨e, u, rfl, hu, hn, rfl⟩
    | some k =>
      rw [hn] at h2
      obtain ⟨t, ut, hres, hut, hnt, hlast⟩ :=
        chainLast_spec slots rest k fuel h2 (by simp at hf; omega)
      refine ⟨t, ut, hres, hut, hnt, ?_⟩
      cases rest with
      | nil => exact Option.noConfusion h2
      | cons r rs => simpa using hlast

theorem Push_of_hasRoom {T : Type} (b : CircularBuffer T) (x : T) (h : b.hasRoom) :
    b.Push x = some (b.m_WriteIndex,
      { b with m_pData := b.m_pData.set b.m_WriteIndex x
               m_WriteIndex := (b.m_WriteIndex + 1) % b.m_Size }) := by
  unfold CircularBuffer.Push
  unfold CircularBuffer.hasRoom at h
  rw [if_neg (by omega)]

theorem Send_tracked_eq (s : Sys) (pkt : RdtPacket) (isSyn : Bool) (ch : List Nat)
    (hwf : WF s.conn ch) (hf1 : pkt.hdr.m_Flags ≠ FLAG_ACK)
    (hf2 : pkt.hdr.m_Flags ≠ (FLAG_ACK ||| FLAG_FIN))
    (hroom : s.conn.m_UnackedPackets.hasRoom) :
    ∃ slots1,
      Send s pkt false isSyn =
        .ok (Send_transmit (Send_tracked_state s pkt isSyn slots1) pkt false) ∧
      slots1.length = s.conn.m_UnackedPackets.m_pData.length ∧
      (∃ u, slots1[s.conn.m_UnackedPackets.m_WriteIndex]? = some u ∧
        u.m_pPacket = some { pkt with hdr := pkt.hdr.hton.ntoh }) ∧
      (s.conn.m_UnackedPackets.m_WriteIndex ∉ ch →
        (ch = [] ∧ slots1 = s.conn.m_UnackedPackets.m_pData.set
            s.conn.m_UnackedPackets.m_WriteIndex (Send_unacked s pkt)) ∨
        (∃ mid l ul, ch = mid ++ [l] ∧ s.conn.m_UnackedPackets.m_pData[l]? = some ul ∧
          slots1 = (s.conn.m_UnackedPackets.m_pData.set
            s.conn.m_UnackedPackets.m_WriteIndex (Send_unacked s pkt)).set l
              { ul with m_pNext := some s.conn.m_UnackedPackets.m_WriteIndex })) := by
  have hcond : (!false && pkt.hdr.m_Flags != FLAG_ACK &&
      pkt.hdr.m_Flags != (FLAG_ACK ||| FLAG_FIN)) = true := by
    simp [hf1, hf2]
  have hwlt := hwf.core.write_lt
  have hlen := hwf.core.size_eq
  cases he : s.conn.m_pEarliestPacket with
  | none =>
    have hch : ch = [] := by
      have := hwf.core.chain
      rw [he] at this
      exact IsSeg_none_start _ _ _ this
    refine ⟨s.conn.m_UnackedPackets.m_pData.set s.conn.m_UnackedPackets.m_WriteIndex
      (Send_unacked s pkt), ?_, by simp, ?_, fun _ => Or.inl ⟨hch, rfl⟩⟩
    · unfold Send
      rw [if_pos hcond]
      simp only [Sys.clockCall]
      rw [Push_of_hasRoom _ _ hroom]
      simp only [he]
      cases isSyn <;> simp [Send_tracked_state, he, Send_unacked]
    · refine ⟨Send_unacked s pkt, ?_, rfl⟩
      exact List.getElem?_set_self (by omega)
  | some e =>
    obtain ⟨slotsB, hsB⟩ : ∃ slotsB : List UnackedPacket, slotsB =
      s.conn.m_UnackedPackets.m_pData.set s.conn.m_UnackedPackets.m_WriteIndex
        (Send_unacked s pkt) := ⟨_, rfl⟩
    have hBw : slotsB[s.conn.m_UnackedPackets.m_WriteIndex]? = some (Send_unacked s pkt) := by
      rw [hsB]; exact List.getElem?_set_self (by omega)
    have hBne : ∀ j, j ≠ s.conn.m_UnackedPackets.m_WriteIndex →
        slotsB[j]? = s.conn.m_UnackedPackets.m_pData[j]? := by
      intro j hj
      rw [hsB, List.getElem?_set_ne (fun h => hj h.symm)]
    have hBlen : slotsB.length = s.conn.m_UnackedPackets.m_pData.length := by
      rw [hsB]; simp
    have hchain := hwf.core.chain
    rw [he] at hchain
    -- the chain that the loop walks in the storage after the push
    have hwalk : ∃ ch1, IsSeg slotsB ch1 (some e) none ∧ ch1.length ≤ slotsB.length ∧
        (s.conn.m_UnackedPackets.m_WriteIndex ∉ ch → ch1 = ch) := by
      by_cases hw : s.conn.m_UnackedPackets.m_WriteIndex ∈ ch
      · obtain ⟨a, b, hab⟩ := List.append_of_mem hw
        rw [hab] at hchain
        obtain ⟨mid, h1, h2⟩ := (IsSeg_append _ a _ _ _).mp hchain
        have hmid : mid = some s.conn.m_UnackedPackets.m_WriteIndex := h2.1
        have hnd := hwf.core.nodup
        rw [hab] at hnd
        have hna : s.conn.m_UnackedPackets.m_WriteIndex ∉ a := by
          intro h
          have := (List.nodup_append.mp hnd).2.2
          exact this h (List.mem_cons_self _ _)
        refine ⟨a ++ [s.conn.m_UnackedPackets.m_WriteIndex], ?_, ?_, fun h => absurd hw h⟩
        · refine (IsSeg_append _ a _ _ _).mpr ⟨mid, ?_, ?_⟩
          · refine IsSeg_congr _ slotsB a _ _ ?_ h1
            intro j hj u hu
            have hjw : j ≠ s.conn.m_UnackedPackets.m_WriteIndex := fun h => hna (h ▸ hj)
            exact ⟨u, by rw [hBne j hjw]; exact hu, rfl⟩
          · rw [hmid]
            exact ⟨rfl, Send_unacked s pkt, hBw, rfl⟩
        · have := chain_length_le _ _ _ _ hwf.core.chain hwf.core.nodup
          rw [hab] at this
          rw [hBlen]
          simp at this ⊢
          omega
      · refine ⟨ch, ?_, ?_, fun _ => rfl⟩
        · refine IsSeg_congr _ slotsB ch _ _ ?_ hchain
          intro j hj u hu
          have hjw : j ≠ s.conn.m_UnackedPackets.m_WriteIndex := fun h => hw (h ▸ hj)
          exact ⟨u, by rw [hBne j hjw]; exact hu, rfl⟩
        · rw [hBlen]
          exact chain_length_le _ _ _ _ hwf.core.chain hwf.core.nodup
    obtain ⟨ch1, hseg1, hlen1, hsame1⟩ := hwalk
    obtain ⟨t, u, hres, hut, hnt, hlast⟩ := chainLast_spec slotsB ch1 e slotsB.length hseg1 hlen1
    refine ⟨slotsB.set t { u with m_pNext := some s.conn.m_UnackedPackets.m_WriteIndex },
      ?_, by simp [hBlen], ?_, ?_⟩
    · unfold Send
      rw [if_pos hcond]
      simp only [Sys.clockCall]
      rw [Push_of_hasRoom _ _ hroom]
      simp only [he]
      have hsB2 := hsB
      unfold Send_unacked at hsB2
      rw [← hsB2, hres]
      dsimp only
      rw [hut]
      cases isSyn <;> simp [Send_tracked_state, he, Sys.setSlot, hsB2]
    · by_cases htw : t = s.conn.m_UnackedPackets.m_WriteIndex
      · subst htw
        have hu : u = Send_unacked s pkt := Option.some.inj (hut.symm.trans hBw)
        refine ⟨_, List.getElem?_set_self (by rw [hBlen]; omega), ?_⟩
        rw [hu]; rfl
      · refine ⟨Send_unacked s pkt, ?_, rfl⟩
        rw [List.getElem?_set_ne htw]
        exact hBw
    · intro hw
      right
      have hch1 := hsame1 hw
      rw [hch1] at hlast
      obtain ⟨mid, l, hml⟩ : ∃ mid l, ch = mid ++ [l] := by
        rcases eq_nil_or_snoc ch with h | h
        · rw [h] at hlast; simp at hlast
        · exact h
      have hl : l = t := by
        rw [hml] at hlast
        simpa using hlast
      subst hl
      have hlw : l ≠ s.conn.m_UnackedPackets.m_WriteIndex := by
        intro h
        apply hw
        rw [hml, ← h]
        simp
      refine ⟨mid, l, u, hml, ?_, ?_⟩
      · rw [← hBne l hlw]; exact hut
      · rw [hsB]


/-! ## SendRequest -/

theorem map_range_getD (name : List Nat) (g : Nat → Nat)
    (hg : ∀ i, i < name.length → g i = name.getD i 0) :
    (List.range name.length).map g = name := by
  apply List.ext_getElem
  · simp
  · intro i h1 h2
    simp only [List.getElem_map, List.getElem_range]
    rw [hg i h2]
    simp [List.getD, h2]

theorem request_body (q : Nat) (name : List Nat) (junk : Nat → Nat)
    (h : name.length < RDT_MAX_PKTSIZE - sizeofRdtHeader) :
    (SendRequest_packet q name junk).body.take (name.length + 1) = name ++ [0] := by
  unfold SendRequest_packet
  dsimp only
  rw [← List.map_take, List.take_range]
  have : min (name.length + 1) (RDT_MAX_PKTSIZE - sizeofRdtHeader) = name.length + 1 := by omega
  rw [this, List.range_succ, List.map_append]
  congr 1
  · apply map_range_getD
    intro i hi
    simp [hi]
  · simp

theorem request_len (q : Nat) (name : List Nat) (junk : Nat → Nat)
    (h : name.length < RDT_MAX_PKTSIZE - sizeofRdtHeader) :
    (SendRequest_packet q name junk).hdr.m_MsgLen = name.length + 9 := by
  show (name.length + sizeofRdtHeader + 1) % 65536 = _
  have : RDT_MAX_PKTSIZE - sizeofRdtHeader = 1016 := by decide
  rw [this] at h
  have h8 : sizeofRdtHeader = 8 := rfl
  rw [h8]
  omega

/-- The length test of `SendRequest` (rdt.cpp 119-122), in every state: the call returns -1
exactly when `name.length + 8 + 1 > 1024`, and then leaves the state as it is. -/
theorem SendRequest_refuses_iff (s : Sys) (name : List Nat) (junk : Nat → Nat) :
    ((∃ s1, SendRequest s name junk = .ok (-1, s1)) ↔ name.length + 8 + 1 > 1024) ∧
    (name.length + 8 + 1 > 1024 → SendRequest s name junk = .ok (-1, s)) := by
  have hc : RDT_MAX_PKTSIZE - sizeofRdtHeader = 1016 := by decide
  have hlong : name.length + 8 + 1 > 1024 → SendRequest s name junk = .ok (-1, s) := by
    intro h
    unfold SendRequest
    rw [if_pos (by rw [hc]; omega)]
  refine ⟨⟨?_, fun h => ⟨s, hlong h⟩⟩, hlong⟩
  rintro ⟨s1, h1⟩
  by_contra hn
  unfold SendRequest at h1
  rw [if_neg (by rw [hc]; omega)] at h1
  cases hS : Send s (SendRequest_packet s.conn.m_NextSeq name junk) false false with
  | error f => rw [hS] at h1; cases h1
  | ok x =>
    rw [hS] at h1
    have := (Prod.mk.inj (Except.ok.inj h1)).1
    revert this
    decide

/-- What `SendRequest` does in a well-formed state whose unacked storage lets `Push` in: it
returns -1 exactly when `name.length + 8 + 1 > 1024`, and then leaves the state as it is;
otherwise it returns 0 and hands to `Send` one packet with flags RQST, reserved 0, seq the
`m_NextSeq` before the call, length `name.length + 9` and payload the bytes of the name
followed by one NUL. `Send` transmits that one datagram and tracks the packet: it is in the
unacked storage and `m_SeqToIndex` maps its seq to its slot. -/
theorem SendRequest_with_room (s : Sys) (ch : List Nat) (hwf : WF s.conn ch)
    (hroom : s.conn.m_UnackedPackets.hasRoom) (name : List Nat) (junk : Nat → Nat) :
    ((∃ s1, SendRequest s name junk = .ok (-1, s1)) ↔ name.length + 8 + 1 > 1024) ∧
    (name.length + 8 + 1 > 1024 → SendRequest s name junk = .ok (-1, s)) ∧
    (name.length + 8 + 1 ≤ 1024 → ∃ b p s1 d,
      SendRequest s name junk = .ok (0, s1) ∧
      Send s (SendRequest_packet s.conn.m_NextSeq name junk) false false = .ok (b, p, s1) ∧
      (SendRequest_packet s.conn.m_NextSeq name junk).hdr =
        { m_SeqNumber := s.conn.m_NextSeq, m_Reserved := 0, m_MsgLen := name.length + 9,
          m_Flags := FLAG_RQST } ∧
      pktStr (SendRequest_packet s.conn.m_NextSeq name junk) = name ++ [0] ∧
      s1.env.sent = s.env.sent ++ [d] ∧ d.isResend = false ∧ d.payload = name ++ [0] ∧
      d.hdr = (SendRequest_packet s.conn.m_NextSeq name junk).hdr.hton ∧
      mapFind s1.conn.m_SeqToIndex s.conn.m_NextSeq =
        some (s.conn.m_UnackedPackets.m_WriteIndex % 65536) ∧
      ∃ u, s1.conn.m_UnackedPackets.m_pData[s.conn.m_UnackedPackets.m_WriteIndex]? = some u ∧
        u.m_pPacket = some { SendRequest_packet s.conn.m_NextSeq name junk with
          hdr := (SendRequest_packet s.conn.m_NextSeq name junk).hdr.hton.ntoh }) := by
  have hc : RDT_MAX_PKTSIZE - sizeofRdtHeader = 1016 := by decide
  have hlong : name.length + 8 + 1 > 1024 → SendRequest s name junk = .ok (-1, s) := by
    intro h
    unfold SendRequest
    rw [if_pos (by rw [hc]; omega)]
  have hshort : name.length + 8 + 1 ≤ 1024 → ∃ b p s1 d,
      SendRequest s name junk = .ok (0, s1) ∧
      Send s (SendRequest_packet s.conn.m_NextSeq name junk) false false = .ok (b, p, s1) ∧
      (SendRequest_packet s.conn.m_NextSeq name junk).hdr =
        { m_SeqNumber := s.conn.m_NextSeq, m_Reserved := 0, m_MsgLen := name.length + 9,
          m_Flags := FLAG_RQST } ∧
      pktStr (SendRequest_packet s.conn.m_NextSeq name junk) = name ++ [0] ∧
      s1.env.sent = s.env.sent ++ [d] ∧ d.isResend = false ∧ d.payload = name ++ [0] ∧
      d.hdr = (SendRequest_packet s.conn.m_NextSeq name junk).hdr.hton ∧
      mapFind s1.conn.m_SeqToIndex s.conn.m_NextSeq =
        some (s.conn.m_UnackedPackets.m_WriteIndex % 65536) ∧
      ∃ u, s1.conn.m_UnackedPackets.m_pData[s.conn.m_UnackedPackets.m_WriteIndex]? = some u ∧
        u.m_pPacket = some { SendRequest_packet s.conn.m_NextSeq name junk with
          hdr := (SendRequest_packet s.conn.m_NextSeq name junk).hdr.hton.ntoh } := by
    intro h
    have hlt : name.length < RDT_MAX_PKTSIZE - sizeofRdtHeader := by rw [hc]; omega
    have hlen := request_len s.conn.m_NextSeq name junk hlt
    have hbody := request_body s.conn.m_NextSeq name junk hlt
    have hstr : pktStr (SendRequest_packet s.conn.m_NextSeq name junk) = name ++ [0] := by
      unfold pktStr
      rw [hlen]
      exact hbody
    obtain ⟨slots1, heq, _, hslot, _⟩ :=
      Send_tracked_eq s (SendRequest_packet s.conn.m_NextSeq name junk) false ch hwf
        (show FLAG_RQST ≠ FLAG_ACK by decide) (show FLAG_RQST ≠ (FLAG_ACK ||| FLAG_FIN) by decide)
        hroom
    refine ⟨_, _, _, _, ?_, heq, ?_, hstr, rfl, rfl, hstr, rfl, ?_, hslot⟩
    · unfold SendRequest
      rw [if_neg (by rw [hc]; omega), heq]
      rfl
    · show RdtHeader.mk _ _ _ _ = _
      rw [RdtHeader.mk.injEq]
      exact ⟨rfl, rfl, hlen, rfl⟩
    · show mapFind (mapInsert _ _ _) _ = _
      exact mapFind_mapInsert_self _ _ _
  refine ⟨⟨?_, fun h => ⟨s, hlong h⟩⟩, hlong, hshort⟩
  rintro ⟨s1, h1⟩
  by_contra hn
  obtain ⟨b, p, s2, d, h2, _⟩ := hshort (by omega)
  rw [h2] at h1
  have := (Prod.mk.inj (Except.ok.inj h1)).1
  revert this
  decide

theorem SendRequest_with_room_fresh :
    ∃ s1 d, SendRequest ((Sys.fresh Env.quiet).withPeer peerA) [104, 105] (fun _ => 0) =
        .ok (0, s1) ∧
      s1.env.sent = ((Sys.fresh Env.quiet).withPeer peerA).env.sent ++ [d] ∧
      d.payload = [104, 105] ++ [0] := by
  obtain ⟨_, _, s1, d, h1, _, _, _, h2, _, h3, _⟩ :=
    (SendRequest_with_room ((Sys.fresh Env.quiet).withPeer peerA) []
      (WF_congr _ _ [] (WF_fresh Env.quiet) rfl rfl rfl (fun _ he => he) (Or.inl rfl))
      (by decide) [104, 105] (fun _ => 0)).2.2 (by decide)
  exact ⟨s1, d, h1, h2, h3⟩

/-- C18 (SendRequest), evaluated on the code. On a freshly constructed connection with a peer
`SendRequest("x")` is called eleven times in a row; the name is short, `1 + 8 + 1 ≤ 1024`.
The first ten calls return 0: ten datagrams have gone out, the request packets with seq 0,
10, .., 90 sit in slots 0 to 9 of the unacked storage, and `IsFull()` answers true.
`SendRequest` does not look at that answer: the eleventh call neither returns 0 nor hands a
tracked packet to the wire, it ends in the `assert(0)` with which `Send` guards a failed
`Push` (rdt.cpp 618-622). -/
theorem C18_SendRequest_full_storage :
    [120].length + 8 + 1 ≤ 1024 ∧
    returned (SendRequest_times [120] (fun _ => 0) 10 ((Sys.fresh Env.quiet).withPeer peerA)) =
      some 0 ∧
    requestsPending
        (SendRequest_times [120] (fun _ => 0) 10 ((Sys.fresh Env.quiet).withPeer peerA)) =
      some (10, [some 0, some 10, some 20, some 30, some 40, some 50, some 60, some 70,
        some 80, some 90, none], true) ∧
    returned (SendRequest_times [120] (fun _ => 0) 11 ((Sys.fresh Env.quiet).withPeer peerA)) =
      none ∧
    faultOf (SendRequest_times [120] (fun _ => 0) 11 ((Sys.fresh Env.quiet).withPeer peerA)) =
      some Fault.assertFailed :=
  ⟨by decide, by decide, by decide, by decide, by decide⟩

/-! ## The request round trip -/

theorem takeWhile_name (name stale : List Nat) (hnul : ∀ c ∈ name, c ≠ 0) :
    (name ++ [0] ++ stale).takeWhile (fun c => c != 0) = name := by
  induction name with
  | nil => simp
  | cons a l ih =>
    have ha : a ≠ 0 := hnul a (List.mem_cons_self _ _)
    have := ih (fun c hc => hnul c (List.mem_cons_of_mem _ hc))
    simp only [List.cons_append, List.takeWhile_cons]
    simp [ha]
    simpa using this

/-- C19 (request round trip). Let `SendRequest` build the RQST packet for a name of at most
1015 bytes without NUL, let `Send` put it on the wire (header in network order, `len - 8`
payload bytes), and let the datagram arrive at a well-formed connection whose peer is the
sender, under a non-decreasing clock. `RecvRequest` returns 0, the name it extracts is the
original name, and the header that `Update` decoded is the header that was built. -/
theorem C19_request_round_trip (sender : Sys) (name : List Nat) (junk : Nat → Nat)
    (stale : List Nat) (r : Sys) (ch : List Nat) (hwf : WF r.conn ch)
    (hmono : Monotone r.env.clock) (peer : sockaddr) (hpeer : r.conn.m_pAddr = some peer)
    (hlen : name.length ≤ 1015) (hnul : ∀ c ∈ name, c ≠ 0)
    (hseq : sender.conn.m_NextSeq < 65536) :
    ∃ r1, RecvRequest r [readable (received (Send_datagram sender
        (SendRequest_packet sender.conn.m_NextSeq name junk) false) stale, peer)] =
        .ok (0, some name, r1) ∧
      (received (Send_datagram sender
        (SendRequest_packet sender.conn.m_NextSeq name junk) false) stale).hdr.ntoh =
        (SendRequest_packet sender.conn.m_NextSeq name junk).hdr := by
  have hc : RDT_MAX_PKTSIZE - sizeofRdtHeader = 1016 := by decide
  have hlt : name.length < RDT_MAX_PKTSIZE - sizeofRdtHeader := by rw [hc]; omega
  have hmsg := request_len sender.conn.m_NextSeq name junk hlt
  have hbody := request_body sender.conn.m_NextSeq name junk hlt
  have hhdr : (SendRequest_packet sender.conn.m_NextSeq name junk).hdr.hton.ntoh =
      (SendRequest_packet sender.conn.m_NextSeq name junk).hdr := by
    apply ntoh_hton
    refine ⟨hseq, ?_, ?_, ?_⟩
    · show (0 : Nat) < 65536; decide
    · rw [hmsg]; omega
    · show FLAG_RQST < 65536; decide
  obtain ⟨raw, hraw⟩ : ∃ raw : RdtPacket, raw = received (Send_datagram sender
      (SendRequest_packet sender.conn.m_NextSeq name junk) false) stale := ⟨_, rfl⟩
  have hrh : raw.hdr.ntoh = (SendRequest_packet sender.conn.m_NextSeq name junk).hdr := by
    rw [hraw]; exact hhdr
  have hflags : raw.hdr.ntoh.m_Flags = FLAG_RQST := by rw [hrh]; rfl
  have hrb : raw.body = name ++ [0] ++ stale := by
    rw [hraw]
    show List.take _ _ ++ stale = _
    rw [hmsg]
    show List.take (name.length + 1) _ ++ stale = _
    rw [hbody]
  rw [← hraw]
  have hd : isDataBearing raw.hdr.ntoh := by
    unfold isDataBearing
    rw [hflags]
    decide
  obtain ⟨sR, chR, extra, _, _, _, _, heq⟩ :=
    Update_data r (readable (raw, peer)) raw peer ch hwf hmono
      (show ¬ (1 : Int) = -1 by decide) (show ¬ (1 : Int) = 0 by decide) rfl hpeer hd
  rw [Update_onData_eq] at heq
  have hq : hasFlag raw.hdr.ntoh.m_Flags FLAG_RQST = true := by rw [hflags]; decide
  rw [if_pos hq] at heq
  refine ⟨(Send_transmit sR (Update_mkAck { raw with hdr := raw.hdr.ntoh }) false).2.2, ?_, hrh⟩
  unfold RecvRequest
  rw [heq]
  dsimp only
  rw [if_neg (fun h => h rfl)]
  simp only [Option.map_some', RecvRequest_name, hrb, takeWhile_name name stale hnul]

theorem C19_request_round_trip_witness :
    ∃ r1, RecvRequest ((Sys.fresh Env.quiet).withPeer peerA)
        [readable (received (Send_datagram (Sys.fresh Env.quiet)
          (SendRequest_packet (Sys.fresh Env.quiet).conn.m_NextSeq [104, 105] (fun _ => 7))
          false) [9, 9], peerA)] = .ok (0, some [104, 105], r1) ∧
      (received (Send_datagram (Sys.fresh Env.quiet)
        (SendRequest_packet (Sys.fresh Env.quiet).conn.m_NextSeq [104, 105] (fun _ => 7))
        false) [9, 9]).hdr.ntoh =
        (SendRequest_packet (Sys.fresh Env.quiet).conn.m_NextSeq [104, 105] (fun _ => 7)).hdr :=
  C19_request_round_trip (Sys.fresh Env.quiet) [104, 105] (fun _ => 7) [9, 9]
    ((Sys.fresh Env.quiet).withPeer peerA) []
    (WF_congr _ _ [] (WF_fresh Env.quiet) rfl rfl rfl (fun _ he => he) (Or.inl rfl))
    (fun _ _ _ => Nat.le_refl _) peerA rfl (by decide) (by decide) (by decide)

/-- C20 (SendRequest and the ACK), evaluated on the code: in a well-formed state whose
unacked storage lets `Push` in, `SendRequest` with a name of at most 1015 bytes returns 0
right after `Send`, without a call of `Update` (the clock has been read once, by `Send`): the
request packet is still in the unacked storage, `m_SeqToIndex` maps its seq to its slot, and
`m_WndCurr` has grown by its length. -/
theorem C20_SendRequest_does_not_wait (s : Sys) (ch : List Nat) (hwf : WF s.conn ch)
    (hroom : s.conn.m_UnackedPackets.hasRoom) (name : List Nat) (junk : Nat → Nat)
    (hshort : name.length + 8 + 1 ≤ 1024) :
    ∃ s1, SendRequest s name junk = .ok (0, s1) ∧
      (∃ u, s1.conn.m_UnackedPackets.m_pData[s.conn.m_UnackedPackets.m_WriteIndex]? = some u ∧
        u.m_pPacket = some { SendRequest_packet s.conn.m_NextSeq name junk with
          hdr := (SendRequest_packet s.conn.m_NextSeq name junk).hdr.hton.ntoh }) ∧
      mapFind s1.conn.m_SeqToIndex s.conn.m_NextSeq =
        some (s.conn.m_UnackedPackets.m_WriteIndex % 65536) ∧
      s1.conn.m_WndCurr = (s.conn.m_WndCurr + (name.length + 9)) % 65536 ∧
      s1.conn.m_pLatestPacket = some s.conn.m_UnackedPackets.m_WriteIndex ∧
      s1.env.nClock = s.env.nClock + 1 := by
  have hc : RDT_MAX_PKTSIZE - sizeofRdtHeader = 1016 := by decide
  have hlt : name.length < RDT_MAX_PKTSIZE - sizeofRdtHeader := by rw [hc]; omega
  have hlen := request_len s.conn.m_NextSeq name junk hlt
  obtain ⟨slots1, heq, _, hslot, _⟩ :=
    Send_tracked_eq s (SendRequest_packet s.conn.m_NextSeq name junk) false ch hwf
      (show FLAG_RQST ≠ FLAG_ACK by decide) (show FLAG_RQST ≠ (FLAG_ACK ||| FLAG_FIN) by decide)
      hroom
  refine ⟨(Send_transmit (Send_tracked_state s (SendRequest_packet s.conn.m_NextSeq name junk)
    false slots1) (SendRequest_packet s.conn.m_NextSeq name junk) false).2.2,
    ?_, hslot, ?_, ?_, rfl, rfl⟩
  · unfold SendRequest
    rw [if_neg (by rw [hc]; omega), heq]
  · show mapFind (mapInsert _ _ _) _ = _
    exact mapFind_mapInsert_self _ _ _
  · show (s.conn.m_WndCurr + (SendRequest_packet s.conn.m_NextSeq name junk).hdr.m_MsgLen)
      % 65536 = _
    rw [hlen]

theorem C20_SendRequest_does_not_wait_witness :
    ∃ s1, SendRequest ((Sys.fresh Env.quiet).withPeer peerA) [104, 105] (fun _ => 0) =
        .ok (0, s1) ∧
      s1.conn.m_WndCurr = 11 ∧ s1.conn.m_pLatestPacket = some 0 ∧
      mapFind s1.conn.m_SeqToIndex 0 = some 0 := by
  obtain ⟨s1, h1, _, h2, h3, h4, _⟩ :=
    C20_SendRequest_does_not_wait ((Sys.fresh Env.quiet).withPeer peerA) []
      (WF_congr _ _ [] (WF_fresh Env.quiet) rfl rfl rfl (fun _ he => he) (Or.inl rfl))
      (by decide) [104, 105] (fun _ => 0) (by decide)
  exact ⟨s1, h1, h3, h4, h2⟩

/-! ## SendFile of rdp.cpp: a file of one segment -/

theorem Rdp_loop_done (mss : Nat)
    (upd : Sys → UpdateIO → Except Fault (Int × Option RdtPacket × Sys)) (k : Nat) (s : Sys)
    (b : Bool) (ios : List UpdateIO) :
    Rdp_SendFile_loop mss upd (k + 1) s [] b ios = ([], .ok (s, ios)) := by
  unfold Rdp_SendFile_loop
  simp

theorem Rdp_loop_single (mss : Nat)
    (upd : Sys → UpdateIO → Except Fault (Int × Option RdtPacket × Sys)) (s : Sys)
    (file : List Nat) (ios : List UpdateIO) (h1 : 1 ≤ file.length) (h2 : file.length ≤ mss) :
    ((Rdp_SendFile_loop mss upd (file.length + 1) s file true ios).1 = [] ∧
      ∃ f, (Rdp_SendFile_loop mss upd (file.length + 1) s file true ios).2 = .error f) ∨
    ∃ p, (Rdp_SendFile_loop mss upd (file.length + 1) s file true ios).1 = [p] ∧
      p.hdr.m_Flags = FLAG_FIRST ∧ p.body = file := by
  obtain ⟨k, hk⟩ : ∃ k, file.length = k + 1 := ⟨file.length - 1, by omega⟩
  have hm : min mss file.length = file.length := by omega
  unfold Rdp_SendFile_loop
  rw [if_neg (by omega)]
  simp only [hm, Nat.sub_self, if_true, List.take_length, List.drop_length]
  cases hs : Rdp_SendFile_spin upd s ((file.length + sizeofRdtHeader) % 65536) ios with
  | error f => left; exact ⟨rfl, f, rfl⟩
  | ok x =>
    obtain ⟨s1, ios1⟩ := x
    right
    dsimp only
    obtain ⟨pk, hpk⟩ : ∃ pk : RdtPacket, pk =
        { hdr := { m_SeqNumber := s.conn.m_NextSeq, m_Reserved := 0,
                   m_MsgLen := (file.length + sizeofRdtHeader) % 65536,
                   m_Flags := FLAG_FIRST },
          body := file } := ⟨_, rfl⟩
    rw [← hpk]
    refine ⟨pk, ?_, by rw [hpk], by rw [hpk]⟩
    split
    · rfl
    · rw [hk, Rdp_loop_done]

/-- C17 (rdp.cpp, file of one segment), evaluated on the code: for every non-empty file that
fits in one segment, whatever `RDP_MSS` is and however `Update` behaves, `SendFile` of
rdp.cpp hands at most one packet to `Send`, that packet carries the whole file, and its flags
are FIRST alone, not FIRST|LAST: the branch that sets LAST is the `else` of the branch that
sets FIRST. -/
theorem C17_rdp_single_segment_flags (mss : Nat)
    (upd : Sys → UpdateIO → Except Fault (Int × Option RdtPacket × Sys)) (s : Sys)
    (file : List Nat) (ios : List UpdateIO) (h1 : 1 ≤ file.length) (h2 : file.length ≤ mss) :
    ((Rdp_SendFile mss upd s (some file) ios).1 = [] ∧
      returned (Rdp_SendFile mss upd s (some file) ios).2 = none) ∨
    ∃ p, (Rdp_SendFile mss upd s (some file) ios).1 = [p] ∧ p.body = file ∧
      p.hdr.m_Flags = FLAG_FIRST ∧ p.hdr.m_Flags ≠ (FLAG_FIRST ||| FLAG_LAST) := by
  have hfst : ∀ r : List RdtPacket × Except Fault (Sys × List UpdateIO),
      (match r.2 with
        | .error f => (r.1, (.error f : Except Fault (Int × Sys)))
        | .ok (s1, ios1) =>
          match Rdp_SendFile_drain upd s1 ios1 with
          | .error f => (r.1, .error f)
          | .ok (s2, _) => (r.1, .ok (0, s2))).1 = r.1 := by
    intro r
    cases r.2 with
    | error f => rfl
    | ok x =>
      obtain ⟨s1, ios1⟩ := x
      dsimp only
      cases Rdp_SendFile_drain upd s1 ios1 with
      | error f => rfl
      | ok y => rfl
  have h1st : (Rdp_SendFile mss upd s (some file) ios).1 =
      (Rdp_SendFile_loop mss upd (file.length + 1) s file true ios).1 := by
    unfold Rdp_SendFile
    exact hfst _
  rcases Rdp_loop_single mss upd s file ios h1 h2 with ⟨hnil, f, hf⟩ | ⟨p, hp, hflag, hbody⟩
  · left
    refine ⟨by rw [h1st]; exact hnil, ?_⟩
    unfold Rdp_SendFile
    dsimp only
    rw [hf]
    rfl
  · right
    refine ⟨p, by rw [h1st]; exact hp, hbody, hflag, ?_⟩
    rw [hflag]
    decide

theorem C17_rdp_single_segment_flags_witness :
    (((Rdp_SendFile RDP_MSS Update ((Sys.fresh Env.quiet).withPeer peerA) (some helloFile)
        [arrival (ackPkt 0) peerA]).1 = [] ∧
      returned (Rdp_SendFile RDP_MSS Update ((Sys.fresh Env.quiet).withPeer peerA)
        (some helloFile) [arrival (ackPkt 0) peerA]).2 = none) ∨
      ∃ p, (Rdp_SendFile RDP_MSS Update ((Sys.fresh Env.quiet).withPeer peerA) (some helloFile)
        [arrival (ackPkt 0) peerA]).1 = [p] ∧ p.body = helloFile ∧
      p.hdr.m_Flags = FLAG_FIRST ∧ p.hdr.m_Flags ≠ (FLAG_FIRST ||| FLAG_LAST)) ∧
    (Rdp_SendFile RDP_MSS Update ((Sys.fresh Env.quiet).withPeer peerA) (some helloFile)
      [arrival (ackPkt 0) peerA]).1.map (fun p => p.hdr.m_Flags) = [FLAG_FIRST] ∧
    returned (Rdp_SendFile RDP_MSS Update ((Sys.fresh Env.quiet).withPeer peerA)
      (some helloFile) [arrival (ackPkt 0) peerA]).2 = some 0 :=
  ⟨C17_rdp_single_segment_flags RDP_MSS Update ((Sys.fresh Env.quiet).withPeer peerA) helloFile
    [arrival (ackPkt 0) peerA] (by decide) (by decide), by decide, by decide⟩

/-! ## SendFile: the packets handed to Send -/

theorem SendFile_loop_spec (file : List Nat) :
    ∀ (fuel j : Nat) (s : Sys) (ios : List UpdateIO),
      (j = 0 ∨ 1015 * j < file.length) → file.length - 1015 * j < fuel →
      ∃ m, j + m ≤ segmentCount file.length ∧
        (SendFile_loop fuel s (file.drop (1015 * j)) (decide (j = 0)) ios).1.map segmentView =
          (List.range' j m).map (segmentSpec file) ∧
        ((∃ x, (SendFile_loop fuel s (file.drop (1015 * j)) (decide (j = 0)) ios).2 = .ok x) →
          j + m = segmentCount file.length) := by
  intro fuel
  induction fuel with
  | zero => intro j s ios _ h; exact absurd h (Nat.not_lt_zero _)
  | succ n ih =>
    intro j s ios hj hfuel
    have hmss : RDT_MSS = 1015 := by decide
    have hcount : j + 1 ≤ segmentCount file.length := by
      unfold segmentCount; omega
    have hlast : file.length - 1015 * j - min 1015 (file.length - 1015 * j) = 0 ↔
        j + 1 = segmentCount file.length := by
      unfold segmentCount; omega
    obtain ⟨pk, hpk⟩ : ∃ pk : RdtPacket, pk =
        { hdr := { m_SeqNumber := s.conn.m_NextSeq, m_Reserved := 0,
                   m_MsgLen := (min RDT_MSS (file.drop (1015 * j)).length + sizeofRdtHeader)
                     % 65536,
                   m_Flags :=
                     if (file.drop (1015 * j)).length -
                         min RDT_MSS (file.drop (1015 * j)).length = 0 then
                       (if decide (j = 0) then FLAG_FIRST else 0) ||| FLAG_LAST
                     else (if decide (j = 0) then FLAG_FIRST else 0) },
          body := (file.drop (1015 * j)).take (min RDT_MSS (file.drop (1015 * j)).length) } :=
      ⟨_, rfl⟩
    have hL : (file.drop (1015 * j)).length = file.length - 1015 * j := List.length_drop _ _
    have htake : ∀ (l : List Nat), l.take (min 1015 l.length) = l.take 1015 := by
      intro l
      by_cases h : 1015 ≤ l.length
      · rw [Nat.min_eq_left h]
      · have h1 : l.length ≤ 1015 := by omega
        rw [Nat.min_eq_right h1, List.take_length, List.take_of_length_le h1]
    have hview : segmentView pk = segmentSpec file j := by
      rw [hpk]
      unfold segmentView segmentSpec pktStr segmentFlags segmentPayload
      dsimp only
      rw [hmss, hL]
      have h8 : sizeofRdtHeader = 8 := rfl
      have hm : (min 1015 (file.length - 1015 * j) + sizeofRdtHeader) % 65536 =
          min 1015 (file.length - 1015 * j) + 8 := by rw [h8]; omega
      rw [hm, h8, Nat.add_sub_cancel, List.take_take, Nat.min_self]
      have ht := htake (file.drop (1015 * j))
      rw [hL] at ht
      rw [ht]
      have hlen2 : (List.take 1015 (List.drop (1015 * j) file)).length =
          min 1015 (file.length - 1015 * j) := by
        rw [List.length_take, hL]
      rw [hlen2]
      by_cases hz : file.length - 1015 * j - min 1015 (file.length - 1015 * j) = 0
      · rw [if_pos hz, if_pos (hlast.mp hz)]
        by_cases hj0 : j = 0 <;> simp [hj0]
      · rw [if_neg hz, if_neg (fun h => hz (hlast.mpr h))]
        by_cases hj0 : j = 0 <;> simp [hj0]
    have hml : (min RDT_MSS (file.drop (1015 * j)).length + sizeofRdtHeader) % 65536 =
        pk.hdr.m_MsgLen := by rw [hpk]
    unfold SendFile_loop
    dsimp only
    rw [← hpk, hml]
    cases hspin : SendFile_spin s pk.hdr.m_MsgLen ios with
    | error f =>
      refine ⟨0, by omega, by simp, ?_⟩
      rintro ⟨x, hx⟩
      cases hx
    | ok x =>
      obtain ⟨s1, ios1⟩ := x
      dsimp only
      cases hsend : Send s1 pk false false with
      | error f =>
        refine ⟨1, hcount, by simp [hview], ?_⟩
        rintro ⟨x, hx⟩
        cases hx
      | ok y =>
        obtain ⟨b, p, s2⟩ := y
        dsimp only
        rw [hmss, hL]
        by_cases hz : file.length - 1015 * j - min 1015 (file.length - 1015 * j) = 0
        · rw [if_neg (fun h => h hz)]
          exact ⟨1, hcount, by simp [hview], fun _ => hlast.mp hz⟩
        · rw [if_pos hz]
          have hmin : min 1015 (file.length - 1015 * j) = 1015 := by omega
          have hdrop : List.drop (min 1015 (file.length - 1015 * j)) (List.drop (1015 * j) file) =
              List.drop (1015 * (j + 1)) file := by
            rw [hmin, List.drop_drop]
            congr 1
          rw [hdrop]
          obtain ⟨m, hm1, hm2, hm3⟩ := ih (j + 1) s2 ios1 (Or.inr (by omega)) (by omega)
          have hdec : decide (j + 1 = 0) = false := by simp
          rw [hdec] at hm2 hm3
          refine ⟨m + 1, by omega, ?_, ?_⟩
          · dsimp only
            rw [List.map_cons, hm2, hview]
            rfl
          · intro hx
            have := hm3 hx
            omega

theorem IsSeg_unique (slots : List UnackedPacket) :
    ∀ (a b : List Nat) (st : Option Nat), IsSeg slots a st none → IsSeg slots b st none → a = b
  | [], b, st, ha, hb => by
    have : st = none := ha
    subst this
    exact (IsSeg_none_start slots b none hb).symm
  | j :: a, [], st, ha, hb => by
    have : st = none := hb
    rw [this] at ha
    exact Option.noConfusion ha.1
  | j :: a, k :: b, st, ha, hb => by
    obtain ⟨h1, u, hu, h2⟩ := ha
    obtain ⟨h3, v, hv, h4⟩ := hb
    have hjk : j = k := Option.some.inj (h1.symm.trans h3)
    subst hjk
    have huv : u = v := Option.some.inj (hu.symm.trans hv)
    subst huv
    rw [IsSeg_unique slots a b _ h2 h4]

/-- A tracked send into a free slot keeps the state well-formed; the chain grows by the
slot written. -/
theorem Send_tracked_wf (s : Sys) (pkt : RdtPacket) (isSyn : Bool) (ch : List Nat)
    (hwf : WF s.conn ch) (hf1 : pkt.hdr.m_Flags ≠ FLAG_ACK)
    (hf2 : pkt.hdr.m_Flags ≠ (FLAG_ACK ||| FLAG_FIN))
    (hroom : s.conn.m_UnackedPackets.hasRoom)
    (hfree : s.conn.m_UnackedPackets.m_WriteIndex ∉ ch) :
    ∃ slots1,
      Send s pkt false isSyn =
        .ok (Send_transmit (Send_tracked_state s pkt isSyn slots1) pkt false) ∧
      WF (Send_tracked_state s pkt isSyn slots1).conn
        (ch ++ [s.conn.m_UnackedPackets.m_WriteIndex]) ∧
      slots1[s.conn.m_UnackedPackets.m_WriteIndex]? = some (Send_unacked s pkt) ∧
      (∀ j u, j ≠ s.conn.m_UnackedPackets.m_WriteIndex →
        s.conn.m_UnackedPackets.m_pData[j]? = some u →
        ∃ u1, slots1[j]? = some u1 ∧ u1.m_pPacket = u.m_pPacket) := by
  obtain ⟨slots1, heq, hlen1, _, hcase⟩ := Send_tracked_eq s pkt isSyn ch hwf hf1 hf2 hroom
  have hwlt := hwf.core.write_lt
  have hsz := hwf.core.size_eq
  have hfacts : slots1[s.conn.m_UnackedPackets.m_WriteIndex]? = some (Send_unacked s pkt) ∧
      (∀ j u, j ≠ s.conn.m_UnackedPackets.m_WriteIndex →
        s.conn.m_UnackedPackets.m_pData[j]? = some u →
        ∃ u1, slots1[j]? = some u1 ∧ u1.m_pPacket = u.m_pPacket) ∧
      IsSeg slots1 (ch ++ [s.conn.m_UnackedPackets.m_WriteIndex])
        (Send_tracked_state s pkt isSyn slots1).conn.m_pEarliestPacket none := by
    rcases hcase hfree with ⟨hch, hs1⟩ | ⟨mid, l, ul, hch, hul, hs1⟩
    · have he : s.conn.m_pEarliestPacket = none := by
        have := hwf.core.chain
        rw [hch] at this
        exact this
      have h1 : slots1[s.conn.m_UnackedPackets.m_WriteIndex]? = some (Send_unacked s pkt) := by
        rw [hs1]; exact List.getElem?_set_self (by omega)
      refine ⟨h1, ?_, ?_⟩
      · intro j u hj hu
        refine ⟨u, ?_, rfl⟩
        rw [hs1, List.getElem?_set_ne (fun h => hj h.symm)]
        exact hu
      · rw [hch]
        show IsSeg slots1 [_] (match s.conn.m_pEarliestPacket with
          | none => some s.conn.m_UnackedPackets.m_WriteIndex
          | some e => some e) none
        rw [he]
        exact ⟨rfl, Send_unacked s pkt, h1, rfl⟩
    · have hlch : l ∈ ch := by rw [hch]; simp
      have hlw : l ≠ s.conn.m_UnackedPackets.m_WriteIndex := fun h => hfree (h ▸ hlch)
      have hllt : l < s.conn.m_UnackedPackets.m_pData.length := getElem?_lt _ _ _ hul
      have h1 : slots1[s.conn.m_UnackedPackets.m_WriteIndex]? = some (Send_unacked s pkt) := by
        rw [hs1, List.getElem?_set_ne hlw]
        exact List.getElem?_set_self (by omega)
      have hl1 : slots1[l]? =
          some { ul with m_pNext := some s.conn.m_UnackedPackets.m_WriteIndex } := by
        rw [hs1]; exact List.getElem?_set_self (by simpa using hllt)
      have hother : ∀ j, j ≠ s.conn.m_UnackedPackets.m_WriteIndex → j ≠ l →
          slots1[j]? = s.conn.m_UnackedPackets.m_pData[j]? := by
        intro j hj hjl
        rw [hs1, List.getElem?_set_ne (fun h => hjl h.symm),
          List.getElem?_set_ne (fun h => hj h.symm)]
      refine ⟨h1, ?_, ?_⟩
      · intro j u hj hu
        by_cases hjl : j = l
        · subst hjl
          have : u = ul := Option.some.inj (hu.symm.trans hul)
          subst this
          exact ⟨_, hl1, rfl⟩
        · exact ⟨u, by rw [hother j hj hjl]; exact hu, rfl⟩
      · have hchain := hwf.core.chain
        rw [hch] at hchain
        obtain ⟨hmid, ul2, hul2, _⟩ := IsSeg_last_next _ mid l _ hchain
        have hnd := hwf.core.nodup
        rw [hch] at hnd
        have hlmid : l ∉ mid := by
          intro h
          have := (List.nodup_append.mp hnd).2.2
          exact this h (List.mem_singleton_self l)
        have he : ∃ e, s.conn.m_pEarliestPacket = some e := by
          cases hE : s.conn.m_pEarliestPacket with
          | none =>
            rw [hE] at hchain
            have := IsSeg_none_start _ _ _ hchain
            simp at this
          | some e => exact ⟨e, rfl⟩
        obtain ⟨e, he⟩ := he
        show IsSeg slots1 (ch ++ [_]) (match s.conn.m_pEarliestPacket with
          | none => some s.conn.m_UnackedPackets.m_WriteIndex
          | some e => some e) none
        rw [he, hch, List.append_assoc]
        rw [he] at hmid
        refine (IsSeg_append _ mid _ _ _).mpr ⟨some l, ?_, ?_⟩
        · refine IsSeg_congr _ slots1 mid _ _ ?_ hmid
          intro j hj u hu
          have hjw : j ≠ s.conn.m_UnackedPackets.m_WriteIndex := by
            intro h; apply hfree; rw [hch, ← h]; simp [hj]
          have hjl : j ≠ l := fun h => hlmid (h ▸ hj)
          exact ⟨u, by rw [hother j hjw hjl]; exact hu, rfl⟩
        · exact ⟨rfl, _, hl1, rfl, _, h1, rfl⟩
  obtain ⟨hF1, hF2, hchain1⟩ := hfacts
  refine ⟨slots1, heq, ?_, hF1, hF2⟩
  have hpos : 0 < s.conn.m_UnackedPackets.m_Size := by omega
  refine ⟨⟨?_, ?_, ?_, hchain1, ?_, ?_, ?_, ?_, ?_⟩, ?_⟩
  · show slots1.length = s.conn.m_UnackedPackets.m_Size
    omega
  · exact hwf.core.read_lt
  · exact Nat.mod_lt _ hpos
  · rw [List.nodup_append]
    refine ⟨hwf.core.nodup, List.nodup_singleton _, ?_⟩
    intro a ha hb
    rw [List.mem_singleton] at hb
    exact hfree (hb ▸ ha)
  · show some s.conn.m_UnackedPackets.m_WriteIndex = _
    simp
  · intro i u1 hu1
    show u1.m_pPacket ≠ none ↔ i ∈ ch ++ [s.conn.m_UnackedPackets.m_WriteIndex]
    have hu1' : slots1[i]? = some u1 := hu1
    by_cases hiw : i = s.conn.m_UnackedPackets.m_WriteIndex
    · subst hiw
      have : u1 = Send_unacked s pkt := Option.some.inj (hu1'.symm.trans hF1)
      rw [this]
      simp [Send_unacked]
    · have hilt : i < s.conn.m_UnackedPackets.m_pData.length := by
        rw [← hlen1]; exact getElem?_lt _ _ _ hu1'
      obtain ⟨u, hu⟩ : ∃ u, s.conn.m_UnackedPackets.m_pData[i]? = some u :=
        ⟨_, List.getElem?_eq_getElem hilt⟩
      obtain ⟨u2, hu2, hp2⟩ := hF2 i u hiw hu
      have : u1 = u2 := Option.some.inj (hu1'.symm.trans hu2)
      subst this
      rw [hp2, hwf.core.live i u hu]
      simp [hiw]
  · intro e he
    have he' : e ∈ (if isSyn then s.conn.m_SeqToIndex
        else mapInsert s.conn.m_SeqToIndex pkt.hdr.m_SeqNumber
          (s.conn.m_UnackedPackets.m_WriteIndex % 65536)) := he
    show e.2 < s.conn.m_UnackedPackets.m_Size
    cases isSyn with
    | true => exact hwf.core.map_valid e (by simpa using he')
    | false =>
      simp only [Bool.false_eq_true, if_false, mapInsert, List.mem_cons] at he'
      rcases he' with h | h
      · rw [h]
        exact Nat.lt_of_le_of_lt (Nat.mod_le _ _) hwlt
      · exact hwf.core.map_valid e ((mem_mapErase _ _ _).mp h).1
  · show (if isSyn then (s.conn.m_UnackedPackets.m_WriteIndex : Int) else s.conn.m_SynIndex) = -1 ∨
      (0 ≤ (if isSyn then (s.conn.m_UnackedPackets.m_WriteIndex : Int) else s.conn.m_SynIndex) ∧
        (if isSyn then (s.conn.m_UnackedPackets.m_WriteIndex : Int) else s.conn.m_SynIndex) <
          s.conn.m_UnackedPackets.m_Size)
    cases isSyn with
    | true =>
      right
      simp only [if_true]
      omega
    | false => exact hwf.core.syn_valid
  · intro h hp
    have hp' : (if s.conn.m_UnackedPackets.m_ReadIndex =
        (s.conn.m_UnackedPackets.m_WriteIndex + 1) % s.conn.m_UnackedPackets.m_Size
        then none else some s.conn.m_UnackedPackets.m_ReadIndex) = some h := hp
    have hh : h = s.conn.m_UnackedPackets.m_ReadIndex := by
      split at hp'
      · exact Option.noConfusion hp'
      · exact (Option.some.inj hp').symm
    subst hh
    show ∃ u p, slots1[s.conn.m_UnackedPackets.m_ReadIndex]? = some u ∧ u.m_pPacket = some p
    by_cases hrw : s.conn.m_UnackedPackets.m_ReadIndex = s.conn.m_UnackedPackets.m_WriteIndex
    · rw [hrw]
      exact ⟨_, _, hF1, rfl⟩
    · have hpk : s.conn.m_UnackedPackets.Peek = some s.conn.m_UnackedPackets.m_ReadIndex := by
        simp [CircularBuffer.Peek, hrw]
      obtain ⟨u, p, hu, hpu⟩ := hwf.head_live _ hpk
      obtain ⟨u1, hu1, hp1⟩ := hF2 _ u hrw hu
      exact ⟨u1, p, hu1, by rw [hp1]; exact hpu⟩

theorem C11_ack_idempotent_witness :
    ∃ b p s0, Send ((Sys.fresh Env.quiet).withPeer peerA) (dataPkt 0 400) false false =
        .ok (b, p, s0) ∧
      ∃ s1 s2,
        Update s0 (arrival (ackPkt 0) peerA) =
          .ok (EUR_ACK, some { onWire (ackPkt 0) with hdr := (onWire (ackPkt 0)).hdr.ntoh }, s1) ∧
        Update s1 (arrival (ackPkt 0) peerA) =
          .ok (EUR_ACK, some { onWire (ackPkt 0) with hdr := (onWire (ackPkt 0)).hdr.ntoh }, s2) ∧
        s2.conn.m_WndCurr = s1.conn.m_WndCurr := by
  obtain ⟨slots1, heq, hwf, _, _⟩ :=
    Send_tracked_wf ((Sys.fresh Env.quiet).withPeer peerA) (dataPkt 0 400) false []
      (WF_congr _ _ [] (WF_fresh Env.quiet) rfl rfl rfl (fun _ he => he) (Or.inl rfl))
      (by decide) (by decide) (by decide) (by simp)
  refine ⟨_, _, _, heq, ?_⟩
  obtain ⟨s1, s2, h1, h2, _, _, h3, _⟩ :=
    C11_ack_idempotent
      (Send_transmit (Send_tracked_state ((Sys.fresh Env.quiet).withPeer peerA) (dataPkt 0 400)
        false slots1) (dataPkt 0 400) false).2.2
      (arrival (ackPkt 0) peerA) (onWire (ackPkt 0)) peerA _ hwf
      (fun _ _ _ => Nat.le_refl _) (by decide) (by decide) rfl rfl (by decide) (by decide)
      (by decide)
  exact ⟨s1, s2, h1, h2, h3⟩

/-! ## Acknowledging the oldest packet -/

theorem popAcked_head (b : CircularBuffer UnackedPacket) (u : UnackedPacket) (fuel : Nat)
    (hrw : b.m_ReadIndex ≠ b.m_WriteIndex) (hu : b.m_pData[b.m_ReadIndex]? = some u)
    (hnone : u.m_pPacket = none)
    (hnext : (b.m_ReadIndex + 1) % b.m_Size = b.m_WriteIndex ∨
      ∃ u1 p1, b.m_pData[(b.m_ReadIndex + 1) % b.m_Size]? = some u1 ∧ u1.m_pPacket = some p1) :
    Ack_popAcked (fuel + 2) b =
      .ok { b with m_ReadIndex := (b.m_ReadIndex + 1) % b.m_Size } := by
  have hpeek : b.Peek = some b.m_ReadIndex := by simp [CircularBuffer.Peek, hrw]
  have hpop : b.Pop = some (b.m_pData[b.m_ReadIndex]?,
      { b with m_ReadIndex := (b.m_ReadIndex + 1) % b.m_Size }) := by
    simp [CircularBuffer.Pop, hrw]
  rw [Ack_popAcked, hpeek]
  dsimp only
  rw [hu]
  dsimp only
  rw [if_pos hnone, hpop]
  dsimp only
  rw [Ack_popAcked]
  rcases hnext with h | ⟨u1, p1, hu1, hp1⟩
  · have : ({ b with m_ReadIndex := (b.m_ReadIndex + 1) % b.m_Size } :
        CircularBuffer UnackedPacket).Peek = none := by
      simp [CircularBuffer.Peek, h]
    rw [this]
  · by_cases h : (b.m_ReadIndex + 1) % b.m_Size = b.m_WriteIndex
    · have : ({ b with m_ReadIndex := (b.m_ReadIndex + 1) % b.m_Size } :
          CircularBuffer UnackedPacket).Peek = none := by
        simp [CircularBuffer.Peek, h]
      rw [this]
    · have : ({ b with m_ReadIndex := (b.m_ReadIndex + 1) % b.m_Size } :
          CircularBuffer UnackedPacket).Peek = some ((b.m_ReadIndex + 1) % b.m_Size) := by
        simp [CircularBuffer.Peek, h]
      rw [this]
      dsimp only
      rw [hu1]
      dsimp only
      rw [if_neg (by rw [hp1]; simp)]
theorem Ack_clear_head (s3 : Sys) (u : UnackedPacket) (minU : Nat)
    (hsize : 1 ≤ s3.conn.m_UnackedPackets.m_Size)
    (hrw : s3.conn.m_UnackedPackets.m_ReadIndex ≠ s3.conn.m_UnackedPackets.m_WriteIndex)
    (hu : s3.conn.m_UnackedPackets.m_pData[s3.conn.m_UnackedPackets.m_ReadIndex]? = some u)
    (hnone : u.m_pPacket = none)
    (hnext : ((s3.conn.m_UnackedPackets.m_ReadIndex + 1) % s3.conn.m_UnackedPackets.m_Size =
          s3.conn.m_UnackedPackets.m_WriteIndex ∧ minU = 65535) ∨
      ((s3.conn.m_UnackedPackets.m_ReadIndex + 1) % s3.conn.m_UnackedPackets.m_Size ≠
          s3.conn.m_UnackedPackets.m_WriteIndex ∧
        ∃ u1 p1, s3.conn.m_UnackedPackets.m_pData[(s3.conn.m_UnackedPackets.m_ReadIndex + 1) %
            s3.conn.m_UnackedPackets.m_Size]? = some u1 ∧ u1.m_pPacket = some p1 ∧
          minU = p1.hdr.m_SeqNumber)) :
    Ack_clear s3 s3.conn.m_UnackedPackets.m_ReadIndex =
      .ok { s3 with conn := { s3.conn with
              m_UnackedPackets := { s3.conn.m_UnackedPackets with
                m_ReadIndex := (s3.conn.m_UnackedPackets.m_ReadIndex + 1) %
                  s3.conn.m_UnackedPackets.m_Size }
              m_MinUnacked := minU } } := by
  have hpeek : s3.conn.m_UnackedPackets.Peek = some s3.conn.m_UnackedPackets.m_ReadIndex := by
    simp [CircularBuffer.Peek, hrw]
  obtain ⟨n, hn⟩ : ∃ n, s3.conn.m_UnackedPackets.m_Size + 1 = n + 2 :=
    ⟨s3.conn.m_UnackedPackets.m_Size - 1, by omega⟩
  have hpop := popAcked_head s3.conn.m_UnackedPackets u n hrw hu hnone
    (by
      rcases hnext with ⟨h, _⟩ | ⟨_, u1, p1, h1, h2, _⟩
      · exact Or.inl h
      · exact Or.inr ⟨u1, p1, h1, h2⟩)
  unfold Ack_clear
  rw [hpeek, if_pos rfl, hn, hpop]
  dsimp only
  rcases hnext with ⟨h, hm⟩ | ⟨h, u1, p1, h1, h2, hm⟩
  · have : ({ s3.conn.m_UnackedPackets with m_ReadIndex :=
        (s3.conn.m_UnackedPackets.m_ReadIndex + 1) % s3.conn.m_UnackedPackets.m_Size } :
        CircularBuffer UnackedPacket).Peek = none := by
      simp [CircularBuffer.Peek, h]
    rw [this, hm]
  · have : ({ s3.conn.m_UnackedPackets with m_ReadIndex :=
        (s3.conn.m_UnackedPackets.m_ReadIndex + 1) % s3.conn.m_UnackedPackets.m_Size } :
        CircularBuffer UnackedPacket).Peek =
        some ((s3.conn.m_UnackedPackets.m_ReadIndex + 1) % s3.conn.m_UnackedPackets.m_Size) := by
      simp [CircularBuffer.Peek, h]
    rw [this]
    dsimp only
    rw [h1]
    dsimp only
    rw [h2, hm]

theorem Ack_head_eq (s : Sys) (rest : List Nat) (ui : UnackedPacket) (pkt : RdtPacket)
    (latest : Option Nat) (minU : Nat)
    (hwf : WF s.conn (s.conn.m_UnackedPackets.m_ReadIndex :: rest))
    (hui : s.conn.m_UnackedPackets.m_pData[s.conn.m_UnackedPackets.m_ReadIndex]? = some ui)
    (hpk : ui.m_pPacket = some pkt)
    (hrw : s.conn.m_UnackedPackets.m_ReadIndex ≠ s.conn.m_UnackedPackets.m_WriteIndex)
    (hsize : 2 ≤ s.conn.m_UnackedPackets.m_Size)
    (hnext : ((s.conn.m_UnackedPackets.m_ReadIndex + 1) % s.conn.m_UnackedPackets.m_Size =
          s.conn.m_UnackedPackets.m_WriteIndex ∧ rest = [] ∧ minU = 65535 ∧ latest = none) ∨
      ((s.conn.m_UnackedPackets.m_ReadIndex + 1) % s.conn.m_UnackedPackets.m_Size ≠
          s.conn.m_UnackedPackets.m_WriteIndex ∧ rest ≠ [] ∧
        latest = s.conn.m_pLatestPacket ∧
        ∃ u1 p1, s.conn.m_UnackedPackets.m_pData[(s.conn.m_UnackedPackets.m_ReadIndex + 1) %
            s.conn.m_UnackedPackets.m_Size]? = some u1 ∧ u1.m_pPacket = some p1 ∧
          minU = p1.hdr.m_SeqNumber)) :
    Ack s (some s.conn.m_UnackedPackets.m_ReadIndex) =
      .ok (Ack_head_state s ui pkt latest minU) := by
  have hrlt : s.conn.m_UnackedPackets.m_ReadIndex < s.conn.m_UnackedPackets.m_pData.length :=
    getElem?_lt _ _ _ hui
  have hc := hwf.core.chain
  have he : s.conn.m_pEarliestPacket = some s.conn.m_UnackedPackets.m_ReadIndex := hc.1
  have hnd := List.nodup_cons.mp hwf.core.nodup
  have hr1 : (s.conn.m_UnackedPackets.m_ReadIndex + 1) % s.conn.m_UnackedPackets.m_Size ≠
      s.conn.m_UnackedPackets.m_ReadIndex := by
    have := hwf.core.read_lt
    intro h
    by_cases hlt : s.conn.m_UnackedPackets.m_ReadIndex + 1 < s.conn.m_UnackedPackets.m_Size
    · rw [Nat.mod_eq_of_lt hlt] at h; omega
    · have : s.conn.m_UnackedPackets.m_ReadIndex + 1 = s.conn.m_UnackedPackets.m_Size := by omega
      rw [this, Nat.mod_self] at h
      omega
  rcases hnext with ⟨hn1, hrest, hm, hl⟩ | ⟨hn1, hrest, hl, u1, p1, hu1, hp1, hm⟩
  · subst hrest
    have hil : some s.conn.m_UnackedPackets.m_ReadIndex = s.conn.m_pLatestPacket := by
      rw [hwf.core.latest]; rfl
    have hnx : ui.m_pNext = none := by
      obtain ⟨_, u, hu, hn⟩ := hc
      have : u = ui := Option.some.inj (hu.symm.trans hui)
      subst this
      exact hn
    obtain ⟨s3, hs3⟩ : ∃ s3 : Sys, s3 =
        { conn := { s.conn with
            m_pEarliestPacket := none, m_pLatestPacket := none,
            m_WndCurr := (s.conn.m_WndCurr + 65536 - pkt.hdr.m_MsgLen % 65536) % 65536,
            m_UnackedPackets := { s.conn.m_UnackedPackets with
              m_pData := s.conn.m_UnackedPackets.m_pData.set s.conn.m_UnackedPackets.m_ReadIndex
                { m_ResendTime := ui.m_ResendTime, m_pNext := ui.m_pNext,
                  m_pPacket := none } } },
          env := s.env } := ⟨_, rfl⟩
    have heq : Ack s (some s.conn.m_UnackedPackets.m_ReadIndex) =
        Ack_clear s3 s3.conn.m_UnackedPackets.m_ReadIndex := by
      rw [hs3]
      simp [Ack, hui, hpk, he, hil.symm, Sys.setSlot]
    rw [heq, Ack_clear_head s3 { ui with m_pPacket := none } minU
      (by rw [hs3]; show 1 ≤ s.conn.m_UnackedPackets.m_Size; omega)
      (by rw [hs3]; exact hrw) (by rw [hs3]; exact List.getElem?_set_self hrlt) rfl
      (Or.inl ⟨by rw [hs3]; exact hn1, hm⟩)]
    rw [hs3, hl]
    simp [Ack_head_state, hnx]
  · have hil : ¬ some s.conn.m_UnackedPackets.m_ReadIndex = s.conn.m_pLatestPacket := by
      rw [hwf.core.latest]
      intro h
      cases rest with
      | nil => exact hrest rfl
      | cons r rs =>
        rw [List.getLast?_cons_cons] at h
        exact hnd.1 (List.mem_of_getLast?_eq_some h.symm)
    obtain ⟨s3, hs3⟩ : ∃ s3 : Sys, s3 =
        { conn := { s.conn with
            m_pEarliestPacket := ui.m_pNext,
            m_WndCurr := (s.conn.m_WndCurr + 65536 - pkt.hdr.m_MsgLen % 65536) % 65536,
            m_UnackedPackets := { s.conn.m_UnackedPackets with
              m_pData := s.conn.m_UnackedPackets.m_pData.set s.conn.m_UnackedPackets.m_ReadIndex
                { m_ResendTime := ui.m_ResendTime, m_pNext := ui.m_pNext,
                  m_pPacket := none } } },
          env := s.env } := ⟨_, rfl⟩
    have heq : Ack s (some s.conn.m_UnackedPackets.m_ReadIndex) =
        Ack_clear s3 s3.conn.m_UnackedPackets.m_ReadIndex := by
      rw [hs3]
      simp [Ack, hui, hpk, he, hil, Sys.setSlot]
    rw [heq, Ack_clear_head s3 { ui with m_pPacket := none } minU
      (by rw [hs3]; show 1 ≤ s.conn.m_UnackedPackets.m_Size; omega)
      (by rw [hs3]; exact hrw) (by rw [hs3]; exact List.getElem?_set_self hrlt) rfl
      (Or.inr ⟨by rw [hs3]; exact hn1, u1, p1,
        by rw [hs3]; show (List.set _ _ _)[_]? = _; rw [List.getElem?_set_ne (Ne.symm hr1)]; exact hu1,
        hp1, hm⟩)]
    rw [hs3, hl]
    simp [Ack_head_state]

/-! ## The slots in use -/

theorem ringSlots_succ (r m : Nat) (hr : r < 11) :
    ringSlots 11 r (m + 1) = r :: ringSlots 11 ((r + 1) % 11) m := by
  unfold ringSlots
  rw [List.range_succ_eq_map, List.map_cons, List.map_map]
  congr 1
  · exact Nat.mod_eq_of_lt hr
  · apply List.map_congr_left
    intro i _
    show (r + (i + 1)) % 11 = ((r + 1) % 11 + i) % 11
    omega

theorem ringSlots_snoc (r m : Nat) :
    ringSlots 11 r (m + 1) = ringSlots 11 r m ++ [(r + m) % 11] := by
  unfold ringSlots
  rw [List.range_succ, List.map_append]
  rfl

theorem mem_ringSlots (r m j : Nat) : j ∈ ringSlots 11 r m ↔ ∃ i, i < m ∧ j = (r + i) % 11 := by
  unfold ringSlots
  simp only [List.mem_map, List.mem_range]
  constructor
  · rintro ⟨i, hi, h⟩; exact ⟨i, hi, h.symm⟩
  · rintro ⟨i, hi, h⟩; exact ⟨i, hi, h.symm⟩

theorem write_not_in_ring (r m : Nat) (hm : m < 11) : (r + m) % 11 ∉ ringSlots 11 r m := by
  rw [mem_ringSlots]
  rintro ⟨i, hi, h⟩
  omega

theorem sweep_idle (s : Sys) (n : Nat)
    (h : s.conn.m_pEarliestPacket = none ∨
      s.env.clock s.env.nClock < s.conn.m_EarliestTimeout) :
    Resend (n + 1) s.clockCall.2 s.clockCall.1 = .ok s.clockCall.2 := by
  rw [Resend]
  rcases h with hn | hlt
  · have : s.clockCall.2.conn.m_pEarliestPacket = none := hn
    rw [this]
  · cases he : s.clockCall.2.conn.m_pEarliestPacket with
    | none => rfl
    | some e =>
      have hnot : ¬ s.clockCall.1 ≥ s.clockCall.2.conn.m_EarliestTimeout := by
        show ¬ s.env.clock s.env.nClock ≥ s.conn.m_EarliestTimeout
        omega
      simp only [hnot, if_false]

theorem Update_idle (s : Sys) (io : UpdateIO)
    (h : s.conn.m_pEarliestPacket = none ∨
      s.env.clock s.env.nClock < s.conn.m_EarliestTimeout) :
    Update s io = Update_poll s.clockCall.2 io := by
  unfold Update
  dsimp only
  rw [sweep_idle s _ h]

theorem ackPkt_decoded (q : Nat) (hq : q < 65536) :
    ({ onWire (ackPkt q) with hdr := (onWire (ackPkt q)).hdr.ntoh } : RdtPacket) = ackPkt q := by
  have : (ackPkt q).hdr.hton.ntoh = (ackPkt q).hdr := by
    apply ntoh_hton
    exact ⟨hq, show (0 : Nat) < 65536 by decide, show sizeofRdtHeader < 65536 by decide,
      show FLAG_ACK < 65536 by decide⟩
  show ({ hdr := (ackPkt q).hdr.hton.ntoh, body := (ackPkt q).body } : RdtPacket) = ackPkt q
  rw [this]

/-! ## One acknowledgement of the oldest packet in flight -/

theorem ack_step (s : Sys) (peer : sockaddr) (D : Nat) (p : RdtPacket) (fl : List RdtPacket)
    (h : InFlight s peer D (p :: fl)) :
    ∃ s1, Update s (arrival (ackPkt p.hdr.m_SeqNumber) peer) =
        .ok (EUR_ACK, some (ackPkt p.hdr.m_SeqNumber), s1) ∧
      InFlight s1 peer D fl ∧ s1.conn.m_NextSeq = s.conn.m_NextSeq ∧
      s1.conn.m_WndSize = s.conn.m_WndSize := by
  have hsz := h.size
  have hr : s.conn.m_UnackedPackets.m_ReadIndex < 11 := by
    have := h.wf.core.read_lt; rw [hsz] at this; exact this
  have hcnt := h.count
  have hlen : (p :: fl).length = fl.length + 1 := rfl
  have hwf := h.wf
  rw [hlen, ringSlots_succ _ _ hr] at hwf
  obtain ⟨ui, hui, hpk⟩ := h.slots 0 p (by simp)
  have hr0 : (s.conn.m_UnackedPackets.m_ReadIndex + 0) % 11 = s.conn.m_UnackedPackets.m_ReadIndex := by
    omega
  rw [hr0] at hui
  have hmap0 := h.map 0 p (by simp)
  rw [hr0] at hmap0
  have hq : p.hdr.m_SeqNumber < 65536 := h.u16 p (List.mem_cons_self _ _)
  have he : s.conn.m_pEarliestPacket = some s.conn.m_UnackedPackets.m_ReadIndex := hwf.core.chain.1
  have hD := h.clock s.env.nClock (Nat.le_refl _)
  have hto := h.timeout (by rw [he]; simp)
  have hw := h.write
  rw [hlen] at hw
  have hrw : s.conn.m_UnackedPackets.m_ReadIndex ≠ s.conn.m_UnackedPackets.m_WriteIndex := by
    rw [hw]; omega
  -- the result of Ack
  obtain ⟨latest, minU, hack, hlatest, hminU⟩ : ∃ latest minU,
      Ack s.clockCall.2 (some s.conn.m_UnackedPackets.m_ReadIndex) =
        .ok (Ack_head_state s.clockCall.2 ui p latest minU) ∧
      (fl = [] → latest = none) ∧
      minU = ((fl.head?).map seqOf).getD 65535 := by
    cases hfl : fl with
    | nil =>
      refine ⟨none, 65535, ?_, fun _ => rfl, rfl⟩
      rw [hfl] at hwf hw
      refine Ack_head_eq s.clockCall.2 _ ui p none 65535 hwf hui hpk hrw
        (by show 2 ≤ s.conn.m_UnackedPackets.m_Size; omega) (Or.inl ⟨?_, rfl, rfl, rfl⟩)
      show (s.conn.m_UnackedPackets.m_ReadIndex + 1) % s.conn.m_UnackedPackets.m_Size =
        s.conn.m_UnackedPackets.m_WriteIndex
      rw [hw, hsz]
      rfl
    | cons p1 fl1 =>
      refine ⟨s.conn.m_pLatestPacket, p1.hdr.m_SeqNumber, ?_, fun h0 => absurd h0 (by simp), rfl⟩
      rw [hfl] at hw hcnt
      obtain ⟨u1, hu1, hp1⟩ := h.slots 1 p1 (by rw [hfl]; simp)
      refine Ack_head_eq s.clockCall.2 _ ui p _ _ hwf hui hpk hrw
        (by show 2 ≤ s.conn.m_UnackedPackets.m_Size; omega)
        (Or.inr ⟨?_, ?_, rfl, u1, p1, ?_, hp1, rfl⟩)
      · show (s.conn.m_UnackedPackets.m_ReadIndex + 1) % s.conn.m_UnackedPackets.m_Size ≠
          s.conn.m_UnackedPackets.m_WriteIndex
        rw [hw, hsz]
        simp only [List.length_cons] at hcnt ⊢
        omega
      · rw [hfl]; simp [ringSlots]
      · show s.conn.m_UnackedPackets.m_pData[(s.conn.m_UnackedPackets.m_ReadIndex + 1) %
          s.conn.m_UnackedPackets.m_Size]? = some u1
        rw [hsz]; exact hu1
  obtain ⟨sH, hsH⟩ : ∃ sH : Sys, sH = Ack_head_state s.clockCall.2 ui p latest minU := ⟨_, rfl⟩
  obtain ⟨s1, hs1⟩ : ∃ s1 : Sys, s1 =
      { sH with conn := { sH.conn with
          m_SeqToIndex := mapErase sH.conn.m_SeqToIndex p.hdr.m_SeqNumber } } := ⟨_, rfl⟩
  have honack : Update_onAck s.clockCall.2 p.hdr.m_SeqNumber = .ok s1 := by
    unfold Update_onAck
    have hm : mapFind s.clockCall.2.conn.m_SeqToIndex p.hdr.m_SeqNumber =
        some s.conn.m_UnackedPackets.m_ReadIndex := hmap0
    rw [hm]
    dsimp only
    have hsub : s.clockCall.2.conn.m_UnackedPackets.subscript
        (s.conn.m_UnackedPackets.m_ReadIndex : Int) = some s.conn.m_UnackedPackets.m_ReadIndex :=
      subscript_of_lt _ _ (by show s.conn.m_UnackedPackets.m_ReadIndex <
        s.conn.m_UnackedPackets.m_Size; omega)
    rw [hsub, hack, ← hsH, hs1]
  have hupd : Update s (arrival (ackPkt p.hdr.m_SeqNumber) peer) =
      .ok (EUR_ACK, some (ackPkt p.hdr.m_SeqNumber), s1) := by
    rw [Update_idle s _ (Or.inr (by omega))]
    unfold Update_poll arrival
    rw [if_neg (show ¬ (1 : Int) = -1 by decide), if_neg (show ¬ (1 : Int) = 0 by decide)]
    dsimp only
    rw [ackPkt_decoded _ hq]
    exact dispatch_ack s.clockCall.2 (ackPkt p.hdr.m_SeqNumber) peer
      (show FLAG_ACK ≠ FLAG_SYN by decide) h.peer
      (show FLAG_ACK ≠ (FLAG_ACK ||| FLAG_SYN) by decide)
      (show hasFlag FLAG_ACK FLAG_ACK = true by decide)
      (show hasFlag FLAG_ACK FLAG_FIN = false by decide) s1 honack
  have hdata : s1.conn.m_UnackedPackets.m_pData =
      s.conn.m_UnackedPackets.m_pData.set s.conn.m_UnackedPackets.m_ReadIndex
        { ui with m_pPacket := none } := by rw [hs1, hsH]; rfl
  have hread : s1.conn.m_UnackedPackets.m_ReadIndex =
      (s.conn.m_UnackedPackets.m_ReadIndex + 1) % 11 := by
    rw [hs1, hsH, ← hsz]; rfl
  have hnd := List.nodup_cons.mp hwf.core.nodup
  have hother : ∀ i, 1 ≤ i → i ≤ 5 →
      s1.conn.m_UnackedPackets.m_pData[(s.conn.m_UnackedPackets.m_ReadIndex + i) % 11]? =
        s.conn.m_UnackedPackets.m_pData[(s.conn.m_UnackedPackets.m_ReadIndex + i) % 11]? := by
    intro i h1 h5
    rw [hdata, List.getElem?_set_ne (by omega)]
  -- the chain of the new state
  obtain ⟨s1b, ch1, hres1, hwf1, _⟩ :=
    Update_onAck_ok s.clockCall.2 p.hdr.m_SeqNumber _ (show WF s.clockCall.2.conn _ from hwf)
  have hs1b : s1b = s1 := Except.ok.inj (hres1.symm.trans honack)
  subst hs1b
  have hseg : IsSeg s1b.conn.m_UnackedPackets.m_pData
      (ringSlots 11 ((s.conn.m_UnackedPackets.m_ReadIndex + 1) % 11) fl.length)
      s1b.conn.m_pEarliestPacket none := by
    obtain ⟨_, u, hu, hrest⟩ := hwf.core.chain
    have : u = ui := Option.some.inj (hu.symm.trans hui)
    subst this
    have hearl : s1b.conn.m_pEarliestPacket = u.m_pNext := by rw [hs1, hsH]; rfl
    rw [hearl]
    refine IsSeg_congr _ _ _ _ _ ?_ hrest
    intro j hj v hv
    have hjr : j ≠ s.conn.m_UnackedPackets.m_ReadIndex := fun hh => hnd.1 (hh ▸ hj)
    exact ⟨v, by rw [hdata, List.getElem?_set_ne (fun hh => hjr hh.symm)]; exact hv, rfl⟩
  have hch1 : ch1 = ringSlots 11 ((s.conn.m_UnackedPackets.m_ReadIndex + 1) % 11) fl.length :=
    IsSeg_unique _ _ _ _ hwf1.core.chain hseg
  refine ⟨s1b, hupd, ?_, by rw [hs1, hsH]; rfl, by rw [hs1, hsH]; rfl⟩
  have hcnt2 : fl.length ≤ 4 := by simp only [List.length_cons] at hcnt; omega
  refine ⟨?_, ?_, ?_, by omega, ?_, ?_, ?_, ?_, ?_, ?_, ?_, ?_⟩
  · rw [hread, ← hch1]; exact hwf1
  · rw [hs1, hsH]; exact hsz
  · rw [hread]
    have : s1b.conn.m_UnackedPackets.m_WriteIndex = s.conn.m_UnackedPackets.m_WriteIndex := by
      rw [hs1, hsH]; rfl
    rw [this, hw]
    omega
  · intro i q hi
    obtain ⟨u, hu, hp⟩ := h.slots (i + 1) q (by simpa using hi)
    have hilt : i < fl.length := by
      by_contra hge
      rw [List.getElem?_eq_none (by omega)] at hi
      exact Option.noConfusion hi
    refine ⟨u, ?_, hp⟩
    rw [hread]
    have e1 : ((s.conn.m_UnackedPackets.m_ReadIndex + 1) % 11 + i) % 11 =
        (s.conn.m_UnackedPackets.m_ReadIndex + (i + 1)) % 11 := by omega
    rw [e1, hother (i + 1) (by omega) (by omega)]
    exact hu
  · intro i q hi
    have hm := h.map (i + 1) q (by simpa using hi)
    have hne : q.hdr.m_SeqNumber ≠ p.hdr.m_SeqNumber := by
      have hnd2 := h.nodup
      simp only [List.map_cons, List.nodup_cons] at hnd2
      intro heq
      apply hnd2.1
      rw [List.mem_map]
      exact ⟨q, List.getElem?_mem hi, heq⟩
    have : s1b.conn.m_SeqToIndex = mapErase s.conn.m_SeqToIndex p.hdr.m_SeqNumber := by
      rw [hs1, hsH]; rfl
    rw [this, mapFind_mapErase_ne _ _ _ hne, hm, hread]
    congr 1
    omega
  · have hnd2 := h.nodup
    simp only [List.map_cons, List.nodup_cons] at hnd2
    exact hnd2.2
  · intro q hq2
    exact h.u16 q (List.mem_cons_of_mem _ hq2)
  · have : s1b.conn.m_MinUnacked = minU := by rw [hs1, hsH]; rfl
    rw [this, hminU]
    cases fl with
    | nil => rfl
    | cons p1 fl1 => rfl
  · rw [hs1, hsH]; exact h.peer
  · intro k hk
    have : s1b.env = s.clockCall.2.env := by rw [hs1, hsH]; rfl
    rw [this] at hk ⊢
    exact h.clock k (by simp [Sys.clockCall] at hk; omega)
  · intro _
    have : s1b.conn.m_EarliestTimeout = s.conn.m_EarliestTimeout := by rw [hs1, hsH]; rfl
    rw [this]; exact hto

theorem ack_step_sending (s s1 : Sys) (p : RdtPacket) (fl : List RdtPacket)
    (h : Sending s (p :: fl)) (hn : s1.conn.m_NextSeq = s.conn.m_NextSeq)
    (hw : s1.conn.m_WndSize = s.conn.m_WndSize) : Sending s1 fl := by
  refine ⟨by rw [hw]; exact h.wnd, by rw [hn]; exact h.next, ?_⟩
  intro i q hi
  have := h.seqs (i + 1) q (by simpa using hi)
  rw [this, hn]
  simp only [List.length_cons]
  congr 2
  omega


/-! ## One more packet in flight -/

theorem send_step (s : Sys) (peer : sockaddr) (D : Nat) (fl : List RdtPacket) (pkt : RdtPacket)
    (h : InFlight s peer D fl) (hcnt : fl.length ≤ 4)
    (hroom : s.conn.m_UnackedPackets.hasRoom)
    (hf1 : pkt.hdr.m_Flags ≠ FLAG_ACK) (hf2 : pkt.hdr.m_Flags ≠ (FLAG_ACK ||| FLAG_FIN))
    (hu : pkt.hdr.isU16) (hnew : pkt.hdr.m_SeqNumber ∉ fl.map seqOf) :
    ∃ b p1 s1, Send s pkt false false = .ok (b, p1, s1) ∧ InFlight s1 peer D (fl ++ [pkt]) ∧
      s1.conn.m_NextSeq = (pkt.hdr.m_SeqNumber + pkt.hdr.m_MsgLen) % RDT_MAX_SEQNUM ∧
      s1.conn.m_WndSize = s.conn.m_WndSize := by
  have hsz := h.size
  have hr : s.conn.m_UnackedPackets.m_ReadIndex < 11 := by
    have := h.wf.core.read_lt; rw [hsz] at this; exact this
  have hw := h.write
  have hfree : s.conn.m_UnackedPackets.m_WriteIndex ∉
      ringSlots 11 s.conn.m_UnackedPackets.m_ReadIndex fl.length := by
    rw [hw]; exact write_not_in_ring _ _ (by omega)
  obtain ⟨slots1, heq, hwf1, hF1, hF2⟩ :=
    Send_tracked_wf s pkt false _ h.wf hf1 hf2 hroom hfree
  have hpk : ({ pkt with hdr := pkt.hdr.hton.ntoh } : RdtPacket) = pkt := by
    rw [ntoh_hton _ hu]
  have hearl : fl = [] ↔ s.conn.m_pEarliestPacket = none := by
    constructor
    · intro h0
      have := h.wf.core.chain
      rw [h0] at this
      exact this
    · intro h0
      have := h.wf.core.chain
      rw [h0] at this
      have h1 := IsSeg_none_start _ _ _ this
      have h2 : (ringSlots 11 s.conn.m_UnackedPackets.m_ReadIndex fl.length).length = 0 := by
        rw [h1]; rfl
      simp [ringSlots] at h2
      exact h2
  refine ⟨_, _, _, heq, ?_, rfl, rfl⟩
  refine ⟨?_, hsz, ?_, by simp; omega, ?_, ?_, ?_, ?_, ?_, h.peer, ?_, ?_⟩
  · show WF (Send_tracked_state s pkt false slots1).conn
      (ringSlots 11 s.conn.m_UnackedPackets.m_ReadIndex (fl ++ [pkt]).length)
    have : (fl ++ [pkt]).length = fl.length + 1 := by simp
    rw [this, ringSlots_snoc, ← hw]
    exact hwf1
  · show (s.conn.m_UnackedPackets.m_WriteIndex + 1) % s.conn.m_UnackedPackets.m_Size =
      (s.conn.m_UnackedPackets.m_ReadIndex + (fl ++ [pkt]).length) % 11
    have : (fl ++ [pkt]).length = fl.length + 1 := by simp
    rw [this, hsz, hw]
    omega
  · intro i q hi
    show ∃ u, slots1[(s.conn.m_UnackedPackets.m_ReadIndex + i) % 11]? = some u ∧
      u.m_pPacket = some q
    by_cases hil : i < fl.length
    · rw [List.getElem?_append_left hil] at hi
      obtain ⟨u, hu1, hp⟩ := h.slots i q hi
      obtain ⟨u1, hu2, hp1⟩ := hF2 _ u (by rw [hw]; omega) hu1
      exact ⟨u1, hu2, by rw [hp1]; exact hp⟩
    · have hi2 : i = fl.length := by
        by_contra hne
        rw [List.getElem?_eq_none (by simp; omega)] at hi
        exact Option.noConfusion hi
      subst hi2
      have hq : q = pkt := by simpa using hi.symm
      subst hq
      refine ⟨Send_unacked s q, by rw [← hw]; exact hF1, ?_⟩
      show some ({ q with hdr := q.hdr.hton.ntoh } : RdtPacket) = some q
      rw [hpk]
  · intro i q hi
    show mapFind (mapInsert s.conn.m_SeqToIndex pkt.hdr.m_SeqNumber
      (s.conn.m_UnackedPackets.m_WriteIndex % 65536)) q.hdr.m_SeqNumber =
        some ((s.conn.m_UnackedPackets.m_ReadIndex + i) % 11)
    by_cases hil : i < fl.length
    · rw [List.getElem?_append_left hil] at hi
      have hne : q.hdr.m_SeqNumber ≠ pkt.hdr.m_SeqNumber := by
        intro he
        apply hnew
        rw [List.mem_map]
        exact ⟨q, List.getElem?_mem hi, he⟩
      rw [mapFind_mapInsert_ne _ _ _ _ hne]
      exact h.map i q hi
    · have hi2 : i = fl.length := by
        by_contra hne
        rw [List.getElem?_eq_none (by simp; omega)] at hi
        exact Option.noConfusion hi
      subst hi2
      have hq : q = pkt := by simpa using hi.symm
      subst hq
      rw [mapFind_mapInsert_self, hw]
      congr 1
      omega
  · rw [List.map_append, List.nodup_append]
    refine ⟨h.nodup, by simp, ?_⟩
    intro a ha hb
    simp only [List.map_cons, List.map_nil, List.mem_singleton] at hb
    rw [hb] at ha
    exact hnew ha
  · intro q hq
    rcases List.mem_append.mp hq with h1 | h1
    · exact h.u16 q h1
    · rw [List.mem_singleton] at h1
      rw [h1]; exact hu.1
  · show (match s.conn.m_pEarliestPacket with
      | none => pkt.hdr.m_SeqNumber
      | some _ => s.conn.m_MinUnacked) = _
    cases hfl : fl with
    | nil =>
      rw [hearl.mp hfl]
      rfl
    | cons p0 fl0 =>
      have hne : s.conn.m_pEarliestPacket ≠ none := fun h0 => by
        have := hearl.mpr h0
        rw [hfl] at this
        cases this
      obtain ⟨e, he⟩ := Option.ne_none_iff_exists'.mp hne
      rw [he]
      have := h.minUnacked
      rw [hfl] at this
      exact this
  · intro k hk
    exact h.clock k (by
      have : s.env.nClock + 1 ≤ k := hk
      omega)
  · intro _
    show D ≤ (match s.conn.m_pEarliestPacket with
      | none => s.env.clock s.env.nClock + RDT_RTO_CLK
      | some _ => s.conn.m_EarliestTimeout)
    cases he : s.conn.m_pEarliestPacket with
    | none => exact (h.clock _ (Nat.le_refl _)).2
    | some e => exact h.timeout (by rw [he]; simp)


/-! ## The admission test while packets of full length are in flight -/

theorem send_sending (s s1 : Sys) (fl : List RdtPacket) (pkt : RdtPacket) (h : Sending s fl)
    (hcnt : fl.length ≤ 5) (hseq : pkt.hdr.m_SeqNumber = s.conn.m_NextSeq)
    (hlen : pkt.hdr.m_MsgLen = 1023)
    (hn : s1.conn.m_NextSeq = (pkt.hdr.m_SeqNumber + pkt.hdr.m_MsgLen) % RDT_MAX_SEQNUM)
    (hw : s1.conn.m_WndSize = s.conn.m_WndSize) : Sending s1 (fl ++ [pkt]) := by
  have hM : RDT_MAX_SEQNUM = 30720 := rfl
  have hnext := h.next
  rw [hM] at hnext
  refine ⟨by rw [hw]; exact h.wnd, by rw [hn, hM]; omega, ?_⟩
  intro i q hi
  rw [hn, hseq, hlen, hM]
  have hl : (fl ++ [pkt]).length = fl.length + 1 := by simp
  rw [hl]
  by_cases hil : i < fl.length
  · rw [List.getElem?_append_left hil] at hi
    have := h.seqs i q hi
    rw [hM] at this
    rw [this]
    omega
  · have hi2 : i = fl.length := by
      by_contra hne
      rw [List.getElem?_eq_none (by simp; omega)] at hi
      exact Option.noConfusion hi
    subst hi2
    have hq : q = pkt := by simpa using hi.symm
    rw [hq, hseq]
    omega

theorem sending_fresh_seq (s : Sys) (fl : List RdtPacket) (h : Sending s fl)
    (hcnt : fl.length ≤ 5) : s.conn.m_NextSeq ∉ fl.map seqOf := by
  have hM : RDT_MAX_SEQNUM = 30720 := rfl
  have hnext := h.next
  rw [hM] at hnext
  intro hmem
  rw [List.mem_map] at hmem
  obtain ⟨q, hq, hqs⟩ := hmem
  obtain ⟨i, hi⟩ := List.getElem?_of_mem hq
  have hilt : i < fl.length := by
    by_contra hge
    rw [List.getElem?_eq_none (by omega)] at hi
    exact Option.noConfusion hi
  have := h.seqs i q hi
  rw [hM] at this
  have hqs2 : q.hdr.m_SeqNumber = s.conn.m_NextSeq := hqs
  omega

theorem guard_open_bound (s : Sys) (peer : sockaddr) (D : Nat) (fl : List RdtPacket) (len : Nat)
    (h : InFlight s peer D fl) (hs : Sending s fl) (hlen : 8 ≤ len)
    (hg : SendFile_mustWait s.conn len = false) :
    fl.length ≤ 4 ∧ s.conn.m_UnackedPackets.hasRoom := by
  have hM : RDT_MAX_SEQNUM = 30720 := rfl
  have hW : RDT_WNDSIZE = 5120 := rfl
  have hnext := hs.next
  rw [hM] at hnext
  have hwnd := hs.wnd
  rw [hW] at hwnd
  unfold SendFile_mustWait at hg
  rw [Bool.or_eq_false_iff] at hg
  obtain ⟨hg1, hg2⟩ := hg
  rw [decide_eq_false_iff_not, hwnd, hM] at hg1
  constructor
  · cases hfl : fl with
    | nil => simp
    | cons p0 fl0 =>
      have hmin : s.conn.m_MinUnacked = p0.hdr.m_SeqNumber := by
        have := h.minUnacked
        rw [hfl] at this
        exact this
      have hs0 := hs.seqs 0 p0 (by rw [hfl]; simp)
      rw [hM, ← hmin, hfl] at hs0
      have hc := h.count
      rw [hfl] at hc
      simp only [List.length_cons] at hs0 hc ⊢
      by_contra hgt
      have h5 : fl0.length = 4 := by omega
      rw [h5] at hs0
      apply hg1
      split
      · omega
      · omega
  · unfold CircularBuffer.IsFull at hg2
    rw [decide_eq_false_iff_not] at hg2
    unfold CircularBuffer.hasRoom
    unfold CircularBuffer.Size at hg2
    rw [h.size] at hg2 ⊢
    omega

theorem guard_open_idle (s : Sys) (peer : sockaddr) (D : Nat) (len : Nat)
    (h : InFlight s peer D []) (hs : Sending s []) (hlen : len ≤ 1023) :
    SendFile_mustWait s.conn len = false := by
  have hM : RDT_MAX_SEQNUM = 30720 := rfl
  have hW : RDT_WNDSIZE = 5120 := rfl
  have hnext := hs.next
  rw [hM] at hnext
  have hwnd := hs.wnd
  rw [hW] at hwnd
  have hmin : s.conn.m_MinUnacked = 65535 := h.minUnacked
  have hw : s.conn.m_UnackedPackets.m_WriteIndex = s.conn.m_UnackedPackets.m_ReadIndex % 11 := by
    have := h.write
    simpa using this
  have hr : s.conn.m_UnackedPackets.m_ReadIndex < 11 := by
    have := h.wf.core.read_lt; rw [h.size] at this; exact this
  unfold SendFile_mustWait
  rw [Bool.or_eq_false_iff]
  constructor
  · rw [decide_eq_false_iff_not, hwnd, hM, hmin]
    rw [if_pos (by omega)]
    omega
  · unfold CircularBuffer.IsFull CircularBuffer.Size
    rw [decide_eq_false_iff_not, h.size, hw]
    omega


/-! ## SendFile returns when the acknowledgements arrive -/

theorem spin_open (s : Sys) (len : Nat) (tail : List UpdateIO)
    (h : SendFile_mustWait s.conn len = false) : SendFile_spin s len tail = .ok (s, tail) := by
  cases tail with
  | nil => unfold SendFile_spin; rw [h]; rfl
  | cons io rest => unfold SendFile_spin; rw [h]; rfl

theorem spin_progress (peer : sockaddr) (D len : Nat) (h8 : 8 ≤ len) (h1023 : len ≤ 1023) :
    ∀ (fl : List RdtPacket) (s : Sys), InFlight s peer D fl → Sending s fl →
      ∃ acks s1 fl1, InFlight s1 peer D fl1 ∧ Sending s1 fl1 ∧
        SendFile_mustWait s1.conn len = false ∧ s1.conn.m_NextSeq = s.conn.m_NextSeq ∧
        ∀ tail, SendFile_spin s len (acks ++ tail) = .ok (s1, tail)
  | [], s, h, hs =>
    ⟨[], s, [], h, hs, guard_open_idle s peer D len h hs h1023, rfl,
      fun tail => spin_open s len tail (guard_open_idle s peer D len h hs h1023)⟩
  | p :: rest, s, h, hs => by
    by_cases hg : SendFile_mustWait s.conn len = false
    · exact ⟨[], s, p :: rest, h, hs, hg, rfl, fun tail => spin_open s len tail hg⟩
    · have hg1 : SendFile_mustWait s.conn len = true := by simpa using hg
      obtain ⟨s1, hupd, hin1, hn1, hw1⟩ := ack_step s peer D p rest h
      have hs1 := ack_step_sending s s1 p rest hs hn1 hw1
      obtain ⟨acks, s2, fl2, hin2, hs2, hg2, hn2, hspin⟩ :=
        spin_progress peer D len h8 h1023 rest s1 hin1 hs1
      refine ⟨arrival (ackPkt p.hdr.m_SeqNumber) peer :: acks, s2, fl2, hin2, hs2, hg2,
        by rw [hn2, hn1], ?_⟩
      intro tail
      rw [List.cons_append, SendFile_spin, hg1, if_pos rfl, hupd]
      exact hspin tail

theorem drain_progress (peer : sockaddr) (D : Nat) :
    ∀ (fl : List RdtPacket) (s : Sys), InFlight s peer D fl →
      ∃ acks s1, SendFile_drain s acks = .ok (s1, [])
  | [], s, h => by
    refine ⟨[], s, ?_⟩
    have hw : s.conn.m_UnackedPackets.m_WriteIndex = s.conn.m_UnackedPackets.m_ReadIndex % 11 := by
      have := h.write
      simpa using this
    have hr : s.conn.m_UnackedPackets.m_ReadIndex < 11 := by
      have := h.wf.core.read_lt; rw [h.size] at this; exact this
    have hsize : ¬ s.conn.m_UnackedPackets.Size > 0 := by
      unfold CircularBuffer.Size
      rw [hw]
      omega
    unfold SendFile_drain
    rw [if_neg hsize]
  | p :: rest, s, h => by
    obtain ⟨s1, hupd, hin1, _, _⟩ := ack_step s peer D p rest h
    obtain ⟨acks, s2, hdr⟩ := drain_progress peer D rest s1 hin1
    refine ⟨arrival (ackPkt p.hdr.m_SeqNumber) peer :: acks, s2, ?_⟩
    have hw := h.write
    have hc := h.count
    simp only [List.length_cons] at hw hc
    have hr : s.conn.m_UnackedPackets.m_ReadIndex < 11 := by
      have := h.wf.core.read_lt; rw [h.size] at this; exact this
    have hsize : s.conn.m_UnackedPackets.Size > 0 := by
      unfold CircularBuffer.Size
      rw [hw]
      omega
    rw [SendFile_drain, if_pos hsize, hupd]
    exact hdr


theorem loop_progress (peer : sockaddr) (D : Nat) (file : List Nat) :
    ∀ (fuel j : Nat) (s : Sys) (fl : List RdtPacket),
      (j = 0 ∨ 1015 * j < file.length) → file.length - 1015 * j < fuel →
      InFlight s peer D fl → Sending s fl →
      ∃ acks s1 fl1, InFlight s1 peer D fl1 ∧
        ∀ tail, (SendFile_loop fuel s (file.drop (1015 * j)) (decide (j = 0))
          (acks ++ tail)).2 = .ok (s1, tail) := by
  intro fuel
  induction fuel with
  | zero => intro j s fl _ h; exact absurd h (Nat.not_lt_zero _)
  | succ n ih =>
    intro j s fl hj hfuel hin hsd
    have hmss : RDT_MSS = 1015 := by decide
    have h8 : sizeofRdtHeader = 8 := rfl
    have hM : RDT_MAX_SEQNUM = 30720 := rfl
    have hL : (file.drop (1015 * j)).length = file.length - 1015 * j := List.length_drop _ _
    obtain ⟨pk, hpk⟩ : ∃ pk : RdtPacket, pk =
        { hdr := { m_SeqNumber := s.conn.m_NextSeq, m_Reserved := 0,
                   m_MsgLen := (min RDT_MSS (file.drop (1015 * j)).length + sizeofRdtHeader)
                     % 65536,
                   m_Flags :=
                     if (file.drop (1015 * j)).length -
                         min RDT_MSS (file.drop (1015 * j)).length = 0 then
                       (if decide (j = 0) then FLAG_FIRST else 0) ||| FLAG_LAST
                     else (if decide (j = 0) then FLAG_FIRST else 0) },
          body := (file.drop (1015 * j)).take (min RDT_MSS (file.drop (1015 * j)).length) } :=
      ⟨_, rfl⟩
    have hml : (min RDT_MSS (file.drop (1015 * j)).length + sizeofRdtHeader) % 65536 =
        pk.hdr.m_MsgLen := by rw [hpk]
    have hlenv : pk.hdr.m_MsgLen = min 1015 (file.length - 1015 * j) + 8 := by
      rw [← hml, hmss, hL, h8]; omega
    have hseq : pk.hdr.m_SeqNumber = s.conn.m_NextSeq := by rw [hpk]
    have hflags : pk.hdr.m_Flags = 0 ∨ pk.hdr.m_Flags = FLAG_FIRST ∨
        pk.hdr.m_Flags = FLAG_LAST ∨ pk.hdr.m_Flags = (FLAG_FIRST ||| FLAG_LAST) := by
      rw [hpk]
      dsimp only
      split
      · split
        · exact Or.inr (Or.inr (Or.inr rfl))
        · exact Or.inr (Or.inr (Or.inl (by decide)))
      · split
        · exact Or.inr (Or.inl rfl)
        · exact Or.inl rfl
    have hf1 : pk.hdr.m_Flags ≠ FLAG_ACK := by
      rcases hflags with h | h | h | h <;> rw [h] <;> decide
    have hf2 : pk.hdr.m_Flags ≠ (FLAG_ACK ||| FLAG_FIN) := by
      rcases hflags with h | h | h | h <;> rw [h] <;> decide
    have hnext := hsd.next
    rw [hM] at hnext
    have hu : pk.hdr.isU16 := by
      refine ⟨by rw [hseq]; omega, by rw [hpk]; show (0 : Nat) < 65536; decide,
        by rw [hlenv]; omega, ?_⟩
      rcases hflags with h | h | h | h <;> rw [h] <;> decide
    obtain ⟨acks1, s1, fl1, hin1, hsd1, hg1, hn1, hspin⟩ :=
      spin_progress peer D pk.hdr.m_MsgLen (by rw [hlenv]; omega) (by rw [hlenv]; omega)
        fl s hin hsd
    obtain ⟨hc1, hroom1⟩ := guard_open_bound s1 peer D fl1 pk.hdr.m_MsgLen hin1 hsd1
      (by rw [hlenv]; omega) hg1
    have hnew : pk.hdr.m_SeqNumber ∉ fl1.map seqOf := by
      rw [hseq, ← hn1]
      exact sending_fresh_seq s1 fl1 hsd1 (by omega)
    obtain ⟨b, p1, s2, hsend, hin2, hn2, hw2⟩ :=
      send_step s1 peer D fl1 pk hin1 hc1 hroom1 hf1 hf2 hu hnew
    by_cases hz : file.length - 1015 * j - min 1015 (file.length - 1015 * j) = 0
    · refine ⟨acks1, s2, fl1 ++ [pk], hin2, ?_⟩
      intro tail
      unfold SendFile_loop
      dsimp only
      rw [← hpk, hml, hspin tail]
      dsimp only
      rw [hsend]
      dsimp only
      rw [hmss, hL, if_neg (fun h => h hz)]
    · have hmin : min 1015 (file.length - 1015 * j) = 1015 := by omega
      have hlen1023 : pk.hdr.m_MsgLen = 1023 := by rw [hlenv, hmin]
      have hsd2 : Sending s2 (fl1 ++ [pk]) :=
        send_sending s1 s2 fl1 pk hsd1 (by omega) (by rw [hseq, hn1]) hlen1023 hn2 hw2
      obtain ⟨acks2, s3, fl3, hin3, hloop⟩ :=
        ih (j + 1) s2 (fl1 ++ [pk]) (Or.inr (by omega)) (by omega) hin2 hsd2
      have hdec : decide (j + 1 = 0) = false := by simp
      rw [hdec] at hloop
      refine ⟨acks1 ++ acks2, s3, fl3, hin3, ?_⟩
      intro tail
      unfold SendFile_loop
      dsimp only
      rw [← hpk, hml, List.append_assoc, hspin (acks2 ++ tail)]
      dsimp only
      rw [hsend]
      dsimp only
      rw [hmss, hL, if_pos hz]
      have hdrop : List.drop (min 1015 (file.length - 1015 * j)) (List.drop (1015 * j) file) =
          List.drop (1015 * (j + 1)) file := by
        rw [hmin, List.drop_drop]
        congr 1
      rw [hdrop]
      exact hloop tail


/-! ## SendFile: segmentation -/

theorem concat_segments (file : List Nat) :
    ∀ (m j : Nat) (l : List RdtPacket),
      l.map pktStr = (List.range' j m).map (segmentPayload file) →
      concatPayloads l = (file.drop (1015 * j)).take (1015 * m)
  | 0, j, l, h => by
    have : l = [] := by simpa using h
    rw [this]; simp [concatPayloads]
  | m + 1, j, l, h => by
    cases l with
    | nil => simp [List.range'] at h
    | cons p l1 =>
      simp only [List.map_cons, List.range', List.cons.injEq] at h
      obtain ⟨h1, h2⟩ := h
      have ih := concat_segments file m (j + 1) l1 h2
      rw [concatPayloads, h1, ih]
      unfold segmentPayload
      have e1 : 1015 * (m + 1) = 1015 + 1015 * m := by omega
      rw [e1, List.take_add, List.drop_drop]
      congr 3

theorem SendFile_handed (s : Sys) (file : List Nat) (ios : List UpdateIO) :
    (SendFile s (some file) ios).1 = (SendFile_loop (file.length + 1) s file true ios).1 ∧
    (returned (SendFile s (some file) ios).2 ≠ none →
      ∃ x, (SendFile_loop (file.length + 1) s file true ios).2 = .ok x) := by
  unfold SendFile
  dsimp only
  cases h2 : (SendFile_loop (file.length + 1) s file true ios).2 with
  | error f => exact ⟨rfl, fun h => absurd rfl h⟩
  | ok x =>
    obtain ⟨s1, ios1⟩ := x
    dsimp only
    cases SendFile_drain s1 ios1 with
    | error f => exact ⟨rfl, fun _ => ⟨_, rfl⟩⟩
    | ok y => exact ⟨rfl, fun _ => ⟨_, rfl⟩⟩

/-- C16 (SendFile segmentation). For every file and every run of `SendFile`, whatever the
answers of the system calls: the packets handed to `Send` so far are the first packets of
the segmentation of the claim (packet `k` has flags FIRST iff `k = 0` and LAST iff it is the
final one, reserved 0, length payload + 8, payload the file bytes `[1015k, 1015(k+1))` cut at
the end of the file); when `SendFile` returns they are all `max(1, ceil(N/1015))` of them
and their payloads concatenated are the file. And `SendFile` does return: on a well-formed
connection with nothing in flight, whose clock stays within one retransmission timeout,
there are answers of the peer (the acknowledgements, oldest packet first) for which the call
returns 0. -/
theorem C16_SendFile_segments (s : Sys) (peer : sockaddr) (D : Nat) (file : List Nat)
    (hwf : WF s.conn []) (hsize : s.conn.m_UnackedPackets.m_Size = 11)
    (hidle : s.conn.m_UnackedPackets.m_WriteIndex = s.conn.m_UnackedPackets.m_ReadIndex)
    (hmin : s.conn.m_MinUnacked = 65535) (hpeer : s.conn.m_pAddr = some peer)
    (hwnd : s.conn.m_WndSize = RDT_WNDSIZE) (hnext : s.conn.m_NextSeq < RDT_MAX_SEQNUM)
    (hclock : ∀ k, s.env.nClock ≤ k → s.env.clock k < D ∧ D ≤ s.env.clock k + RDT_RTO_CLK) :
    (∃ ios s1, (SendFile s (some file) ios).2 = .ok (0, s1)) ∧
    ∀ ios, ∃ m, m ≤ segmentCount file.length ∧
      (SendFile s (some file) ios).1.map segmentView =
        ((List.range (segmentCount file.length)).map (segmentSpec file)).take m ∧
      (returned (SendFile s (some file) ios).2 ≠ none →
        (SendFile s (some file) ios).1.map segmentView =
          (List.range (segmentCount file.length)).map (segmentSpec file) ∧
        concatPayloads (SendFile s (some file) ios).1 = file) := by
  constructor
  · have hr : s.conn.m_UnackedPackets.m_ReadIndex < 11 := by
      have := hwf.core.read_lt; rw [hsize] at this; exact this
    have hin : InFlight s peer D [] := by
      refine ⟨hwf, hsize, ?_, by simp, ?_, ?_, by simp, ?_, hmin, hpeer, hclock, ?_⟩
      · rw [hidle]; simp; omega
      · intro i p hi; simp at hi
      · intro i p hi; simp at hi
      · intro p hp; simp at hp
      · intro hne
        exact absurd hwf.core.chain hne
    have hsd : Sending s [] := ⟨hwnd, hnext, by intro i p hi; simp at hi⟩
    obtain ⟨acks1, s1, fl1, hin1, hloop⟩ :=
      loop_progress peer D file (file.length + 1) 0 s [] (Or.inl rfl) (by omega) hin hsd
    obtain ⟨acks2, s2, hdrain⟩ := drain_progress peer D fl1 s1 hin1
    refine ⟨acks1 ++ acks2, s2, ?_⟩
    have h0 := hloop acks2
    simp only [Nat.mul_zero, List.drop_zero, decide_True] at h0
    unfold SendFile
    dsimp only
    rw [h0]
    dsimp only
    rw [hdrain]
  · intro ios
    obtain ⟨h1, h2⟩ := SendFile_handed s file ios
    obtain ⟨m, hm1, hm2, hm3⟩ :=
      SendFile_loop_spec file (file.length + 1) 0 s ios (Or.inl rfl) (by omega)
    simp only [Nat.mul_zero, List.drop_zero, decide_True, Nat.zero_add] at hm1 hm2 hm3
    have hrange : ((List.range (segmentCount file.length)).map (segmentSpec file)).take m =
        (List.range' 0 m).map (segmentSpec file) := by
      rw [← List.map_take, List.take_range, Nat.min_eq_left hm1, List.range_eq_range']
    refine ⟨m, hm1, by rw [h1, hm2, hrange], ?_⟩
    intro hret
    have hmc := hm3 (h2 hret)
    have hall : (SendFile s (some file) ios).1.map segmentView =
        (List.range (segmentCount file.length)).map (segmentSpec file) := by
      rw [h1, hm2, hmc, List.range_eq_range']
    refine ⟨hall, ?_⟩
    have hstr : (SendFile s (some file) ios).1.map pktStr =
        (List.range' 0 (segmentCount file.length)).map (segmentPayload file) := by
      have := congrArg (List.map (fun x : Nat × Nat × Nat × List Nat => x.2.2.2)) hall
      rw [List.map_map, List.map_map, List.range_eq_range'] at this
      exact this
    rw [concat_segments file _ 0 _ hstr]
    simp only [Nat.mul_zero, List.drop_zero]
    apply List.take_of_length_le
    unfold segmentCount
    omega

theorem C16_SendFile_segments_witness :
    (∃ ios s1, (SendFile ((Sys.fresh Env.quiet).withPeer peerA)
        (some (List.replicate 2500 7)) ios).2 = .ok (0, s1)) ∧
    ∀ ios, ∃ m, m ≤ segmentCount (List.replicate 2500 7).length ∧
      (SendFile ((Sys.fresh Env.quiet).withPeer peerA) (some (List.replicate 2500 7))
        ios).1.map segmentView =
        ((List.range (segmentCount (List.replicate 2500 7).length)).map
          (segmentSpec (List.replicate 2500 7))).take m ∧
      (returned (SendFile ((Sys.fresh Env.quiet).withPeer peerA)
          (some (List.replicate 2500 7)) ios).2 ≠ none →
        (SendFile ((Sys.fresh Env.quiet).withPeer peerA) (some (List.replicate 2500 7))
          ios).1.map segmentView =
          (List.range (segmentCount (List.replicate 2500 7).length)).map
            (segmentSpec (List.replicate 2500 7)) ∧
        concatPayloads (SendFile ((Sys.fresh Env.quiet).withPeer peerA)
          (some (List.replicate 2500 7)) ios).1 = List.replicate 2500 7) :=
  C16_SendFile_segments ((Sys.fresh Env.quiet).withPeer peerA) peerA 1 (List.replicate 2500 7)
    (WF_congr _ _ [] (WF_fresh Env.quiet) rfl rfl rfl (fun _ he => he) (Or.inl rfl))
    (by decide) rfl rfl rfl rfl (by decide)
    (fun _ _ => ⟨show (0 : Nat) < 1 by decide, show 1 ≤ 0 + RDT_RTO_CLK by decide⟩)

/-! ## Sends that are not tracked, and sends that fail -/

theorem Send_withSendto (s : Sys) (pkt : RdtPacket) (isResend isSyn : Bool) (f : Nat → Bool) :
    Send_effect (Send (s.withSendto f) pkt isResend isSyn) =
      Send_effect (Send s pkt isResend isSyn) := by
  unfold Send
  simp only [Sys.clockCall, Sys.withSendto]
  split
  · cases hp : s.conn.m_UnackedPackets.Push
        { m_ResendTime := s.env.clock s.env.nClock + RDT_RTO_CLK, m_pNext := none,
          m_pPacket := some { pkt with hdr := pkt.hdr.hton.ntoh } } with
    | none => simp [Send_effect]
    | some r =>
      obtain ⟨index, buf⟩ := r
      simp only []
      cases he : s.conn.m_pEarliestPacket with
      | none => cases isSyn <;> simp [Send_transmit, Send_datagram, Send_effect]
      | some e =>
        simp only []
        cases hc : chainLast buf.m_pData buf.m_pData.length e with
        | error f => simp [Send_effect]
        | ok t =>
          simp only []
          cases ht : buf.m_pData[t]? with
          | none => simp [Send_effect]
          | some u => cases isSyn <;> simp [Send_transmit, Send_datagram, Sys.setSlot, Send_effect]
  · simp [Send_transmit, Send_datagram, Send_effect]

theorem Send_result (s : Sys) (pkt : RdtPacket) (isResend isSyn : Bool) (b : Bool)
    (p : RdtPacket) (s1 : Sys) (h : Send s pkt isResend isSyn = .ok (b, p, s1)) :
    b = s.env.sendtoOk s.env.sent.length ∧ p = { pkt with hdr := pkt.hdr.hton.ntoh } := by
  unfold Send at h
  simp only [Sys.clockCall] at h
  split at h
  · cases hp : s.conn.m_UnackedPackets.Push
        { m_ResendTime := s.env.clock s.env.nClock + RDT_RTO_CLK, m_pNext := none,
          m_pPacket := some { pkt with hdr := pkt.hdr.hton.ntoh } } with
    | none => rw [hp] at h; simp at h
    | some r =>
      obtain ⟨index, buf⟩ := r
      rw [hp] at h
      simp only [] at h
      cases he : s.conn.m_pEarliestPacket with
      | none =>
        rw [he] at h
        cases isSyn <;> simp [Send_transmit, Send_datagram] at h <;> exact ⟨h.1.symm, h.2.1.symm⟩
      | some e =>
        rw [he] at h
        simp only [] at h
        cases hc : chainLast buf.m_pData buf.m_pData.length e with
        | error f => rw [hc] at h; simp at h
        | ok t =>
          rw [hc] at h
          simp only [] at h
          cases ht : buf.m_pData[t]? with
          | none => rw [ht] at h; simp at h
          | some u =>
            rw [ht] at h
            cases isSyn <;> simp [Send_transmit, Send_datagram, Sys.setSlot] at h <;>
              exact ⟨h.1.symm, h.2.1.symm⟩
  · simp [Send_transmit, Send_datagram] at h
    exact ⟨h.1.symm, h.2.1.symm⟩

theorem Send_effect_ok (x y : Except Fault (Bool × RdtPacket × Sys)) (b : Bool) (p : RdtPacket)
    (s2 : Sys) (h : Send_effect x = Send_effect y) (hy : y = .ok (b, p, s2)) :
    ∃ b1 s1, x = .ok (b1, p, s1) ∧ s1.conn = s2.conn ∧ s1.env.nClock = s2.env.nClock := by
  subst hy
  cases x with
  | error e => simp [Send_effect] at h
  | ok r =>
    obtain ⟨b1, p1, s1⟩ := r
    simp only [Send_effect, Except.ok.injEq, Prod.mk.injEq] at h
    obtain ⟨h1, h2, h3⟩ := h
    subst h1
    exact ⟨b1, s1, rfl, h2, h3⟩

/-- C21 (sends that are not tracked): a `Send` of a packet whose flags are exactly ACK or
exactly ACK|FIN, and every `Send` with `isResend = true`, returns and leaves the whole
connection object as it was: `m_NextSeq`, `m_WndCurr`, `m_MinUnacked`, the unacked storage,
the chain pointers, `m_SynIndex` and `m_SeqToIndex` among its fields. The call reads no clock
and makes exactly one call of `sendto`; a packet of 16-bit header fields, which for a
retransmission is the packet that the storage slot points to, is left as it was. -/
theorem C21_untracked_send_frame (s : Sys) (pkt : RdtPacket) (isResend isSyn : Bool)
    (h : isResend = true ∨ pkt.hdr.m_Flags = FLAG_ACK ∨
      pkt.hdr.m_Flags = (FLAG_ACK ||| FLAG_FIN)) :
    ∃ b p s1, Send s pkt isResend isSyn = .ok (b, p, s1) ∧ s1.conn = s.conn ∧
      s1.conn.m_NextSeq = s.conn.m_NextSeq ∧ s1.conn.m_WndCurr = s.conn.m_WndCurr ∧
      s1.conn.m_MinUnacked = s.conn.m_MinUnacked ∧
      s1.conn.m_UnackedPackets = s.conn.m_UnackedPackets ∧
      s1.conn.m_pEarliestPacket = s.conn.m_pEarliestPacket ∧
      s1.conn.m_pLatestPacket = s.conn.m_pLatestPacket ∧
      s1.conn.m_SynIndex = s.conn.m_SynIndex ∧ s1.conn.m_SeqToIndex = s.conn.m_SeqToIndex ∧
      s1.env.nClock = s.env.nClock ∧
      s1.env.sent = s.env.sent ++ [Send_datagram s pkt isResend] ∧
      (pkt.hdr.isU16 → p = pkt) := by
  have key : Send s pkt isResend isSyn = .ok (Send_transmit s pkt isResend) := by
    cases isResend with
    | true => exact Send_resend s pkt isSyn
    | false =>
      rcases h with h | h | h
      · cases h
      · exact Send_untracked s pkt isSyn (Or.inl h)
      · exact Send_untracked s pkt isSyn (Or.inr h)
  refine ⟨_, _, _, key, rfl, rfl, rfl, rfl, rfl, rfl, rfl, rfl, rfl, rfl, rfl, ?_⟩
  intro hu
  show ({ pkt with hdr := pkt.hdr.hton.ntoh } : RdtPacket) = pkt
  rw [ntoh_hton pkt.hdr hu]

theorem C21_untracked_send_frame_witness :
    ∃ b p s1, Send ((Sys.fresh Env.quiet).withPeer peerA) (ackPkt 5) false false =
        .ok (b, p, s1) ∧ s1.conn = ((Sys.fresh Env.quiet).withPeer peerA).conn ∧ p = ackPkt 5 := by
  obtain ⟨b, p, s1, h1, h2, _, _, _, _, _, _, _, _, _, _, h3⟩ :=
    C21_untracked_send_frame ((Sys.fresh Env.quiet).withPeer peerA) (ackPkt 5) false false
      (Or.inr (Or.inl rfl))
  exact ⟨b, p, s1, h1, h2, h3 (by decide)⟩

/-- C22 (no rollback when `sendto` fails): let the call of `sendto` inside a tracked `Send`
fail. Whenever the same `Send` with a succeeding `sendto` returns, it returns true, and the
failing `Send` returns false with the same packet and with a connection object identical to
the one the successful `Send` leaves (entry queued, index recorded, `m_WndCurr`, `m_NextSeq`,
`m_MinUnacked` updated), the header back in host order. In every well-formed state in which
`Push` succeeds both calls do return, and the connection they leave is the one described by
`Send_tracked_state`, the slot at the old write index pointing to the packet. -/
theorem C22_no_rollback (s : Sys) (pkt : RdtPacket) (isSyn : Bool)
    (hf1 : pkt.hdr.m_Flags ≠ FLAG_ACK) (hf2 : pkt.hdr.m_Flags ≠ (FLAG_ACK ||| FLAG_FIN))
    (hfail : s.env.sendtoOk s.env.sent.length = false) :
    (∀ b p s2, Send (s.withSendto (fun _ => true)) pkt false isSyn = .ok (b, p, s2) →
      b = true ∧ ∃ s1, Send s pkt false isSyn = .ok (false, p, s1) ∧ s1.conn = s2.conn ∧
        s1.env.nClock = s2.env.nClock ∧ p.hdr = pkt.hdr.hton.ntoh ∧
        (pkt.hdr.isU16 → p = pkt)) ∧
    (∀ ch, WF s.conn ch → s.conn.m_UnackedPackets.hasRoom →
      ∃ p s1 s2 slots1, Send s pkt false isSyn = .ok (false, p, s1) ∧
        Send (s.withSendto (fun _ => true)) pkt false isSyn = .ok (true, p, s2) ∧
        s1.conn = s2.conn ∧ s1.conn = (Send_tracked_state s pkt isSyn slots1).conn ∧
        (∃ u, slots1[s.conn.m_UnackedPackets.m_WriteIndex]? = some u ∧
          u.m_pPacket = some p)) := by
  have part1 : ∀ b p s2,
      Send (s.withSendto (fun _ => true)) pkt false isSyn = .ok (b, p, s2) →
      b = true ∧ ∃ s1, Send s pkt false isSyn = .ok (false, p, s1) ∧ s1.conn = s2.conn ∧
        s1.env.nClock = s2.env.nClock ∧ p.hdr = pkt.hdr.hton.ntoh ∧
        (pkt.hdr.isU16 → p = pkt) := by
    intro b p s2 h2
    have hb := Send_result _ _ _ _ _ _ _ h2
    obtain ⟨b1, s1, h1, hc, hn⟩ := Send_effect_ok (Send s pkt false isSyn) _ b p s2
      (Send_withSendto s pkt false isSyn (fun _ => true)).symm h2
    have hb1 := Send_result _ _ _ _ _ _ _ h1
    have hb1f : b1 = false := hb1.1.trans hfail
    subst hb1f
    refine ⟨hb.1, s1, h1, hc, hn, ?_, ?_⟩
    · rw [hb.2]
    · intro hu
      rw [hb.2, ntoh_hton pkt.hdr hu]
  refine ⟨part1, ?_⟩
  intro ch hwf hroom
  obtain ⟨slots1, hs, _, ⟨u, hu1, hu2⟩, _⟩ :=
    Send_tracked_eq (s.withSendto (fun _ => true)) pkt isSyn ch hwf hf1 hf2 hroom
  obtain ⟨_, s1, h1, hc, _, _, _⟩ := part1 _ _ _ hs
  refine ⟨_, s1, _, slots1, h1, hs, hc, hc, u, hu1, hu2⟩

theorem C22_no_rollback_witness :
    ∃ p s1 s2,
      Send (((Sys.fresh Env.quiet).withPeer peerA).withSendto (fun _ => false))
        (dataPkt 0 400) false false = .ok (false, p, s1) ∧
      Send ((((Sys.fresh Env.quiet).withPeer peerA).withSendto (fun _ => false)).withSendto
        (fun _ => true)) (dataPkt 0 400) false false = .ok (true, p, s2) ∧
      s1.conn = s2.conn := by
  obtain ⟨p, s1, s2, _, h1, h2, h3, _⟩ :=
    (C22_no_rollback (((Sys.fresh Env.quiet).withPeer peerA).withSendto (fun _ => false))
      (dataPkt 0 400) false (by decide) (by decide) rfl).2 []
      (WF_congr _ _ [] (WF_fresh Env.quiet) rfl rfl rfl (fun _ he => he) (Or.inl rfl))
      (by decide)
  exact ⟨p, s1, s2, h1, h2, h3⟩

/-- C23 (wrong-source drop): a datagram whose decoded flags are not exactly SYN and whose
source is not the current peer, also when no peer is set, makes the dispatch of `Update`
return `EUR_DROPPED` with the state exactly as it was: nothing is sent, and the sender state,
`m_ReceivedFIN`, `m_ReceivedList` and the backlog are untouched. The same holds of `Update`
from the call of `select` on, whatever positive value `select` returns. -/
theorem C23_wrong_source_drop (s : Sys) (pkt : RdtPacket) (addr : sockaddr)
    (hsyn : pkt.hdr.m_Flags ≠ FLAG_SYN) (hsrc : s.conn.m_pAddr ≠ some addr) :
    Update_dispatch s pkt addr = .ok (EUR_DROPPED, some pkt, s) ∧
    (∀ (r : Int) (raw : RdtPacket), r ≠ -1 → r ≠ 0 → raw.hdr.ntoh = pkt.hdr →
      raw.body = pkt.body →
      Update_poll s { selectResult := r, recv := some (raw, addr) } =
        .ok (EUR_DROPPED, some pkt, s)) := by
  have h1 : Update_dispatch s pkt addr = .ok (EUR_DROPPED, some pkt, s) := by
    unfold Update_dispatch
    rw [if_neg hsyn, if_pos hsrc]
  refine ⟨h1, ?_⟩
  intro r raw hr1 hr0 hh hb
  unfold Update_poll
  simp only [hr1, hr0, if_false]
  have : ({ raw with hdr := raw.hdr.ntoh } : RdtPacket) = pkt := by
    cases pkt
    cases raw
    simp only [RdtPacket.mk.injEq] at *
    exact ⟨hh, hb⟩
  rw [this]
  exact h1

theorem C23_wrong_source_drop_witness :
    Update_dispatch ((Sys.fresh Env.quiet).withPeer peerA) (dataPkt 7 400) [10, 0, 0, 2] =
      .ok (EUR_DROPPED, some (dataPkt 7 400), (Sys.fresh Env.quiet).withPeer peerA) ∧
    Update_dispatch (Sys.fresh Env.quiet) (ackPkt 7) peerA =
      .ok (EUR_DROPPED, some (ackPkt 7), Sys.fresh Env.quiet) :=
  ⟨(C23_wrong_source_drop ((Sys.fresh Env.quiet).withPeer peerA) (dataPkt 7 400) [10, 0, 0, 2]
      (by decide) (by decide)).1,
   (C23_wrong_source_drop (Sys.fresh Env.quiet) (ackPkt 7) peerA (by decide) (by decide)).1⟩

/-! ## The header codec -/

theorem u16Bytes_htons (x : Nat) (h : x < 65536) : u16Bytes (htons x) = bigEndian x := by
  unfold u16Bytes htons bigEndian
  have h3 : x / 256 < 256 := by omega
  have h2 : x % 256 < 256 := Nat.mod_lt _ (by decide)
  generalize x % 256 = a at *
  generalize x / 256 = b at *
  have e1 : (a * 256 + b % 256) % 256 = b := by omega
  have e2 : (a * 256 + b % 256) / 256 % 256 = a := by omega
  rw [e1, e2]

/-- C24 (header codec): for a header of four 16-bit values, the eight bytes that `hton`
leaves in the packet buffer are the fields seq, reserved, len, flags in this order, each with
its high byte first; `ntoh` undoes `hton`; and every call of `Send` that returns hands the
packet back with the header it had, retransmissions and pure ACKs always returning. -/
theorem C24_header_codec (h : RdtHeader) (hu : h.isU16) :
    h.hton.bytes = bigEndian h.m_SeqNumber ++ bigEndian h.m_Reserved ++
      bigEndian h.m_MsgLen ++ bigEndian h.m_Flags ∧
    h.hton.ntoh = h ∧
    (∀ s body isResend isSyn b p s1,
      Send s { hdr := h, body := body } isResend isSyn = .ok (b, p, s1) →
        p = { hdr := h, body := body }) ∧
    (∀ s body isSyn, ∃ b s1,
      Send s { hdr := h, body := body } true isSyn = .ok (b, { hdr := h, body := body }, s1)) := by
  obtain ⟨h1, h2, h3, h4⟩ := hu
  refine ⟨?_, ntoh_hton h ⟨h1, h2, h3, h4⟩, ?_, ?_⟩
  · simp only [RdtHeader.bytes, RdtHeader.hton, u16Bytes_htons _ h1, u16Bytes_htons _ h2,
      u16Bytes_htons _ h3, u16Bytes_htons _ h4]
  · intro s body isResend isSyn b p s1 hs
    have := (Send_result _ _ _ _ _ _ _ hs).2
    rw [this]
    show ({ hdr := h.hton.ntoh, body := body } : RdtPacket) = _
    rw [ntoh_hton h ⟨h1, h2, h3, h4⟩]
  · intro s body isSyn
    refine ⟨(Send_transmit s { hdr := h, body := body } true).1,
      (Send_transmit s { hdr := h, body := body } true).2.2, ?_⟩
    rw [Send_resend]
    show Except.ok (_, ({ hdr := h.hton.ntoh, body := body } : RdtPacket), _) = _
    rw [ntoh_hton h ⟨h1, h2, h3, h4⟩]
    rfl

theorem C24_header_codec_witness :
    sampleHeader.hton.bytes = [18, 52, 0, 0, 3, 255, 0, 48] ∧
    sampleHeader.hton.ntoh = sampleHeader :=
  ⟨(C24_header_codec sampleHeader (by decide)).1, (C24_header_codec sampleHeader (by decide)).2.1⟩

/-! ## The admission test of SendFile and the pruning test of Update -/

/-- C28 (window admission arithmetic): with the window size 5120 that the constructor sets,
`m_NextSeq` below 30720 and a packet length of at most 1024, the loop condition of `SendFile`
(the 16-bit `nextSeq`, 30720 added when `m_NextSeq < m_MinUnacked`, then
`nextSeq + L - m_MinUnacked > m_WndSize || IsFull()`) lets the packet through exactly when
`(m_NextSeq - m_MinUnacked) mod 30720 + L <= 5120` and `IsFull()` is false, for every
`m_MinUnacked` below 30720; and when `m_MinUnacked` is the sentinel 0xFFFF the window part is
false, so the loop spins exactly when `IsFull()` holds. -/
theorem C28_window_admission (c : RdtConnection) (L : Nat) (hw : c.m_WndSize = RDT_WNDSIZE)
    (hn : c.m_NextSeq < RDT_MAX_SEQNUM) (hL : L ≤ RDT_MAX_PKTSIZE) :
    (c.m_MinUnacked < RDT_MAX_SEQNUM →
      (SendFile_mustWait c L = false ↔
        (((c.m_NextSeq : Int) - (c.m_MinUnacked : Int)) % (RDT_MAX_SEQNUM : Int) + (L : Int) ≤
            (RDT_WNDSIZE : Int) ∧
          c.m_UnackedPackets.IsFull = false))) ∧
    (c.m_MinUnacked = 65535 → SendFile_mustWait c L = c.m_UnackedPackets.IsFull) := by
  simp only [RDT_MAX_SEQNUM, RDT_WNDSIZE, RDT_MAX_PKTSIZE] at *
  constructor
  · intro hm
    unfold SendFile_mustWait
    simp only [RDT_MAX_SEQNUM, hw, Bool.or_eq_false_iff, decide_eq_false_iff_not]
    apply and_congr_left
    intro _
    split
    · rename_i hlt
      have e : (c.m_NextSeq + 30720) % 65536 = c.m_NextSeq + 30720 := by omega
      rw [e]
      push_cast
      omega
    · push_cast
      omega
  · intro hm
    unfold SendFile_mustWait
    simp only [RDT_MAX_SEQNUM, hw, hm]
    have hlt : c.m_NextSeq < 65535 := by omega
    rw [if_pos hlt]
    have e : (c.m_NextSeq + 30720) % 65536 = c.m_NextSeq + 30720 := by omega
    rw [e]
    have : decide ((((c.m_NextSeq + 30720 : Nat) : Int) + (L : Int) - ((65535 : Nat) : Int)) >
        ((5120 : Nat) : Int)) = false := by
      rw [decide_eq_false_iff_not]
      push_cast
      omega
    rw [this, Bool.false_or]

theorem C28_window_admission_witness :
    SendFile_mustWait { (Sys.fresh Env.quiet).conn with m_NextSeq := 100, m_MinUnacked := 25700 }
        1024 = true ∧
    SendFile_mustWait { (Sys.fresh Env.quiet).conn with m_NextSeq := 100, m_MinUnacked := 26724 }
        1024 = false := by
  have h1 := (C28_window_admission
    { (Sys.fresh Env.quiet).conn with m_NextSeq := 100, m_MinUnacked := 25700 } 1024 rfl
    (by decide) (by decide)).1 (by decide)
  have h2 := (C28_window_admission
    { (Sys.fresh Env.quiet).conn with m_NextSeq := 100, m_MinUnacked := 26724 } 1024 rfl
    (by decide) (by decide)).1 (by decide)
  constructor
  · cases h : SendFile_mustWait
        { (Sys.fresh Env.quiet).conn with m_NextSeq := 100, m_MinUnacked := 25700 } 1024 with
    | true => rfl
    | false => exact absurd (h1.1 h).1 (by decide)
  · exact h2.2 ⟨by decide, by decide⟩

theorem circDist_eq (a s : Nat) (ha : a < RDT_MAX_SEQNUM) (hs : s < RDT_MAX_SEQNUM) :
    circDist a s = min (Int.natAbs ((a : Int) - (s : Int)))
      (RDT_MAX_SEQNUM - Int.natAbs ((a : Int) - (s : Int))) ∨
    (a = s ∧ circDist a s = 0) := by
  unfold circDist
  simp only [RDT_MAX_SEQNUM] at *
  by_cases h : a = s
  · right
    subst h
    simp
  · left
    push_cast
    omega

/-- C29 (recent-seq pruning): for a recorded seq `a` and an incoming seq `s`, both below
30720, the test `5120 < |a - s| && |a - s| < 30720 - 5120` of `Update` holds exactly when the
circular distance of `a` and `s` exceeds 5120; an entry equal to `s` is never removed, an
entry at circular distance 15360 is removed, and the list that the scan of `Update` leaves
is the list of the entries within circular distance 5120 of `s`. -/
theorem C29_recent_seq_pruning (a s : Nat) (ha : a < RDT_MAX_SEQNUM)
    (hs : s < RDT_MAX_SEQNUM) :
    (Update_expired a s = true ↔ RDT_WNDSIZE < circDist a s) ∧
    Update_expired s s = false ∧
    (circDist a s = 15360 → Update_expired a s = true) ∧
    (∀ l : List Nat, (∀ x ∈ l, x < RDT_MAX_SEQNUM) →
      (Update_scanReceived l s).2 = l.filter (fun x => decide (circDist x s ≤ RDT_WNDSIZE))) := by
  have key : ∀ x, x < RDT_MAX_SEQNUM → (Update_expired x s = true ↔ RDT_WNDSIZE < circDist x s) := by
    intro x hx
    unfold Update_expired
    rw [decide_eq_true_iff]
    rcases circDist_eq x s hx hs with h | ⟨h1, h2⟩
    · rw [h]
      simp only [RDT_MAX_SEQNUM, RDT_WNDSIZE] at *
      omega
    · rw [h2, h1]
      simp [RDT_WNDSIZE]
  refine ⟨key a ha, ?_, ?_, ?_⟩
  · unfold Update_expired
    simp
  · intro h
    rw [key a ha, h]
    decide
  · intro l hl
    unfold Update_scanReceived
    simp only
    apply List.filter_congr
    intro x hx
    have := key x (hl x hx)
    cases he : Update_expired x s with
    | true =>
      have := this.1 he
      simp only [Bool.not_true]
      symm
      rw [decide_eq_false_iff_not]
      omega
    | false =>
      have h1 : ¬ RDT_WNDSIZE < circDist x s := fun h => by
        have := this.2 h
        rw [he] at this
        cases this
      simp only [Bool.not_false]
      symm
      rw [decide_eq_true_iff]
      omega

theorem C29_recent_seq_pruning_witness :
    Update_expired 30000 100 = false ∧ Update_expired 15460 100 = true ∧
    (Update_scanReceived [100, 5220, 5221, 15460, 25699, 25700, 30000] 100).2 =
      [100, 5220, 25700, 30000] := by
  obtain ⟨h1, _, h3, _⟩ := C29_recent_seq_pruning 15460 100 (by decide) (by decide)
  refine ⟨by decide, h3 (by decide), by decide⟩

/-! ## The receiver steps through the sequence space as the sender does -/

theorem chainFrom_loop (slots : List UnackedPacket) (i : Nat) (u : UnackedPacket)
    (hu : slots[i]? = some u) (hn : u.m_pNext = some i) :
    ∀ fuel, chainFrom slots fuel (some i) = none := by
  intro fuel
  induction fuel with
  | zero => rfl
  | succ n ih =>
    unfold chainFrom
    rw [hu]
    simp only []
    rw [hn, ih]
    rfl

theorem chainLast_loop (slots : List UnackedPacket) (i : Nat) (u : UnackedPacket)
    (hu : slots[i]? = some u) (hn : u.m_pNext = some i) :
    ∀ fuel, chainLast slots fuel i = .error .outOfFuel := by
  intro fuel
  induction fuel with
  | zero => rfl
  | succ n ih =>
    unfold chainLast
    rw [hu]
    simp only []
    rw [hn]
    exact ih

/-- C25 (tracked Send), evaluated on the code. In `crowdedState` the storage of eleven slots
holds eleven unacknowledged requests (seq 10 to 110, chain 1, 2, ..., 10, 0) and both ring
indices are 1, so `Push` accepts a twelfth entry. The next `SendRequest` returns 0 and leaves
`m_NextSeq = 130`, `m_WndCurr` grown by 10, the index 1 recorded under seq 120 and
`m_MinUnacked` unchanged, as claimed; but the new entry has replaced the live head of the
chain (seq 10) and is linked to itself: `m_pEarliestPacket` and `m_pLatestPacket` both
designate slot 1, whose `m_pNext` is slot 1. The walk from `m_pEarliestPacket` does not end,
and the ten packets with seq 20 to 110 are still held but no longer on the chain. -/
theorem C25_tracked_send_overwrites :
    crowdedState.map (fun s =>
      (decide s.conn.m_UnackedPackets.hasRoom, s.conn.m_UnackedPackets.m_ReadIndex,
        s.conn.m_UnackedPackets.m_WriteIndex, s.conn.m_pLatestPacket)) =
      some (true, 1, 1, some 0) ∧
    crowdedState.map (fun s => (s.chain, s.heldSeqs)) =
      some (some [1, 2, 3, 4, 5, 6, 7, 8, 9, 10, 0],
        [some 110, some 10, some 20, some 30, some 40, some 50, some 60, some 70, some 80,
          some 90, some 100]) ∧
    crowdedState.map (fun s => (s.conn.m_NextSeq, s.conn.m_WndCurr, s.conn.m_MinUnacked)) =
      some (120, 110, 10) ∧
    crowdedSend.map (fun x =>
      (x.1, x.2.conn.m_NextSeq, x.2.conn.m_WndCurr, x.2.conn.m_MinUnacked,
        mapFind x.2.conn.m_SeqToIndex 120)) =
      some (0, 130, 120, 10, some 1) ∧
    crowdedSend.map (fun x =>
      (x.2.conn.m_pEarliestPacket, x.2.conn.m_pLatestPacket, x.2.nextPointers)) =
      some (some 1, some 1,
        [none, some 1, some 3, some 4, some 5, some 6, some 7, some 8, some 9, some 10,
          some 0]) ∧
    crowdedSend.map (fun x => (x.2.heldSeqs, x.2.chain)) =
      some ([some 110, some 120, some 20, some 30, some 40, some 50, some 60, some 70, some 80,
          some 90, some 100], none) := by
  refine ⟨by decide, by decide, by decide, by decide, by decide, by decide⟩

/-- C26 (Ack), evaluated on the code. In `crowdedState` eleven requests are unacknowledged
(seq 10 to 110 in the slots 1, ..., 10, 0) and both ring indices are 1, so `Peek()` is null.
`Ack` of slot 5 (seq 50, not the oldest) and `Ack` of slot 1 (seq 10, the oldest) each remove
their entry from the chain and lower `m_WndCurr` by 10, but leave `m_MinUnacked = 0xFFFF`
although ten packets are still unacknowledged, the earliest-sent of them having seq 10 in
the first case and seq 20 in the second. -/
theorem C26_ack_min_unacked_lost :
    crowdedState.map (fun s =>
      (s.conn.m_UnackedPackets.Peek, s.chain, s.conn.m_WndCurr, s.conn.m_MinUnacked)) =
      some (none, some [1, 2, 3, 4, 5, 6, 7, 8, 9, 10, 0], 110, 10) ∧
    crowdedState.map (fun s => s.heldSeqs) =
      some [some 110, some 10, some 20, some 30, some 40, some 50, some 60, some 70, some 80,
          some 90, some 100] ∧
    (crowdedAck 5).map (fun s => (s.chain, s.heldSeqs, s.conn.m_WndCurr, s.conn.m_MinUnacked)) =
      some (some [1, 2, 3, 4, 6, 7, 8, 9, 10, 0],
        [some 110, some 10, some 20, some 30, some 40, none, some 60, some 70, some 80,
          some 90, some 100], 100, 65535) ∧
    (crowdedAck 1).map (fun s => (s.chain, s.heldSeqs, s.conn.m_WndCurr, s.conn.m_MinUnacked)) =
      some (some [2, 3, 4, 5, 6, 7, 8, 9, 10, 0],
        [some 110, none, some 20, some 30, some 40, some 50, some 60, some 70, some 80,
          some 90, some 100], 100, 65535) := by
  decide

/-- C27 (chain order), evaluated on the code. The state reached from a fresh connection
through the thirteen sends and one ACK of `overflowSteps`, the clock standing still, has
`m_pEarliestPacket` and `m_pLatestPacket` at slot 1, and the `m_pNext` of slot 1 is slot 1:
the element that `m_pLatestPacket` designates is not the last of the chain, the walk from
`m_pEarliestPacket` never reaches null whatever the number of steps, and the loop of `Send`
that looks for the last element does not end. Eleven packets are held, ten of them off the
chain. -/
theorem C27_chain_without_last_element :
    ∃ s, runSender (Sys.fresh Env.quiet) overflowSteps = some s ∧
      s.conn.m_pEarliestPacket = some 1 ∧ s.conn.m_pLatestPacket = some 1 ∧
      s.nextPointers =
        [none, some 1, some 3, some 4, some 5, some 6, some 7, some 8, some 9, some 10,
          some 0] ∧
      s.heldSeqs =
        [some 4008, some 4408, some 408, some 808, some 1208, some 1608, some 2008,
          some 2408, some 2808, some 3208, some 3608] ∧
      (∀ fuel, chainFrom s.conn.m_UnackedPackets.m_pData fuel s.conn.m_pEarliestPacket = none) ∧
      (∀ fuel, chainLast s.conn.m_UnackedPackets.m_pData fuel 1 = .error .outOfFuel) := by
  have hv : (runSender (Sys.fresh Env.quiet) overflowSteps).map (fun s =>
      (s.conn.m_pEarliestPacket, s.conn.m_pLatestPacket, s.nextPointers, s.heldSeqs)) =
      some (some 1, some 1,
        [none, some 1, some 3, some 4, some 5, some 6, some 7, some 8, some 9, some 10,
          some 0],
        [some 4008, some 4408, some 408, some 808, some 1208, some 1608, some 2008,
          some 2408, some 2808, some 3208, some 3608]) := by
    decide
  cases h : runSender (Sys.fresh Env.quiet) overflowSteps with
  | none => rw [h] at hv; cases hv
  | some s =>
    rw [h] at hv
    simp only [Option.map_some', Option.some.injEq, Prod.mk.injEq] at hv
    obtain ⟨h1, h2, h3, h4⟩ := hv
    have hslot : ∃ u, s.conn.m_UnackedPackets.m_pData[1]? = some u ∧ u.m_pNext = some 1 := by
      have h5 : s.nextPointers[1]? = some (some 1) := by rw [h3]; rfl
      unfold Sys.nextPointers at h5
      rw [List.getElem?_map] at h5
      cases hu : s.conn.m_UnackedPackets.m_pData[1]? with
      | none => rw [hu] at h5; cases h5
      | some u =>
        rw [hu] at h5
        exact ⟨u, rfl, Option.some.inj h5⟩
    obtain ⟨u, hu, hn⟩ := hslot
    refine ⟨s, rfl, h1, h2, h3, h4, ?_, chainLast_loop _ 1 u hu hn⟩
    rw [h1]
    exact chainFrom_loop _ 1 u hu hn

/-! ## The retransmit sweep rotates the chain -/

theorem Resend_body_step (s : Sys) (e : Nat) (rest : List Nat) (hwf : WF s.conn (e :: rest)) :
    ∃ s1 ue pkt, Resend_body s e = .ok s1 ∧ WF s1.conn (rest ++ [e]) ∧
      SameOutsideChain s.conn s1.conn ∧
      s.conn.m_UnackedPackets.m_pData[e]? = some ue ∧ ue.m_pPacket = some pkt ∧
      s1.env = { s.env with nClock := s.env.nClock + 1,
                            sent := s.env.sent ++ [Send_datagram s pkt true] } ∧
      Synced s1.conn ∧
      (∃ u, s1.conn.m_UnackedPackets.m_pData[e]? = some u ∧
        u.m_ResendTime = s.env.clock s.env.nClock + RDT_RTO_CLK) ∧
      (∀ j u, j ≠ e → s.conn.m_UnackedPackets.m_pData[j]? = some u →
        ∃ u1, s1.conn.m_UnackedPackets.m_pData[j]? = some u1 ∧
          u1.m_ResendTime = u.m_ResendTime ∧ u1.m_pPacket = u.m_pPacket) := by
  rcases eq_nil_or_snoc rest with hr | ⟨mid, l, hr⟩
  · subst hr
    obtain ⟨s1, ue, pkt, hres, hue, hpkt, hs1⟩ := Resend_body_single s e hwf
    have hlt : e < s.conn.m_UnackedPackets.m_pData.length := getElem?_lt _ _ _ hue
    have hnext : ue.m_pNext = none := by
      obtain ⟨_, u, hu, h2⟩ := hwf.core.chain
      have : u = ue := Option.some.inj (hu.symm.trans hue)
      subst this; exact h2
    obtain ⟨uE, huE⟩ : ∃ uE : UnackedPacket, uE =
        { m_ResendTime := s.env.clock s.env.nClock + RDT_RTO_CLK, m_pNext := ue.m_pNext,
          m_pPacket := some (Send_transmit s pkt true).2.1 } := ⟨_, rfl⟩
    have hdata : s1.conn.m_UnackedPackets.m_pData = s.conn.m_UnackedPackets.m_pData.set e uE := by
      rw [hs1, huE]
    have hgetE : s1.conn.m_UnackedPackets.m_pData[e]? = some uE := by
      rw [hdata]; exact List.getElem?_set_self hlt
    have hgetN : ∀ i, i ≠ e → s1.conn.m_UnackedPackets.m_pData[i]? =
        s.conn.m_UnackedPackets.m_pData[i]? := by
      intro i hi
      rw [hdata]; exact List.getElem?_set_ne (fun h => hi h.symm)
    have hearl : s1.conn.m_pEarliestPacket = some e := by rw [hs1]; exact hwf.core.chain.1
    have hsame : SameOutsideChain s.conn s1.conn := by
      rw [hs1]; unfold SameOutsideChain; rfl
    refine ⟨s1, ue, pkt, hres, ?_, hsame, hue, hpkt, ?_, ?_, ?_, ?_⟩
    · apply WF_of_slots_update s.conn s1.conn [e] [e] hwf hsame
      · rw [hdata]; simp
      · exact ⟨hearl, uE, hgetE, by rw [huE]; exact hnext⟩
      · exact hwf.core.nodup
      · rw [hs1]; exact hwf.core.latest
      · intro j; rfl
      · intro i u1 hu1
        by_cases hi : i = e
        · subst hi
          have : u1 = uE := Option.some.inj (hu1.symm.trans hgetE)
          refine ⟨ue, hue, ?_⟩
          rw [this, huE, hpkt]; simp
        · rw [hgetN i hi] at hu1
          exact ⟨u1, hu1, Iff.rfl⟩
    · rw [hs1]; simp [Send_transmit]
    · intro h hh
      have : h = e := (Option.some.inj (hh.symm.trans hearl))
      subst this
      refine ⟨uE, hgetE, ?_⟩
      rw [hs1, huE]
    · exact ⟨uE, hgetE, by rw [huE]⟩
    · intro j u hj hu
      exact ⟨u, by rw [hgetN j hj]; exact hu, rfl, rfl⟩
  · subst hr
    obtain ⟨s1, ue, pkt, ul, e2, u2, hres, hue, hpkt, hul, he2, hel, he2e, hu2, hs1⟩ :=
      Resend_body_multi s e l mid hwf
    have hlt : e < s.conn.m_UnackedPackets.m_pData.length := getElem?_lt _ _ _ hue
    have hltl : l < s.conn.m_UnackedPackets.m_pData.length := getElem?_lt _ _ _ hul
    obtain ⟨uE0, huE0⟩ : ∃ uE0 : UnackedPacket, uE0 =
        { m_ResendTime := s.env.clock s.env.nClock + RDT_RTO_CLK, m_pNext := ue.m_pNext,
          m_pPacket := some (Send_transmit s pkt true).2.1 } := ⟨_, rfl⟩
    obtain ⟨uE, huE⟩ : ∃ uE : UnackedPacket, uE =
        { m_ResendTime := s.env.clock s.env.nClock + RDT_RTO_CLK, m_pNext := none,
          m_pPacket := some (Send_transmit s pkt true).2.1 } := ⟨_, rfl⟩
    obtain ⟨uL, huL⟩ : ∃ uL : UnackedPacket, uL =
        { m_ResendTime := ul.m_ResendTime, m_pNext := some e,
          m_pPacket := ul.m_pPacket } := ⟨_, rfl⟩
    have hdata : s1.conn.m_UnackedPackets.m_pData =
        ((s.conn.m_UnackedPackets.m_pData.set e uE0).set l uL).set e uE := by
      rw [hs1, huE0, huL, huE]
    have hgetE : s1.conn.m_UnackedPackets.m_pData[e]? = some uE := by
      rw [hdata]; exact List.getElem?_set_self (by simpa using hlt)
    have hgetL : s1.conn.m_UnackedPackets.m_pData[l]? = some uL := by
      rw [hdata, List.getElem?_set_ne hel]
      exact List.getElem?_set_self (by simpa using hltl)
    have hgetN : ∀ i, i ≠ e → i ≠ l → s1.conn.m_UnackedPackets.m_pData[i]? =
        s.conn.m_UnackedPackets.m_pData[i]? := by
      intro i hi hil
      rw [hdata, List.getElem?_set_ne (fun h => hi h.symm),
        List.getElem?_set_ne (fun h => hil h.symm), List.getElem?_set_ne (fun h => hi h.symm)]
    have hsame : SameOutsideChain s.conn s1.conn := by
      rw [hs1]; unfold SameOutsideChain; rfl
    obtain ⟨_, ue0, hue0, hrest⟩ := hwf.core.chain
    have : ue0 = ue := Option.some.inj (hue0.symm.trans hue)
    subst this
    obtain ⟨hmid, ul0, hul0, hulnext⟩ := IsSeg_last_next _ mid l _ hrest
    have hnd := List.nodup_cons.mp hwf.core.nodup
    have hnd2 := List.nodup_append.mp hnd.2
    have hearl : s1.conn.m_pEarliestPacket = ue0.m_pNext := by rw [hs1, he2]
    refine ⟨s1, ue0, pkt, hres, ?_, hsame, hue, hpkt, ?_, ?_, ?_, ?_⟩
    · apply WF_of_slots_update s.conn s1.conn (e :: (mid ++ [l])) ((mid ++ [l]) ++ [e]) hwf hsame
      · rw [hdata]; simp
      · rw [hearl]
        apply (IsSeg_append _ (mid ++ [l]) [e] _ _).mpr
        refine ⟨some e, ?_, rfl, uE, hgetE, by rw [huE]; rfl⟩
        apply (IsSeg_append _ mid [l] _ _).mpr
        refine ⟨some l, ?_, rfl, uL, hgetL, by rw [huL]; rfl⟩
        apply IsSeg_congr _ _ mid _ _ _ hmid
        intro j hj u hu
        have hje : j ≠ e := fun h => hnd.1 (h ▸ List.mem_append_left _ hj)
        have hjl : j ≠ l := by
          intro h
          exact hnd2.2.2 hj (by simp [h])
        exact ⟨u, by rw [hgetN j hje hjl]; exact hu, rfl⟩
      · exact List.nodup_append_comm.mp (by simpa using hwf.core.nodup)
      · rw [hs1, List.getLast?_concat]
      · intro j; simp; tauto
      · intro i u1 hu1
        by_cases hi : i = e
        · subst hi
          have : u1 = uE := Option.some.inj (hu1.symm.trans hgetE)
          refine ⟨ue0, hue, ?_⟩
          rw [this, huE, hpkt]; simp
        · by_cases hil : i = l
          · subst hil
            have : u1 = uL := Option.some.inj (hu1.symm.trans hgetL)
            refine ⟨ul, hul, ?_⟩
            rw [this, huL]
          · rw [hgetN i hi hil] at hu1
            exact ⟨u1, hu1, Iff.rfl⟩
    · rw [hs1]; simp [Send_transmit]
    · intro h hh
      have : h = e2 := by
        rw [hearl, he2] at hh
        exact (Option.some.inj hh).symm
      subst this
      refine ⟨u2, by rw [hs1]; exact hu2, ?_⟩
      rw [hs1]
    · exact ⟨uE, hgetE, by rw [huE]⟩
    · intro j u hj hu
      by_cases hjl : j = l
      · subst hjl
        refine ⟨uL, hgetL, ?_⟩
        have : u = ul := Option.some.inj (hu.symm.trans hul)
        rw [this, huL]
        exact ⟨rfl, rfl⟩
      · exact ⟨u, by rw [hgetN j hj hjl]; exact hu, rfl, rfl⟩

theorem resendHeader_congr (slots slots1 : List UnackedPacket) (j : Nat) (u u1 : UnackedPacket)
    (h : slots[j]? = some u) (h1 : slots1[j]? = some u1) (hp : u1.m_pPacket = u.m_pPacket) :
    resendHeader slots1 j = resendHeader slots j := by
  simp only [resendHeader, h, h1, hp]

theorem Resend_sweep_synced (t : Nat) :
    ∀ (fuel : Nat) (s : Sys) (old fresh : List Nat), WF s.conn (old ++ fresh) → Synced s.conn →
      FreshAfter s.conn.m_UnackedPackets.m_pData t fresh → old.length ≤ fuel →
      (∀ k, s.env.nClock ≤ k → t ≤ s.env.clock k) →
      ∃ m s1 extra, m ≤ old.length ∧ Resend fuel s t = .ok s1 ∧
        WF s1.conn (old.drop m ++ (fresh ++ old.take m)) ∧
        SameOutsideChain s.conn s1.conn ∧ EnvExtends s.env s1.env extra ∧
        s1.env.nClock = s.env.nClock + m ∧ extra.length = m ∧
        (∀ d ∈ extra, d.isResend = true) ∧
        extra.map (fun d => some d.hdr) =
          (old.take m).map (resendHeader s.conn.m_UnackedPackets.m_pData) ∧
        FreshAfter s1.conn.m_UnackedPackets.m_pData t (fresh ++ old.take m) ∧
        (s1.conn.m_pEarliestPacket = none ∨ ¬ t ≥ s1.conn.m_EarliestTimeout) := by
  intro fuel
  induction fuel with
  | zero =>
    intro s old fresh hwf hsync hfresh hlen hclk
    have hold : old = [] := List.eq_nil_of_length_eq_zero (Nat.le_zero.mp hlen)
    subst hold
    have hwf0 : WF s.conn fresh := by simpa using hwf
    refine ⟨0, s, [], Nat.le_refl _, ?_, by simpa using hwf, SameOutsideChain_refl _,
      EnvExtends_refl _, rfl, rfl, by simp, by simp, by simpa using hfresh, ?_⟩
    · unfold Resend
      cases he : s.conn.m_pEarliestPacket with
      | none => rfl
      | some h =>
        have := head_not_fresh s.conn t h fresh hwf0 hsync hfresh he
        simp [this]
    · cases he : s.conn.m_pEarliestPacket with
      | none => exact Or.inl rfl
      | some h => exact Or.inr (head_not_fresh s.conn t h fresh hwf0 hsync hfresh he)
  | succ n ih =>
    intro s old fresh hwf hsync hfresh hlen hclk
    have stay : (s.conn.m_pEarliestPacket = none ∨ ¬ t ≥ s.conn.m_EarliestTimeout) →
        ∃ m s1 extra, m ≤ old.length ∧ Resend (n + 1) s t = .ok s1 ∧
          WF s1.conn (old.drop m ++ (fresh ++ old.take m)) ∧
          SameOutsideChain s.conn s1.conn ∧ EnvExtends s.env s1.env extra ∧
          s1.env.nClock = s.env.nClock + m ∧ extra.length = m ∧
          (∀ d ∈ extra, d.isResend = true) ∧
          extra.map (fun d => some d.hdr) =
            (old.take m).map (resendHeader s.conn.m_UnackedPackets.m_pData) ∧
          FreshAfter s1.conn.m_UnackedPackets.m_pData t (fresh ++ old.take m) ∧
          (s1.conn.m_pEarliestPacket = none ∨ ¬ t ≥ s1.conn.m_EarliestTimeout) := by
      intro hstop
      refine ⟨0, s, [], Nat.zero_le _, ?_, by simpa using hwf, SameOutsideChain_refl _,
        EnvExtends_refl _, rfl, rfl, by simp, by simp, by simpa using hfresh, hstop⟩
      unfold Resend
      rcases hstop with h | h
      · rw [h]
      · cases he : s.conn.m_pEarliestPacket with
        | none => rfl
        | some e => simp [h]
    cases he : s.conn.m_pEarliestPacket with
    | none => exact stay (Or.inl he)
    | some e =>
      by_cases hcond : t ≥ s.conn.m_EarliestTimeout
      · cases old with
        | nil =>
          exact absurd hcond
            (head_not_fresh s.conn t e fresh (by simpa using hwf) hsync hfresh he)
        | cons e0 old1 =>
          have hc := hwf.core.chain
          have he0 : e0 = e := by
            have := hc.1
            rw [he] at this
            exact (Option.some.inj this).symm
          subst he0
          have hwf1 : WF s.conn (e0 :: (old1 ++ fresh)) := by simpa using hwf
          obtain ⟨s1, ue, pkt, hres, hwf2, hsame, hue, hpkt, henv, hsync2, ⟨uE, huE, htime⟩,
            hother⟩ := Resend_body_step s e0 (old1 ++ fresh) hwf1
          have hnd := List.nodup_cons.mp hwf1.core.nodup
          have hfresh2 : FreshAfter s1.conn.m_UnackedPackets.m_pData t (fresh ++ [e0]) := by
            intro j hj
            rcases List.mem_append.mp hj with hj | hj
            · obtain ⟨u, hu, ht⟩ := hfresh j hj
              have hne : j ≠ e0 := fun h => hnd.1 (h ▸ List.mem_append_right _ hj)
              obtain ⟨u1, hu1, ht1, _⟩ := hother j u hne hu
              exact ⟨u1, hu1, by rw [ht1]; exact ht⟩
            · have : j = e0 := by simpa using hj
              subst this
              refine ⟨uE, huE, ?_⟩
              rw [htime]
              have := hclk s.env.nClock (Nat.le_refl _)
              have hp := RDT_RTO_CLK_pos
              omega
          have hclk2 : ∀ k, s1.env.nClock ≤ k → t ≤ s1.env.clock k := by
            intro k hk
            rw [henv] at hk ⊢
            exact hclk k (by simp at hk; omega)
          obtain ⟨m, s2, extra, hm, hres2, hwf3, hsame2, henv2, hn2, hlen2, hex, hhdr, hfr,
            hstop⟩ :=
            ih s1 old1 (fresh ++ [e0]) (by simpa using hwf2) hsync2 hfresh2
              (by simp at hlen; omega) hclk2
          refine ⟨m + 1, s2, Send_datagram s pkt true :: extra, by simp; omega, ?_, ?_,
            SameOutsideChain_trans hsame hsame2, ?_, ?_, by simp [hlen2], ?_, ?_, ?_, hstop⟩
          · unfold Resend
            simp only [he, hcond, if_true, hres]
            exact hres2
          · have : (e0 :: old1).drop (m + 1) ++ (fresh ++ (e0 :: old1).take (m + 1)) =
                old1.drop m ++ ((fresh ++ [e0]) ++ old1.take m) := by simp
            rw [this]; exact hwf3
          · have h1 : EnvExtends s.env s1.env [Send_datagram s pkt true] := by
              rw [henv]
              exact ⟨rfl, rfl, by simp, rfl⟩
            exact EnvExtends_trans h1 henv2
          · rw [hn2, henv]
            simp only []
            omega
          · intro x hx
            rcases List.mem_cons.mp hx with hx | hx
            · rw [hx]; rfl
            · exact hex x hx
          · simp only [List.map_cons, List.take_succ_cons]
            congr 1
            · simp only [resendHeader, hue, hpkt, Option.map_some']
              rfl
            · rw [hhdr]
              apply List.map_congr_left
              intro j hj
              have hj1 : j ∈ old1 := List.mem_of_mem_take hj
              have hne : j ≠ e0 := fun h => hnd.1 (h ▸ List.mem_append_left _ hj1)
              obtain ⟨u, hu⟩ := IsSeg_mem _ _ _ _ hwf1.core.chain j
                (List.mem_cons_of_mem _ (List.mem_append_left _ hj1))
              obtain ⟨u1, hu1, _, hp1⟩ := hother j u hne hu
              exact resendHeader_congr _ _ j u u1 hu hu1 hp1
          · intro j hj
            apply hfr j
            simp only [List.take_succ_cons, List.mem_append, List.mem_cons,
              List.mem_singleton] at hj ⊢
            tauto
      · exact stay (Or.inr hcond)

theorem Resend_sweep (t : Nat) (fuel : Nat) (s : Sys) (ch : List Nat) (hwf : WF s.conn ch)
    (hfuel : ch.length ≤ fuel) (hclk : ∀ k, s.env.nClock ≤ k → t ≤ s.env.clock k) :
    ∃ m s1 extra, m ≤ ch.length ∧ Resend fuel s t = .ok s1 ∧
      WF s1.conn (ch.drop m ++ ch.take m) ∧
      SameOutsideChain s.conn s1.conn ∧ EnvExtends s.env s1.env extra ∧
      s1.env.nClock = s.env.nClock + m ∧ extra.length = m ∧
      (∀ d ∈ extra, d.isResend = true) ∧
      extra.map (fun d => some d.hdr) =
        (ch.take m).map (resendHeader s.conn.m_UnackedPackets.m_pData) ∧
      FreshAfter s1.conn.m_UnackedPackets.m_pData t (ch.take m) ∧
      (s1.conn.m_pEarliestPacket = none ∨ ¬ t ≥ s1.conn.m_EarliestTimeout) := by
  have stay : (s.conn.m_pEarliestPacket = none ∨ ¬ t ≥ s.conn.m_EarliestTimeout) →
      ∃ m s1 extra, m ≤ ch.length ∧ Resend fuel s t = .ok s1 ∧
        WF s1.conn (ch.drop m ++ ch.take m) ∧
        SameOutsideChain s.conn s1.conn ∧ EnvExtends s.env s1.env extra ∧
        s1.env.nClock = s.env.nClock + m ∧ extra.length = m ∧
        (∀ d ∈ extra, d.isResend = true) ∧
        extra.map (fun d => some d.hdr) =
          (ch.take m).map (resendHeader s.conn.m_UnackedPackets.m_pData) ∧
        FreshAfter s1.conn.m_UnackedPackets.m_pData t (ch.take m) ∧
        (s1.conn.m_pEarliestPacket = none ∨ ¬ t ≥ s1.conn.m_EarliestTimeout) := by
    intro hstop
    refine ⟨0, s, [], Nat.zero_le _, ?_, by simpa using hwf, SameOutsideChain_refl _,
      EnvExtends_refl _, rfl, rfl, by simp, by simp, ?_, hstop⟩
    · rcases hstop with h | h
      · cases fuel <;> simp [Resend, h]
      · cases he : s.conn.m_pEarliestPacket with
        | none => cases fuel <;> simp [Resend, he]
        | some e => cases fuel <;> simp [Resend, he, h]
    · intro j hj; simp at hj
  cases he : s.conn.m_pEarliestPacket with
  | none => exact stay (Or.inl he)
  | some e =>
    by_cases hcond : t ≥ s.conn.m_EarliestTimeout
    · have hc := hwf.core.chain
      rw [he] at hc
      obtain ⟨rest, u, hch, hu, _⟩ := IsSeg_some_start _ _ _ hc
      subst hch
      cases fuel with
      | zero => simp at hfuel
      | succ n =>
        obtain ⟨s1, ue, pkt, hres, hwf2, hsame, hue, hpkt, henv, hsync2, ⟨uE, huE, htime⟩,
          hother⟩ := Resend_body_step s e rest hwf
        have hnd := List.nodup_cons.mp hwf.core.nodup
        have hfresh2 : FreshAfter s1.conn.m_UnackedPackets.m_pData t [e] := by
          intro j hj
          have : j = e := by simpa using hj
          subst this
          refine ⟨uE, huE, ?_⟩
          rw [htime]
          have := hclk s.env.nClock (Nat.le_refl _)
          have hp := RDT_RTO_CLK_pos
          omega
        have hclk2 : ∀ k, s1.env.nClock ≤ k → t ≤ s1.env.clock k := by
          intro k hk
          rw [henv] at hk ⊢
          exact hclk k (by simp at hk; omega)
        obtain ⟨m, s2, extra, hm, hres2, hwf3, hsame2, henv2, hn2, hlen2, hex, hhdr, hfr,
          hstop⟩ :=
          Resend_sweep_synced t n s1 rest [e] hwf2 hsync2 hfresh2 (by simp at hfuel; omega) hclk2
        refine ⟨m + 1, s2, Send_datagram s pkt true :: extra, by simp; omega, ?_, ?_,
          SameOutsideChain_trans hsame hsame2, ?_, ?_, by simp [hlen2], ?_, ?_, ?_, hstop⟩
        · simp [Resend, he, hcond, hres, hres2]
        · have : (e :: rest).drop (m + 1) ++ (e :: rest).take (m + 1) =
              rest.drop m ++ ([e] ++ rest.take m) := by simp
          rw [this]; exact hwf3
        · have h1 : EnvExtends s.env s1.env [Send_datagram s pkt true] := by
            rw [henv]
            exact ⟨rfl, rfl, by simp, rfl⟩
          exact EnvExtends_trans h1 henv2
        · rw [hn2, henv]
          simp only []
          omega
        · intro x hx
          rcases List.mem_cons.mp hx with hx | hx
          · rw [hx]; rfl
          · exact hex x hx
        · simp only [List.map_cons, List.take_succ_cons]
          congr 1
          · simp only [resendHeader, hue, hpkt, Option.map_some']
            rfl
          · rw [hhdr]
            apply List.map_congr_left
            intro j hj
            have hj1 : j ∈ rest := List.mem_of_mem_take hj
            have hne : j ≠ e := fun h => hnd.1 (h ▸ hj1)
            obtain ⟨u0, hu0⟩ := IsSeg_mem _ _ _ _ hwf.core.chain j (List.mem_cons_of_mem _ hj1)
            obtain ⟨u1, hu1, _, hp1⟩ := hother j u0 hne hu0
            exact resendHeader_congr _ _ j u0 u1 hu0 hu1 hp1
        · intro j hj
          apply hfr j
          simp only [List.take_succ_cons, List.mem_append, List.mem_cons,
            List.mem_singleton] at hj ⊢
          tauto
    · exact stay (Or.inr hcond)

/-- C33 (the sweep terminates). For every well-formed chain `ch` and every `now` that no later
reading of the clock falls below, `Resend(now)` returns after `m <= |ch|` iterations, for
every fuel of at least `|ch|`: it reads the clock `m` times and makes `m` calls of `sendto`,
all retransmissions, whose headers are those of the packets in the first `m` slots of the
chain in chain order, so each entry is retransmitted at most once. The chain afterwards is
well formed and consists of the entries not retransmitted followed by the retransmitted ones
in the order of their retransmission, a permutation of `ch`. The sweep touches only the
chain, every retransmitted entry has a deadline after `now`, and the sweep stops with an
empty chain or with `now` below `m_EarliestTimeout`. -/
theorem C33_Resend_terminates (now fuel : Nat) (s : Sys) (ch : List Nat)
    (hwf : WF s.conn ch) (hfuel : ch.length ≤ fuel)
    (hclk : ∀ k, s.env.nClock ≤ k → now ≤ s.env.clock k) :
    ∃ m s1 extra, Resend fuel s now = .ok s1 ∧ m ≤ ch.length ∧
      s1.env.nClock = s.env.nClock + m ∧ s1.env.sent = s.env.sent ++ extra ∧
      extra.length = m ∧ (∀ d ∈ extra, d.isResend = true) ∧
      extra.map (fun d => some d.hdr) =
        (ch.take m).map (resendHeader s.conn.m_UnackedPackets.m_pData) ∧
      (ch.take m).Nodup ∧
      WF s1.conn (ch.drop m ++ ch.take m) ∧ (ch.drop m ++ ch.take m).Perm ch ∧
      SameOutsideChain s.conn s1.conn ∧
      FreshAfter s1.conn.m_UnackedPackets.m_pData now (ch.take m) ∧
      (s1.conn.m_pEarliestPacket = none ∨ ¬ now ≥ s1.conn.m_EarliestTimeout) := by
  obtain ⟨m, s1, extra, hm, hres, hwf1, hsame, henv, hn, hlen, hex, hhdr, hfr, hstop⟩ :=
    Resend_sweep now fuel s ch hwf hfuel hclk
  refine ⟨m, s1, extra, hres, hm, hn, henv.2.2.2, hlen, hex, hhdr, ?_, hwf1, ?_, hsame, hfr,
    hstop⟩
  · exact (List.take_sublist m ch).nodup hwf.core.nodup
  · have h : (ch.drop m ++ ch.take m).Perm (ch.take m ++ ch.drop m) := List.perm_append_comm
    rw [List.take_append_drop] at h
    exact h

theorem C33_Resend_terminates_witness :
    ∃ s0 m s1 extra, Send ((Sys.fresh Env.late).withPeer peerA) (dataPkt 0 400) false false =
        .ok (true, dataPkt 0 400, s0) ∧
      Resend 1 s0 500000 = .ok s1 ∧ m ≤ 1 ∧ s1.env.sent = s0.env.sent ++ extra ∧
      extra.length = m ∧ WF s1.conn ([0].drop m ++ [0].take m) ∧
      (match Send ((Sys.fresh Env.late).withPeer peerA) (dataPkt 0 400) false false with
        | .ok (_, _, s2) =>
          (match Resend 1 s2 500000 with
            | .ok s3 => some (s3.env.sent.map (fun d => (d.hdr.ntoh.m_SeqNumber, d.isResend)))
            | .error _ => none)
        | .error _ => none) = some [(0, false), (0, true)] := by
  obtain ⟨slots1, hsend, hwf, _, _⟩ :=
    Send_tracked_wf ((Sys.fresh Env.late).withPeer peerA) (dataPkt 0 400) false []
      (WF_congr _ _ [] (WF_fresh Env.late) rfl rfl rfl (fun _ he => he) (Or.inl rfl))
      (by decide) (by decide) (by decide) (by simp)
  obtain ⟨m, s1, extra, h1, h2, _, h4, h5, _, _, _, h9, _⟩ :=
    C33_Resend_terminates 500000 1
      (Send_transmit (Send_tracked_state ((Sys.fresh Env.late).withPeer peerA) (dataPkt 0 400)
        false slots1) (dataPkt 0 400) false).2.2 [0] hwf (Nat.le_refl _)
      (by
        intro k hk
        have hk1 : 1 ≤ k := hk
        show 500000 ≤ (if k = 0 then 0 else 500000)
        rw [if_neg (by omega)])
  exact ⟨_, m, s1, extra, hsend, h1, h2, h4, h5, h9, by decide⟩

/-! ## The hold-back map takes every out-of-order packet -/

/-- C31 (hold-back only within the window), against the code: once the FIRST segment has
arrived, `RecvFile` stores every delivered packet of length at least 8 whose seq is not
`expectedSeq` in the hold-back map, under its seq and with its payload; before the FIRST
segment it does so with every packet not flagged FIRST. No distance between the seq and
`expectedSeq` is computed: the branch of rdt.cpp 199-208 contains no test of the window. -/
theorem C31_holdback_without_window_check (r : RecvFileState) (p : RdtPacket)
    (hc : r.closed = false) (_h8 : sizeofRdtHeader ≤ p.hdr.m_MsgLen)
    (h : (r.bReceivedFirst = false ∧ hasFlag p.hdr.m_Flags FLAG_FIRST = false) ∨
         (r.bReceivedFirst = true ∧ p.hdr.m_SeqNumber ≠ r.expectedSeq)) :
    mapFind (RecvFile_onData r p).seqToStr p.hdr.m_SeqNumber = some (pktStr p) ∧
    (RecvFile_onData r p).expectedSeq = r.expectedSeq ∧
    (RecvFile_onData r p).outFile = r.outFile := by
  rw [onData_store r p hc h]
  refine ⟨mapFind_mapInsert_self _ _ _, ?_, ?_⟩
  · simp only []
    split <;> rfl
  · simp only []
    split <;> rfl

theorem C31_holdback_without_window_check_witness :
    (RecvFile_onData (RecvFile_init 0 0) (scen3Pkt 0 12 FLAG_FIRST [1, 2, 3, 4])).expectedSeq =
      12 ∧
    circDist 10000 12 = 9988 ∧ RDT_WNDSIZE < 9988 ∧
    mapFind (RecvFile_onData
        (RecvFile_onData (RecvFile_init 0 0) (scen3Pkt 0 12 FLAG_FIRST [1, 2, 3, 4]))
        (scen3Pkt 10000 12 0 [5, 6, 7, 8])).seqToStr 10000 = some [5, 6, 7, 8] ∧
    heldBack (RecvFile_loop ((Sys.fresh Env.quiet).withPeer peerA) (RecvFile_init 0 0)
      [arrival (scen3Pkt 0 12 FLAG_FIRST [1, 2, 3, 4]) peerA,
        arrival (scen3Pkt 10000 12 0 [5, 6, 7, 8]) peerA]) = some [(10000, 4)] :=
  ⟨by decide, by decide, by decide,
    (C31_holdback_without_window_check
      (RecvFile_onData (RecvFile_init 0 0) (scen3Pkt 0 12 FLAG_FIRST [1, 2, 3, 4]))
      (scen3Pkt 10000 12 0 [5, 6, 7, 8]) (by decide) (by decide)
      (Or.inr ⟨by decide, by decide⟩)).1,
    by decide⟩

/-! ## The seq to index map after the storage has overflowed -/

/-- C32 (seq to slot consistency), evaluated on the code. After the thirteen sends and one
ACK of `overflowSteps` the outstanding sequence numbers recorded in `m_SeqToIndex` are
pairwise distinct, and the map sends both seq 8 and seq 4408 to slot 1, which holds the packet
with seq 4408: the entry for seq 8 designates a slot whose packet has another seq. When the
ACK of seq 8 is then processed, the packet of seq 4408 in slot 1 is released; the entry for
seq 4408 stays in the map and designates a slot without packet. -/
theorem C32_map_entry_stale :
    (runSender (Sys.fresh Env.quiet) overflowSteps).map (fun s =>
      s.conn.m_SeqToIndex.map (fun e => e.1)) =
      some [4408, 4008, 3608, 3208, 2808, 2408, 2008, 1608, 1208, 808, 408, 8] ∧
    (runSender (Sys.fresh Env.quiet) overflowSteps).map (fun s =>
      (mapFind s.conn.m_SeqToIndex 8, mapFind s.conn.m_SeqToIndex 4408, s.heldSeqs[1]?,
        s.conn.m_UnackedPackets.m_Size)) =
      some (some 1, some 1, some (some 4408), 11) ∧
    (runSender (Sys.fresh Env.quiet) (overflowSteps ++ [SenderStep.ack 8])).map (fun s =>
      (mapFind s.conn.m_SeqToIndex 8, mapFind s.conn.m_SeqToIndex 4408, s.heldSeqs[1]?)) =
      some (none, some 1, some none) := by
  refine ⟨by decide, by decide, by decide⟩

/-! ## Push and IsFull -/

theorem chainLast_no_assert (slots : List UnackedPacket) :
    ∀ (fuel i : Nat), chainLast slots fuel i ≠ .error .assertFailed := by
  intro fuel
  induction fuel with
  | zero => intro i h; cases h
  | succ n ih =>
    intro i
    unfold chainLast
    cases slots[i]? with
    | none => intro h; cases h
    | some u =>
      simp only []
      cases u.m_pNext with
      | none => intro h; cases h
      | some j => exact ih j

theorem Push_isSome_iff {T : Type} (b : CircularBuffer T) (x : T) (h1 : 1 ≤ b.m_Size)
    (h2 : b.m_Size < 2 ^ 31) : ((b.Push x).isSome = true ↔ b.IsFull = false) := by
  unfold CircularBuffer.Push CircularBuffer.IsFull CircularBuffer.Size
  have e : ((b.m_Size : Int) - 1) % 2 ^ 64 = (b.m_Size : Int) - 1 := by
    apply Int.emod_eq_of_lt <;> omega
  rw [e]
  by_cases h : ((Int.natAbs ((b.m_ReadIndex : Int) - (b.m_WriteIndex : Int)) : Nat) : Int)
      ≥ (b.m_Size : Int) - 1
  · rw [if_pos h]
    constructor
    · intro hh; cases hh
    · intro hh
      rw [decide_eq_false_iff_not] at hh
      exact absurd h hh
  · rw [if_neg h]
    constructor
    · intro _
      rw [decide_eq_false_iff_not]
      exact h
    · intro _; rfl

/-- C34 (Push and IsFull), as amended: for every buffer that has been initialised
(`1 <= m_Size`, an `int`), `Push` succeeds exactly when `IsFull()` is false and does so
whatever the element. Hence on a connection whose unacked storage has been initialised, the
`Send` that `SendFile` performs right after its admission loop has let the packet through
does not run into `assert(0)`: its `Push` succeeds, and in a well-formed state `Send`
returns. -/
theorem C34_Push_iff_not_full (s : Sys) (pkt : RdtPacket) (isSyn : Bool)
    (h1 : 1 ≤ s.conn.m_UnackedPackets.m_Size) (h2 : s.conn.m_UnackedPackets.m_Size < 2 ^ 31)
    (hguard : SendFile_mustWait s.conn pkt.hdr.m_MsgLen = false) :
    (∀ (T : Type) (b : CircularBuffer T) (x : T), 1 ≤ b.m_Size → b.m_Size < 2 ^ 31 →
      ((b.Push x).isSome = true ↔ b.IsFull = false)) ∧
    (∀ u, (s.conn.m_UnackedPackets.Push u).isSome = true) ∧
    Send s pkt false isSyn ≠ .error .assertFailed ∧
    (∀ ch, WF s.conn ch → pkt.hdr.m_Flags ≠ FLAG_ACK →
      pkt.hdr.m_Flags ≠ (FLAG_ACK ||| FLAG_FIN) →
      ∃ b p s1, Send s pkt false isSyn = .ok (b, p, s1)) := by
  have hfull : s.conn.m_UnackedPackets.IsFull = false := by
    unfold SendFile_mustWait at hguard
    simp only [Bool.or_eq_false_iff] at hguard
    exact hguard.2
  have hpush : ∀ u, (s.conn.m_UnackedPackets.Push u).isSome = true := fun u =>
    (Push_isSome_iff _ u h1 h2).mpr hfull
  refine ⟨fun T b x hb1 hb2 => Push_isSome_iff b x hb1 hb2, hpush, ?_, ?_⟩
  · unfold Send
    simp only [Sys.clockCall]
    split
    · cases hq : s.conn.m_UnackedPackets.Push
          { m_ResendTime := s.env.clock s.env.nClock + RDT_RTO_CLK, m_pNext := none,
            m_pPacket := some { pkt with hdr := pkt.hdr.hton.ntoh } } with
      | none =>
        have hp := hpush
          { m_ResendTime := s.env.clock s.env.nClock + RDT_RTO_CLK, m_pNext := none,
            m_pPacket := some { pkt with hdr := pkt.hdr.hton.ntoh } }
        rw [hq] at hp
        cases hp
      | some r =>
        obtain ⟨index, buf⟩ := r
        simp only []
        cases he : s.conn.m_pEarliestPacket with
        | none => cases isSyn <;> simp
        | some e =>
          simp only []
          cases hc : chainLast buf.m_pData buf.m_pData.length e with
          | error f =>
            simp only []
            intro h
            have : f = Fault.assertFailed := by
              injection h
            rw [this] at hc
            exact chainLast_no_assert _ _ _ hc
          | ok t =>
            simp only []
            cases ht : buf.m_pData[t]? with
            | none => simp
            | some u => cases isSyn <;> simp
    · simp
  · intro ch hwf hf1 hf2
    have hroom : s.conn.m_UnackedPackets.hasRoom := by
      have hp := hpush UnackedPacket.ctor
      unfold CircularBuffer.Push at hp
      unfold CircularBuffer.hasRoom
      split at hp
      · cases hp
      · rename_i hn
        omega
    obtain ⟨slots1, hs, _⟩ := Send_tracked_eq s pkt isSyn ch hwf hf1 hf2 hroom
    exact ⟨_, _, _, hs⟩

theorem C34_Push_iff_not_full_witness :
    ((natBuffer 3).Push 7).isSome = true ∧ (natBuffer 3).IsFull = false ∧
    Send ((Sys.fresh Env.quiet).withPeer peerA) (dataPkt 0 400) false false ≠
      .error .assertFailed := by
  have h := C34_Push_iff_not_full ((Sys.fresh Env.quiet).withPeer peerA) (dataPkt 0 400) false
    (by decide) (by decide) (by decide)
  exact ⟨(h.1 Nat (natBuffer 3) 7 (by decide) (by decide)).mpr (by decide), by decide, h.2.2.1⟩

/-- C34, as stated, fails on a buffer that has not been initialised: with `m_Size = 0` the
`int` comparison of `Push` is `0 >= -1`, so `Push` fails, while `IsFull()` compares
`Size() = 0` with `m_Size-1` converted to `size_t` and is false. On a connection object
on which `Initialize` was not called the admission test of `SendFile` lets a packet through
and the `Send` that follows runs into `assert(0)`. -/
theorem C34_Push_iff_not_full_counterexample :
    (CircularBuffer.ctor : CircularBuffer Nat).IsFull = false ∧
    ((CircularBuffer.ctor : CircularBuffer Nat).Push 7).isSome = false ∧
    SendFile_mustWait (Sys.constructed Env.quiet).conn 400 = false ∧
    faultOf (Send (Sys.constructed Env.quiet) (dataPkt 0 400) false false) =
      some Fault.assertFailed ∧
    faultOf (SendFile (Sys.constructed Env.quiet) (some [1, 2, 3]) []).2 =
      some Fault.assertFailed := by
  refine ⟨by decide, by decide, by decide, by decide, by decide⟩

/-! ## The length field of a delivered datagram -/

/-- C35 (payload extraction), against the code: `Update` delivers as DATA every datagram from
the peer whose decoded flags are data-bearing without RQST and whose seq is not in the
recent-seq list, with the header as received; the length field is not looked at. The size
that `RecvFile` then computes lies within the packet buffer exactly when
`8 <= len <= 1024`. -/
theorem C35_len_not_checked (s : Sys) (io : UpdateIO) (raw : RdtPacket) (peer : sockaddr)
    (ch : List Nat) (hwf : WF s.conn ch) (hmono : Monotone s.env.clock)
    (hsel1 : io.selectResult ≠ -1) (hsel0 : io.selectResult ≠ 0)
    (hrecv : io.recv = some (raw, peer)) (hpeer : s.conn.m_pAddr = some peer)
    (hd : isDataBearing raw.hdr.ntoh)
    (hr : hasFlag raw.hdr.ntoh.m_Flags FLAG_RQST = false)
    (hnew : raw.hdr.ntoh.m_SeqNumber ∉ s.conn.m_ReceivedList) :
    (∃ s1, Update s io = .ok (EUR_DATA, some { raw with hdr := raw.hdr.ntoh }, s1)) ∧
    (∀ p : RdtPacket, p.hdr.m_MsgLen < 65536 →
      (payloadInBuffer p ↔ (8 ≤ p.hdr.m_MsgLen ∧ p.hdr.m_MsgLen ≤ 1024))) := by
  constructor
  · obtain ⟨sR, chR, extra, _, hsame, _, _, heq⟩ :=
      Update_data s io raw peer ch hwf hmono hsel1 hsel0 hrecv hpeer hd
    rw [heq, Update_onData_eq]
    have hl : sR.conn.m_ReceivedList = s.conn.m_ReceivedList := by rw [hsame]
    simp only [hr, Bool.false_eq_true, if_false]
    rw [hl, if_neg hnew]
    exact ⟨_, rfl⟩
  · intro p hp
    unfold payloadInBuffer RecvFile_payloadSize
    simp only [sizeofRdtHeader, RDT_MAX_PKTSIZE]
    omega

theorem C35_len_not_checked_witness :
    deliveredOf (Update ((Sys.fresh Env.quiet).withPeer peerA)
      (arrival (scen3Pkt 7 4 0 []) peerA)) = some (scen3Pkt 7 4 0 []) ∧
    resultOf (Update ((Sys.fresh Env.quiet).withPeer peerA)
      (arrival (scen3Pkt 7 4 0 []) peerA)) = some EUR_DATA ∧
    RecvFile_payloadSize (scen3Pkt 7 4 0 []) = 2 ^ 64 - 4 ∧
    ¬ payloadInBuffer (scen3Pkt 7 4 0 []) ∧
    resultOf (Update ((Sys.fresh Env.quiet).withPeer peerA)
      (arrival (scen3Pkt 7 2000 0 []) peerA)) = some EUR_DATA ∧
    RecvFile_payloadSize (scen3Pkt 7 2000 0 []) = 1992 ∧
    ¬ payloadInBuffer (scen3Pkt 7 2000 0 []) := by
  obtain ⟨⟨s1, h1⟩, h2⟩ := C35_len_not_checked ((Sys.fresh Env.quiet).withPeer peerA)
    (arrival (scen3Pkt 7 4 0 []) peerA) (onWire (scen3Pkt 7 4 0 [])) peerA []
    (WF_congr _ _ [] (WF_fresh Env.quiet) rfl rfl rfl (fun _ he => he) (Or.inl rfl))
    (fun _ _ _ => Nat.le_refl _) (by decide) (by decide) rfl rfl (by decide) (by decide)
    (by decide)
  refine ⟨?_, ?_, by decide, by decide, by decide, by decide, by decide⟩
  · rw [h1]; rfl
  · rw [h1]; rfl

end Rdt
